import Mathlib

/-!
# Tabungan Santri: the ledger routes of `src/routes/transaksi.js`

A shallow embedding of the deposit (`POST /setor`), withdrawal (`POST /tarik`)
and reversal (`POST /hapus`) handlers, of the middleware in
`src/middleware/auth.js`, of `logAudit` in `src/utils/audit.js` and of the
tables created in `server.js`; further of `genTrxNo`, of the form pages
(`GET /setor`, `GET /tarik`, `POST /cari`) with their preset lookup, and of the
edit and import routes of `src/routes/santri.js`.

Modelling conventions.

* The database is a record of lists of rows.  Every `pool.query` call is one
  auto-committed statement: it either takes effect as a whole or is rejected
  and changes nothing.  A statement is rejected when the environment says so
  (`Env.rejects`, covering lost connections, timeouts and the like) or when it
  violates a constraint of the schema that is modelled here: the foreign keys
  of `transaksi` and `audit_logs`, the `UNIQUE` key on `trx_no`, and the range
  of the `BIGINT` columns.
* JavaScript numbers are embedded as integers; this is exact in the
  safe-integer range (below `2^53`), which is the range the embedding covers.
* A request field that names a student (`santri_id`) is embedded as the key it
  denotes; `none` stands for a missing or empty field.
* SQL string comparison is embedded as equality of strings.
* Every handler returns, next to the new state and the response, the list of
  storage statements it issued, each with a flag telling whether it succeeded.
-/

namespace TabunganSantri

/-! ## Strings and paths -/

/-- White space and line terminators of ECMAScript, as skipped by
`String.prototype.trim` and by `parseInt`. -/
def isJsWhitespace (c : Char) : Bool :=
  let n := c.toNat
  n == 9 || n == 10 || n == 11 || n == 12 || n == 13 || n == 32 || n == 160 ||
  n == 5760 || (8192 ≤ n && n ≤ 8202) || n == 8232 || n == 8233 || n == 8239 ||
  n == 8287 || n == 12288 || n == 65279

/-- JavaScript `s.trim()`. -/
def jsTrim (s : String) : String :=
  String.mk (((s.toList.dropWhile isJsWhitespace).reverse.dropWhile isJsWhitespace).reverse)

/-- Value of a run of decimal digits. -/
def digitsValue (ds : List Char) : Nat :=
  ds.foldl (fun acc c => 10 * acc + (c.toNat - 48)) 0

/-- `Number.MAX_SAFE_INTEGER`, that is `2^53 - 1`.  Every integer up to it is
a JavaScript number, so up to it `parseInt` returns the value of the digits it
reads, a balance read from the database is the stored one, and integers
compare as they do in the code. -/
def maxSafeInteger : Int := 9007199254740991

/-- JavaScript `parseInt(x, 10)` on a request field; `none` is `NaN`.  A missing
field is `undefined`, which parses to `NaN`.  The result is the value of the
run of digits read, with its sign.  JavaScript returns that number as long as
it is at most `maxSafeInteger` in absolute value and rounds a larger one to the
nearest double, with the same sign; the statements about the size of an amount
assume the bound. -/
def parseInt (x : Option String) : Option Int :=
  match x with
  | none => none
  | some s =>
    let cs := s.toList.dropWhile isJsWhitespace
    let signed : Bool × List Char :=
      match cs with
      | '-' :: r => (true, r)
      | '+' :: r => (false, r)
      | r => (false, r)
    let ds := signed.2.takeWhile Char.isDigit
    if ds.isEmpty then none
    else if signed.1 then some (-(digitsValue ds : Int))
    else some (digitsValue ds : Int)

/-- JavaScript truthiness of an optional string: `null`, `undefined` and the
empty string are falsy. -/
def truthy (x : Option String) : Bool :=
  match x with
  | none => false
  | some s => s != ""

/-- JavaScript `x || null` on an optional string. -/
def orNull (x : Option String) : Option String :=
  if truthy x then x else none

/-- Split a list of characters at every `/`. -/
def splitSlash : List Char → List (List Char)
  | [] => [[]]
  | c :: cs =>
    match splitSlash cs with
    | [] => [[c]]
    | seg :: segs => if c = '/' then [] :: seg :: segs else (c :: seg) :: segs

/-- One step of the segment normalisation of POSIX `path.normalize`: the
segments kept so far are held in reverse order. -/
def pushSegment (allowAboveRoot : Bool) (acc : List String) (seg : String) : List String :=
  if seg = "" || seg = "." then acc
  else if seg = ".." then
    match acc with
    | [] => if allowAboveRoot then [".."] else []
    | last :: rest => if last = ".." then ".." :: last :: rest else rest
  else seg :: acc

/-- Normalised segments of a path (`normalizeString` of Node's `path` module). -/
def normalizeSegments (allowAboveRoot : Bool) (p : String) : List String :=
  (((splitSlash p.toList).map String.mk).foldl (pushSegment allowAboveRoot) []).reverse

/-- POSIX `path.normalize`. -/
def pathNormalize (p : String) : String :=
  if p = "" then "."
  else
    let isAbsolute := p.toList.head? == some '/'
    let trailing := p.toList.getLast? == some '/'
    let body := String.intercalate "/" (normalizeSegments (!isAbsolute) p)
    let body1 := if body = "" then (if isAbsolute then "" else ".") else body
    let body2 := if trailing && body1 != "" then body1 ++ "/" else
      (if trailing && !isAbsolute then body1 ++ "/" else body1)
    if isAbsolute then "/" ++ body2 else body2

/-- POSIX `path.join(a, b)`. -/
def pathJoin (a b : String) : String :=
  if a = "" then pathNormalize b
  else if b = "" then pathNormalize a
  else pathNormalize (a ++ "/" ++ b)

/-- Drop the longest common beginning of two segment lists. -/
def dropCommon : List String → List String → List String × List String
  | a :: as, b :: bs => if a = b then dropCommon as bs else (a :: as, b :: bs)
  | as, bs => (as, bs)

/-- POSIX `path.relative(src, dst)` for absolute paths. -/
def pathRelative (src dst : String) : String :=
  let rest := dropCommon (normalizeSegments false src) (normalizeSegments false dst)
  String.intercalate "/" (List.replicate rest.1.length ".." ++ rest.2)

/-- The test `/^TRX-\d{8}-\d{6}-[0-9a-f]{8}$/i` of `POST /hapus`. -/
def isFullTrxNo (s : String) : Bool :=
  let cs := s.toList
  let hex := fun (c : Char) => c.isDigit || ('a' ≤ c.toLower && c.toLower ≤ 'f')
  cs.length == 28 &&
  (cs.take 4).map Char.toLower == ['t', 'r', 'x', '-'] &&
  ((cs.drop 4).take 8).all Char.isDigit &&
  (cs.drop 12).head? == some '-' &&
  ((cs.drop 13).take 6).all Char.isDigit &&
  (cs.drop 19).head? == some '-' &&
  (cs.drop 20).all hex

/-- SQL `text LIKE pattern` with the default escape character: `%` matches any
run of characters, `_` any one character, and a backslash makes the next
pattern character literal. -/
def likeMatch : List Char → List Char → Bool
  | [], s => s.isEmpty
  | p :: ps, s =>
    if p = '%' then s.tails.any (fun t => likeMatch ps t)
    else if p = '_' then
      match s with
      | [] => false
      | _ :: s1 => likeMatch ps s1
    else if p = Char.ofNat 92 then
      match ps with
      | [] =>
        match s with
        | [] => false
        | c :: s1 => c = p && s1.isEmpty
      | q :: qs =>
        match s with
        | [] => false
        | c :: s1 => c = q && likeMatch qs s1
    else
      match s with
      | [] => false
      | c :: s1 => c = p && likeMatch ps s1

/-! ## Tables (`initDatabase` in `server.js`) -/

/-- A row of `users` without its password hash, also the shape of
`req.session.user`. -/
structure User where
  id : Int
  username : String
  full_name : String
  role : String
deriving DecidableEq, Repr

/-- A row of `santri` (without its creation timestamp). -/
structure Santri where
  id : Int
  nis : String
  nama : String
  kelas : Option String
  kelompok : Option String
  tgl_lahir : Option String
  alamat : Option String
  hp_wali : Option String
  foto_path : Option String
  saldo : Int
deriving DecidableEq, Repr

/-- A row of `transaksi` (without its surrogate key and creation timestamp). -/
structure Transaksi where
  trx_no : String
  santri_id : Option Int
  user_id : Option Int
  tipe : String
  jumlah : Int
  keterangan : Option String
  ttd_pemberi_path : Option String
  ttd_penerima_path : Option String
  pdf_path : Option String
deriving DecidableEq, Repr

/-- A value in the JSON payload of an audit entry. -/
inductive JsonValue where
  | str (s : String)
  | num (n : Int)
deriving DecidableEq, Repr

/-- A row of `audit_logs`; `details` holds the fields of the JSON payload. -/
structure AuditLog where
  user_id : Option Int
  action : String
  entity : String
  entity_id : Option String
  details : List (String × JsonValue)
deriving DecidableEq, Repr

/-- The tables the ledger routes read and write. -/
structure Db where
  users : List User
  santri : List Santri
  transaksi : List Transaksi
  audit_logs : List AuditLog
deriving DecidableEq, Repr

/-- The state a request acts on: the database and the files under the storage
directory. -/
structure World where
  db : Db
  files : List String
deriving DecidableEq, Repr

/-- Range of a signed `BIGINT` column. -/
def inBigint (n : Int) : Bool :=
  -(2 : Int) ^ 63 ≤ n && n < (2 : Int) ^ 63

/-- The assignment `saldo = saldo + delta` on the rows selected by `WHERE id=?`. -/
def addSaldo (delta : Int) (id : Option Int) (s : Santri) : Santri :=
  if some s.id = id then { s with saldo := s.saldo + delta } else s

/-- The statement `UPDATE santri SET saldo = saldo + ? WHERE id=?` (with a
negative first argument it is `saldo = saldo - ?`).  A `NULL` key matches no
row.  The statement is rejected when a new balance leaves the column range. -/
def Db.updateSaldo (db : Db) (delta : Int) (id : Option Int) : Option Db :=
  if db.santri.all (fun s => some s.id != id || inBigint (s.saldo + delta)) then
    some { db with santri := db.santri.map (addSaldo delta id) }
  else none

/-- The statement `INSERT INTO transaksi (...) VALUES (...)`: rejected when the
identifier is already present, when a foreign key has no target, or when the
amount does not fit the column. -/
def Db.insertTransaksi (db : Db) (row : Transaksi) : Option Db :=
  let uniqueOk := db.transaksi.all (fun t => t.trx_no != row.trx_no)
  let santriOk := match row.santri_id with
    | none => true
    | some sid => db.santri.any (fun s => s.id == sid)
  let userOk := match row.user_id with
    | none => true
    | some uid => db.users.any (fun u => u.id == uid)
  if uniqueOk && santriOk && userOk && inBigint row.jumlah then
    some { db with transaksi := db.transaksi ++ [row] }
  else none

/-- The assignment `pdf_path = pdf` on the rows selected by `WHERE trx_no=?`. -/
def setPdfPath (pdf : String) (trx_no : String) (t : Transaksi) : Transaksi :=
  if t.trx_no = trx_no then { t with pdf_path := some pdf } else t

/-- The statement `UPDATE transaksi SET pdf_path=? WHERE trx_no=?`. -/
def Db.updatePdfPath (db : Db) (pdf : String) (trx_no : String) : Db :=
  { db with transaksi := db.transaksi.map (setPdfPath pdf trx_no) }

/-- The statement `DELETE FROM transaksi WHERE trx_no=?`. -/
def Db.deleteTransaksi (db : Db) (trx_no : String) : Db :=
  { db with transaksi := db.transaksi.filter (fun t => t.trx_no != trx_no) }

/-- The statement `INSERT INTO audit_logs (...) VALUES (...)`. -/
def Db.insertAudit (db : Db) (row : AuditLog) : Option Db :=
  let userOk := match row.user_id with
    | none => true
    | some uid => db.users.any (fun u => u.id == uid)
  if userOk then some { db with audit_logs := db.audit_logs ++ [row] } else none

/-- First row of `SELECT * FROM santri WHERE id=?`. -/
def Db.selectSantri (db : Db) (id : Int) : Option Santri :=
  db.santri.find? (fun s => s.id == id)

/-- The `WHERE` clause of the lookup of `POST /hapus`: `trx_no=?` when the input
is a full identifier, `trx_no LIKE '%' + input` otherwise. -/
def matchesInput (trxInput : String) (t : Transaksi) : Bool :=
  if isFullTrxNo trxInput then t.trx_no == trxInput
  else likeMatch ('%' :: trxInput.toList) t.trx_no.toList

/-- Rows of the lookup of `POST /hapus`. -/
def Db.selectTransaksi (db : Db) (trxInput : String) : List Transaksi :=
  db.transaksi.filter (matchesInput trxInput)

/-! ## Requests, environment and responses -/

/-- The sites at which the routes call `pool.query`: those of the ledger routes,
of the form pages, the receipt download and the search of
`src/routes/transaksi.js`, and of the edit, import and search routes of
`src/routes/santri.js`. -/
inductive Stmt where
  | selectSantri
  | updateSaldo
  | insertTransaksi
  | updatePdfPath
  | selectTransaksi
  | deleteTransaksi
  | insertAudit
  | selectPresets
  | selectByNama
  | selectFoto
  | updateSantri
  | selectNisBefore
  | upsertSantri
  | selectNisAfter
  | selectPdfPath
  | selectDefault
  | selectPrefix
  | selectContains
deriving DecidableEq, Repr

/-- What a request does not control: whether a pool exists, which statements
the storage layer rejects, the identifier `genTrxNo()` returns during the
request, whether writing the receipt fails, which files cannot be unlinked,
and the absolute storage directory. -/
structure Env where
  canQuery : Bool
  rejects : Stmt → Bool
  trx_no : String
  pdfFails : Bool
  unlinkFails : String → Bool
  storageDir : String

/-- The value of `req.session.flash`. -/
structure Flash where
  type : String
  message : String
deriving DecidableEq, Repr

/-- The flash message left in the session and the redirect target. -/
structure Response where
  flash : Flash
  redirect : String
deriving DecidableEq, Repr

/-- Outcome of a request: new state, response, and the storage statements that
were issued, in order, each with `true` when it succeeded. -/
structure Result where
  world : World
  resp : Response
  trace : List (Stmt × Bool)
deriving DecidableEq, Repr

/-- Body of `POST /setor`. -/
structure SetorBody where
  santri_id : Option Int
  jumlah : Option String
  keterangan : Option String
deriving DecidableEq, Repr

/-- Body of `POST /tarik`. -/
structure TarikBody where
  santri_id : Option Int
  jumlah : Option String
  keterangan : Option String
  nama_penerima : Option String
deriving DecidableEq, Repr

/-- Body of `POST /hapus`. -/
structure HapusBody where
  trx : Option String
deriving DecidableEq, Repr

/-- The directory `PDF_DIR`. -/
def pdfDir (env : Env) : String := pathJoin env.storageDir "pdfs"

/-- The expression `(req.session.user && req.session.user.id) ? req.session.user.id : null`. -/
def cashierId (user : User) : Option Int :=
  if user.id = 0 then none else some user.id

/-- Run one statement: rejected by the environment, or decided by the tables. -/
def runStmt (env : Env) (s : Stmt) (effect : Option Db) : Option Db :=
  if env.rejects s then none else effect

/-! ## `src/utils/audit.js` and `src/middleware/auth.js` -/

/-- The function `logAudit`: one insert into `audit_logs`; whatever goes wrong
(no pool, a rejected statement) is caught and only logged. -/
def logAudit (env : Env) (session : Option User) (action entity : String)
    (entity_id : Option String) (details : List (String × JsonValue)) (db : Db) :
    Db × List (Stmt × Bool) :=
  let userId : Option Int :=
    match session with
    | none => none
    | some u => if u.id = 0 then none else some u.id
  if !env.canQuery then (db, [])
  else
    match runStmt env Stmt.insertAudit
        (db.insertAudit ⟨userId, action, entity, entity_id, details⟩) with
    | none => (db, [(Stmt.insertAudit, false)])
    | some db1 => (db1, [(Stmt.insertAudit, true)])

/-- A response that leaves the state as it was. -/
def reject (w : World) (type message redirect : String) (trace : List (Stmt × Bool)) : Result :=
  { world := w, resp := ⟨⟨type, message⟩, redirect⟩, trace := trace }

/-- The middleware `requireLogin`: `next` runs only with a user in the session. -/
def requireLogin (session : Option User) (w : World) (next : Result) : Result :=
  match session with
  | none => reject w "error" "Silakan login terlebih dahulu." "/login" []
  | some _ => next

/-- The middleware `requireRole(role)`: `next` runs only for a session user
with that role. -/
def requireRole (role : String) (session : Option User) (w : World)
    (next : User → Result) : Result :=
  match session with
  | none => reject w "error" "Akses ditolak." "/login" []
  | some u =>
    if u.role ≠ role then reject w "error" "Akses ditolak." "/login" [] else next u

/-! ## `src/utils/pdf.js` -/

/-- The file effect of `generatePenarikanPDF`: the receipt is written to
`outputDir/<trx_no>.pdf` and that path is returned; `none` when the promise is
rejected, in which case no file is taken to be left behind. -/
def generatePenarikanPDF (env : Env) (outputDir trx_no : String) (files : List String) :
    Option (String × List String) :=
  if env.pdfFails then none
  else
    let filePath := pathJoin outputDir (trx_no ++ ".pdf")
    some (filePath, if files.contains filePath then files else files ++ [filePath])

/-! ## `src/routes/transaksi.js` -/

/-- The `try` block of `POST /setor`: balance update, insert, audit entry. -/
def setorWrite (env : Env) (user : User) (body : SetorBody) (w : World)
    (santri_id jml : Int) : Result :=
  match runStmt env Stmt.updateSaldo (w.db.updateSaldo jml (some santri_id)) with
  | none =>
    reject w "error" "Gagal mencatat setoran." "/transaksi/setor" [(Stmt.updateSaldo, false)]
  | some db1 =>
    match runStmt env Stmt.insertTransaksi
        (db1.insertTransaksi ⟨env.trx_no, some santri_id, cashierId user, "setor", jml,
          orNull body.keterangan, none, none, none⟩) with
    | none =>
      reject { w with db := db1 } "error" "Gagal mencatat setoran." "/transaksi/setor"
        [(Stmt.updateSaldo, true), (Stmt.insertTransaksi, false)]
    | some db2 =>
      let logged := logAudit env (some user) "create" "transaksi" (some env.trx_no)
        [("tipe", JsonValue.str "setor"), ("santri_id", JsonValue.num santri_id),
          ("jumlah", JsonValue.num jml)] db2
      { world := { w with db := logged.1 },
        resp := ⟨⟨"success", "Setoran berhasil dicatat."⟩, "/dashboard/kasir"⟩,
        trace := [(Stmt.updateSaldo, true), (Stmt.insertTransaksi, true)] ++ logged.2 }

/-- Handler of `POST /setor`. -/
def setorHandler (env : Env) (user : User) (body : SetorBody) (w : World) : Result :=
  match body.santri_id, parseInt body.jumlah with
  | some santri_id, some jml =>
    if jml = 0 ∨ jml ≤ 0 then
      reject w "error" "Data tidak valid." "/transaksi/setor" []
    else if !env.canQuery then
      reject w "error" "Database offline; tidak dapat mencatat setoran." "/transaksi/setor" []
    else setorWrite env user body w santri_id jml
  | _, _ => reject w "error" "Data tidak valid." "/transaksi/setor" []

/-- The part of `POST /tarik` after the balance check: balance update, insert,
receipt, receipt path, audit entry. -/
def tarikWrite (env : Env) (user : User) (body : TarikBody) (w : World)
    (santri_id jml : Int) : Result :=
  match runStmt env Stmt.updateSaldo (w.db.updateSaldo (-jml) (some santri_id)) with
  | none =>
    reject w "error" "Gagal memproses penarikan." "/transaksi/tarik"
      [(Stmt.selectSantri, true), (Stmt.updateSaldo, false)]
  | some db1 =>
    match runStmt env Stmt.insertTransaksi
        (db1.insertTransaksi ⟨env.trx_no, some santri_id, cashierId user, "tarik", jml,
          orNull body.keterangan, none, none, none⟩) with
    | none =>
      reject { w with db := db1 } "error" "Gagal memproses penarikan." "/transaksi/tarik"
        [(Stmt.selectSantri, true), (Stmt.updateSaldo, true), (Stmt.insertTransaksi, false)]
    | some db2 =>
      match generatePenarikanPDF env (pdfDir env) env.trx_no w.files with
      | none =>
        reject { w with db := db2 } "error" "Gagal memproses penarikan." "/transaksi/tarik"
          [(Stmt.selectSantri, true), (Stmt.updateSaldo, true), (Stmt.insertTransaksi, true)]
      | some (pdfPath, files1) =>
        match runStmt env Stmt.updatePdfPath
            (some (db2.updatePdfPath (pathRelative env.storageDir pdfPath) env.trx_no)) with
        | none =>
          reject { db := db2, files := files1 } "error" "Gagal memproses penarikan."
            "/transaksi/tarik"
            [(Stmt.selectSantri, true), (Stmt.updateSaldo, true),
              (Stmt.insertTransaksi, true), (Stmt.updatePdfPath, false)]
        | some db3 =>
          let logged := logAudit env (some user) "create" "transaksi" (some env.trx_no)
            [("tipe", JsonValue.str "tarik"), ("santri_id", JsonValue.num santri_id),
              ("jumlah", JsonValue.num jml)] db3
          { world := { db := logged.1, files := files1 },
            resp := ⟨⟨"success", "Penarikan berhasil. PDF bukti dibuat."⟩, "/dashboard/kasir"⟩,
            trace := [(Stmt.selectSantri, true), (Stmt.updateSaldo, true),
              (Stmt.insertTransaksi, true), (Stmt.updatePdfPath, true)] ++ logged.2 }

/-- Handler of `POST /tarik`. -/
def tarikHandler (env : Env) (user : User) (body : TarikBody) (w : World) : Result :=
  match body.santri_id, parseInt body.jumlah with
  | some santri_id, some jml =>
    if jml = 0 ∨ jml ≤ 0 then
      reject w "error" "Data tidak lengkap (jumlah)." "/transaksi/tarik" []
    else if !env.canQuery then
      reject w "error" "Database offline; tidak dapat memproses penarikan." "/transaksi/tarik" []
    else if env.rejects Stmt.selectSantri then
      reject w "error" "Gagal memproses penarikan." "/transaksi/tarik" [(Stmt.selectSantri, false)]
    else
      match w.db.selectSantri santri_id with
      | none =>
        reject w "error" "Santri tidak ditemukan." "/transaksi/tarik" [(Stmt.selectSantri, true)]
      | some santriRow =>
        if santriRow.saldo < jml then
          reject w "error" "Saldo tidak cukup untuk penarikan." "/transaksi/tarik"
            [(Stmt.selectSantri, true)]
        else tarikWrite env user body w santri_id jml
  | _, _ => reject w "error" "Data tidak lengkap (jumlah)." "/transaksi/tarik" []

/-- The files `POST /hapus` tries to remove for a transaction row. -/
def filesOf (env : Env) (t : Transaksi) : List String :=
  ([t.pdf_path, t.ttd_pemberi_path, t.ttd_penerima_path].filter truthy).filterMap
    (fun x => x.map (pathJoin env.storageDir))

/-- The loop `if (fs.existsSync(f)) fs.unlinkSync(f)` with its errors ignored. -/
def unlinkAll (env : Env) (targets : List String) (files : List String) : List String :=
  targets.foldl
    (fun fs f => if fs.contains f && !env.unlinkFails f then fs.filter (fun g => g != f) else fs)
    files

/-- The balance statement `POST /hapus` issues for the row it found: `none`
when the row is neither a withdrawal nor a deposit and no statement is issued,
otherwise the amount added to the balance. -/
def revertDelta (t : Transaksi) : Option Int :=
  if t.tipe = "tarik" then some t.jumlah
  else if t.tipe = "setor" then some (-t.jumlah)
  else none

/-- The part of `POST /hapus` after the single matching row `t` was found. -/
def hapusRow (env : Env) (user : User) (t : Transaksi) (w : World) : Result :=
  let reverted : Option (Db × List (Stmt × Bool)) :=
    match revertDelta t with
    | none => some (w.db, [])
    | some delta =>
      match runStmt env Stmt.updateSaldo (w.db.updateSaldo delta t.santri_id) with
      | none => none
      | some db1 => some (db1, [(Stmt.updateSaldo, true)])
  match reverted with
  | none =>
    reject w "error" "Gagal menghapus transaksi." "/transaksi/hapus"
      [(Stmt.selectTransaksi, true), (Stmt.updateSaldo, false)]
  | some (db1, tr1) =>
    let files1 := unlinkAll env (filesOf env t) w.files
    match runStmt env Stmt.deleteTransaksi (some (db1.deleteTransaksi t.trx_no)) with
    | none =>
      reject { db := db1, files := files1 } "error" "Gagal menghapus transaksi."
        "/transaksi/hapus" ((Stmt.selectTransaksi, true) :: tr1 ++ [(Stmt.deleteTransaksi, false)])
    | some db2 =>
      let logged := logAudit env (some user) "delete" "transaksi" (some t.trx_no)
        [("by", JsonValue.str user.username)] db2
      { world := { db := logged.1, files := files1 },
        resp := ⟨⟨"success", "Transaksi " ++ t.trx_no ++ " berhasil dihapus dan saldo diperbarui."⟩,
          "/transaksi/hapus"⟩,
        trace := (Stmt.selectTransaksi, true) :: tr1 ++ [(Stmt.deleteTransaksi, true)] ++ logged.2 }

/-- Handler of `POST /hapus`. -/
def hapusHandler (env : Env) (user : User) (body : HapusBody) (w : World) : Result :=
  let trxInput := jsTrim (body.trx.getD "")
  if trxInput = "" then
    reject w "error" "Nomor TRX wajib diisi." "/transaksi/hapus" []
  else if !env.canQuery then
    reject w "error" "Database offline; penghapusan transaksi tidak tersedia." "/transaksi/hapus" []
  else if env.rejects Stmt.selectTransaksi then
    reject w "error" "Gagal menghapus transaksi." "/transaksi/hapus" [(Stmt.selectTransaksi, false)]
  else
    match w.db.selectTransaksi trxInput with
    | [] =>
      reject w "error" "Transaksi tidak ditemukan." "/transaksi/hapus" [(Stmt.selectTransaksi, true)]
    | [t] => hapusRow env user t w
    | _ :: _ :: _ =>
      reject w "error" "Lebih dari satu hasil. Mohon masukkan nomor lengkap." "/transaksi/hapus"
        [(Stmt.selectTransaksi, true)]

/-- Route `POST /setor`: `requireLogin`, `requireRole('kasir')`, handler. -/
def postSetor (env : Env) (session : Option User) (body : SetorBody) (w : World) : Result :=
  requireLogin session w (requireRole "kasir" session w (fun u => setorHandler env u body w))

/-- Route `POST /tarik`: `requireLogin`, `requireRole('kasir')`, handler. -/
def postTarik (env : Env) (session : Option User) (body : TarikBody) (w : World) : Result :=
  requireLogin session w (requireRole "kasir" session w (fun u => tarikHandler env u body w))

/-- Route `POST /hapus`: `requireLogin`, `requireRole('admin')`, handler. -/
def postHapus (env : Env) (session : Option User) (body : HapusBody) (w : World) : Result :=
  requireLogin session w (requireRole "admin" session w (fun u => hapusHandler env u body w))

/-- The receipt path an accepted withdrawal leaves on its row: none when
writing the receipt failed or the statement storing the path was rejected. -/
def storedPdfPath (env : Env) : Option String :=
  if env.pdfFails || env.rejects Stmt.updatePdfPath then none
  else some (pathRelative env.storageDir (pathJoin (pdfDir env) (env.trx_no ++ ".pdf")))

/-- The `santri` table after the balance statement of `POST /hapus` for row `t`. -/
def revertSantri (t : Transaksi) (rows : List Santri) : List Santri :=
  match revertDelta t with
  | none => rows
  | some delta => rows.map (addSaldo delta t.santri_id)

/-! ## Sequences of requests and the ledger equation -/

/-- A request to one of the three ledger routes. -/
inductive Request where
  | setor (body : SetorBody)
  | tarik (body : TarikBody)
  | hapus (body : HapusBody)

/-- A request together with the session it arrives in and the environment it
runs in. -/
structure Call where
  env : Env
  session : Option User
  req : Request

/-- Dispatch a call to its route. -/
def handle (c : Call) (w : World) : Result :=
  match c.req with
  | Request.setor body => postSetor c.env c.session body w
  | Request.tarik body => postTarik c.env c.session body w
  | Request.hapus body => postHapus c.env c.session body w

/-- The state after a sequence of calls, processed one after the other. -/
def run : World → List Call → World
  | w, [] => w
  | w, c :: cs => run (handle c w).world cs

/-- Every storage statement issued by a request succeeded. -/
def Result.allSucceed (r : Result) : Bool :=
  r.trace.all (fun e => e.2)

/-- Every storage statement issued during a sequence of calls succeeded. -/
def allSucceed : World → List Call → Bool
  | _, [] => true
  | w, c :: cs => (handle c w).allSucceed && allSucceed (handle c w).world cs

/-- What a transaction row contributes to the replayed balance of student
`sid`: its amount for a deposit, minus its amount for a withdrawal. -/
def contribution (sid : Int) (t : Transaksi) : Int :=
  if t.santri_id = some sid then
    (if t.tipe = "setor" then t.jumlah else if t.tipe = "tarik" then -t.jumlah else 0)
  else 0

/-- The balance of student `sid` recomputed from the transaction table: the sum
of the `setor` amounts minus the sum of the `tarik` amounts. -/
def ledgerSum (ts : List Transaksi) (sid : Int) : Int :=
  (ts.map (contribution sid)).sum

/-- The ledger equation for student `sid`: the stored balance equals the
balance recomputed from the transaction table. -/
def LedgerAt (db : Db) (sid : Int) : Prop :=
  ∀ s ∈ db.santri, s.id = sid → s.saldo = ledgerSum db.transaksi sid

instance (db : Db) (sid : Int) : Decidable (LedgerAt db sid) :=
  inferInstanceAs (Decidable (∀ s ∈ db.santri, s.id = sid → s.saldo = ledgerSum db.transaksi sid))

/-- The request reached its ledger write and the write was recorded: the
transaction row was inserted. -/
def Result.accepted (r : Result) : Bool :=
  r.trace.contains (Stmt.insertTransaksi, true)

/-- Sum of the amounts of the accepted deposits for student `sid` in a run. -/
def acceptedDeposits (sid : Int) : World → List Call → Int
  | _, [] => 0
  | w, c :: cs =>
    (match c.req with
      | Request.setor body =>
        if (handle c w).accepted && body.santri_id = some sid
        then (parseInt body.jumlah).getD 0 else 0
      | _ => 0) + acceptedDeposits sid (handle c w).world cs

/-- Sum of the amounts of the accepted withdrawals for student `sid` in a run. -/
def acceptedWithdrawals (sid : Int) : World → List Call → Int
  | _, [] => 0
  | w, c :: cs =>
    (match c.req with
      | Request.tarik body =>
        if (handle c w).accepted && body.santri_id = some sid
        then (parseInt body.jumlah).getD 0 else 0
      | _ => 0) + acceptedWithdrawals sid (handle c w).world cs

/-- A call to the deposit or the withdrawal route. -/
def Call.isSetorTarik (c : Call) : Bool :=
  match c.req with
  | Request.hapus _ => false
  | _ => true

/-- The amount a deposit or withdrawal request submits, as `parseInt` reads
it. -/
def Call.amount (c : Call) : Option Int :=
  match c.req with
  | Request.setor body => parseInt body.jumlah
  | Request.tarik body => parseInt body.jumlah
  | Request.hapus _ => none

/-- The balance stored for student `sid`, if the student exists. -/
def saldoOf (db : Db) (sid : Int) : Option Int :=
  (db.selectSantri sid).map (fun s => s.saldo)

/-! ## Concrete data used to exercise the theorems -/

/-- An environment in which nothing fails. -/
def exEnv : Env :=
  ⟨true, fun _ => false, "TRX-20240101-120000-ab12cd34", false, fun _ => false, "/app/storage"⟩

/-- The same environment at the next second, drawing another identifier. -/
def exEnvNext : Env :=
  ⟨true, fun _ => false, "TRX-20240101-120001-ab12cd35", false, fun _ => false, "/app/storage"⟩

/-- An environment whose storage layer rejects the insert into `transaksi`. -/
def exEnvInsertFails : Env :=
  ⟨true, fun s => s == Stmt.insertTransaksi, "TRX-20240101-120000-ab12cd34", false,
    fun _ => false, "/app/storage"⟩

/-- An environment whose storage layer rejects the delete from `transaksi`. -/
def exEnvDeleteFails : Env :=
  ⟨true, fun s => s == Stmt.deleteTransaksi, "TRX-20240101-120002-ab12cd36", false,
    fun _ => false, "/app/storage"⟩

/-- The seeded administrator. -/
def exAdmin : User := ⟨1, "admin", "Admin Utama", "admin"⟩

/-- The seeded cashier. -/
def exKasir : User := ⟨2, "kasir", "Kasir Utama", "kasir"⟩

/-- The session user of the development preview (`DEV_SKIP_AUTH=1` in
`server.js`): id 0, no row in `users`, role `kasir` unless configured. -/
def exPreview : User := ⟨0, "dev", "Developer", "kasir"⟩

/-- The student Ali with a given balance. -/
def exAli (saldo : Int) : Santri :=
  { id := 1, nis := "001", nama := "Ali", kelas := none, kelompok := none, tgl_lahir := none,
    alamat := none, hp_wali := none, foto_path := none, saldo := saldo }

/-- One student with balance 0 and no transactions. -/
def exWorld : World :=
  ⟨⟨[exAdmin, exKasir], [exAli 0], [], []⟩, []⟩

/-- The student after a deposit of 50000. -/
def exFunded : World :=
  ⟨⟨[exAdmin, exKasir], [exAli 50000],
    [⟨"TRX-20240101-120000-ab12cd34", some 1, some 2, "setor", 50000, none, none, none, none⟩],
    []⟩, []⟩

/-- The student after a deposit of 50000 and a withdrawal of 20000. -/
def exLedger : World :=
  ⟨⟨[exAdmin, exKasir], [exAli 30000],
    [⟨"TRX-20240101-120000-ab12cd34", some 1, some 2, "setor", 50000, none, none, none, none⟩,
     ⟨"TRX-20240101-120001-ab12cd35", some 1, some 2, "tarik", 20000, none, none, none,
      some "pdfs/TRX-20240101-120001-ab12cd35.pdf"⟩], []⟩,
   ["/app/storage/pdfs/TRX-20240101-120001-ab12cd35.pdf"]⟩

/-- Two transactions of one student whose identifiers end in the same eight
hexadecimal characters. -/
def exAmbiguous : World :=
  ⟨⟨[exAdmin, exKasir], [exAli 70000],
    [⟨"TRX-20240101-120000-ab12cd34", some 1, some 2, "setor", 50000, none, none, none, none⟩,
     ⟨"TRX-20240102-090000-ab12cd34", some 1, some 2, "setor", 20000, none, none, none, none⟩],
    []⟩, []⟩

/-- The scenario of the specification: deposit 50000, withdraw 20000, try to
withdraw 100000, reverse the withdrawal. -/
def exCalls : List Call :=
  [⟨exEnv, some exKasir, Request.setor ⟨some 1, some "50000", none⟩⟩,
   ⟨exEnvNext, some exKasir, Request.tarik ⟨some 1, some "20000", none, some "Ali"⟩⟩,
   ⟨exEnv, some exKasir, Request.tarik ⟨some 1, some "100000", none, none⟩⟩,
   ⟨exEnv, some exAdmin, Request.hapus ⟨some "TRX-20240101-120001-ab12cd35"⟩⟩]

/-- An environment in which writing the receipt fails. -/
def exEnvPdfFails : Env :=
  ⟨true, fun _ => false, "TRX-20240101-120001-ab12cd35", true, fun _ => false, "/app/storage"⟩

/-- An environment whose storage layer rejects the insert into `audit_logs`. -/
def exEnvAuditFails : Env :=
  ⟨true, fun s => s == Stmt.insertAudit, "TRX-20240101-120000-ab12cd34", false,
    fun _ => false, "/app/storage"⟩

/-- The number of times a request issued the insert into `transaksi`. -/
def Result.insertAttempts (r : Result) : Nat :=
  (r.trace.filter (fun e => e.1 == Stmt.insertTransaksi)).length

/-- A character with a special meaning in a `LIKE` pattern: the two wildcards
and the escape character. -/
def isLikeSpecial (c : Char) : Bool :=
  c == '%' || c == '_' || c == Char.ofNat 92

/-- The last eight characters of an identifier: its hexadecimal segment. -/
def hexSegment (trx_no : String) : String :=
  String.mk (trx_no.toList.drop (trx_no.toList.length - 8))

/-! ## `genTrxNo` -/

/-- The local calendar fields that `dayjs()` reads from the clock; `month` is
the calendar month, from 1 to 12. -/
structure Clock where
  year : Nat
  month : Nat
  day : Nat
  hour : Nat
  minute : Nat
  second : Nat
deriving DecidableEq, Repr

/-- A clock reading in the years 0000 to 9999. -/
def Clock.valid (c : Clock) : Bool :=
  c.year ≤ 9999 && 1 ≤ c.month && c.month ≤ 12 && 1 ≤ c.day && c.day ≤ 31 &&
  c.hour ≤ 23 && c.minute ≤ 59 && c.second ≤ 59

/-- The first reading lies in an earlier calendar second than the second one. -/
def Clock.before (a b : Clock) : Prop :=
  a.year < b.year ∨ (a.year = b.year ∧ (a.month < b.month ∨ (a.month = b.month ∧
  (a.day < b.day ∨ (a.day = b.day ∧ (a.hour < b.hour ∨ (a.hour = b.hour ∧
  (a.minute < b.minute ∨ (a.minute = b.minute ∧ a.second < b.second)))))))))

instance (a b : Clock) : Decidable (Clock.before a b) :=
  inferInstanceAs (Decidable (_ ∨ _))

/-- The decimal digit `d` as a character. -/
def digitChar (d : Nat) : Char := Char.ofNat (48 + d)

/-- Decimal digits of `n` in front of `acc`, most significant first. -/
def decimalAux : Nat → Nat → List Char → List Char
  | 0, _, acc => acc
  | fuel + 1, n, acc =>
    if n < 10 then digitChar n :: acc
    else decimalAux fuel (n / 10) (digitChar (n % 10) :: acc)

/-- JavaScript `String(n)` for a natural number. -/
def decimal (n : Nat) : List Char := decimalAux (n + 1) n []

/-- JavaScript `s.padStart(len, pad)` with a one-character pad. -/
def padStart (len : Nat) (pad : Char) (cs : List Char) : List Char :=
  List.replicate (len - cs.length) pad ++ cs

/-- The text `dayjs().format('YYYYMMDD-HHmmss')`. -/
def formatStamp (c : Clock) : List Char :=
  padStart 4 '0' (decimal c.year) ++ padStart 2 '0' (decimal c.month) ++
    padStart 2 '0' (decimal c.day) ++ ['-'] ++ padStart 2 '0' (decimal c.hour) ++
    padStart 2 '0' (decimal c.minute) ++ padStart 2 '0' (decimal c.second)

/-- The expression `uuid.split('-')[0]`. -/
def firstSegment (uuid : String) : List Char :=
  uuid.toList.takeWhile (fun c => c != '-')

/-- The function `genTrxNo`, for the clock reading and the UUID drawn. -/
def genTrxNo (c : Clock) (uuid : String) : String :=
  String.mk (['T', 'R', 'X', '-'] ++ formatStamp c ++ ['-'] ++ firstSegment uuid)

/-- A lowercase hexadecimal digit. -/
def isLowerHex (c : Char) : Bool :=
  c.isDigit || ('a' ≤ c && c ≤ 'f')

/-- The text form of a version-4 UUID as `uuidv4()` prints it:
`xxxxxxxx-xxxx-4xxx-yxxx-xxxxxxxxxxxx` in lowercase hexadecimal, `y` one of
`8`, `9`, `a`, `b`. -/
def isUuidV4 (s : String) : Bool :=
  let cs := s.toList
  cs.length == 36 &&
  (cs.take 8).all isLowerHex && (cs.drop 8).head? == some '-' &&
  ((cs.drop 9).take 4).all isLowerHex && (cs.drop 13).head? == some '-' &&
  (cs.drop 14).head? == some '4' && ((cs.drop 15).take 3).all isLowerHex &&
  (cs.drop 18).head? == some '-' &&
  ((cs.drop 19).head? == some '8' || (cs.drop 19).head? == some '9' ||
    (cs.drop 19).head? == some 'a' || (cs.drop 19).head? == some 'b') &&
  ((cs.drop 20).take 3).all isLowerHex && (cs.drop 23).head? == some '-' &&
  (cs.drop 24).all isLowerHex

/-- The format `^TRX-\d{8}-\d{6}-[0-9a-f]{8}$`. -/
def matchesTrxFormat (s : String) : Bool :=
  let cs := s.toList
  cs.length == 28 &&
  cs.take 4 == ['T', 'R', 'X', '-'] &&
  ((cs.drop 4).take 8).all Char.isDigit &&
  (cs.drop 12).head? == some '-' &&
  ((cs.drop 13).take 6).all Char.isDigit &&
  (cs.drop 19).head? == some '-' &&
  (cs.drop 20).all isLowerHex

/-- A clock reading and a UUID for the examples. -/
def exClock : Clock := ⟨2024, 1, 1, 12, 0, 0⟩

/-- One second after `exClock`. -/
def exClockNext : Clock := ⟨2024, 1, 1, 12, 0, 1⟩

/-- A version-4 UUID. -/
def exUuid : String := "ab12cd34-5e6f-4a7b-8c9d-0123456789ab"

/-! ## The form pages of `src/routes/transaksi.js` and their presets -/

/-- A row of `preset_nominal` (without its creation timestamp). -/
structure PresetNominal where
  id : Int
  tipe : String
  amount : Int
  label : Option String
  sort_order : Int
  active : Int
deriving DecidableEq, Repr

/-- The columns `id, amount, label` that the form receives for a preset. -/
structure PresetOffer where
  id : Int
  amount : Int
  label : Option String
deriving DecidableEq, Repr

/-- The projection `SELECT id, amount, label`. -/
def PresetNominal.offer (p : PresetNominal) : PresetOffer := ⟨p.id, p.amount, p.label⟩

/-- The order `ORDER BY sort_order ASC, amount ASC`. -/
def presetOrder (a b : PresetNominal) : Prop :=
  a.sort_order < b.sort_order ∨ (a.sort_order = b.sort_order ∧ a.amount ≤ b.amount)

instance : DecidableRel presetOrder :=
  fun a b => inferInstanceAs (Decidable
    (a.sort_order < b.sort_order ∨ (a.sort_order = b.sort_order ∧ a.amount ≤ b.amount)))

/-- The `WHERE` clause `active=1 AND tipe=?`. -/
def presetWanted (tipe : String) (p : PresetNominal) : Bool :=
  p.active == 1 && p.tipe == tipe

/-- Rows of `SELECT ... FROM preset_nominal WHERE active=1 AND tipe=? ORDER BY
sort_order ASC, amount ASC`, before the projection; rows that tie in both keys
keep their table order. -/
def selectPresets (table : List PresetNominal) (tipe : String) : List PresetNominal :=
  (table.filter (presetWanted tipe)).insertionSort presetOrder

/-- The locals passed to the view `transaksi_form`; `none` stands for a local
that is not passed. -/
structure FormView where
  title : String
  tipe : Option String
  santri : Option Santri
  santriList : Option (List Santri)
  presets : Option (List PresetOffer)
deriving DecidableEq, Repr

/-- What a page handler answers: a rendered view, a redirect with a flash
message, or nothing because a statement was rejected outside any `try`. -/
inductive PageOutcome where
  | rendered (view : FormView)
  | redirected (resp : Response)
  | failed
deriving DecidableEq, Repr

/-- Outcome of a page handler and the storage statements it issued. -/
structure PageResult where
  outcome : PageOutcome
  trace : List (Stmt × Bool)
deriving DecidableEq, Repr

/-- A statement that only reads. -/
def Stmt.isSelect (s : Stmt) : Bool :=
  s == Stmt.selectSantri || s == Stmt.selectTransaksi || s == Stmt.selectPresets ||
  s == Stmt.selectByNama || s == Stmt.selectFoto || s == Stmt.selectNisBefore ||
  s == Stmt.selectNisAfter || s == Stmt.selectPdfPath || s == Stmt.selectDefault ||
  s == Stmt.selectPrefix || s == Stmt.selectContains

/-- The preset lookup through the router's helper `query`: an empty result
without a pool, `none` when the statement is rejected. -/
def queryPresets (env : Env) (table : List PresetNominal) (tipe : String) :
    Option (List PresetOffer) × List (Stmt × Bool) :=
  if !env.canQuery then (some [], [])
  else if env.rejects Stmt.selectPresets then (none, [(Stmt.selectPresets, false)])
  else (some ((selectPresets table tipe).map PresetNominal.offer), [(Stmt.selectPresets, true)])

/-- The optional student lookup of the form pages through the helper `query`:
no lookup without a `santri_id`, no row without a pool, `none` when the
statement is rejected. -/
def querySantri (env : Env) (santri_id : Option Int) (db : Db) :
    Option (Option Santri) × List (Stmt × Bool) :=
  match santri_id with
  | none => (some none, [])
  | some id =>
    if !env.canQuery then (some none, [])
    else if env.rejects Stmt.selectSantri then (none, [(Stmt.selectSantri, false)])
    else (some (db.selectSantri id), [(Stmt.selectSantri, true)])

/-- The common body of the handlers of `GET /setor` and `GET /tarik`. -/
def formPage (env : Env) (title tipe : String) (santri_id : Option Int) (db : Db)
    (table : List PresetNominal) : PageResult :=
  match querySantri env santri_id db with
  | (none, tr1) => ⟨PageOutcome.failed, tr1⟩
  | (some santri, tr1) =>
    match queryPresets env table tipe with
    | (none, tr) => ⟨PageOutcome.failed, tr1 ++ tr⟩
    | (some presets, tr) =>
      ⟨PageOutcome.rendered ⟨title, some tipe, santri, none, some presets⟩, tr1 ++ tr⟩

/-- Handler of `GET /setor`. -/
def getSetorHandler (env : Env) (santri_id : Option Int) (db : Db)
    (table : List PresetNominal) : PageResult :=
  formPage env "Transaksi Setoran" "setor" santri_id db table

/-- Handler of `GET /tarik`. -/
def getTarikHandler (env : Env) (santri_id : Option Int) (db : Db)
    (table : List PresetNominal) : PageResult :=
  formPage env "Transaksi Penarikan" "tarik" santri_id db table

/-- Body of `POST /cari`. -/
structure CariBody where
  nama : Option String
  tipe : Option String
deriving DecidableEq, Repr

/-- Rows of `SELECT * FROM santri WHERE nama LIKE ? ORDER BY nama ASC`. -/
def Db.selectByNama (db : Db) (pattern : String) : List Santri :=
  (db.santri.filter (fun s => likeMatch pattern.toList s.nama.toList)).insertionSort
    (fun a b => a.nama ≤ b.nama)

/-- Handler of `POST /cari`. -/
def cariHandler (env : Env) (body : CariBody) (db : Db) (table : List PresetNominal) :
    PageResult :=
  let q := jsTrim (body.nama.getD "")
  let back := "/transaksi/" ++ body.tipe.getD "undefined"
  if q = "" then
    ⟨PageOutcome.redirected ⟨⟨"error", "Isi nama santri untuk mencari."⟩, back⟩, []⟩
  else if !env.canQuery then
    ⟨PageOutcome.redirected ⟨⟨"error", "Database offline; pencarian tidak tersedia."⟩, back⟩, []⟩
  else if env.rejects Stmt.selectByNama then
    ⟨PageOutcome.failed, [(Stmt.selectByNama, false)]⟩
  else
    match db.selectByNama ("%" ++ q ++ "%") with
    | [] =>
      ⟨PageOutcome.redirected ⟨⟨"error", "Santri tidak ditemukan."⟩, back⟩,
        [(Stmt.selectByNama, true)]⟩
    | [row] =>
      let tipeKey := if body.tipe = some "setor" then "setor" else "tarik"
      match queryPresets env table tipeKey with
      | (none, tr) => ⟨PageOutcome.failed, (Stmt.selectByNama, true) :: tr⟩
      | (some presets, tr) =>
        ⟨PageOutcome.rendered
          ⟨"Transaksi " ++ (if tipeKey = "setor" then "Setoran" else "Penarikan"), body.tipe,
            some row, none, some presets⟩, (Stmt.selectByNama, true) :: tr⟩
    | row1 :: row2 :: rows =>
      ⟨PageOutcome.rendered
        ⟨"Transaksi " ++ (if body.tipe = some "setor" then "Setoran" else "Penarikan"),
          body.tipe, none, some (row1 :: row2 :: rows), none⟩, [(Stmt.selectByNama, true)]⟩

/-- A preset table: the seeded deposit presets in reverse order, one of them
inactive, and two withdrawal presets. -/
def exPresets : List PresetNominal :=
  [⟨4, "setor", 100000, some "100 rb", 4, 1⟩, ⟨3, "setor", 50000, some "50 rb", 3, 0⟩,
   ⟨2, "setor", 20000, some "20 rb", 1, 1⟩, ⟨1, "setor", 10000, some "10 rb", 1, 1⟩,
   ⟨5, "tarik", 10000, some "10 rb", 1, 1⟩, ⟨6, "tarik", 20000, some "20 rb", 2, 1⟩]

/-! ## The edit and import routes of `src/routes/santri.js` -/

/-- Body of `POST /:id/edit`. -/
structure EditBody where
  nis : Option String
  nama : Option String
  kelas : Option String
  kelompok : Option String
  tgl_lahir : Option String
  alamat : Option String
  hp_wali : Option String
deriving DecidableEq, Repr

/-- The assignments of the edit statement on the rows selected by `WHERE id=?`;
`foto` is `none` for the statement that does not assign `foto_path`. -/
def editSantri (id : Int) (body : EditBody) (foto : Option String) (s : Santri) : Santri :=
  if s.id = id then
    { s with
      nis := body.nis.getD ""
      nama := body.nama.getD ""
      kelas := orNull body.kelas
      kelompok := orNull body.kelompok
      tgl_lahir := orNull body.tgl_lahir
      alamat := orNull body.alamat
      hp_wali := orNull body.hp_wali
      foto_path := if foto.isSome then foto else s.foto_path }
  else s

/-- The statement `UPDATE santri SET nis=?, nama=?, kelas=?, kelompok=?,
tgl_lahir=?, alamat=?, hp_wali=?[, foto_path=?] WHERE id=?`.  It is rejected
when it selects a row and `nis` or `nama` is `NULL`, or the new `nis` is that of
another row; column lengths and the syntax of dates are left to `Env.rejects`. -/
def Db.updateSantri (db : Db) (id : Int) (body : EditBody) (foto : Option String) :
    Option Db :=
  if db.santri.any (fun s => s.id == id) &&
      (body.nis.isNone || body.nama.isNone ||
        db.santri.any (fun s => s.id != id && some s.nis == body.nis)) then none
  else some { db with santri := db.santri.map (editSantri id body foto) }

/-- The directory `public`: `path.join(__dirname, '../../public')`, where
`__dirname` is the directory from which the storage directory is derived. -/
def publicDir (env : Env) : String := pathJoin env.storageDir "../public"

/-- The directory `uploadDir` of the photo upload. -/
def uploadDir (env : Env) : String := pathJoin (publicDir env) "uploads/fotos"

/-- Decimal text of a key. -/
def intText (n : Int) : String :=
  if n < 0 then String.mk ('-' :: decimal n.natAbs) else String.mk (decimal n.toNat)

/-- The payload `{ nis, nama }` of the audit entry of an edit; a missing field
is left out by `JSON.stringify`. -/
def editDetails (body : EditBody) : List (String × JsonValue) :=
  (match body.nis with
    | some v => [("nis", JsonValue.str v)]
    | none => []) ++
  (match body.nama with
    | some v => [("nama", JsonValue.str v)]
    | none => [])

/-- The `catch` branch of `POST /:id/edit`. -/
def editFailed (id : Int) (w : World) (trace : List (Stmt × Bool)) : Result :=
  reject w "error" "Gagal memperbarui santri." ("/santri/" ++ intText id ++ "/edit") trace

/-- The end of the `try` block of `POST /:id/edit`: audit entry and response. -/
def editDone (env : Env) (user : User) (id : Int) (body : EditBody) (db : Db)
    (files : List String) (trace : List (Stmt × Bool)) : Result :=
  let logged := logAudit env (some user) "update" "santri" (some (intText id))
    (editDetails body) db
  { world := ⟨logged.1, files⟩,
    resp := ⟨⟨"success", "Santri berhasil diperbarui."⟩, "/santri"⟩,
    trace := trace ++ logged.2 }

/-- Handler of `POST /:id/edit`.  The path parameter is embedded as the key it
denotes; `file` is the name under which the upload middleware stored the new
photo, `none` for a request without a photo.  The handler calls `pool.query`
directly, so without a pool its first statement throws. -/
def editHandler (env : Env) (user : User) (id : Int) (body : EditBody)
    (file : Option String) (w : World) : Result :=
  if !env.canQuery then editFailed id w []
  else
    match file with
    | some filename =>
      if env.rejects Stmt.selectFoto then editFailed id w [(Stmt.selectFoto, false)]
      else
        let row := w.db.selectSantri id
        match runStmt env Stmt.updateSantri
            (w.db.updateSantri id body (some (pathJoin (pathJoin "uploads" "fotos") filename))) with
        | none => editFailed id w [(Stmt.selectFoto, true), (Stmt.updateSantri, false)]
        | some db1 =>
          let old : List String :=
            match row with
            | none => []
            | some s =>
              ([s.foto_path].filter truthy).filterMap (fun x => x.map (pathJoin (publicDir env)))
          editDone env user id body db1 (unlinkAll env old w.files)
            [(Stmt.selectFoto, true), (Stmt.updateSantri, true)]
    | none =>
      match runStmt env Stmt.updateSantri (w.db.updateSantri id body none) with
      | none => editFailed id w [(Stmt.updateSantri, false)]
      | some db1 => editDone env user id body db1 w.files [(Stmt.updateSantri, true)]

/-- The middleware `upload.single('foto')` for a photo it accepts: the file is
stored under `uploadDir` before the handler runs. -/
def storeUpload (env : Env) (file : Option String) (w : World) : World :=
  match file with
  | none => w
  | some filename =>
    let p := pathJoin (uploadDir env) filename
    { w with files := if w.files.contains p then w.files else w.files ++ [p] }

/-- Route `POST /:id/edit`: `requireLogin`, `requireRole('admin')`, the upload
middleware, handler. -/
def postEdit (env : Env) (session : Option User) (id : Int) (body : EditBody)
    (file : Option String) (w : World) : Result :=
  requireLogin session w (requireRole "admin" session w
    (fun u => editHandler env u id body file (storeUpload env file w)))

/-- The object `mapRow` returns for a record of the sheet. -/
structure MappedRow where
  nis : Option String
  nama : Option String
  kelas : Option String
  kelompok : Option String
  tgl_lahir : Option String
  alamat : Option String
  hp_wali : Option String
deriving DecidableEq, Repr

/-- One tuple of the `VALUES` list of the import statement. -/
structure ImportValues where
  nis : String
  nama : String
  kelas : Option String
  kelompok : Option String
  tgl_lahir : Option String
  alamat : Option String
  hp_wali : Option String
deriving DecidableEq, Repr

/-- The array `rowVals` of the import loop; `none` for a record that is
skipped because `nis` or `nama` is falsy. -/
def rowVals (r : MappedRow) : Option ImportValues :=
  match r.nis, r.nama with
  | some nis, some nama =>
    if nis = "" ∨ nama = "" then none
    else some ⟨nis, nama, orNull r.kelas, orNull r.kelompok, orNull r.tgl_lahir,
      orNull r.alamat, orNull r.hp_wali⟩
  | _, _ => none

/-- The assignments of `ON DUPLICATE KEY UPDATE` on the row that holds the
`nis` of the tuple. -/
def mergeValues (v : ImportValues) (s : Santri) : Santri :=
  if s.nis = v.nis then
    { s with
      nama := v.nama
      kelas := v.kelas
      kelompok := v.kelompok
      tgl_lahir := v.tgl_lahir
      alamat := v.alamat
      hp_wali := v.hp_wali }
  else s

/-- A key for a new row, standing for the next `AUTO_INCREMENT` value. -/
def freshId (db : Db) : Int :=
  (db.santri.map (fun s => s.id)).foldl max 0 + 1

/-- One tuple of the import statement: the row with that `nis` is updated, or a
new row is inserted with the column defaults (`foto_path` `NULL`, `saldo` 0). -/
def upsertRow (db : Db) (v : ImportValues) : Db :=
  if db.santri.any (fun s => s.nis == v.nis) then
    { db with santri := db.santri.map (mergeValues v) }
  else
    { db with santri := db.santri ++
        [⟨freshId db, v.nis, v.nama, v.kelas, v.kelompok, v.tgl_lahir, v.alamat, v.hp_wali,
          none, 0⟩] }

/-- The statement `INSERT INTO santri (nis, nama, kelas, kelompok, tgl_lahir,
alamat, hp_wali) VALUES ... ON DUPLICATE KEY UPDATE nama=VALUES(nama), ...,
hp_wali=VALUES(hp_wali)`, tuple by tuple. -/
def Db.upsertSantri (db : Db) (values : List ImportValues) : Db :=
  values.foldl upsertRow db

/-- Rows of `SELECT nis FROM santri WHERE nis IN (...)`. -/
def Db.selectNis (db : Db) (nisList : List String) : List String :=
  (db.santri.filter (fun s => nisList.contains s.nis)).map (fun s => s.nis)

/-- The `catch` branch of the import. -/
def failImport (w : World) (message : String) (trace : List (Stmt × Bool)) : Result :=
  reject w "error" ("Gagal impor: " ++ message) "/santri/import" trace

/-- The success response of the import. -/
def finishImport (w : World) (inserted updated skipped : Nat) (trace : List (Stmt × Bool)) :
    Result :=
  { world := w,
    resp := ⟨⟨"success", "Impor selesai. Ditambahkan: " ++ String.mk (decimal inserted) ++
      ", Diperbarui: " ++ String.mk (decimal updated) ++ ", Diskip: " ++
      String.mk (decimal skipped) ++ "."⟩, "/santri"⟩,
    trace := trace }

/-- Handler of `POST /import/run` (and of its `GET` twin) from the point where
the sheet has been fetched: `fetched` is the message of the error thrown before
the loop, or the objects `mapRow` returns for the records after the header;
`errorText` is the message of the error a failing `pool.query` throws. -/
def importRun (env : Env) (errorText : String) (fetched : Except String (List MappedRow))
    (w : World) : Result :=
  match fetched with
  | Except.error message => failImport w message []
  | Except.ok rows =>
    let values := rows.filterMap rowVals
    let skipped := (rows.filter (fun r => (rowVals r).isNone)).length
    if values.isEmpty then finishImport w 0 0 skipped []
    else if !env.canQuery then failImport w errorText []
    else if env.rejects Stmt.selectNisBefore then
      failImport w errorText [(Stmt.selectNisBefore, false)]
    else
      let nisList := values.map (fun v => v.nis)
      let beforeSet := w.db.selectNis nisList
      if env.rejects Stmt.upsertSantri then
        failImport w errorText [(Stmt.selectNisBefore, true), (Stmt.upsertSantri, false)]
      else
        let w1 : World := { w with db := w.db.upsertSantri values }
        if env.rejects Stmt.selectNisAfter then
          failImport w1 errorText
            [(Stmt.selectNisBefore, true), (Stmt.upsertSantri, true),
              (Stmt.selectNisAfter, false)]
        else
          let afterSet := w1.db.selectNis nisList
          let inserted :=
            (nisList.filter (fun n => !beforeSet.contains n && afterSet.contains n)).length
          let updated := (nisList.filter (fun n => beforeSet.contains n)).length
          finishImport w1 inserted updated skipped
            [(Stmt.selectNisBefore, true), (Stmt.upsertSantri, true),
              (Stmt.selectNisAfter, true)]

/-- Route `POST /import/run`: `requireLogin`, `requireRole('admin')`, handler. -/
def postImportRun (env : Env) (session : Option User) (errorText : String)
    (fetched : Except String (List MappedRow)) (w : World) : Result :=
  requireLogin session w (requireRole "admin" session w
    (fun _ => importRun env errorText fetched w))

/-- The columns of a student row that the edit statement does not assign. -/
def Santri.kept (s : Santri) : Int × Int := (s.id, s.saldo)

/-- The columns of a student row that the import statement does not assign on
a duplicate key. -/
def Santri.keptByImport (s : Santri) : Int × String × Option String × Int :=
  (s.id, s.nis, s.foto_path, s.saldo)

/-- The student table `l1` extends `l`: the rows of `l` are still there, in
place and with the columns the import keeps, followed by new rows that carry
the column defaults. -/
def Extends (l l1 : List Santri) : Prop :=
  ∃ base extra, l1 = base ++ extra ∧
    base.map Santri.keptByImport = l.map Santri.keptByImport ∧
    ∀ s ∈ extra, s.saldo = 0 ∧ s.foto_path = none

/-- Ali with a photo and a balance of 50000, and a second student. -/
def exPhoto : World :=
  ⟨⟨[exAdmin, exKasir],
    [{ exAli 50000 with foto_path := some "uploads/fotos/foto_1_a.jpg" },
     ⟨2, "002", "Budi", some "7A", none, none, none, none, none, 12000⟩], [], []⟩,
   ["/app/public/uploads/fotos/foto_1_a.jpg"]⟩

/-- An edit of Ali that renames him and moves him to another class. -/
def exEdit : EditBody :=
  ⟨some "001", some "Ali Akbar", some "8B", some "", none, some "Jl. Mawar 1", none⟩

/-- Two records of a sheet: Ali under his existing `nis`, and a new student. -/
def exSheet : List MappedRow :=
  [⟨some "001", some "Ali Akbar", some "8B", none, none, none, none⟩,
   ⟨some "003", some "Citra", none, none, some "2012-05-01", none, none⟩,
   ⟨some "", some "Tanpa NIS", none, none, none, none, none⟩]

/-! ## The receipt download of `src/routes/transaksi.js` -/

/-- What `GET /:trxNo/pdf` answers: the file it sends, or a redirect with a
flash message. -/
inductive PdfOutcome where
  | sent (absPath : String)
  | redirected (resp : Response)
deriving DecidableEq, Repr

/-- First row of `SELECT pdf_path FROM transaksi WHERE trx_no=?`: `none` when
no row matches, otherwise the column value. -/
def Db.selectPdfPath (db : Db) (trxNo : String) : Option (Option String) :=
  (db.transaksi.find? (fun t => t.trx_no == trxNo)).map (fun t => t.pdf_path)

/-- Handler of `GET /:trxNo/pdf`. -/
def pdfHandler (env : Env) (trxNo : String) (w : World) : PdfOutcome × List (Stmt × Bool) :=
  if !env.canQuery then
    (PdfOutcome.redirected
      ⟨⟨"error", "Database offline; PDF bukti tidak tersedia."⟩, "/dashboard/kasir"⟩, [])
  else if env.rejects Stmt.selectPdfPath then
    (PdfOutcome.redirected ⟨⟨"error", "Gagal menampilkan PDF."⟩, "/dashboard/kasir"⟩,
      [(Stmt.selectPdfPath, false)])
  else
    match w.db.selectPdfPath trxNo with
    | some (some pdf_path) =>
      if pdf_path = "" then
        (PdfOutcome.redirected ⟨⟨"error", "PDF bukti tidak ditemukan."⟩, "/dashboard/kasir"⟩,
          [(Stmt.selectPdfPath, true)])
      else
        let absPath := pathJoin env.storageDir pdf_path
        if !w.files.contains absPath then
          (PdfOutcome.redirected ⟨⟨"error", "File PDF tidak tersedia."⟩, "/dashboard/kasir"⟩,
            [(Stmt.selectPdfPath, true)])
        else (PdfOutcome.sent absPath, [(Stmt.selectPdfPath, true)])
    | _ =>
      (PdfOutcome.redirected ⟨⟨"error", "PDF bukti tidak ditemukan."⟩, "/dashboard/kasir"⟩,
        [(Stmt.selectPdfPath, true)])

/-- Route `GET /:trxNo/pdf`: `requireLogin`, handler. -/
def getPdf (env : Env) (session : Option User) (trxNo : String) (w : World) :
    PdfOutcome × List (Stmt × Bool) :=
  match session with
  | none =>
    (PdfOutcome.redirected ⟨⟨"error", "Silakan login terlebih dahulu."⟩, "/login"⟩, [])
  | some _ => pdfHandler env trxNo w

/-- A path segment that normalisation keeps as it is. -/
def CleanSeg (s : String) : Prop :=
  s ≠ "" ∧ s ≠ "." ∧ s ≠ ".." ∧ '/' ∉ s.toList

/-! ## Two withdrawals in flight -/

/-- Where a request to `POST /tarik` stands between two of its `await`s: not
yet started, past the balance check, past the balance update, past the insert,
past the receipt, past the receipt-path update, or answered. -/
inductive TarikStage where
  | start
  | checked (user : User) (santri_id jml : Int)
  | updated (user : User) (santri_id jml : Int)
  | inserted (user : User) (santri_id jml : Int)
  | written (user : User) (santri_id jml : Int) (pdfPath : String)
  | stored (user : User) (santri_id jml : Int)
  | finished (resp : Response)
deriving DecidableEq, Repr

/-- The response of the `catch` block of `POST /tarik`. -/
def tarikFailed : Response := ⟨⟨"error", "Gagal memproses penarikan."⟩, "/transaksi/tarik"⟩

/-- One step of a request to `POST /tarik`: the code up to and including the
next awaited statement.  The first step runs the middleware, the validation and
the balance check; each later step issues one statement, or writes the
receipt. -/
def tarikStep (env : Env) (session : Option User) (body : TarikBody) (w : World) :
    TarikStage → World × TarikStage
  | TarikStage.start =>
    match session with
    | none =>
      (w, TarikStage.finished ⟨⟨"error", "Silakan login terlebih dahulu."⟩, "/login"⟩)
    | some u =>
      if u.role ≠ "kasir" then (w, TarikStage.finished ⟨⟨"error", "Akses ditolak."⟩, "/login"⟩)
      else
        match body.santri_id, parseInt body.jumlah with
        | some santri_id, some jml =>
          if jml = 0 ∨ jml ≤ 0 then
            (w, TarikStage.finished
              ⟨⟨"error", "Data tidak lengkap (jumlah)."⟩, "/transaksi/tarik"⟩)
          else if !env.canQuery then
            (w, TarikStage.finished
              ⟨⟨"error", "Database offline; tidak dapat memproses penarikan."⟩,
                "/transaksi/tarik"⟩)
          else if env.rejects Stmt.selectSantri then (w, TarikStage.finished tarikFailed)
          else
            match w.db.selectSantri santri_id with
            | none =>
              (w, TarikStage.finished
                ⟨⟨"error", "Santri tidak ditemukan."⟩, "/transaksi/tarik"⟩)
            | some santriRow =>
              if santriRow.saldo < jml then
                (w, TarikStage.finished
                  ⟨⟨"error", "Saldo tidak cukup untuk penarikan."⟩, "/transaksi/tarik"⟩)
              else (w, TarikStage.checked u santri_id jml)
        | _, _ =>
          (w, TarikStage.finished
            ⟨⟨"error", "Data tidak lengkap (jumlah)."⟩, "/transaksi/tarik"⟩)
  | TarikStage.checked u santri_id jml =>
    match runStmt env Stmt.updateSaldo (w.db.updateSaldo (-jml) (some santri_id)) with
    | none => (w, TarikStage.finished tarikFailed)
    | some db1 => ({ w with db := db1 }, TarikStage.updated u santri_id jml)
  | TarikStage.updated u santri_id jml =>
    match runStmt env Stmt.insertTransaksi
        (w.db.insertTransaksi ⟨env.trx_no, some santri_id, cashierId u, "tarik", jml,
          orNull body.keterangan, none, none, none⟩) with
    | none => (w, TarikStage.finished tarikFailed)
    | some db2 => ({ w with db := db2 }, TarikStage.inserted u santri_id jml)
  | TarikStage.inserted u santri_id jml =>
    match generatePenarikanPDF env (pdfDir env) env.trx_no w.files with
    | none => (w, TarikStage.finished tarikFailed)
    | some (pdfPath, files1) =>
      ({ w with files := files1 }, TarikStage.written u santri_id jml pdfPath)
  | TarikStage.written u santri_id jml pdfPath =>
    match runStmt env Stmt.updatePdfPath
        (some (w.db.updatePdfPath (pathRelative env.storageDir pdfPath) env.trx_no)) with
    | none => (w, TarikStage.finished tarikFailed)
    | some db3 => ({ w with db := db3 }, TarikStage.stored u santri_id jml)
  | TarikStage.stored u santri_id jml =>
    let logged := logAudit env (some u) "create" "transaksi" (some env.trx_no)
      [("tipe", JsonValue.str "tarik"), ("santri_id", JsonValue.num santri_id),
        ("jumlah", JsonValue.num jml)] w.db
    ({ w with db := logged.1 },
      TarikStage.finished
        ⟨⟨"success", "Penarikan berhasil. PDF bukti dibuat."⟩, "/dashboard/kasir"⟩)
  | TarikStage.finished resp => (w, TarikStage.finished resp)

/-- A request to `POST /tarik` with its session and environment. -/
structure TarikCall where
  env : Env
  session : Option User
  body : TarikBody

/-- Two requests to `POST /tarik` in flight on one state. -/
structure Flight where
  world : World
  first : TarikStage
  second : TarikStage
deriving DecidableEq, Repr

/-- The event loop resumes one of the two requests for one step: the first
request when `pick` is `true`, the second otherwise. -/
def Flight.step (c1 c2 : TarikCall) (f : Flight) (pick : Bool) : Flight :=
  if pick then
    let r := tarikStep c1.env c1.session c1.body f.world f.first
    { f with world := r.1, first := r.2 }
  else
    let r := tarikStep c2.env c2.session c2.body f.world f.second
    { f with world := r.1, second := r.2 }

/-- The state after the event loop has resumed the two requests in the order
of `schedule`. -/
def interleave (c1 c2 : TarikCall) (schedule : List Bool) (w : World) : Flight :=
  schedule.foldl (Flight.step c1 c2) ⟨w, TarikStage.start, TarikStage.start⟩

/-- The schedule that processes the first request to its end, then the second. -/
def sequentialSchedule : List Bool := List.replicate 6 true ++ List.replicate 6 false

/-- The schedule in which both balance checks are answered before either
request updates the balance. -/
def racingSchedule : List Bool :=
  [true, false] ++ List.replicate 5 true ++ List.replicate 5 false

/-- An environment drawing a third identifier. -/
def exEnvThird : Env :=
  ⟨true, fun _ => false, "TRX-20240101-120001-ffffffff", false, fun _ => false, "/app/storage"⟩

/-- A withdrawal of 40000 by the cashier from student 1. -/
def exTarik (env : Env) : TarikCall :=
  ⟨env, some exKasir, ⟨some 1, some "40000", none, none⟩⟩

/-- Resume one request `n` times in a row. -/
def tarikRun (c : TarikCall) : Nat → World × TarikStage → World × TarikStage
  | 0, s => s
  | n + 1, s => tarikRun c n (tarikStep c.env c.session c.body s.1 s.2)

/-! ## `formatRupiah` (`src/utils/pdf.js`, `src/routes/laporan.js`) -/

/-- A word character of a regular expression (`\w`). -/
def isWordChar (c : Char) : Bool := c.isAlphanum || c == '_'

/-- The lookahead `(?=(\d{3})+(?!\d))`: the run of digits that starts here has
a length that is a positive multiple of three. -/
def groupAhead (rest : List Char) : Bool :=
  0 < (rest.takeWhile Char.isDigit).length && (rest.takeWhile Char.isDigit).length % 3 == 0

/-- The assertion `\B` between the character `prev` (`none` at the start of the
string) and the character `next`. -/
def notWordBoundary (prev : Option Char) (next : Char) : Bool :=
  match prev with
  | some p => isWordChar p == isWordChar next
  | none => !isWordChar next

/-- The call `s.replace(/\B(?=(\d{3})+(?!\d))/g, '.')` on the rest of the
string; `prev` is the character before it.  At the end of the string the
lookahead fails. -/
def insertDots : Option Char → List Char → List Char
  | _, [] => []
  | prev, c :: cs =>
    (if notWordBoundary prev c && groupAhead (c :: cs) then ['.'] else []) ++
      c :: insertDots (some c) cs

/-- The function `formatRupiah` of `src/utils/pdf.js` on a non-negative
integer that a JavaScript number holds exactly (at most `2^53 - 1`), for which
`(n || 0).toString()` is the decimal numeral of `n`. -/
def formatRupiah (n : Nat) : String :=
  String.mk (insertDots none (decimal (if n = 0 then 0 else n)))

/-- The function `formatRupiah` of `src/routes/laporan.js`. -/
def Laporan.formatRupiah (n : Nat) : String :=
  String.mk (insertDots none (decimal (if n = 0 then 0 else n)))

/-- Cut a list into groups of three. -/
def chunk3 : List Char → List (List Char)
  | a :: b :: c :: rest => [a, b, c] :: chunk3 rest
  | _ => []

/-- The groups of a numeral counted from the right: a first group of one to
three digits, then groups of three. -/
def groupsOf (ds : List Char) : List (List Char) :=
  ds.take ((ds.length - 1) % 3 + 1) :: chunk3 (ds.drop ((ds.length - 1) % 3 + 1))

/-! ## `terbilang` (`src/utils/terbilang.js`) -/

/-- The array `angka`. -/
def angka : List String :=
  ["", "satu", "dua", "tiga", "empat", "lima", "enam", "tujuh", "delapan", "sembilan",
    "sepuluh", "sebelas"]

/-- The inner function `inWords`.  The first argument bounds the depth of the
recursion; every recursive call is on a smaller number, so a bound above the
number is never used up. -/
def inWords : Nat → Nat → String
  | 0, _ => ""
  | fuel + 1, x =>
    if x < 12 then angka.getD x ""
    else if x < 20 then inWords fuel (x - 10) ++ " belas"
    else if x < 100 then
      inWords fuel (x / 10) ++ " puluh" ++
        (if x % 10 ≠ 0 then " " ++ inWords fuel (x % 10) else "")
    else if x < 200 then
      "seratus" ++ (if x - 100 ≠ 0 then " " ++ inWords fuel (x - 100) else "")
    else if x < 1000 then
      inWords fuel (x / 100) ++ " ratus" ++
        (if x % 100 ≠ 0 then " " ++ inWords fuel (x % 100) else "")
    else if x < 2000 then
      "seribu" ++ (if x - 1000 ≠ 0 then " " ++ inWords fuel (x - 1000) else "")
    else if x < 1000000 then
      inWords fuel (x / 1000) ++ " ribu" ++
        (if x % 1000 ≠ 0 then " " ++ inWords fuel (x % 1000) else "")
    else if x < 1000000000 then
      inWords fuel (x / 1000000) ++ " juta" ++
        (if x % 1000000 ≠ 0 then " " ++ inWords fuel (x % 1000000) else "")
    else if x < 1000000000000 then
      inWords fuel (x / 1000000000) ++ " miliar" ++
        (if x % 1000000000 ≠ 0 then " " ++ inWords fuel (x % 1000000000) else "")
    else
      inWords fuel (x / 1000000000000) ++ " triliun" ++
        (if x % 1000000000000 ≠ 0 then " " ++ inWords fuel (x % 1000000000000) else "")

/-- The function `terbilang` on an integer: `Math.floor(Math.abs(n))` is the
absolute value. -/
def terbilang (n : Int) : String :=
  jsTrim (if n.natAbs = 0 then "nol" else inWords (n.natAbs + 1) n.natAbs) ++ " rupiah"

/-! ### The spelling of a number, group by group -/

/-- The word for a digit from one to nine. -/
def unitWord (d : Nat) : String :=
  match d with
  | 1 => "satu"
  | 2 => "dua"
  | 3 => "tiga"
  | 4 => "empat"
  | 5 => "lima"
  | 6 => "enam"
  | 7 => "tujuh"
  | 8 => "delapan"
  | 9 => "sembilan"
  | _ => ""

/-- The words for a number below one hundred; none for zero. -/
def spellTens (r : Nat) : List String :=
  if r = 0 then []
  else if r < 10 then [unitWord r]
  else if r = 10 then ["sepuluh"]
  else if r = 11 then ["sebelas"]
  else if r < 20 then [unitWord (r - 10), "belas"]
  else [unitWord (r / 10), "puluh"] ++ (if r % 10 = 0 then [] else [unitWord (r % 10)])

/-- The words for a number below one thousand; none for zero. -/
def spellHundreds (k : Nat) : List String :=
  (if k / 100 = 0 then [] else if k / 100 = 1 then ["seratus"]
    else [unitWord (k / 100), "ratus"]) ++ spellTens (k % 100)

/-- The words for `k` units of a power of one thousand; none for zero. -/
def spellGroup (k : Nat) (unit : String) : List String :=
  if k = 0 then [] else spellHundreds k ++ [unit]

/-- The words for `k` thousands: `seribu` for one thousand. -/
def spellRibu (k : Nat) : List String :=
  if k = 1 then ["seribu"] else spellGroup k "ribu"

/-- The Indonesian spelling of a positive number below `10^15`, word by word. -/
def spell (n : Nat) : List String :=
  spellGroup (n / 1000000000000) "triliun" ++ spellGroup (n / 1000000000 % 1000) "miliar" ++
    spellGroup (n / 1000000 % 1000) "juta" ++ spellRibu (n / 1000 % 1000) ++
    spellHundreds (n % 1000)

/-- The words of an amount: the spelling of the number, `nol` for zero, and
the currency. -/
def spellRupiah (n : Nat) : List String :=
  (if n = 0 then ["nol"] else spell n) ++ ["rupiah"]

/-- The words of which spellings are built. -/
def vocabulary : List String :=
  ["nol", "satu", "dua", "tiga", "empat", "lima", "enam", "tujuh", "delapan", "sembilan",
    "sepuluh", "sebelas", "belas", "puluh", "seratus", "ratus", "seribu", "ribu", "juta",
    "miliar", "triliun", "rupiah"]

/-- Split a list of characters at every occurrence of `sep`. -/
def splitAtChar (sep : Char) : List Char → List (List Char)
  | [] => [[]]
  | c :: cs =>
    match splitAtChar sep cs with
    | [] => [[c]]
    | seg :: segs => if c = sep then [] :: seg :: segs else (c :: seg) :: segs

/-- Reading a spelling: the state is the value of the groups read so far and
the value of the group being read. -/
def readStep (st : Nat × Nat) (w : String) : Nat × Nat :=
  if w = "satu" then (st.1, st.2 + 1)
  else if w = "dua" then (st.1, st.2 + 2)
  else if w = "tiga" then (st.1, st.2 + 3)
  else if w = "empat" then (st.1, st.2 + 4)
  else if w = "lima" then (st.1, st.2 + 5)
  else if w = "enam" then (st.1, st.2 + 6)
  else if w = "tujuh" then (st.1, st.2 + 7)
  else if w = "delapan" then (st.1, st.2 + 8)
  else if w = "sembilan" then (st.1, st.2 + 9)
  else if w = "sepuluh" then (st.1, st.2 + 10)
  else if w = "sebelas" then (st.1, st.2 + 11)
  else if w = "belas" then (st.1, st.2 + 10)
  else if w = "puluh" then (st.1, st.2 - st.2 % 10 + st.2 % 10 * 10)
  else if w = "seratus" then (st.1, st.2 + 100)
  else if w = "ratus" then (st.1, st.2 * 100)
  else if w = "seribu" then (st.1 + 1000, 0)
  else if w = "ribu" then (st.1 + st.2 * 1000, 0)
  else if w = "juta" then (st.1 + st.2 * 1000000, 0)
  else if w = "miliar" then (st.1 + st.2 * 1000000000, 0)
  else if w = "triliun" then (st.1 + st.2 * 1000000000000, 0)
  else st

/-- The number a list of words spells. -/
def readBack (ws : List String) : Nat :=
  (ws.foldl readStep (0, 0)).1 + (ws.foldl readStep (0, 0)).2

/-- The characters of words joined by single spaces. -/
def joinChars : List String → List Char
  | [] => []
  | a :: l => a.toList ++ (l.map (fun x => ' ' :: x.toList)).flatten

/-! ## The student search (`GET /search` of both routers) -/

/-- A row of the search statements: the columns `id, nis, nama, kelas,
kelompok, foto_path, saldo`. -/
structure SearchRow where
  id : Int
  nis : String
  nama : String
  kelas : Option String
  kelompok : Option String
  foto_path : Option String
  saldo : Int
deriving DecidableEq, Repr

/-- What the storage layer returns for the search statements of one request.
The rows depend on the collation of the columns and on the `LIMIT`; they are an
input of the embedding. -/
structure SearchAnswers where
  defaultRows : List SearchRow
  prefixRows : List SearchRow
  containsRows : List SearchRow
deriving DecidableEq, Repr

/-- What `GET /search` answers: a JSON array of rows, or status 500. -/
inductive SearchOutcome where
  | json (rows : List SearchRow)
  | failed
deriving DecidableEq, Repr

/-- The expression `Math.min(parseInt(req.query.limit || '12', 10) || 12, 50)`. -/
def searchLimit (limit : Option String) : Int :=
  min (match parseInt (if truthy limit then limit else some "12") with
    | some n => if n = 0 then 12 else n
    | none => 12) 50

/-- JavaScript `s.length`: the number of UTF-16 code units. -/
def utf16Length (s : String) : Nat :=
  (s.toList.map (fun c => if c.toNat < 65536 then 1 else 2)).sum

/-- The loop over `containsRows`: a row whose id is not among the results is
pushed, and the loop ends when the results have reached the limit. -/
def mergeRows (limit : Int) : List SearchRow → List SearchRow → List SearchRow
  | results, [] => results
  | results, r :: rest =>
    if limit ≤ ((if results.any (fun x => x.id == r.id) then results
        else results ++ [r]).length : Int) then
      (if results.any (fun x => x.id == r.id) then results else results ++ [r])
    else
      mergeRows limit
        (if results.any (fun x => x.id == r.id) then results else results ++ [r]) rest

/-- The two statements for a non-empty query and the merge of their rows. -/
def searchRows (env : Env) (q : String) (limit : Int) (ans : SearchAnswers) :
    SearchOutcome × List (Stmt × Bool) :=
  if env.rejects Stmt.selectPrefix then (SearchOutcome.failed, [(Stmt.selectPrefix, false)])
  else if (ans.prefixRows.length : Int) < limit ∧ 3 ≤ utf16Length q then
    if env.rejects Stmt.selectContains then
      (SearchOutcome.failed, [(Stmt.selectPrefix, true), (Stmt.selectContains, false)])
    else
      (SearchOutcome.json (mergeRows limit ans.prefixRows ans.containsRows),
        [(Stmt.selectPrefix, true), (Stmt.selectContains, true)])
  else (SearchOutcome.json ans.prefixRows, [(Stmt.selectPrefix, true)])

/-- Handler of `GET /search` in `src/routes/transaksi.js`. -/
def searchTransaksi (env : Env) (q limit : Option String) (ans : SearchAnswers) :
    SearchOutcome × List (Stmt × Bool) :=
  if !env.canQuery then (SearchOutcome.json [], [])
  else if jsTrim (q.getD "") = "" then
    if env.rejects Stmt.selectDefault then (SearchOutcome.failed, [(Stmt.selectDefault, false)])
    else (SearchOutcome.json ans.defaultRows, [(Stmt.selectDefault, true)])
  else searchRows env (jsTrim (q.getD "")) (searchLimit limit) ans

/-- Handler of `GET /search` in `src/routes/santri.js`; it calls `pool.query`
directly, so without a pool the first statement throws. -/
def searchSantri (env : Env) (q limit : Option String) (ans : SearchAnswers) :
    SearchOutcome × List (Stmt × Bool) :=
  if jsTrim (q.getD "") = "" then (SearchOutcome.json [], [])
  else if !env.canQuery then (SearchOutcome.failed, [])
  else searchRows env (jsTrim (q.getD "")) (searchLimit limit) ans

/-- The merged result for a non-empty query: the prefix rows, then, when the
contains rows are consulted, the first of them that are not among the prefix
rows, up to the limit. -/
def mergedRows (q : String) (limit : Int) (ans : SearchAnswers) : List SearchRow :=
  ans.prefixRows ++
    (if (ans.prefixRows.length : Int) < limit ∧ 3 ≤ utf16Length q then
      (ans.containsRows.filter
        (fun r => !ans.prefixRows.any (fun x => x.id == r.id))).take
          (limit - ans.prefixRows.length).toNat
    else [])

/-- A search row for a student. -/
def exRow (id : Int) (nama : String) : SearchRow := ⟨id, "00", nama, none, none, none, 0⟩

/-- The answers to the search for `ali` with limit 3: one prefix row, and
contains rows that repeat it. -/
def exAnswers : SearchAnswers :=
  ⟨[], [exRow 1 "Ali"], [exRow 1 "Ali", exRow 4 "Bali", exRow 2 "Galih", exRow 7 "Salim"]⟩

/-! ## The import mapping (`normalizeHeader`, `toDateISO`, `mapRow` in `src/routes/santri.js`) -/

/-- What `toLowerCase()` followed by the removal of `[^a-z0-9]+` leaves of one
character: a lower-case letter or digit stays, an upper-case letter is
lowered; of the other characters only the Kelvin sign (lowered to `k`) and the
dotted capital I (lowered to `i` and a combining dot) leave something. -/
def normalizeChar (c : Char) : Option Char :=
  if c.isLower || c.isDigit then some c
  else if c.isUpper then some c.toLower
  else if c.toNat = 8490 then some 'k'
  else if c.toNat = 304 then some 'i'
  else none

/-- The function `normalizeHeader` on a string. -/
def normalizeHeader (h : String) : String :=
  jsTrim (String.mk (h.toList.filterMap normalizeChar))

/-- The assignment `idx[key] = i` on an object held as the list of its own
properties in insertion order. -/
def setKey (idx : List (String × Nat)) (key : String) (i : Nat) : List (String × Nat) :=
  if idx.any (fun e => e.1 == key) then idx.map (fun e => if e.1 = key then (key, i) else e)
  else idx ++ [(key, i)]

/-- The loop `headers.forEach((h, i) => { idx[normalizeHeader(h)] = i; })` from
column `i` on. -/
def buildIndex : List String → Nat → List (String × Nat) → List (String × Nat)
  | [], _, idx => idx
  | h :: hs, i, idx => buildIndex hs (i + 1) (setKey idx (normalizeHeader h) i)

/-- The object `idx` of `mapRow`. -/
def headerIndex (headers : List String) : List (String × Nat) :=
  buildIndex headers 0 []

/-- A property name that is an array index: a canonical numeral below
`2^32 - 1`. -/
def isArrayIndex (k : String) : Bool :=
  !k.toList.isEmpty && k.toList.all Char.isDigit &&
    (k.toList.length == 1 || k.toList.head? != some '0') &&
    decide (digitsValue k.toList < 4294967295)

/-- The array `Object.keys(idx)`: the array indices in ascending order, then
the other property names in insertion order. -/
def objectKeys (idx : List (String × Nat)) : List String :=
  ((idx.filter (fun e => isArrayIndex e.1)).map (fun e => e.1)).insertionSort
      (fun a b => digitsValue a.toList ≤ digitsValue b.toList) ++
    (idx.filter (fun e => !isArrayIndex e.1)).map (fun e => e.1)

/-- The test `key in idx`: an own property, or `constructor`, the one property
with a normalised name that every object inherits. -/
def hasKey (idx : List (String × Nat)) (key : String) : Bool :=
  idx.any (fun e => e.1 == key) || key == "constructor"

/-- The expression `row[idx[key]]`: `none` is `undefined`. -/
def cellAt (idx : List (String × Nat)) (row : List String) (key : String) : Option String :=
  match idx.find? (fun e => e.1 == key) with
  | some e => row.get? e.2
  | none => none

/-- JavaScript `k.includes(sub)`. -/
def includes (k sub : String) : Bool :=
  k.toList.tails.any (fun t => sub.toList.isPrefixOf t)

/-- The inner function `pick` of `mapRow`. -/
def pick (idx : List (String × Nat)) (row : List String) (names : List String) :
    Option String :=
  match names.find? (fun n => hasKey idx (normalizeHeader n)) with
  | some n => cellAt idx row (normalizeHeader n)
  | none =>
    match (objectKeys idx).find?
        (fun k => names.any (fun n => includes k (normalizeHeader n))) with
    | some k => cellAt idx row k
    | none => none

/-- One or two digits followed by a separator (`-` or `/`), as the group
`(\d{1,2})` and the separator class of `toDateISO` match them at the start of a
string: the digits and what follows the separator. -/
def shortField (s : List Char) : Option (List Char × List Char) :=
  match s with
  | a :: b :: c :: rest =>
    if a.isDigit && b.isDigit && (c == '-' || c == '/') then some ([a, b], rest)
    else if a.isDigit && (b == '-' || b == '/') then some ([a], c :: rest)
    else none
  | [a, b] => if a.isDigit && (b == '-' || b == '/') then some ([a], []) else none
  | _ => none

/-- One or two digits at the start of a string, as a final `(\d{1,2})` matches
them. -/
def lastField (s : List Char) : Option (List Char) :=
  match s with
  | a :: b :: _ => if a.isDigit && b.isDigit then some [a, b]
    else if a.isDigit then some [a] else none
  | [a] => if a.isDigit then some [a] else none
  | [] => none

/-- Four digits at the start of a string. -/
def yearField (s : List Char) : Option (List Char × List Char) :=
  match s with
  | a :: b :: c :: d :: rest =>
    if a.isDigit && b.isDigit && c.isDigit && d.isDigit then some ([a, b, c, d], rest)
    else none
  | _ => none

/-- A match of the first pattern of `toDateISO` (four digits, separator, one
or two digits, separator, one or two digits) at the start of a string. -/
def matchYmdHere (s : List Char) : Option (List Char × List Char × List Char) :=
  match yearField s with
  | some (y, sep :: rest) =>
    if sep == '-' || sep == '/' then
      match shortField rest with
      | some (m, rest2) =>
        match lastField rest2 with
        | some d => some (y, m, d)
        | none => none
      | none => none
    else none
  | _ => none

/-- A match of the second pattern of `toDateISO` (one or two digits,
separator, one or two digits, separator, four digits) at the start of a
string. -/
def matchDmyHere (s : List Char) : Option (List Char × List Char × List Char) :=
  match shortField s with
  | some (d, rest) =>
    match shortField rest with
    | some (m, rest2) =>
      match yearField rest2 with
      | some (y, _) => some (d, m, y)
      | none => none
    | none => none
  | none => none

/-- The first match of a pattern in a string, tried from left to right. -/
def firstMatch (here : List Char → Option (List Char × List Char × List Char)) :
    List Char → Option (List Char × List Char × List Char)
  | [] => here []
  | c :: cs =>
    match here (c :: cs) with
    | some r => some r
    | none => firstMatch here cs

/-- The number of days from 1 January 1970 to the first day of month `m`
(1 to 12) of year `y` of the Gregorian calendar. -/
def daysFromCivil (y m : Int) : Int :=
  let y1 := if m ≤ 2 then y - 1 else y
  let era := y1 / 400
  let yoe := y1 - era * 400
  let doy := (153 * (if m > 2 then m - 3 else m + 9) + 2) / 5
  era * 146097 + (yoe * 365 + yoe / 4 - yoe / 100 + doy) - 719468

/-- Year, month and day of the day `z` days after 1 January 1970. -/
def civilFromDays (z : Int) : Int × Int × Int :=
  let z1 := z + 719468
  let era := z1 / 146097
  let doe := z1 - era * 146097
  let yoe := (doe - doe / 1460 + doe / 36524 - doe / 146096) / 365
  let doy := doe - (365 * yoe + yoe / 4 - yoe / 100)
  let mp := (5 * doy + 2) / 153
  let d := doy - (153 * mp + 2) / 5 + 1
  let m := if mp < 10 then mp + 3 else mp - 9
  (if m ≤ 2 then yoe + era * 400 + 1 else yoe + era * 400, m, d)

/-- The expression `new Date(Date.UTC(y, m, d)).toISOString().slice(0, 10)`
for a year of at most four digits, a month index `m` and a day `d` of at most
two digits: a year below 100 counts from 1900, months and days outside their
range carry over, and a year above 9999 is written with a sign and six digits. -/
def utcDateText (y m d : Int) : String :=
  let year := if 0 ≤ y ∧ y ≤ 99 then 1900 + y else y
  let date := civilFromDays (daysFromCivil (year + m / 12) (m % 12 + 1) + d - 1)
  let yearText :=
    if 0 ≤ date.1 ∧ date.1 ≤ 9999 then padStart 4 '0' (decimal date.1.toNat)
    else (if date.1 < 0 then '-' else '+') :: padStart 6 '0' (decimal date.1.natAbs)
  String.mk ((yearText ++ ['-'] ++ padStart 2 '0' (decimal date.2.1.toNat) ++ ['-'] ++
    padStart 2 '0' (decimal date.2.2.toNat)).take 10)

/-- The function `toDateISO` on a cell; `none` is `null`. -/
def toDateISO (v : Option String) : Option String :=
  match v with
  | none => none
  | some raw =>
    if raw = "" then none
    else if jsTrim raw = "" then none
    else
      match firstMatch matchYmdHere (jsTrim raw).toList with
      | some (y, m, d) =>
        some (utcDateText (digitsValue y) ((digitsValue m : Int) - 1) (digitsValue d))
      | none =>
        match firstMatch matchDmyHere (jsTrim raw).toList with
        | some (d, m, y) =>
          some (utcDateText (digitsValue y) ((digitsValue m : Int) - 1) (digitsValue d))
        | none => none

/-- The candidate names of the seven fields of `mapRow`. -/
def nisNames : List String := ["nis", "nisn", "noinduk", "no_siswa"]

/-- Candidate names of `nama`. -/
def namaNames : List String := ["nama", "namalengkap", "name", "namasantri"]

/-- Candidate names of `kelas`. -/
def kelasNames : List String := ["kelas", "jurusan", "grade"]

/-- Candidate names of `kelompok`. -/
def kelompokNames : List String := ["kelompok", "asrama", "pondok", "group", "unit"]

/-- Candidate names of `tgl_lahir`. -/
def tglLahirNames : List String := ["tgllahir", "tanggallahir", "dob"]

/-- Candidate names of `alamat`. -/
def alamatNames : List String := ["alamat", "address"]

/-- Candidate names of `hp_wali`. -/
def hpWaliNames : List String := ["hpwali", "nohporangtua", "telpwali", "nohp", "kontakwali"]

/-- The candidate lists of the seven fields, in the order of `mapRow`. -/
def fieldNames : List (List String) :=
  [nisNames, namaNames, kelasNames, kelompokNames, tglLahirNames, alamatNames, hpWaliNames]

/-- The function `mapRow`. -/
def mapRow (headers row : List String) : MappedRow :=
  { nis := pick (headerIndex headers) row nisNames
    nama := pick (headerIndex headers) row namaNames
    kelas := pick (headerIndex headers) row kelasNames
    kelompok := pick (headerIndex headers) row kelompokNames
    tgl_lahir := toDateISO (pick (headerIndex headers) row tglLahirNames)
    alamat := pick (headerIndex headers) row alamatNames
    hp_wali := pick (headerIndex headers) row hpWaliNames }

/-- The column of the right-most header from column `i` on whose normalised
form is `key`. -/
def lastColumn : List String → Nat → String → Option Nat
  | [], _, _ => none
  | h :: hs, i, key =>
    match lastColumn hs (i + 1) key with
    | some j => some j
    | none => if normalizeHeader h = key then some i else none

/-- A header row with a header that only contains `nis`, two headers for the
name, and a date of birth. -/
def exHeaders : List String := ["Nomor NIS Lama", "N.I.S", "Nama", "Tgl Lahir", "NAMA"]

/-- A data row under the headers. -/
def exCells : List String := ["A-17", "2024001", "Ali", "01/02/2010", "Ali Akbar"]

/-! ## Storage statements: what they change -/

theorem runStmt_eq_some {env : Env} {s : Stmt} {e : Option Db} {db : Db}
    (h : runStmt env s e = some db) : env.rejects s = false ∧ e = some db := by
  unfold runStmt at h
  split at h
  · simp at h
  · simp_all

theorem updateSaldo_eq_some {db db1 : Db} {delta : Int} {id : Option Int}
    (h : db.updateSaldo delta id = some db1) :
    db1 = { db with santri := db.santri.map (addSaldo delta id) } := by
  unfold Db.updateSaldo at h
  split at h
  · simpa using h.symm
  · simp at h

theorem insertTransaksi_eq_some {db db1 : Db} {row : Transaksi}
    (h : db.insertTransaksi row = some db1) :
    db1 = { db with transaksi := db.transaksi ++ [row] } ∧
      (∀ t ∈ db.transaksi, t.trx_no ≠ row.trx_no) := by
  unfold Db.insertTransaksi at h
  simp only at h
  split at h
  · rename_i hc
    simp only [Bool.and_eq_true, List.all_eq_true, bne_iff_ne, ne_eq] at hc
    refine ⟨by simpa using h.symm, fun t ht => hc.1.1.1 t ht⟩
  · simp at h

theorem logAudit_fst (env : Env) (session : Option User) (action entity : String)
    (entity_id : Option String) (details : List (String × JsonValue)) (db : Db) :
    (logAudit env session action entity entity_id details db).1.santri = db.santri ∧
    (logAudit env session action entity entity_id details db).1.transaksi = db.transaksi ∧
    (logAudit env session action entity entity_id details db).1.users = db.users := by
  unfold logAudit
  simp only
  split
  · simp
  · split
    · simp
    · rename_i db1 h
      obtain ⟨-, h⟩ := runStmt_eq_some h
      unfold Db.insertAudit at h
      simp only at h
      split at h
      · cases h; simp
      · simp at h

@[simp]
theorem logAudit_santri (env : Env) (session : Option User) (action entity : String)
    (entity_id : Option String) (details : List (String × JsonValue)) (db : Db) :
    (logAudit env session action entity entity_id details db).1.santri = db.santri :=
  (logAudit_fst env session action entity entity_id details db).1

@[simp]
theorem logAudit_transaksi (env : Env) (session : Option User) (action entity : String)
    (entity_id : Option String) (details : List (String × JsonValue)) (db : Db) :
    (logAudit env session action entity entity_id details db).1.transaksi = db.transaksi :=
  (logAudit_fst env session action entity entity_id details db).2.1

@[simp]
theorem saldoOf_logAudit (env : Env) (session : Option User) (action entity : String)
    (entity_id : Option String) (details : List (String × JsonValue)) (db : Db) (sid : Int) :
    saldoOf (logAudit env session action entity entity_id details db).1 sid = saldoOf db sid := by
  simp [saldoOf, Db.selectSantri]

theorem logAudit_trace (env : Env) (session : Option User) (action entity : String)
    (entity_id : Option String) (details : List (String × JsonValue)) (db : Db) :
    ∀ e ∈ (logAudit env session action entity entity_id details db).2,
      e.1 = Stmt.insertAudit := by
  intro e he
  unfold logAudit at he
  simp only at he
  split at he
  · simp at he
  · split at he <;> simp at he <;> subst he <;> rfl

theorem addSaldo_id (delta : Int) (id : Option Int) (s : Santri) :
    (addSaldo delta id s).id = s.id := by
  unfold addSaldo; split <;> rfl

theorem find_map_addSaldo (delta : Int) (id : Option Int) (sid : Int) (l : List Santri) :
    (l.map (addSaldo delta id)).find? (fun s => s.id == sid) =
      (l.find? (fun s => s.id == sid)).map (addSaldo delta id) := by
  induction l with
  | nil => rfl
  | cons a l ih =>
    simp only [List.map_cons, List.find?_cons, addSaldo_id]
    split
    · rfl
    · exact ih

theorem saldoOf_of_map {db db1 : Db} {delta : Int} {id : Option Int}
    (h : db1.santri = db.santri.map (addSaldo delta id)) (sid : Int) :
    saldoOf db1 sid = (saldoOf db sid).map (fun b => if some sid = id then b + delta else b) := by
  unfold saldoOf Db.selectSantri
  rw [h]
  simp only [find_map_addSaldo, Option.map_map]
  cases hf : db.santri.find? (fun s => s.id == sid) with
  | none => rfl
  | some s =>
    have hs : s.id = sid := by simpa using List.find?_some hf
    simp only [Option.map_some', Function.comp, addSaldo, hs]
    split <;> rfl

theorem cashierId_of_ne_zero {u : User} (h : u.id ≠ 0) : cashierId u = some u.id := by
  simp [cashierId, h]

theorem requireRole_some {role : String} {u : User} {w : World} {next : User → Result}
    (h : u.role = role) : requireLogin (some u) w (requireRole role (some u) w next) = next u := by
  simp [requireLogin, requireRole, h]

theorem map_setPdfPath_of_ne (pdf x : String) (l : List Transaksi)
    (h : ∀ t ∈ l, t.trx_no ≠ x) : l.map (setPdfPath pdf x) = l := by
  induction l with
  | nil => rfl
  | cons a l ih =>
    have ha : a.trx_no ≠ x := h a (List.mem_cons_self _ _)
    simp only [List.map_cons, setPdfPath, ha, if_false]
    rw [ih (fun t ht => h t (List.mem_cons_of_mem _ ht))]

/-! ## The write stages, case by case -/

/-- The three ways the write stage of a deposit can end. -/
theorem setorWrite_cases (env : Env) (u : User) (body : SetorBody) (w : World) (sid A : Int) :
    ((setorWrite env u body w sid A).world = w ∧
      (setorWrite env u body w sid A).trace = [(Stmt.updateSaldo, false)]) ∨
    ((setorWrite env u body w sid A).world.db.santri = w.db.santri.map (addSaldo A (some sid)) ∧
      (setorWrite env u body w sid A).world.db.transaksi = w.db.transaksi ∧
      (setorWrite env u body w sid A).trace =
        [(Stmt.updateSaldo, true), (Stmt.insertTransaksi, false)]) ∨
    ((setorWrite env u body w sid A).world.db.santri = w.db.santri.map (addSaldo A (some sid)) ∧
      (setorWrite env u body w sid A).world.db.transaksi =
        w.db.transaksi ++ [⟨env.trx_no, some sid, cashierId u, "setor", A,
          orNull body.keterangan, none, none, none⟩] ∧
      (setorWrite env u body w sid A).resp.flash = ⟨"success", "Setoran berhasil dicatat."⟩ ∧
      (setorWrite env u body w sid A).accepted = true) := by
  unfold setorWrite
  cases h1 : runStmt env Stmt.updateSaldo (w.db.updateSaldo A (some sid)) with
  | none => left; simp [reject]
  | some db1 =>
    have e1 := updateSaldo_eq_some (runStmt_eq_some h1).2
    simp only
    cases h2 : runStmt env Stmt.insertTransaksi
        (db1.insertTransaksi ⟨env.trx_no, some sid, cashierId u, "setor", A,
          orNull body.keterangan, none, none, none⟩) with
    | none => right; left; simp [reject, e1]
    | some db2 =>
      have e2 := (insertTransaksi_eq_some (runStmt_eq_some h2).2).1
      right; right
      simp [e2, e1, Result.accepted]

/-- Every way the write stage of a deposit can end leaves the files, the other
tables and the failure response as follows. -/
theorem setorWrite_frame (env : Env) (u : User) (body : SetorBody) (w : World) (sid A : Int) :
    (setorWrite env u body w sid A).world.files = w.files ∧
    ((setorWrite env u body w sid A).accepted = false →
      (setorWrite env u body w sid A).resp.flash = ⟨"error", "Gagal mencatat setoran."⟩ ∧
      (setorWrite env u body w sid A).allSucceed = false ∧
      (setorWrite env u body w sid A).world.db.transaksi = w.db.transaksi ∧
      (setorWrite env u body w sid A).world.db.audit_logs = w.db.audit_logs) := by
  unfold setorWrite
  cases h1 : runStmt env Stmt.updateSaldo (w.db.updateSaldo A (some sid)) with
  | none => simp [reject, Result.allSucceed]
  | some db1 =>
    have e1 := updateSaldo_eq_some (runStmt_eq_some h1).2
    simp only
    cases h2 : runStmt env Stmt.insertTransaksi
        (db1.insertTransaksi ⟨env.trx_no, some sid, cashierId u, "setor", A,
          orNull body.keterangan, none, none, none⟩) with
    | none => simp [reject, Result.allSucceed, e1]
    | some db2 => simp [Result.accepted]

theorem generatePenarikanPDF_eq (env : Env) (dir trx : String) (files : List String) :
    generatePenarikanPDF env dir trx files =
      if env.pdfFails then none
      else some (pathJoin dir (trx ++ ".pdf"),
        if files.contains (pathJoin dir (trx ++ ".pdf")) then files
        else files ++ [pathJoin dir (trx ++ ".pdf")]) := by
  unfold generatePenarikanPDF
  split <;> simp_all

/-- The three ways the write stage of a withdrawal can end. -/
theorem tarikWrite_cases (env : Env) (u : User) (body : TarikBody) (w : World) (sid A : Int) :
    ((tarikWrite env u body w sid A).world = w ∧
      (tarikWrite env u body w sid A).trace =
        [(Stmt.selectSantri, true), (Stmt.updateSaldo, false)]) ∨
    ((tarikWrite env u body w sid A).world.db.santri =
        w.db.santri.map (addSaldo (-A) (some sid)) ∧
      (tarikWrite env u body w sid A).world.db.transaksi = w.db.transaksi ∧
      (tarikWrite env u body w sid A).world.files = w.files ∧
      (tarikWrite env u body w sid A).trace =
        [(Stmt.selectSantri, true), (Stmt.updateSaldo, true), (Stmt.insertTransaksi, false)]) ∨
    ((tarikWrite env u body w sid A).world.db.santri =
        w.db.santri.map (addSaldo (-A) (some sid)) ∧
      (tarikWrite env u body w sid A).world.db.transaksi =
        w.db.transaksi ++ [⟨env.trx_no, some sid, cashierId u, "tarik", A,
          orNull body.keterangan, none, none, storedPdfPath env⟩] ∧
      (tarikWrite env u body w sid A).resp.flash =
        (if env.pdfFails || env.rejects Stmt.updatePdfPath
          then ⟨"error", "Gagal memproses penarikan."⟩
          else ⟨"success", "Penarikan berhasil. PDF bukti dibuat."⟩) ∧
      (tarikWrite env u body w sid A).accepted = true) := by
  unfold tarikWrite
  cases h1 : runStmt env Stmt.updateSaldo (w.db.updateSaldo (-A) (some sid)) with
  | none => left; simp [reject]
  | some db1 =>
    have e1 := updateSaldo_eq_some (runStmt_eq_some h1).2
    simp only
    cases h2 : runStmt env Stmt.insertTransaksi
        (db1.insertTransaksi ⟨env.trx_no, some sid, cashierId u, "tarik", A,
          orNull body.keterangan, none, none, none⟩) with
    | none => right; left; simp [reject, e1]
    | some db2 =>
      have e2 := insertTransaksi_eq_some (runStmt_eq_some h2).2
      have hold : ∀ t ∈ w.db.transaksi, t.trx_no ≠ env.trx_no := by
        have := e2.2
        rw [e1] at this
        exact this
      right; right
      simp only [generatePenarikanPDF_eq]
      by_cases hp : env.pdfFails = true
      · simp [hp, reject, e2.1, e1, Result.accepted, storedPdfPath]
      · by_cases hr : env.rejects Stmt.updatePdfPath = true
        · simp [hp, hr, runStmt, reject, e2.1, e1, Result.accepted, storedPdfPath]
        · simp [hp, hr, runStmt, e2.1, e1, Result.accepted, storedPdfPath, Db.updatePdfPath,
            map_setPdfPath_of_ne _ _ _ hold, setPdfPath]

/-- The three ways the reversal of a found row can end. -/
theorem hapusRow_cases (env : Env) (u : User) (t : Transaksi) (w : World) :
    ((hapusRow env u t w).world = w ∧
      (hapusRow env u t w).trace = [(Stmt.selectTransaksi, true), (Stmt.updateSaldo, false)] ∧
      (hapusRow env u t w).resp.flash = ⟨"error", "Gagal menghapus transaksi."⟩) ∨
    ((hapusRow env u t w).world.db.santri = revertSantri t w.db.santri ∧
      (hapusRow env u t w).world.db.transaksi = w.db.transaksi ∧
      (hapusRow env u t w).world.files = unlinkAll env (filesOf env t) w.files ∧
      (Stmt.deleteTransaksi, false) ∈ (hapusRow env u t w).trace ∧
      (hapusRow env u t w).resp.flash = ⟨"error", "Gagal menghapus transaksi."⟩ ∧
      (∀ e ∈ (hapusRow env u t w).trace, e.2 = false → e.1 = Stmt.deleteTransaksi)) ∨
    ((hapusRow env u t w).world.db.santri = revertSantri t w.db.santri ∧
      (hapusRow env u t w).world.db.transaksi =
        w.db.transaksi.filter (fun x => x.trx_no != t.trx_no) ∧
      (hapusRow env u t w).world.files = unlinkAll env (filesOf env t) w.files ∧
      (hapusRow env u t w).resp.flash =
        ⟨"success", "Transaksi " ++ t.trx_no ++ " berhasil dihapus dan saldo diperbarui."⟩ ∧
      (∀ e ∈ (hapusRow env u t w).trace, e.2 = false → e.1 = Stmt.insertAudit)) := by
  have haudit : ∀ (db : Db) (tr : List (Stmt × Bool)), (∀ e ∈ tr, e.2 = true) →
      ∀ e ∈ tr ++ (logAudit env (some u) "delete" "transaksi" (some t.trx_no)
        [("by", JsonValue.str u.username)] db).2, e.2 = false → e.1 = Stmt.insertAudit := by
    intro db tr htr e he hf
    rcases List.mem_append.mp he with h | h
    · rw [htr e h] at hf; cases hf
    · exact logAudit_trace _ _ _ _ _ _ _ e h
  unfold hapusRow revertSantri
  cases hd : revertDelta t with
  | none =>
    simp only
    cases h2 : runStmt env Stmt.deleteTransaksi (some (w.db.deleteTransaksi t.trx_no)) with
    | none => right; left; simp [reject]
    | some db2 =>
      have e2 := (runStmt_eq_some h2).2
      simp only [Option.some.injEq] at e2
      right; right
      refine ⟨by simp [← e2, Db.deleteTransaksi], by simp [← e2, Db.deleteTransaksi], rfl, rfl, ?_⟩
      exact haudit db2 _ (by simp)
  | some delta =>
    simp only
    cases h1 : runStmt env Stmt.updateSaldo (w.db.updateSaldo delta t.santri_id) with
    | none => left; simp [reject]
    | some db1 =>
      have e1 := updateSaldo_eq_some (runStmt_eq_some h1).2
      simp only
      cases h2 : runStmt env Stmt.deleteTransaksi (some (db1.deleteTransaksi t.trx_no)) with
      | none => right; left; simp [reject, e1]
      | some db2 =>
        have e2 := (runStmt_eq_some h2).2
        simp only [Option.some.injEq] at e2
        right; right
        refine ⟨by simp [← e2, Db.deleteTransaksi, e1], by simp [← e2, Db.deleteTransaksi, e1],
          rfl, rfl, ?_⟩
        exact haudit db2 _ (by simp)

/-- A request stopped by the middleware, or the handler run for the session user. -/
theorem route_cases (role : String) (session : Option User) (w : World) (next : User → Result) :
    ((requireLogin session w (requireRole role session w next)).world = w ∧
      (requireLogin session w (requireRole role session w next)).trace = [] ∧
      (requireLogin session w (requireRole role session w next)).resp.flash.type = "error") ∨
    (∃ u, session = some u ∧ u.role = role ∧
      requireLogin session w (requireRole role session w next) = next u) := by
  cases session with
  | none => left; simp [requireLogin, reject]
  | some u =>
    by_cases h : u.role = role
    · right; exact ⟨u, rfl, h, requireRole_some h⟩
    · left; simp [requireLogin, requireRole, h, reject]

/-- A deposit is rejected before any statement, or reaches its write stage. -/
theorem setorHandler_cases (env : Env) (u : User) (body : SetorBody) (w : World) :
    ((setorHandler env u body w).world = w ∧ (setorHandler env u body w).trace = [] ∧
      (setorHandler env u body w).resp.flash.type = "error") ∨
    (∃ sid A, body.santri_id = some sid ∧ parseInt body.jumlah = some A ∧ 0 < A ∧
      env.canQuery = true ∧ setorHandler env u body w = setorWrite env u body w sid A) := by
  unfold setorHandler
  split
  · rename_i sid A hsid hA
    by_cases hv : A = 0 ∨ A ≤ 0
    · left; simp [hv, reject]
    · by_cases hq : env.canQuery = true
      · right; exact ⟨sid, A, hsid, hA, by omega, hq, by simp [hv, hq]⟩
      · left; simp [hv, hq, reject]
  · left; simp [reject]

/-- A withdrawal is rejected after at most the lookup, or reaches its write stage. -/
theorem tarikHandler_cases (env : Env) (u : User) (body : TarikBody) (w : World) :
    ((tarikHandler env u body w).world = w ∧
      (tarikHandler env u body w).accepted = false ∧
      (tarikHandler env u body w).resp.flash.type = "error") ∨
    (∃ sid A s, body.santri_id = some sid ∧ parseInt body.jumlah = some A ∧ 0 < A ∧
      env.canQuery = true ∧ env.rejects Stmt.selectSantri = false ∧
      w.db.selectSantri sid = some s ∧ A ≤ s.saldo ∧
      tarikHandler env u body w = tarikWrite env u body w sid A) := by
  unfold tarikHandler
  split
  · rename_i sid A hsid hA
    by_cases hv : A = 0 ∨ A ≤ 0
    · left; simp [hv, reject, Result.accepted]
    · by_cases hq : env.canQuery = true
      · by_cases hr : env.rejects Stmt.selectSantri = true
        · left; simp [hv, hq, hr, reject, Result.accepted]
        · cases hs : w.db.selectSantri sid with
          | none => left; simp [hv, hq, hr, reject, Result.accepted]
          | some s =>
            by_cases hlt : s.saldo < A
            · left; simp [hv, hq, hr, hlt, reject, Result.accepted]
            · right
              exact ⟨sid, A, s, hsid, hA, by omega, hq, by simpa using hr, hs, by omega,
                by simp [hv, hq, hr, hlt]⟩
      · left; simp [hv, hq, reject, Result.accepted]
  · left; simp [reject, Result.accepted]

/-- A reversal is rejected after at most the lookup, or processes the single
row the lookup found. -/
theorem hapusHandler_cases (env : Env) (u : User) (body : HapusBody) (w : World) :
    ((hapusHandler env u body w).world = w ∧
      (hapusHandler env u body w).resp.flash.type = "error") ∨
    (∃ t, env.canQuery = true ∧ env.rejects Stmt.selectTransaksi = false ∧
      w.db.selectTransaksi (jsTrim (body.trx.getD "")) = [t] ∧
      hapusHandler env u body w = hapusRow env u t w) := by
  unfold hapusHandler
  simp only
  by_cases he : jsTrim (body.trx.getD "") = ""
  · left; simp [he, reject]
  · by_cases hq : env.canQuery = true
    · by_cases hr : env.rejects Stmt.selectTransaksi = true
      · left; simp [he, hq, hr, reject]
      · simp only [he, hq, hr, if_false, Bool.not_true, Bool.false_eq_true]
        split
        · left; simp [reject]
        · rename_i t ht
          refine Or.inr ⟨t, ?_, ?_, ht, rfl⟩ <;> simp_all
        · left; simp [reject]
    · left; simp [he, hq, reject]

/-! ## The ledger equation, statement by statement -/

theorem ledgerSum_append (l : List Transaksi) (t : Transaksi) (sid : Int) :
    ledgerSum (l ++ [t]) sid = ledgerSum l sid + contribution sid t := by
  simp [ledgerSum]

theorem ledgerSum_filter_split (p : Transaksi → Bool) (l : List Transaksi) (sid : Int) :
    ledgerSum l sid =
      ledgerSum (l.filter p) sid + ledgerSum (l.filter (fun x => !p x)) sid := by
  induction l with
  | nil => simp [ledgerSum]
  | cons a l ih =>
    simp only [ledgerSum, List.map_cons, List.sum_cons, List.filter_cons] at ih ⊢
    cases hp : p a <;> simp [ih] <;> ring

theorem filter_singleton_of_imp {p q : Transaksi → Bool} {l : List Transaksi} {t : Transaksi}
    (h : l.filter p = [t]) (hqp : ∀ x, q x = true → p x = true) (hq : q t = true) :
    l.filter q = [t] := by
  have : l.filter q = (l.filter p).filter q := by
    rw [List.filter_filter]
    congr 1
    funext a
    cases hqa : q a
    · simp
    · simp [hqp a hqa]
  rw [this, h]
  simp [hq]

theorem selectTransaksi_singleton {db : Db} {x : String} {t : Transaksi}
    (h : db.selectTransaksi x = [t]) :
    db.transaksi.filter (fun r => r.trx_no == t.trx_no) = [t] := by
  unfold Db.selectTransaksi at h
  have ht : t ∈ db.transaksi.filter (matchesInput x) := by rw [h]; simp
  have hm := (List.mem_filter.mp ht).2
  refine filter_singleton_of_imp h ?_ (by simp)
  intro r hr
  have hrt : r.trx_no = t.trx_no := by simpa using hr
  unfold matchesInput at hm ⊢
  rw [hrt]
  exact hm

theorem ledgerSum_delete {l : List Transaksi} {t : Transaksi}
    (h : l.filter (fun r => r.trx_no == t.trx_no) = [t]) (sid : Int) :
    ledgerSum (l.filter (fun r => r.trx_no != t.trx_no)) sid =
      ledgerSum l sid - contribution sid t := by
  have := ledgerSum_filter_split (fun r => r.trx_no == t.trx_no) l sid
  rw [h] at this
  have e : (fun r : Transaksi => !(r.trx_no == t.trx_no)) = (fun r => r.trx_no != t.trx_no) := rfl
  rw [e] at this
  rw [this]
  simp [ledgerSum]

theorem ledgerAt_step {db db1 : Db} {sid delta : Int} {id : Option Int}
    (hs : db1.santri = db.santri.map (addSaldo delta id))
    (ht : ledgerSum db1.transaksi sid =
      ledgerSum db.transaksi sid + (if id = some sid then delta else 0))
    (h : LedgerAt db sid) : LedgerAt db1 sid := by
  intro s hmem hid
  rw [hs] at hmem
  obtain ⟨s0, hs0, rfl⟩ := List.mem_map.mp hmem
  rw [addSaldo_id] at hid
  have h0 := h s0 hs0 hid
  rw [ht]
  unfold addSaldo
  by_cases hc : some s0.id = id
  · have : id = some sid := by rw [← hc, hid]
    simp [hc, this, h0]
  · have : ¬ id = some sid := by
      intro hh; apply hc; rw [hh, hid]
    simp [hc, this, h0]

theorem ledgerAt_same {db db1 : Db} {sid : Int}
    (hs : db1.santri = db.santri) (ht : ledgerSum db1.transaksi sid = ledgerSum db.transaksi sid)
    (h : LedgerAt db sid) : LedgerAt db1 sid := by
  intro s hmem hid
  rw [hs] at hmem
  rw [ht]
  exact h s hmem hid

theorem allSucceed_false_of_mem {r : Result} {s : Stmt} (h : (s, false) ∈ r.trace) :
    r.allSucceed = false := by
  unfold Result.allSucceed
  rw [Bool.eq_false_iff]
  intro hall
  have := List.all_eq_true.mp hall _ h
  simp at this

theorem setor_ledger_step (env : Env) (session : Option User) (body : SetorBody) (w : World)
    (sid : Int) (hok : (postSetor env session body w).allSucceed = true)
    (h : LedgerAt w.db sid) : LedgerAt (postSetor env session body w).world.db sid := by
  unfold postSetor at hok ⊢
  rcases route_cases "kasir" session w (fun u => setorHandler env u body w) with hr | ⟨u, -, -, hr⟩
  · rw [hr.1]; exact h
  · rw [hr] at hok ⊢
    rcases setorHandler_cases env u body w with hc | ⟨sid1, A, hsid, hA, hpos, hq, hc⟩
    · rw [hc.1]; exact h
    · rw [hc] at hok ⊢
      rcases setorWrite_cases env u body w sid1 A with h1 | h2 | h3
      · rw [allSucceed_false_of_mem (s := Stmt.updateSaldo) (by rw [h1.2]; simp)] at hok
        simp at hok
      · rw [allSucceed_false_of_mem (s := Stmt.insertTransaksi) (by rw [h2.2.2]; simp)] at hok
        simp at hok
      · refine ledgerAt_step h3.1 ?_ h
        rw [h3.2.1, ledgerSum_append]
        simp [contribution]

theorem tarik_ledger_step (env : Env) (session : Option User) (body : TarikBody) (w : World)
    (sid : Int) (hok : (postTarik env session body w).allSucceed = true)
    (h : LedgerAt w.db sid) : LedgerAt (postTarik env session body w).world.db sid := by
  unfold postTarik at hok ⊢
  rcases route_cases "kasir" session w (fun u => tarikHandler env u body w) with hr | ⟨u, -, -, hr⟩
  · rw [hr.1]; exact h
  · rw [hr] at hok ⊢
    rcases tarikHandler_cases env u body w with hc | ⟨sid1, A, s, hsid, hA, hpos, hq, -, -, -, hc⟩
    · rw [hc.1]; exact h
    · rw [hc] at hok ⊢
      rcases tarikWrite_cases env u body w sid1 A with h1 | h2 | h3
      · rw [allSucceed_false_of_mem (s := Stmt.updateSaldo) (by rw [h1.2]; simp)] at hok
        simp at hok
      · rw [allSucceed_false_of_mem (s := Stmt.insertTransaksi) (by rw [h2.2.2.2]; simp)] at hok
        simp at hok
      · refine ledgerAt_step h3.1 ?_ h
        rw [h3.2.1, ledgerSum_append]
        simp [contribution]

theorem contribution_revert (t : Transaksi) (sid : Int) :
    - contribution sid t =
      match revertDelta t with
      | none => 0
      | some delta => if t.santri_id = some sid then delta else 0 := by
  unfold contribution revertDelta
  by_cases h1 : t.tipe = "tarik"
  · simp [h1]; split <;> simp
  · by_cases h2 : t.tipe = "setor"
    · simp [h2]; split <;> simp
    · simp [h1, h2]

theorem hapus_ledger_step (env : Env) (session : Option User) (body : HapusBody) (w : World)
    (sid : Int) (hok : (postHapus env session body w).allSucceed = true)
    (h : LedgerAt w.db sid) : LedgerAt (postHapus env session body w).world.db sid := by
  unfold postHapus at hok ⊢
  rcases route_cases "admin" session w (fun u => hapusHandler env u body w) with hr | ⟨u, -, -, hr⟩
  · rw [hr.1]; exact h
  · rw [hr] at hok ⊢
    rcases hapusHandler_cases env u body w with hc | ⟨t, -, -, hsel, hc⟩
    · rw [hc.1]; exact h
    · rw [hc] at hok ⊢
      rcases hapusRow_cases env u t w with h1 | h2 | h3
      · rw [h1.1]; exact h
      · rw [allSucceed_false_of_mem h2.2.2.2.1] at hok
        simp at hok
      · have hsum := ledgerSum_delete (selectTransaksi_singleton hsel) sid
        have hcr := contribution_revert t sid
        have hs := h3.1
        unfold revertSantri at hs
        cases hd : revertDelta t with
        | none =>
          rw [hd] at hs hcr
          simp only at hs hcr
          refine ledgerAt_same hs ?_ h
          rw [h3.2.1, hsum]; omega
        | some delta =>
          rw [hd] at hs hcr
          simp only at hs hcr
          refine ledgerAt_step hs ?_ h
          rw [h3.2.1, hsum, ← hcr]; ring

theorem handle_ledger_step (c : Call) (w : World) (sid : Int)
    (hok : (handle c w).allSucceed = true) (h : LedgerAt w.db sid) :
    LedgerAt (handle c w).world.db sid := by
  unfold handle at hok ⊢
  cases hreq : c.req with
  | setor body => rw [hreq] at hok; exact setor_ledger_step _ _ _ _ _ hok h
  | tarik body => rw [hreq] at hok; exact tarik_ledger_step _ _ _ _ _ hok h
  | hapus body => rw [hreq] at hok; exact hapus_ledger_step _ _ _ _ _ hok h

theorem accepted_false_of_trace_nil {r : Result} (h : r.trace = []) : r.accepted = false := by
  simp [Result.accepted, h]

theorem setor_saldo_step (env : Env) (session : Option User) (body : SetorBody) (w : World)
    (sid : Int) (hok : (postSetor env session body w).allSucceed = true) :
    saldoOf (postSetor env session body w).world.db sid =
      (saldoOf w.db sid).map (fun b => b +
        (if (postSetor env session body w).accepted && body.santri_id = some sid
          then (parseInt body.jumlah).getD 0 else 0)) := by
  unfold postSetor at hok ⊢
  rcases route_cases "kasir" session w (fun u => setorHandler env u body w) with hr | ⟨u, -, -, hr⟩
  · rw [hr.1, accepted_false_of_trace_nil hr.2.1]; simp
  · rw [hr] at hok ⊢
    rcases setorHandler_cases env u body w with hc | ⟨sid1, A, hsid, hA, hpos, hq, hc⟩
    · rw [hc.1, accepted_false_of_trace_nil hc.2.1]; simp
    · rw [hc] at hok ⊢
      rcases setorWrite_cases env u body w sid1 A with h1 | h2 | h3
      · rw [allSucceed_false_of_mem (s := Stmt.updateSaldo) (by rw [h1.2]; simp)] at hok
        simp at hok
      · rw [allSucceed_false_of_mem (s := Stmt.insertTransaksi) (by rw [h2.2.2]; simp)] at hok
        simp at hok
      · rw [saldoOf_of_map h3.1, h3.2.2.2, hsid, hA]
        congr 1
        funext b
        by_cases hs : sid = sid1
        · simp [hs]
        · have : ¬ sid1 = sid := fun h => hs h.symm
          simp [hs, this]

theorem tarik_saldo_step (env : Env) (session : Option User) (body : TarikBody) (w : World)
    (sid : Int) (hok : (postTarik env session body w).allSucceed = true) :
    saldoOf (postTarik env session body w).world.db sid =
      (saldoOf w.db sid).map (fun b => b -
        (if (postTarik env session body w).accepted && body.santri_id = some sid
          then (parseInt body.jumlah).getD 0 else 0)) := by
  unfold postTarik at hok ⊢
  rcases route_cases "kasir" session w (fun u => tarikHandler env u body w) with hr | ⟨u, -, -, hr⟩
  · rw [hr.1, accepted_false_of_trace_nil hr.2.1]; simp
  · rw [hr] at hok ⊢
    rcases tarikHandler_cases env u body w with hc | ⟨sid1, A, s, hsid, hA, hpos, hq, -, -, -, hc⟩
    · rw [hc.1, hc.2.1]; simp
    · rw [hc] at hok ⊢
      rcases tarikWrite_cases env u body w sid1 A with h1 | h2 | h3
      · rw [allSucceed_false_of_mem (s := Stmt.updateSaldo) (by rw [h1.2]; simp)] at hok
        simp at hok
      · rw [allSucceed_false_of_mem (s := Stmt.insertTransaksi) (by rw [h2.2.2.2]; simp)] at hok
        simp at hok
      · rw [saldoOf_of_map h3.1, h3.2.2.2, hsid, hA]
        congr 1
        funext b
        by_cases hs : sid = sid1
        · simp [hs]; ring
        · have : ¬ sid1 = sid := fun h => hs h.symm
          simp [hs, this]

theorem run_saldo (cs : List Call) : ∀ (w : World) (sid b : Int),
    allSucceed w cs = true → cs.all Call.isSetorTarik = true → saldoOf w.db sid = some b →
    saldoOf (run w cs).db sid =
      some (b + acceptedDeposits sid w cs - acceptedWithdrawals sid w cs) := by
  induction cs with
  | nil => intro w sid b _ _ hb; simp [run, acceptedDeposits, acceptedWithdrawals, hb]
  | cons c cs ih =>
    intro w sid b hok hall hb
    simp only [allSucceed, Bool.and_eq_true] at hok
    simp only [List.all_cons, Bool.and_eq_true] at hall
    simp only [run, acceptedDeposits, acceptedWithdrawals]
    cases hreq : c.req with
    | setor body =>
      have hstep := setor_saldo_step c.env c.session body w sid
        (by have := hok.1; simpa [handle, hreq] using this)
      have hh : handle c w = postSetor c.env c.session body w := by simp [handle, hreq]
      rw [hb] at hstep
      rw [ih (handle c w).world sid _ hok.2 hall.2 (by rw [hh]; exact hstep)]
      simp only [hh, Option.some.injEq]
      ring
    | tarik body =>
      have hstep := tarik_saldo_step c.env c.session body w sid
        (by have := hok.1; simpa [handle, hreq] using this)
      have hh : handle c w = postTarik c.env c.session body w := by simp [handle, hreq]
      rw [hb] at hstep
      rw [ih (handle c w).world sid _ hok.2 hall.2 (by rw [hh]; exact hstep)]
      simp only [hh, Option.some.injEq]
      ring
    | hapus body => simp [Call.isSetorTarik, hreq] at hall

theorem run_ledger (cs : List Call) : ∀ (w : World) (sid : Int),
    allSucceed w cs = true → LedgerAt w.db sid → ∀ k, LedgerAt (run w (cs.take k)).db sid := by
  induction cs with
  | nil => intro w sid _ h k; simpa [run] using h
  | cons c cs ih =>
    intro w sid hok h k
    simp only [allSucceed, Bool.and_eq_true] at hok
    cases k with
    | zero => simpa [run] using h
    | succ k =>
      simp only [List.take_succ_cons, run]
      exact ih _ sid hok.2 (handle_ledger_step c w sid hok.1 h) k

theorem setorHandler_eq_write {env : Env} {u : User} {body : SetorBody} {w : World}
    {sid A : Int} (hq : env.canQuery = true) (hsid : body.santri_id = some sid)
    (hA : parseInt body.jumlah = some A) (hpos : 0 < A) :
    setorHandler env u body w = setorWrite env u body w sid A := by
  have hne : ¬ (A = 0 ∨ A ≤ 0) := by omega
  simp [setorHandler, hsid, hA, hne, hq]

theorem tarikHandler_eq_write {env : Env} {u : User} {body : TarikBody} {w : World}
    {sid A : Int} {s : Santri} (hq : env.canQuery = true)
    (hr : env.rejects Stmt.selectSantri = false) (hsid : body.santri_id = some sid)
    (hA : parseInt body.jumlah = some A) (hpos : 0 < A)
    (hs : w.db.selectSantri sid = some s) (hle : A ≤ s.saldo) :
    tarikHandler env u body w = tarikWrite env u body w sid A := by
  have hne : ¬ (A = 0 ∨ A ≤ 0) := by omega
  have hlt : ¬ s.saldo < A := by omega
  simp [tarikHandler, hsid, hA, hne, hq, hr, hs, hlt]

/-- Whatever happens in the write stage of a withdrawal, the balance statement
was issued and the response is not one of the two rejections. -/
theorem tarikWrite_issued (env : Env) (u : User) (body : TarikBody) (w : World) (sid A : Int) :
    (∃ ok, (Stmt.updateSaldo, ok) ∈ (tarikWrite env u body w sid A).trace) ∧
    (tarikWrite env u body w sid A).resp.flash.message ≠ "Saldo tidak cukup untuk penarikan." ∧
    (tarikWrite env u body w sid A).resp.flash.message ≠ "Santri tidak ditemukan." := by
  unfold tarikWrite
  cases h1 : runStmt env Stmt.updateSaldo (w.db.updateSaldo (-A) (some sid)) with
  | none => simp [reject]
  | some db1 =>
    simp only
    cases h2 : runStmt env Stmt.insertTransaksi
        (db1.insertTransaksi ⟨env.trx_no, some sid, cashierId u, "tarik", A,
          orNull body.keterangan, none, none, none⟩) with
    | none => simp [reject]
    | some db2 =>
      simp only [generatePenarikanPDF_eq]
      by_cases hp : env.pdfFails = true
      · simp [hp, reject]
      · by_cases hr : env.rejects Stmt.updatePdfPath = true
        · simp [hp, hr, runStmt, reject]
        · simp [hp, hr, runStmt]

theorem not_mem_of_saldoOf_none {db : Db} {sid : Int} (h : saldoOf db sid = none) :
    ∀ s ∈ db.santri, s.id ≠ sid := by
  intro s hs hid
  have hf : db.santri.find? (fun s => s.id == sid) = none := by
    simpa [saldoOf, Db.selectSantri] using h
  have := List.find?_eq_none.mp hf s hs
  simp [hid] at this

theorem map_addSaldo_of_absent {l : List Santri} {sid : Int} (delta : Int)
    (h : ∀ s ∈ l, s.id ≠ sid) : l.map (addSaldo delta (some sid)) = l := by
  induction l with
  | nil => rfl
  | cons a l ih =>
    have ha : a.id ≠ sid := h a (List.mem_cons_self _ _)
    simp only [List.map_cons, addSaldo, Option.some.injEq, ha, if_false]
    rw [ih (fun s hs => h s (List.mem_cons_of_mem _ hs))]

theorem insertTransaksi_of_absent {db : Db} {row : Transaksi} {sid : Int}
    (hrow : row.santri_id = some sid) (h : ∀ s ∈ db.santri, s.id ≠ sid) :
    db.insertTransaksi row = none := by
  unfold Db.insertTransaksi
  have : db.santri.any (fun s => s.id == sid) = false := by
    rw [List.any_eq_false]
    intro s hs
    simpa using h s hs
  simp [hrow, this]

/-- The write stage of a deposit for a student that does not exist. -/
theorem setorWrite_unknown (env : Env) (u : User) (body : SetorBody) (w : World) (sid A : Int)
    (h : saldoOf w.db sid = none) :
    (setorWrite env u body w sid A).world = w ∧
    (setorWrite env u body w sid A).resp.flash = ⟨"error", "Gagal mencatat setoran."⟩ ∧
    (setorWrite env u body w sid A).accepted = false := by
  have habs := not_mem_of_saldoOf_none h
  unfold setorWrite
  cases h1 : runStmt env Stmt.updateSaldo (w.db.updateSaldo A (some sid)) with
  | none => simp [reject, Result.accepted]
  | some db1 =>
    have e1 := updateSaldo_eq_some (runStmt_eq_some h1).2
    rw [map_addSaldo_of_absent A habs] at e1
    have e1' : db1 = w.db := e1
    clear e1
    rw [e1'] at h1 ⊢
    have hins : runStmt env Stmt.insertTransaksi
        (w.db.insertTransaksi ⟨env.trx_no, some sid, cashierId u, "setor", A,
          orNull body.keterangan, none, none, none⟩) = none := by
      rw [insertTransaksi_of_absent rfl habs]
      unfold runStmt
      split <;> rfl
    simp [hins, reject, Result.accepted]

/-- In an accepted deposit only the audit statement can have failed. -/
theorem setorWrite_accepted_trace (env : Env) (u : User) (body : SetorBody) (w : World)
    (sid A : Int) (h : (setorWrite env u body w sid A).accepted = true) :
    ∀ e ∈ (setorWrite env u body w sid A).trace, e.2 = false → e.1 = Stmt.insertAudit := by
  unfold setorWrite at h ⊢
  cases hu1 : runStmt env Stmt.updateSaldo (w.db.updateSaldo A (some sid)) with
  | none => simp [hu1, reject, Result.accepted] at h
  | some db1 =>
    simp only [hu1] at h ⊢
    cases hu2 : runStmt env Stmt.insertTransaksi
        (db1.insertTransaksi ⟨env.trx_no, some sid, cashierId u, "setor", A,
          orNull body.keterangan, none, none, none⟩) with
    | none => simp [hu2, reject, Result.accepted] at h
    | some db2 =>
      intro e he hf
      simp only [List.cons_append, List.nil_append, List.mem_cons] at he
      rcases he with rfl | rfl | he
      · simp at hf
      · simp at hf
      · exact logAudit_trace _ _ _ _ _ _ _ e he

theorem hapusHandler_eq_row {env : Env} {u : User} {body : HapusBody} {w : World}
    {t : Transaksi} (hne : jsTrim (body.trx.getD "") ≠ "") (hq : env.canQuery = true)
    (hr : env.rejects Stmt.selectTransaksi = false)
    (hsel : w.db.selectTransaksi (jsTrim (body.trx.getD "")) = [t]) :
    hapusHandler env u body w = hapusRow env u t w := by
  unfold hapusHandler
  simp [hne, hq, hr, hsel]

theorem filter_singleton_split {p : Transaksi → Bool} {l : List Transaksi} {t : Transaksi}
    (h : l.filter p = [t]) :
    ∃ l1 l2, l = l1 ++ t :: l2 ∧ l.filter (fun x => !p x) = l1 ++ l2 := by
  induction l with
  | nil => simp at h
  | cons a l ih =>
    rw [List.filter_cons] at h
    cases hp : p a
    · simp only [hp, Bool.false_eq_true, if_false] at h
      obtain ⟨l1, l2, h1, h2⟩ := ih h
      refine ⟨a :: l1, l2, by simp [h1], ?_⟩
      simp [List.filter_cons, hp, h2]
    · simp only [hp, if_true, List.cons.injEq] at h
      obtain ⟨rfl, hnil⟩ := h
      refine ⟨[], l, rfl, ?_⟩
      simp only [List.filter_cons, hp, Bool.not_true, Bool.false_eq_true, if_false,
        List.nil_append]
      rw [List.filter_eq_self]
      intro x hx
      have := List.filter_eq_nil_iff.mp hnil x hx
      simpa using this

theorem saldoOf_revert {db db1 : Db} {t : Transaksi}
    (h : db1.santri = revertSantri t db.santri) :
    (∀ sid b, t.santri_id = some sid → saldoOf db sid = some b →
      (t.tipe = "tarik" → saldoOf db1 sid = some (b + t.jumlah)) ∧
      (t.tipe = "setor" → saldoOf db1 sid = some (b - t.jumlah))) ∧
    (∀ other, t.santri_id ≠ some other → saldoOf db1 other = saldoOf db other) := by
  unfold revertSantri at h
  cases hd : revertDelta t with
  | none =>
    rw [hd] at h
    simp only at h
    have hsame : ∀ x, saldoOf db1 x = saldoOf db x := by
      intro x; simp [saldoOf, Db.selectSantri, h]
    unfold revertDelta at hd
    refine ⟨?_, fun other _ => hsame other⟩
    intro sid b _ _
    constructor
    · intro ht; simp [ht] at hd
    · intro ht; simp [ht] at hd
  | some delta =>
    rw [hd] at h
    simp only at h
    have hmap := saldoOf_of_map h
    unfold revertDelta at hd
    refine ⟨?_, ?_⟩
    · intro sid b hsid hb
      rw [hmap, hb, hsid]
      constructor
      · intro ht
        simp only [ht, if_true, Option.some.injEq] at hd
        simp [hd]
      · intro ht
        simp only [ht, if_true, Option.some.injEq] at hd
        have : ¬ ("setor" = "tarik") := by decide
        simp only [this, if_false, Option.some.injEq] at hd
        simp only [if_true, Option.map_some', Option.some.injEq]
        omega
    · intro other ho
      rw [hmap]
      have : ¬ some other = t.santri_id := fun h => ho h.symm
      cases saldoOf db other <;> simp [this]

/-- A successful reversal processed the single row its lookup found. -/
theorem postHapus_success {env : Env} {session : Option User} {body : HapusBody} {w : World}
    (h : (postHapus env session body w).resp.flash.type = "success") :
    ∃ u t, w.db.selectTransaksi (jsTrim (body.trx.getD "")) = [t] ∧
      postHapus env session body w = hapusRow env u t w ∧
      (hapusRow env u t w).world.db.transaksi =
        w.db.transaksi.filter (fun x => x.trx_no != t.trx_no) := by
  unfold postHapus at h ⊢
  rcases route_cases "admin" session w (fun u => hapusHandler env u body w) with
    hr | ⟨u, -, -, hr⟩
  · rw [hr.2.2] at h; exact absurd h (by decide)
  · rw [hr] at h ⊢
    rcases hapusHandler_cases env u body w with hc | ⟨t, -, -, hsel, hc⟩
    · rw [hc.2] at h; exact absurd h (by decide)
    · rw [hc] at h ⊢
      refine ⟨u, t, hsel, rfl, ?_⟩
      rcases hapusRow_cases env u t w with h1 | h2 | h3
      · rw [h1.2.2] at h; exact absurd h (by decide)
      · rw [h2.2.2.2.2.1] at h; exact absurd h (by decide)
      · exact h3.2.1

theorem selectTransaksi_after_delete {db db1 : Db} {x : String} {t : Transaksi}
    (hsel : db.selectTransaksi x = [t])
    (h : db1.transaksi = db.transaksi.filter (fun r => r.trx_no != t.trx_no)) :
    db1.selectTransaksi x = [] := by
  unfold Db.selectTransaksi at hsel ⊢
  rw [h, List.filter_filter]
  have : (fun a => matchesInput x a && (a.trx_no != t.trx_no)) =
      (fun a => (a.trx_no != t.trx_no) && matchesInput x a) := by
    funext a; exact Bool.and_comm _ _
  rw [this, ← List.filter_filter, hsel]
  simp

/-- A deposit request naming a student id that does not exist performs no
mutation, in every environment and session: the state after the request is the
state before it and the response is an error; for a cashier with a valid
amount and a database it is the generic response of a failed write. -/
theorem setor_unknown_student_no_mutation (env : Env) (session : Option User) (body : SetorBody)
    (w : World) (sid : Int)
    (hsid : body.santri_id = some sid) (hnone : saldoOf w.db sid = none) :
    (postSetor env session body w).world = w ∧
    (postSetor env session body w).resp.flash.type = "error" ∧
    (∀ u A, session = some u → u.role = "kasir" → env.canQuery = true →
      parseInt body.jumlah = some A → 0 < A →
      (postSetor env session body w).resp.flash = ⟨"error", "Gagal mencatat setoran."⟩) := by
  refine ⟨?_, ?_, ?_⟩
  · unfold postSetor
    rcases route_cases "kasir" session w (fun u => setorHandler env u body w) with
      hr | ⟨u, -, -, hr⟩
    · exact hr.1
    · rw [hr]
      rcases setorHandler_cases env u body w with hc | ⟨sid1, A, hsid1, -, -, -, hc⟩
      · exact hc.1
      · rw [hsid] at hsid1
        cases hsid1
        rw [hc]
        exact (setorWrite_unknown env u body w sid A hnone).1
  · unfold postSetor
    rcases route_cases "kasir" session w (fun u => setorHandler env u body w) with
      hr | ⟨u, -, -, hr⟩
    · exact hr.2.2
    · rw [hr]
      rcases setorHandler_cases env u body w with hc | ⟨sid1, A, hsid1, -, -, -, hc⟩
      · exact hc.2.2
      · rw [hsid] at hsid1
        cases hsid1
        rw [hc, (setorWrite_unknown env u body w sid A hnone).2.1]
  · intro u A hu hrole hq hA hpos
    subst hu
    rw [postSetor, requireRole_some hrole, setorHandler_eq_write hq hsid hA hpos]
    exact (setorWrite_unknown env u body w sid A hnone).2.1

/-- A deposit for the unknown student 7 changes nothing. -/
theorem setor_unknown_student_no_mutation_example :
    saldoOf exWorld.db 7 = none ∧
    (postSetor exEnv (some exKasir) ⟨some 7, some "50000", none⟩ exWorld).world = exWorld :=
  ⟨by decide, (setor_unknown_student_no_mutation exEnv (some exKasir) ⟨some 7, some "50000", none⟩ exWorld 7
    (by decide) (by decide)).1⟩

theorem updateSaldo_audit {db db1 : Db} {delta : Int} {id : Option Int}
    (h : db.updateSaldo delta id = some db1) :
    db1.audit_logs = db.audit_logs ∧ db1.transaksi = db.transaksi ∧ db1.users = db.users := by
  rw [updateSaldo_eq_some h]; simp

/-- A withdrawal whose row was inserted, and everything that follows from it. -/
theorem postTarik_accepted {env : Env} {session : Option User} {body : TarikBody} {w : World}
    (h : (postTarik env session body w).accepted = true) :
    ∃ u sid A s, session = some u ∧ u.role = "kasir" ∧ body.santri_id = some sid ∧
      parseInt body.jumlah = some A ∧ 0 < A ∧ w.db.selectSantri sid = some s ∧ A ≤ s.saldo ∧
      postTarik env session body w = tarikWrite env u body w sid A := by
  unfold postTarik at h ⊢
  rcases route_cases "kasir" session w (fun u => tarikHandler env u body w) with
    hr | ⟨u, hu, hrole, hr⟩
  · rw [accepted_false_of_trace_nil hr.2.1] at h; cases h
  · rw [hr] at h ⊢
    rcases tarikHandler_cases env u body w with
      hc | ⟨sid, A, s, hsid, hA, hpos, -, -, hs, hle, hc⟩
    · rw [hc.2.1] at h; cases h
    · exact ⟨u, sid, A, s, hu, hrole, hsid, hA, hpos, hs, hle, hc⟩

/-- The write stage of a withdrawal whose row was inserted and whose receipt
could not be written. -/
theorem tarikWrite_pdfFails (env : Env) (u : User) (body : TarikBody) (w : World) (sid A : Int)
    (hacc : (tarikWrite env u body w sid A).accepted = true) (hpdf : env.pdfFails = true) :
    (tarikWrite env u body w sid A).resp =
      ⟨⟨"error", "Gagal memproses penarikan."⟩, "/transaksi/tarik"⟩ ∧
    (tarikWrite env u body w sid A).trace =
      [(Stmt.selectSantri, true), (Stmt.updateSaldo, true), (Stmt.insertTransaksi, true)] ∧
    (tarikWrite env u body w sid A).world.db.audit_logs = w.db.audit_logs ∧
    (tarikWrite env u body w sid A).world.files = w.files := by
  unfold tarikWrite at hacc ⊢
  cases h1 : runStmt env Stmt.updateSaldo (w.db.updateSaldo (-A) (some sid)) with
  | none => simp [h1, reject, Result.accepted] at hacc
  | some db1 =>
    have e1 := updateSaldo_eq_some (runStmt_eq_some h1).2
    simp only [h1] at hacc ⊢
    cases h2 : runStmt env Stmt.insertTransaksi
        (db1.insertTransaksi ⟨env.trx_no, some sid, cashierId u, "tarik", A,
          orNull body.keterangan, none, none, none⟩) with
    | none => simp [h2, reject, Result.accepted] at hacc
    | some db2 =>
      have e2 := (insertTransaksi_eq_some (runStmt_eq_some h2).2).1
      simp [generatePenarikanPDF_eq, hpdf, reject, e2, e1]

theorem insertTransaksi_of_collision {db : Db} {row : Transaksi}
    (h : ∃ t ∈ db.transaksi, t.trx_no = row.trx_no) : db.insertTransaksi row = none := by
  obtain ⟨t, ht, heq⟩ := h
  unfold Db.insertTransaksi
  have : db.transaksi.all (fun t => t.trx_no != row.trx_no) = false := by
    rw [Bool.eq_false_iff]
    intro hall
    have := List.all_eq_true.mp hall t ht
    simp [heq] at this
  simp [this]

theorem logAudit_attempts (env : Env) (session : Option User) (action entity : String)
    (entity_id : Option String) (details : List (String × JsonValue)) (db : Db) :
    ((logAudit env session action entity entity_id details db).2.filter
      (fun e => e.1 == Stmt.insertTransaksi)) = [] := by
  rw [List.filter_eq_nil_iff]
  intro e he
  rw [logAudit_trace _ _ _ _ _ _ _ e he]
  decide

/-- The write stage of a deposit issues its insert at most once, and a
generated identifier that is already taken makes it fail after the balance
update. -/
theorem setorWrite_collision (env : Env) (u : User) (body : SetorBody) (w : World)
    (sid A : Int) :
    (setorWrite env u body w sid A).insertAttempts ≤ 1 ∧
    ((∃ t ∈ w.db.transaksi, t.trx_no = env.trx_no) →
      (setorWrite env u body w sid A).resp.flash = ⟨"error", "Gagal mencatat setoran."⟩ ∧
      (setorWrite env u body w sid A).world.db.transaksi = w.db.transaksi ∧
      ((setorWrite env u body w sid A).trace = [(Stmt.updateSaldo, false)] ∨
        (setorWrite env u body w sid A).trace =
          [(Stmt.updateSaldo, true), (Stmt.insertTransaksi, false)] ∧
        (setorWrite env u body w sid A).world.db.santri =
          w.db.santri.map (addSaldo A (some sid)))) := by
  unfold setorWrite
  cases h1 : runStmt env Stmt.updateSaldo (w.db.updateSaldo A (some sid)) with
  | none => simp [reject, Result.insertAttempts]
  | some db1 =>
    have e1 := updateSaldo_eq_some (runStmt_eq_some h1).2
    simp only
    cases h2 : runStmt env Stmt.insertTransaksi
        (db1.insertTransaksi ⟨env.trx_no, some sid, cashierId u, "setor", A,
          orNull body.keterangan, none, none, none⟩) with
    | none => simp [reject, Result.insertAttempts, e1]
    | some db2 =>
      refine ⟨?_, ?_⟩
      · simp [Result.insertAttempts, List.filter_cons, logAudit_attempts]
      · intro hcol
        have hcol1 : ∃ t ∈ db1.transaksi, t.trx_no = env.trx_no := by
          rw [e1]; exact hcol
        have := @insertTransaksi_of_collision db1 (⟨env.trx_no, some sid, cashierId u,
          "setor", A, orNull body.keterangan, none, none, none⟩) hcol1
        rw [this] at h2
        unfold runStmt at h2
        split at h2 <;> cases h2

/-- The write stage of a withdrawal issues its insert at most once, and a
generated identifier that is already taken makes it fail after the balance
update. -/
theorem tarikWrite_collision (env : Env) (u : User) (body : TarikBody) (w : World)
    (sid A : Int) :
    (tarikWrite env u body w sid A).insertAttempts ≤ 1 ∧
    ((∃ t ∈ w.db.transaksi, t.trx_no = env.trx_no) →
      (tarikWrite env u body w sid A).resp.flash = ⟨"error", "Gagal memproses penarikan."⟩ ∧
      (tarikWrite env u body w sid A).world.db.transaksi = w.db.transaksi ∧
      ((tarikWrite env u body w sid A).trace =
          [(Stmt.selectSantri, true), (Stmt.updateSaldo, false)] ∨
        (tarikWrite env u body w sid A).trace =
          [(Stmt.selectSantri, true), (Stmt.updateSaldo, true),
            (Stmt.insertTransaksi, false)] ∧
        (tarikWrite env u body w sid A).world.db.santri =
          w.db.santri.map (addSaldo (-A) (some sid)))) := by
  unfold tarikWrite
  cases h1 : runStmt env Stmt.updateSaldo (w.db.updateSaldo (-A) (some sid)) with
  | none => simp [reject, Result.insertAttempts]
  | some db1 =>
    have e1 := updateSaldo_eq_some (runStmt_eq_some h1).2
    simp only
    cases h2 : runStmt env Stmt.insertTransaksi
        (db1.insertTransaksi ⟨env.trx_no, some sid, cashierId u, "tarik", A,
          orNull body.keterangan, none, none, none⟩) with
    | none => simp [reject, Result.insertAttempts, e1]
    | some db2 =>
      refine ⟨?_, ?_⟩
      · simp only [generatePenarikanPDF_eq]
        by_cases hp : env.pdfFails = true
        · simp [hp, reject, Result.insertAttempts, List.filter_cons]
        · by_cases hr : env.rejects Stmt.updatePdfPath = true
          · simp [hp, hr, runStmt, reject, Result.insertAttempts, List.filter_cons]
          · simp [hp, hr, runStmt, Result.insertAttempts, List.filter_cons, logAudit_attempts]
      · intro hcol
        have hcol1 : ∃ t ∈ db1.transaksi, t.trx_no = env.trx_no := by
          rw [e1]; exact hcol
        have := @insertTransaksi_of_collision db1 (⟨env.trx_no, some sid, cashierId u,
          "tarik", A, orNull body.keterangan, none, none, none⟩) hcol1
        rw [this] at h2
        unfold runStmt at h2
        split at h2 <;> cases h2

/-- A withdrawal is rejected without reaching the insert, or reaches its write
stage. -/
theorem tarikHandler_attempts (env : Env) (u : User) (body : TarikBody) (w : World) :
    ((tarikHandler env u body w).world = w ∧ (tarikHandler env u body w).insertAttempts = 0 ∧
      (tarikHandler env u body w).resp.flash.type = "error") ∨
    (∃ sid A, tarikHandler env u body w = tarikWrite env u body w sid A) := by
  unfold tarikHandler
  split
  · rename_i sid A hsid hA
    by_cases hv : A = 0 ∨ A ≤ 0
    · left; simp [hv, reject, Result.insertAttempts]
    · by_cases hq : env.canQuery = true
      · by_cases hr : env.rejects Stmt.selectSantri = true
        · left; simp [hv, hq, hr, reject, Result.insertAttempts]
        · cases hs : w.db.selectSantri sid with
          | none => left; simp [hv, hq, hr, reject, Result.insertAttempts]
          | some s =>
            by_cases hlt : s.saldo < A
            · left; simp [hv, hq, hr, hlt, reject, Result.insertAttempts]
            · right
              exact ⟨sid, A, by simp [hv, hq, hr, hlt]⟩
      · left; simp [hv, hq, reject, Result.insertAttempts]
  · left; simp [reject, Result.insertAttempts]

theorem insertAttempts_of_trace_nil {r : Result} (h : r.trace = []) : r.insertAttempts = 0 := by
  simp [Result.insertAttempts, h]

theorem logAudit_failed {env : Env} {session : Option User} {action entity : String}
    {entity_id : Option String} {details : List (String × JsonValue)} {db : Db}
    (h : (Stmt.insertAudit, false) ∈ (logAudit env session action entity entity_id details db).2) :
    (logAudit env session action entity entity_id details db).1 = db := by
  unfold logAudit at h ⊢
  simp only at h ⊢
  split
  · rfl
  · rename_i hq
    simp only [hq, if_false] at h
    split
    · rfl
    · rename_i db1 hs
      rw [hs] at h
      simp at h

theorem likeMatch_literal (p : List Char) (hp : ∀ c ∈ p, isLikeSpecial c = false) :
    ∀ s, likeMatch p s = decide (s = p) := by
  induction p with
  | nil => intro s; cases s <;> simp [likeMatch]
  | cons c p ih =>
    intro s
    have hc : isLikeSpecial c = false := hp c (List.mem_cons_self _ _)
    have ih' := ih (fun d hd => hp d (List.mem_cons_of_mem _ hd))
    simp only [isLikeSpecial, Bool.or_eq_false_iff, beq_eq_false_iff_ne, ne_eq] at hc
    obtain ⟨⟨h1, h2⟩, h3⟩ := hc
    rw [likeMatch.eq_def]
    simp only [h1, h2, h3, if_false]
    cases s with
    | nil => simp
    | cons d s =>
      simp only [ih' s]
      by_cases hdc : d = c <;> simp [hdc]

theorem likeMatch_suffix (p s : List Char) (hp : ∀ c ∈ p, isLikeSpecial c = false) :
    likeMatch ('%' :: p) s = true ↔ p <:+ s := by
  rw [likeMatch.eq_def]
  simp only [if_true, List.any_eq_true]
  constructor
  · rintro ⟨t, ht, hm⟩
    rw [likeMatch_literal p hp t] at hm
    have : t = p := by simpa using hm
    subst this
    exact (List.mem_tails _ _).mp ht
  · intro h
    exact ⟨p, (List.mem_tails _ _).mpr h, by rw [likeMatch_literal p hp p]; simp⟩

/-! ## Decimal digits -/

theorem digitChar_toNat {d : Nat} (h : d < 10) : (digitChar d).toNat = 48 + d := by
  interval_cases d <;> rfl

theorem digitChar_isDigit {d : Nat} (h : d < 10) : (digitChar d).isDigit = true := by
  interval_cases d <;> rfl

theorem digitsValue_foldl (l : List Char) (a : Nat) :
    l.foldl (fun acc c => 10 * acc + (c.toNat - 48)) a = a * 10 ^ l.length + digitsValue l := by
  unfold digitsValue
  induction l generalizing a with
  | nil => simp
  | cons c l ih =>
    simp only [List.foldl_cons, List.length_cons]
    rw [ih (10 * a + (c.toNat - 48)), ih (10 * 0 + (c.toNat - 48))]
    ring

theorem digitsValue_cons (c : Char) (l : List Char) :
    digitsValue (c :: l) = (c.toNat - 48) * 10 ^ l.length + digitsValue l := by
  have := digitsValue_foldl l (10 * 0 + (c.toNat - 48))
  simp only [Nat.mul_zero, Nat.zero_add] at this
  simpa [digitsValue] using this

theorem digitsValue_append (a b : List Char) :
    digitsValue (a ++ b) = digitsValue a * 10 ^ b.length + digitsValue b := by
  unfold digitsValue
  rw [List.foldl_append]
  exact digitsValue_foldl b _

theorem decimalAux_digits : ∀ (fuel n : Nat) (acc : List Char),
    (∀ c ∈ acc, c.isDigit = true) → ∀ c ∈ decimalAux fuel n acc, c.isDigit = true := by
  intro fuel
  induction fuel with
  | zero => intro n acc h; simpa [decimalAux] using h
  | succ fuel ih =>
    intro n acc h
    unfold decimalAux
    split
    · rename_i hn
      intro c hc
      rcases List.mem_cons.mp hc with rfl | hc
      · exact digitChar_isDigit hn
      · exact h c hc
    · apply ih
      intro c hc
      rcases List.mem_cons.mp hc with rfl | hc
      · exact digitChar_isDigit (Nat.mod_lt _ (by norm_num))
      · exact h c hc

theorem decimalAux_length : ∀ (fuel k n : Nat) (acc : List Char),
    0 < k → k ≤ fuel → n < 10 ^ k → (decimalAux fuel n acc).length ≤ k + acc.length := by
  intro fuel
  induction fuel with
  | zero => intro k n acc hk hf; omega
  | succ fuel ih =>
    intro k n acc hk hf hn
    unfold decimalAux
    split
    · simp; omega
    · rename_i h10
      obtain ⟨j, rfl⟩ : ∃ j, k = j + 1 := ⟨k - 1, by omega⟩
      have hj : 0 < j := by
        rcases Nat.eq_zero_or_pos j with h0 | h0
        · subst h0; simp at hn; omega
        · exact h0
      have hdiv : n / 10 < 10 ^ j := by
        rw [Nat.div_lt_iff_lt_mul (by norm_num)]
        rw [pow_succ] at hn
        exact hn
      have := ih j (n / 10) (digitChar (n % 10) :: acc) hj (by omega) hdiv
      simp only [List.length_cons] at this
      omega

theorem decimalAux_value : ∀ (fuel n : Nat) (acc : List Char),
    n < 10 ^ fuel → digitsValue (decimalAux fuel n acc) = n * 10 ^ acc.length + digitsValue acc := by
  intro fuel
  induction fuel with
  | zero =>
    intro n acc hn
    have : n = 0 := by simpa using hn
    simp [decimalAux, this]
  | succ fuel ih =>
    intro n acc hn
    unfold decimalAux
    split
    · rename_i h10
      rw [digitsValue_cons, digitChar_toNat h10]
      simp
    · rename_i h10
      have hdiv : n / 10 < 10 ^ fuel := by
        rw [Nat.div_lt_iff_lt_mul (by norm_num)]
        rw [pow_succ] at hn
        exact hn
      rw [ih (n / 10) _ hdiv, digitsValue_cons, digitChar_toNat (Nat.mod_lt _ (by norm_num))]
      simp only [List.length_cons, Nat.add_sub_cancel_left, pow_succ]
      have := Nat.div_add_mod n 10
      calc n / 10 * (10 ^ acc.length * 10) + (n % 10 * 10 ^ acc.length + digitsValue acc)
          = (10 * (n / 10) + n % 10) * 10 ^ acc.length + digitsValue acc := by ring
        _ = n * 10 ^ acc.length + digitsValue acc := by rw [this]

/-- The fixed-width decimal text `String(n).padStart(k, '0')` of dayjs. -/
theorem padStart_decimal {k n : Nat} (hk : 0 < k) (hn : n < 10 ^ k) :
    (padStart k '0' (decimal n)).length = k ∧
    (∀ c ∈ padStart k '0' (decimal n), c.isDigit = true) ∧
    digitsValue (padStart k '0' (decimal n)) = n := by
  have hfuel : n < 10 ^ (n + 1) :=
    lt_of_lt_of_le (Nat.lt_pow_self (by norm_num) n) (Nat.pow_le_pow_right (by norm_num) (by omega))
  have hlen : (decimal n).length ≤ k := by
    unfold decimal
    by_cases hkn : k ≤ n + 1
    · simpa using decimalAux_length (n + 1) k n [] hk hkn hn
    · have := decimalAux_length (n + 1) (n + 1) n [] (by omega) (le_refl _) hfuel
      simp at this
      omega
  have hdig : ∀ c ∈ decimal n, c.isDigit = true :=
    decimalAux_digits (n + 1) n [] (by simp)
  have hval : digitsValue (decimal n) = n := by
    unfold decimal
    simpa [digitsValue] using decimalAux_value (n + 1) n [] hfuel
  refine ⟨?_, ?_, ?_⟩
  · simp [padStart]; omega
  · intro c hc
    rcases List.mem_append.mp hc with h | h
    · rw [(List.mem_replicate.mp h).2]; rfl
    · exact hdig c h
  · rw [padStart, digitsValue_append, hval]
    have : digitsValue (List.replicate (k - (decimal n).length) '0') = 0 := by
      generalize k - (decimal n).length = m
      induction m with
      | zero => rfl
      | succ m ih => rw [List.replicate_succ, digitsValue_cons, ih]; simp
    rw [this]; simp

theorem isLowerHex_toLower {c : Char} (h : isLowerHex c = true) :
    (c.isDigit || (decide ('a' ≤ c.toLower) && decide (c.toLower ≤ 'f'))) = true := by
  unfold isLowerHex at h
  rcases Bool.or_eq_true _ _ |>.mp h with h | h
  · simp [h]
  · have hl : c.toLower = c := by
      simp only [Bool.and_eq_true, decide_eq_true_eq] at h
      have h1 : 97 ≤ c.toNat := h.1
      unfold Char.toLower
      simp only
      split
      · omega
      · rfl
    rw [hl]
    simp only [Bool.or_eq_true]
    right
    exact h

example : True := trivial

theorem takeWhile_append_stop {p : Char → Bool} (a r : List Char) (x : Char)
    (ha : ∀ c ∈ a, p c = true) (hx : p x = false) : (a ++ x :: r).takeWhile p = a := by
  induction a with
  | nil => simp [List.takeWhile, hx]
  | cons c a ih =>
    have hc := ha c (List.mem_cons_self _ _)
    simp only [List.cons_append, List.takeWhile_cons, hc, if_true]
    rw [ih (fun d hd => ha d (List.mem_cons_of_mem _ hd))]

/-- The first segment of a version-4 UUID: eight lowercase hexadecimal digits. -/
theorem firstSegment_uuid {uuid : String} (h : isUuidV4 uuid = true) :
    (firstSegment uuid).length = 8 ∧ ∀ c ∈ firstSegment uuid, isLowerHex c = true := by
  unfold isUuidV4 at h
  simp only [Bool.and_eq_true, beq_iff_eq] at h
  obtain ⟨⟨⟨⟨⟨⟨⟨⟨⟨⟨⟨hlen, h8⟩, hdash⟩, -⟩, -⟩, -⟩, -⟩, -⟩, -⟩, -⟩, -⟩, -⟩ := h
  have hsplit : uuid.toList = uuid.toList.take 8 ++ uuid.toList.drop 8 :=
    (List.take_append_drop 8 _).symm
  obtain ⟨r, hr⟩ : ∃ r, uuid.toList.drop 8 = '-' :: r := by
    cases hd : uuid.toList.drop 8 with
    | nil => rw [hd] at hdash; simp at hdash
    | cons x r =>
      rw [hd] at hdash
      simp only [List.head?_cons, Option.some.injEq] at hdash
      exact ⟨r, by rw [hdash]⟩
  have hall : ∀ c ∈ uuid.toList.take 8, isLowerHex c = true := List.all_eq_true.mp h8
  have hseg : firstSegment uuid = uuid.toList.take 8 := by
    unfold firstSegment
    rw [hsplit, hr]
    rw [List.take_left' (by rw [List.length_take]; omega)]
    apply takeWhile_append_stop
    · intro c hc
      have := hall c hc
      simp only [bne_iff_ne, ne_eq]
      intro hcd
      rw [hcd] at this
      exact absurd this (by decide)
    · decide
  rw [hseg]
  exact ⟨by rw [List.length_take]; omega, hall⟩

/-- The timestamp of a clock reading: eight digits, a hyphen, six digits. -/
theorem formatStamp_shape {c : Clock} (hv : c.valid = true) :
    ∃ d t : List Char, formatStamp c = d ++ '-' :: t ∧ d.length = 8 ∧ t.length = 6 ∧
      (∀ x ∈ d, x.isDigit = true) ∧ (∀ x ∈ t, x.isDigit = true) := by
  unfold Clock.valid at hv
  simp only [Bool.and_eq_true, decide_eq_true_eq] at hv
  obtain ⟨⟨⟨⟨⟨⟨⟨hy, -⟩, hm⟩, -⟩, hd⟩, hh⟩, hmi⟩, hs⟩ := hv
  obtain ⟨ly, dy, -⟩ := padStart_decimal (k := 4) (n := c.year) (by norm_num) (by omega)
  obtain ⟨lm, dm, -⟩ := padStart_decimal (k := 2) (n := c.month) (by norm_num) (by omega)
  obtain ⟨ld, dd, -⟩ := padStart_decimal (k := 2) (n := c.day) (by norm_num) (by omega)
  obtain ⟨lh, dh, -⟩ := padStart_decimal (k := 2) (n := c.hour) (by norm_num) (by omega)
  obtain ⟨lmi, dmi, -⟩ := padStart_decimal (k := 2) (n := c.minute) (by norm_num) (by omega)
  obtain ⟨ls, ds, -⟩ := padStart_decimal (k := 2) (n := c.second) (by norm_num) (by omega)
  refine ⟨padStart 4 '0' (decimal c.year) ++ padStart 2 '0' (decimal c.month) ++
      padStart 2 '0' (decimal c.day),
    padStart 2 '0' (decimal c.hour) ++ padStart 2 '0' (decimal c.minute) ++
      padStart 2 '0' (decimal c.second), ?_, ?_, ?_, ?_, ?_⟩
  · simp [formatStamp, List.append_assoc]
  · simp [ly, lm, ld]
  · simp [lh, lmi, ls]
  · intro x hx
    simp only [List.mem_append] at hx
    rcases hx with (hx | hx) | hx
    · exact dy x hx
    · exact dm x hx
    · exact dd x hx
  · intro x hx
    simp only [List.mem_append] at hx
    rcases hx with (hx | hx) | hx
    · exact dh x hx
    · exact dmi x hx
    · exact ds x hx

theorem eq_cons_of_length {l : List Char} {n : Nat} (h : l.length = n + 1) :
    ∃ a r, l = a :: r ∧ r.length = n := by
  cases l with
  | nil => simp at h
  | cons a r => exact ⟨a, r, rfl, by simpa using h⟩

theorem length_six {l : List Char} (h : l.length = 6) :
    ∃ a b c d e f, l = [a, b, c, d, e, f] := by
  obtain ⟨a, r1, rfl, h1⟩ := eq_cons_of_length h
  obtain ⟨b, r2, rfl, h2⟩ := eq_cons_of_length h1
  obtain ⟨c, r3, rfl, h3⟩ := eq_cons_of_length h2
  obtain ⟨d, r4, rfl, h4⟩ := eq_cons_of_length h3
  obtain ⟨e, r5, rfl, h5⟩ := eq_cons_of_length h4
  obtain ⟨f, r6, rfl, h6⟩ := eq_cons_of_length h5
  rw [List.length_eq_zero] at h6
  exact ⟨a, b, c, d, e, f, by rw [h6]⟩

theorem length_eight {l : List Char} (h : l.length = 8) :
    ∃ a b c d e f g i, l = [a, b, c, d, e, f, g, i] := by
  obtain ⟨a, r1, rfl, h1⟩ := eq_cons_of_length h
  obtain ⟨b, r2, rfl, h2⟩ := eq_cons_of_length h1
  obtain ⟨c, d, e, f, g, i, rfl⟩ := length_six h2
  exact ⟨a, b, c, d, e, f, g, i, rfl⟩

/-! ## Order and injectivity of fixed-width decimal text -/

theorem lt_append_left (p : List Char) {a b : List Char} (h : a < b) : p ++ a < p ++ b := by
  induction p with
  | nil => exact h
  | cons x p ih => exact List.Lex.cons ih

theorem lt_append_of_lt : ∀ (a b r1 r2 : List Char), a.length = b.length → a < b →
    a ++ r1 < b ++ r2 := by
  intro a
  induction a with
  | nil =>
    intro b r1 r2 hl h
    cases b with
    | nil => cases h
    | cons y b => simp at hl
  | cons x a ih =>
    intro b r1 r2 hl h
    cases b with
    | nil => simp at hl
    | cons y b =>
      cases h with
      | rel hxy => exact List.Lex.rel hxy
      | cons hab => exact List.Lex.cons (ih b r1 r2 (by simpa using hl) hab)

theorem digit_toNat {c : Char} (h : c.isDigit = true) : 48 ≤ c.toNat ∧ c.toNat ≤ 57 := by
  unfold Char.isDigit at h
  simp only [Bool.and_eq_true, decide_eq_true_eq] at h
  exact ⟨h.1, h.2⟩

theorem digitsValue_lt_pow : ∀ (l : List Char), (∀ c ∈ l, c.isDigit = true) →
    digitsValue l < 10 ^ l.length := by
  intro l
  induction l with
  | nil => intro _; simp [digitsValue]
  | cons c l ih =>
    intro h
    have hc := digit_toNat (h c (List.mem_cons_self _ _))
    have hl := ih (fun d hd => h d (List.mem_cons_of_mem _ hd))
    rw [digitsValue_cons, List.length_cons, pow_succ]
    have : (c.toNat - 48) * 10 ^ l.length ≤ 9 * 10 ^ l.length :=
      Nat.mul_le_mul_right _ (by omega)
    omega

theorem digits_lt : ∀ (a b : List Char), a.length = b.length →
    (∀ c ∈ a, c.isDigit = true) → (∀ c ∈ b, c.isDigit = true) →
    digitsValue a < digitsValue b → a < b := by
  intro a
  induction a with
  | nil =>
    intro b hl _ _ h
    cases b with
    | nil => simp [digitsValue] at h
    | cons y b => simp at hl
  | cons x a ih =>
    intro b hl ha hb h
    cases b with
    | nil => simp at hl
    | cons y b =>
      have hlen : a.length = b.length := by simpa using hl
      have hx := digit_toNat (ha x (List.mem_cons_self _ _))
      have hy := digit_toNat (hb y (List.mem_cons_self _ _))
      have ha' : ∀ c ∈ a, c.isDigit = true := fun d hd => ha d (List.mem_cons_of_mem _ hd)
      have hb' : ∀ c ∈ b, c.isDigit = true := fun d hd => hb d (List.mem_cons_of_mem _ hd)
      have va := digitsValue_lt_pow a ha'
      have vb := digitsValue_lt_pow b hb'
      rw [digitsValue_cons, digitsValue_cons, hlen] at h
      rw [hlen] at va
      rcases Nat.lt_trichotomy x.toNat y.toNat with hlt | heq | hgt
      · exact List.Lex.rel (show x < y from hlt)
      · have hxy : x = y := by rw [← Char.ofNat_toNat x, ← Char.ofNat_toNat y, heq]
        subst hxy
        have : digitsValue a < digitsValue b := by omega
        exact List.Lex.cons (ih b hlen ha' hb' this)
      · exfalso
        have : (y.toNat - 48 + 1) * 10 ^ b.length ≤ (x.toNat - 48) * 10 ^ b.length :=
          Nat.mul_le_mul_right _ (by omega)
        rw [Nat.add_mul, Nat.one_mul] at this
        omega

/-- Two fixed-width decimal texts compare as the numbers they spell. -/
theorem padStart_decimal_lt {k m n : Nat} (hk : 0 < k) (hn : n < 10 ^ k) (hmn : m < n) :
    padStart k '0' (decimal m) < padStart k '0' (decimal n) := by
  obtain ⟨l1, d1, v1⟩ := padStart_decimal hk (lt_trans hmn hn)
  obtain ⟨l2, d2, v2⟩ := padStart_decimal hk hn
  exact digits_lt _ _ (by rw [l1, l2]) d1 d2 (by rw [v1, v2]; exact hmn)

/-- A fixed-width decimal text determines the number it spells. -/
theorem padStart_decimal_inj {k m n : Nat} (hk : 0 < k) (hm : m < 10 ^ k) (hn : n < 10 ^ k)
    (h : padStart k '0' (decimal m) = padStart k '0' (decimal n)) : m = n := by
  have v1 := (padStart_decimal hk hm).2.2
  have v2 := (padStart_decimal hk hn).2.2
  rw [h] at v1
  omega

theorem Clock.valid_bounds {c : Clock} (hv : c.valid = true) :
    c.year < 10 ^ 4 ∧ c.month < 10 ^ 2 ∧ c.day < 10 ^ 2 ∧ c.hour < 10 ^ 2 ∧
    c.minute < 10 ^ 2 ∧ c.second < 10 ^ 2 := by
  unfold Clock.valid at hv
  simp only [Bool.and_eq_true, decide_eq_true_eq] at hv
  omega

theorem formatStamp_length {c : Clock} (hv : c.valid = true) : (formatStamp c).length = 15 := by
  obtain ⟨d, t, hst, hd, ht, -, -⟩ := formatStamp_shape hv
  rw [hst]; simp [hd, ht]

/-- The timestamp determines the clock reading. -/
theorem formatStamp_inj {c1 c2 : Clock} (hv1 : c1.valid = true) (hv2 : c2.valid = true)
    (h : formatStamp c1 = formatStamp c2) : c1 = c2 := by
  obtain ⟨y1, m1, d1, h1, mi1, s1⟩ := Clock.valid_bounds hv1
  obtain ⟨y2, m2, d2, h2, mi2, s2⟩ := Clock.valid_bounds hv2
  have l4 : ∀ {n}, n < 10 ^ 4 → (padStart 4 '0' (decimal n)).length = 4 :=
    fun hn => (padStart_decimal (by norm_num) hn).1
  have l2 : ∀ {n}, n < 10 ^ 2 → (padStart 2 '0' (decimal n)).length = 2 :=
    fun hn => (padStart_decimal (by norm_num) hn).1
  unfold formatStamp at h
  simp only [List.append_assoc] at h
  obtain ⟨ey, h⟩ := List.append_inj h (by rw [l4 y1, l4 y2])
  obtain ⟨em, h⟩ := List.append_inj h (by rw [l2 m1, l2 m2])
  obtain ⟨ed, h⟩ := List.append_inj h (by rw [l2 d1, l2 d2])
  obtain ⟨-, h⟩ := List.append_inj h rfl
  obtain ⟨eh, h⟩ := List.append_inj h (by rw [l2 h1, l2 h2])
  obtain ⟨emi, es⟩ := List.append_inj h (by rw [l2 mi1, l2 mi2])
  have := padStart_decimal_inj (by norm_num) y1 y2 ey
  have := padStart_decimal_inj (by norm_num) m1 m2 em
  have := padStart_decimal_inj (by norm_num) d1 d2 ed
  have := padStart_decimal_inj (by norm_num) h1 h2 eh
  have := padStart_decimal_inj (by norm_num) mi1 mi2 emi
  have := padStart_decimal_inj (by norm_num) s1 s2 es
  cases c1; cases c2; simp_all

/-! ## The preset lookup -/

theorem presetOrder_total (a b : PresetNominal) : presetOrder a b ∨ presetOrder b a := by
  unfold presetOrder; omega

theorem presetOrder_trans {a b c : PresetNominal} (h1 : presetOrder a b)
    (h2 : presetOrder b c) : presetOrder a c := by
  unfold presetOrder at *; omega

/-- The rows the preset query returns: the wanted rows of the table, each as
often as in the table, in the order of the `ORDER BY` clause. -/
theorem selectPresets_spec (table : List PresetNominal) (tipe : String) :
    (selectPresets table tipe).Perm (table.filter (presetWanted tipe)) ∧
    (selectPresets table tipe).Sorted presetOrder ∧
    (∀ p ∈ selectPresets table tipe, p ∈ table ∧ p.active = 1 ∧ p.tipe = tipe) := by
  haveI : IsTotal PresetNominal presetOrder := ⟨presetOrder_total⟩
  haveI : IsTrans PresetNominal presetOrder := ⟨fun _ _ _ => presetOrder_trans⟩
  refine ⟨List.perm_insertionSort _ _, List.sorted_insertionSort _ _, ?_⟩
  intro p hp
  have hm : p ∈ table.filter (presetWanted tipe) :=
    (List.perm_insertionSort presetOrder _).mem_iff.mp hp
  obtain ⟨h1, h2⟩ := List.mem_filter.mp hm
  simp only [presetWanted, Bool.and_eq_true, beq_iff_eq] at h2
  exact ⟨h1, h2.1, h2.2⟩

theorem queryPresets_spec (env : Env) (table : List PresetNominal) (tipe : String)
    (hq : env.canQuery = true) :
    (∀ ps, (queryPresets env table tipe).1 = some ps →
      ps = (selectPresets table tipe).map PresetNominal.offer) ∧
    (∀ e ∈ (queryPresets env table tipe).2, e.1.isSelect = true) := by
  unfold queryPresets
  by_cases hr : env.rejects Stmt.selectPresets = true
  · simp [hq, hr, Stmt.isSelect]
  · simp only [hq, hr, Bool.not_true, Bool.false_eq_true, if_false]
    refine ⟨fun ps h => by simpa using h.symm, ?_⟩
    intro e he
    simp only [List.mem_singleton] at he
    subst he
    rfl

theorem querySantri_trace (env : Env) (santri_id : Option Int) (db : Db) :
    ∀ e ∈ (querySantri env santri_id db).2, e.1.isSelect = true := by
  intro e he
  unfold querySantri at he
  split at he
  · simp at he
  · split at he
    · simp at he
    · split at he <;> simp at he <;> subst he <;> rfl

theorem formPage_spec (env : Env) (title tipe : String) (santri_id : Option Int) (db : Db)
    (table : List PresetNominal) (hq : env.canQuery = true) :
    (∀ v, (formPage env title tipe santri_id db table).outcome = PageOutcome.rendered v →
      v.presets = some ((selectPresets table tipe).map PresetNominal.offer)) ∧
    (∀ e ∈ (formPage env title tipe santri_id db table).trace, e.1.isSelect = true) := by
  obtain ⟨hp, ht⟩ := queryPresets_spec env table tipe hq
  have hl := querySantri_trace env santri_id db
  unfold formPage
  split
  · rename_i tr1 hqs
    refine ⟨fun v h => by simp at h, ?_⟩
    intro e he
    exact hl e (by rw [hqs]; exact he)
  · rename_i santri tr1 hqs
    split
    · rename_i tr hqp
      refine ⟨fun v h => by simp at h, ?_⟩
      intro e he
      rcases List.mem_append.mp he with h | h
      · exact hl e (by rw [hqs]; exact h)
      · exact ht e (by rw [hqp]; exact h)
    · rename_i presets tr hqp
      refine ⟨?_, ?_⟩
      · intro v h
        simp only [PageOutcome.rendered.injEq] at h
        rw [← h]
        simp only
        rw [hp presets (by rw [hqp])]
      · intro e he
        rcases List.mem_append.mp he with h | h
        · exact hl e (by rw [hqs]; exact h)
        · exact ht e (by rw [hqp]; exact h)

theorem cariHandler_spec (env : Env) (body : CariBody) (db : Db) (table : List PresetNominal)
    (hq : env.canQuery = true) :
    (∀ v, (cariHandler env body db table).outcome = PageOutcome.rendered v →
      v.santriList = none →
      v.presets = some ((selectPresets table
        (if body.tipe = some "setor" then "setor" else "tarik")).map PresetNominal.offer)) ∧
    (∀ e ∈ (cariHandler env body db table).trace, e.1.isSelect = true) := by
  obtain ⟨hp, ht⟩ := queryPresets_spec env table
    (if body.tipe = some "setor" then "setor" else "tarik") hq
  unfold cariHandler
  simp only
  split
  · exact ⟨fun v h => by simp at h, by simp⟩
  · split
    · exact ⟨fun v h => by simp at h, by simp⟩
    · split
      · exact ⟨fun v h => by simp at h, by simp [Stmt.isSelect]⟩
      · split
        · exact ⟨fun v h => by simp at h, by simp [Stmt.isSelect]⟩
        · split
          · rename_i tr hqp
            refine ⟨fun v h => by simp at h, ?_⟩
            intro e he
            rcases List.mem_cons.mp he with h | h
            · subst h; rfl
            · exact ht e (by rw [hqp]; exact h)
          · rename_i presets tr hqp
            refine ⟨?_, ?_⟩
            · intro v h _
              simp only [PageOutcome.rendered.injEq] at h
              rw [← h]
              simp only
              rw [hp presets (by rw [hqp])]
            · intro e he
              rcases List.mem_cons.mp he with h | h
              · subst h; rfl
              · exact ht e (by rw [hqp]; exact h)
        · refine ⟨?_, by simp [Stmt.isSelect]⟩
          intro v h hl
          simp only [PageOutcome.rendered.injEq] at h
          rw [← h] at hl
          simp at hl

/-! ## The edit and import routes leave balances alone -/

theorem editSantri_kept (id : Int) (body : EditBody) (foto : Option String) (s : Santri) :
    (editSantri id body foto s).kept = s.kept := by
  unfold editSantri Santri.kept
  split <;> simp_all

theorem editSantri_other (id : Int) (body : EditBody) (foto : Option String) (s : Santri)
    (h : s.id ≠ id) : editSantri id body foto s = s := by
  simp [editSantri, h]

theorem map_editSantri_kept (id : Int) (body : EditBody) (foto : Option String)
    (l : List Santri) : (l.map (editSantri id body foto)).map Santri.kept = l.map Santri.kept := by
  induction l with
  | nil => rfl
  | cons a l ih => simp only [List.map_cons, editSantri_kept, ih]

theorem filter_editSantri (id : Int) (body : EditBody) (foto : Option String)
    (l : List Santri) :
    (l.map (editSantri id body foto)).filter (fun s => s.id != id) =
      l.filter (fun s => s.id != id) := by
  induction l with
  | nil => rfl
  | cons a l ih =>
    by_cases h : a.id = id
    · have h2 : (editSantri id body foto a).id = id := by
        have := editSantri_kept id body foto a
        simp only [Santri.kept, Prod.mk.injEq] at this
        rw [this.1, h]
      simp [List.filter_cons, h, h2, ih]
    · rw [List.map_cons, editSantri_other id body foto a h]
      simp only [List.filter_cons, ih]

theorem find_of_kept (sid : Int) :
    ∀ l1 l2 : List Santri, l1.map Santri.kept = l2.map Santri.kept →
      (l1.find? (fun s => s.id == sid)).map (fun s => s.saldo) =
        (l2.find? (fun s => s.id == sid)).map (fun s => s.saldo) := by
  intro l1
  induction l1 with
  | nil =>
    intro l2 h
    cases l2 with
    | nil => rfl
    | cons b l2 => simp at h
  | cons a l1 ih =>
    intro l2 h
    cases l2 with
    | nil => simp at h
    | cons b l2 =>
      simp only [List.map_cons, List.cons.injEq, Santri.kept, Prod.mk.injEq] at h
      obtain ⟨⟨hid, hsaldo⟩, hrest⟩ := h
      simp only [List.find?_cons, hid]
      cases hb : (b.id == sid) with
      | true => simp [hsaldo]
      | false => exact ih l2 hrest

theorem saldoOf_of_kept {db db1 : Db} (h : db1.santri.map Santri.kept = db.santri.map Santri.kept)
    (sid : Int) : saldoOf db1 sid = saldoOf db sid := by
  unfold saldoOf Db.selectSantri
  exact find_of_kept sid _ _ h

theorem updateSantri_some {db db1 : Db} {id : Int} {body : EditBody} {foto : Option String}
    (h : db.updateSantri id body foto = some db1) :
    db1 = { db with santri := db.santri.map (editSantri id body foto) } := by
  unfold Db.updateSantri at h
  split at h
  · simp at h
  · simpa using h.symm

theorem runStmt_some {env : Env} {s : Stmt} {effect : Option Db} {db1 : Db}
    (h : runStmt env s effect = some db1) : effect = some db1 := by
  unfold runStmt at h
  split at h
  · simp at h
  · exact h

/-- What the edit handler leaves in the database: the student table as it
was, or with the edit assignments applied; no other ledger table changes. -/
theorem editHandler_db (env : Env) (user : User) (id : Int) (body : EditBody)
    (file : Option String) (w : World) :
    ((editHandler env user id body file w).world.db.santri = w.db.santri ∨
      ∃ foto, (editHandler env user id body file w).world.db.santri =
        w.db.santri.map (editSantri id body foto)) ∧
    (editHandler env user id body file w).world.db.transaksi = w.db.transaksi := by
  unfold editHandler
  split
  · exact ⟨Or.inl rfl, rfl⟩
  · split
    · rename_i filename
      split
      · exact ⟨Or.inl rfl, rfl⟩
      · simp only
        split
        · exact ⟨Or.inl rfl, rfl⟩
        · rename_i db1 h
          have h1 := updateSantri_some (runStmt_some h)
          simp only [editDone, logAudit_santri, logAudit_transaksi]
          rw [h1]
          exact ⟨Or.inr ⟨_, rfl⟩, rfl⟩
    · split
      · exact ⟨Or.inl rfl, rfl⟩
      · rename_i db1 h
        have h1 := updateSantri_some (runStmt_some h)
        simp only [editDone, logAudit_santri, logAudit_transaksi]
        rw [h1]
        exact ⟨Or.inr ⟨_, rfl⟩, rfl⟩

theorem storeUpload_db (env : Env) (file : Option String) (w : World) :
    (storeUpload env file w).db = w.db := by
  unfold storeUpload
  split <;> rfl

theorem postEdit_db (env : Env) (session : Option User) (id : Int) (body : EditBody)
    (file : Option String) (w : World) :
    ((postEdit env session id body file w).world.db.santri = w.db.santri ∨
      ∃ foto, (postEdit env session id body file w).world.db.santri =
        w.db.santri.map (editSantri id body foto)) ∧
    (postEdit env session id body file w).world.db.transaksi = w.db.transaksi := by
  unfold postEdit
  rcases route_cases "admin" session w
    (fun u => editHandler env u id body file (storeUpload env file w)) with h | ⟨u, _, _, h⟩
  · rw [h.1]
    exact ⟨Or.inl rfl, rfl⟩
  · rw [h]
    have := editHandler_db env u id body file (storeUpload env file w)
    rw [storeUpload_db] at this
    exact this

/-! ### The import statement -/

theorem mergeValues_kept (v : ImportValues) (s : Santri) :
    (mergeValues v s).keptByImport = s.keptByImport := by
  unfold mergeValues Santri.keptByImport
  split <;> rfl

theorem map_mergeValues_kept (v : ImportValues) (l : List Santri) :
    (l.map (mergeValues v)).map Santri.keptByImport = l.map Santri.keptByImport := by
  induction l with
  | nil => rfl
  | cons a l ih => simp only [List.map_cons, mergeValues_kept, ih]

theorem extends_refl (l : List Santri) : Extends l l :=
  ⟨l, [], by simp, rfl, by simp⟩

theorem extends_upsertRow {l : List Santri} {db : Db} (v : ImportValues)
    (h : Extends l db.santri) : Extends l (upsertRow db v).santri := by
  obtain ⟨base, extra, h1, h2, h3⟩ := h
  unfold upsertRow
  split
  · refine ⟨base.map (mergeValues v), extra.map (mergeValues v), ?_, ?_, ?_⟩
    · simp only [h1, List.map_append]
    · rw [map_mergeValues_kept, h2]
    · intro s hs
      obtain ⟨s0, hs0, rfl⟩ := List.mem_map.mp hs
      have hk := mergeValues_kept v s0
      simp only [Santri.keptByImport, Prod.mk.injEq] at hk
      rw [hk.2.2.2, hk.2.2.1]
      exact h3 s0 hs0
  · refine ⟨base, extra ++ [⟨freshId db, v.nis, v.nama, v.kelas, v.kelompok, v.tgl_lahir,
      v.alamat, v.hp_wali, none, 0⟩], ?_, h2, ?_⟩
    · simp only [h1, List.append_assoc]
    · intro s hs
      rcases List.mem_append.mp hs with hs | hs
      · exact h3 s hs
      · simp only [List.mem_singleton] at hs
        subst hs
        exact ⟨rfl, rfl⟩

theorem extends_foldl {l : List Santri} (values : List ImportValues) :
    ∀ db : Db, Extends l db.santri → Extends l (values.foldl upsertRow db).santri := by
  induction values with
  | nil => intro db h; exact h
  | cons v values ih => intro db h; exact ih _ (extends_upsertRow v h)

theorem upsertRow_rest (db : Db) (v : ImportValues) :
    (upsertRow db v).transaksi = db.transaksi ∧ (upsertRow db v).users = db.users ∧
      (upsertRow db v).audit_logs = db.audit_logs := by
  unfold upsertRow
  split <;> exact ⟨rfl, rfl, rfl⟩

theorem upsertSantri_rest (values : List ImportValues) :
    ∀ db : Db, (db.upsertSantri values).transaksi = db.transaksi ∧
      (db.upsertSantri values).users = db.users ∧
      (db.upsertSantri values).audit_logs = db.audit_logs := by
  unfold Db.upsertSantri
  induction values with
  | nil => intro db; exact ⟨rfl, rfl, rfl⟩
  | cons v values ih =>
    intro db
    obtain ⟨h1, h2, h3⟩ := ih (upsertRow db v)
    obtain ⟨g1, g2, g3⟩ := upsertRow_rest db v
    exact ⟨h1.trans g1, h2.trans g2, h3.trans g3⟩

theorem upsertSantri_extends (db : Db) (values : List ImportValues) :
    Extends db.santri (db.upsertSantri values).santri :=
  extends_foldl values db (extends_refl _)

theorem importRun_world (env : Env) (errorText : String)
    (fetched : Except String (List MappedRow)) (w : World) :
    (importRun env errorText fetched w).world = w ∨
    ∃ values, (importRun env errorText fetched w).world =
      { w with db := w.db.upsertSantri values } := by
  unfold importRun
  split
  · exact Or.inl rfl
  · simp only
    split
    · exact Or.inl rfl
    · split
      · exact Or.inl rfl
      · split
        · exact Or.inl rfl
        · split
          · exact Or.inl rfl
          · split
            · exact Or.inr ⟨_, rfl⟩
            · exact Or.inr ⟨_, rfl⟩

theorem postImportRun_world (env : Env) (session : Option User) (errorText : String)
    (fetched : Except String (List MappedRow)) (w : World) :
    (postImportRun env session errorText fetched w).world = w ∨
    ∃ values, (postImportRun env session errorText fetched w).world =
      { w with db := w.db.upsertSantri values } := by
  unfold postImportRun
  rcases route_cases "admin" session w (fun _ => importRun env errorText fetched w) with
    h | ⟨u, _, _, h⟩
  · exact Or.inl h.1
  · rw [h]
    exact importRun_world env errorText fetched w

theorem kept_of_keptByImport {l1 l2 : List Santri}
    (h : l1.map Santri.keptByImport = l2.map Santri.keptByImport) :
    l1.map Santri.kept = l2.map Santri.kept := by
  have := congrArg (List.map (fun q : Int × String × Option String × Int => (q.1, q.2.2.2))) h
  simpa [List.map_map, Function.comp, Santri.keptByImport, Santri.kept] using this

/-- What it means for the reader of a table that it was extended. -/
theorem extends_spec {l l1 : List Santri} (h : Extends l l1) :
    (l1.take l.length).map Santri.keptByImport = l.map Santri.keptByImport ∧
    (∀ s ∈ l1.drop l.length, s.saldo = 0 ∧ s.foto_path = none) ∧
    (∀ sid b, (l.find? (fun s => s.id == sid)).map (fun s => s.saldo) = some b →
      (l1.find? (fun s => s.id == sid)).map (fun s => s.saldo) = some b) := by
  obtain ⟨base, extra, h1, h2, h3⟩ := h
  have hlen : base.length = l.length := by
    have := congrArg List.length h2
    simpa using this
  subst h1
  refine ⟨?_, ?_, ?_⟩
  · rw [← hlen, List.take_left']
    · exact h2
    · rfl
  · rw [← hlen, List.drop_left']
    · exact h3
    · rfl
  · intro sid b hb
    rw [← find_of_kept sid base l (kept_of_keptByImport h2)] at hb
    rw [List.find?_append]
    cases hf : base.find? (fun s => s.id == sid) with
    | none => rw [hf] at hb; simp at hb
    | some s => rw [hf] at hb; simpa using hb

/-! ## Validation, roles and non-negative balances -/

theorem takeWhile_append_head {p : Char → Bool} (rest : List Char)
    (hr : ∀ c, rest.head? = some c → p c = false) :
    ∀ l : List Char, (∀ c ∈ l, p c = true) → (l ++ rest).takeWhile p = l := by
  intro l
  induction l with
  | nil =>
    intro _
    cases rest with
    | nil => rfl
    | cons r rs => simp [List.takeWhile_cons, hr r rfl]
  | cons a l ih =>
    intro hl
    rw [List.cons_append, List.takeWhile_cons, hl a (List.mem_cons_self _ _)]
    simp only [if_true]
    rw [ih (fun c hc => hl c (List.mem_cons_of_mem _ hc))]

theorem digit_not_whitespace {c : Char} (h : c.isDigit = true) : isJsWhitespace c = false := by
  have h1 := digit_toNat h
  unfold isJsWhitespace
  simp only [Bool.or_eq_false_iff, Bool.and_eq_false_iff, beq_eq_false_iff_ne,
    decide_eq_false_iff_not]
  omega

theorem parseInt_digits (ds rest : List Char) (hne : ds ≠ [])
    (hd : ∀ c ∈ ds, c.isDigit = true) (hr : ∀ c, rest.head? = some c → c.isDigit = false) :
    parseInt (some (String.mk (ds ++ rest))) = some (digitsValue ds : Int) := by
  obtain ⟨d, ds1, rfl⟩ := List.exists_cons_of_ne_nil hne
  have hdd : d.isDigit = true := hd d (List.mem_cons_self _ _)
  have hws := digit_not_whitespace hdd
  have htw := takeWhile_append_head rest hr (d :: ds1) hd
  have hminus : d ≠ '-' := by rintro rfl; simp [Char.isDigit] at hdd
  have hplus : d ≠ '+' := by rintro rfl; simp [Char.isDigit] at hdd
  have hm : ∀ X : List Char, (match d :: X with
      | '-' :: r => (true, r)
      | '+' :: r => (false, r)
      | r => (false, r)) = (false, d :: X) := by
    intro X
    split
    · rename_i r heq
      simp only [List.cons.injEq] at heq
      exact absurd heq.1 hminus
    · rename_i r heq
      simp only [List.cons.injEq] at heq
      exact absurd heq.1 hplus
    · rfl
  unfold parseInt
  simp only [String.toList, List.cons_append, List.dropWhile, hws, hm]
  have htw1 : List.takeWhile Char.isDigit (d :: ds1.append rest) = d :: ds1 := htw
  rw [htw1]
  simp

theorem setorHandler_invalid (env : Env) (u : User) (body : SetorBody) (w : World)
    (h : body.santri_id = none ∨ ∀ n, parseInt body.jumlah = some n → n ≤ 0) :
    setorHandler env u body w = reject w "error" "Data tidak valid." "/transaksi/setor" [] := by
  unfold setorHandler
  split
  · rename_i sid jml hs hj
    rcases h with h | h
    · rw [h] at hs; cases hs
    · have := h jml hj
      rw [if_pos (Or.inr this)]
  · rfl

theorem tarikHandler_invalid (env : Env) (u : User) (body : TarikBody) (w : World)
    (h : body.santri_id = none ∨ ∀ n, parseInt body.jumlah = some n → n ≤ 0) :
    tarikHandler env u body w =
      reject w "error" "Data tidak lengkap (jumlah)." "/transaksi/tarik" [] := by
  unfold tarikHandler
  split
  · rename_i sid jml hs hj
    rcases h with h | h
    · rw [h] at hs; cases hs
    · have := h jml hj
      rw [if_pos (Or.inr this)]
  · rfl

theorem setor_nonneg_step (env : Env) (session : Option User) (body : SetorBody) (w : World)
    (sid b : Int) (hb : saldoOf w.db sid = some b) (h0 : 0 ≤ b) :
    ∃ b1, saldoOf (postSetor env session body w).world.db sid = some b1 ∧ 0 ≤ b1 := by
  unfold postSetor
  rcases route_cases "kasir" session w (fun u => setorHandler env u body w) with
    hr | ⟨u, -, -, hr⟩
  · rw [hr.1]; exact ⟨b, hb, h0⟩
  · rw [hr]
    rcases setorHandler_cases env u body w with hc | ⟨sid1, A, -, -, hpos, -, hc⟩
    · rw [hc.1]; exact ⟨b, hb, h0⟩
    · rw [hc]
      rcases setorWrite_cases env u body w sid1 A with h1 | h2 | h3
      · rw [h1.1]; exact ⟨b, hb, h0⟩
      · rw [saldoOf_of_map h2.1, hb]
        refine ⟨_, rfl, ?_⟩
        show 0 ≤ (if some sid = some sid1 then b + A else b)
        split <;> omega
      · rw [saldoOf_of_map h3.1, hb]
        refine ⟨_, rfl, ?_⟩
        show 0 ≤ (if some sid = some sid1 then b + A else b)
        split <;> omega

theorem tarik_nonneg_step (env : Env) (session : Option User) (body : TarikBody) (w : World)
    (sid b : Int) (hb : saldoOf w.db sid = some b) (h0 : 0 ≤ b) :
    ∃ b1, saldoOf (postTarik env session body w).world.db sid = some b1 ∧ 0 ≤ b1 := by
  unfold postTarik
  rcases route_cases "kasir" session w (fun u => tarikHandler env u body w) with
    hr | ⟨u, -, -, hr⟩
  · rw [hr.1]; exact ⟨b, hb, h0⟩
  · rw [hr]
    rcases tarikHandler_cases env u body w with hc | ⟨sid1, A, s, -, -, hpos, -, -, hs, hle, hc⟩
    · rw [hc.1]; exact ⟨b, hb, h0⟩
    · rw [hc]
      have key : 0 ≤ (if some sid = some sid1 then b + -A else b) := by
        split
        · rename_i heq
          have e : sid = sid1 := by simpa using heq
          subst e
          have : s.saldo = b := by
            simp only [saldoOf, hs, Option.map_some', Option.some.injEq] at hb
            exact hb
          omega
        · exact h0
      rcases tarikWrite_cases env u body w sid1 A with h1 | h2 | h3
      · rw [h1.1]; exact ⟨b, hb, h0⟩
      · rw [saldoOf_of_map h2.1, hb]
        exact ⟨_, rfl, key⟩
      · rw [saldoOf_of_map h3.1, hb]
        exact ⟨_, rfl, key⟩

theorem run_nonneg (cs : List Call) : ∀ (w : World) (sid b : Int),
    cs.all Call.isSetorTarik = true → saldoOf w.db sid = some b → 0 ≤ b →
    ∀ k, ∃ b1, saldoOf (run w (cs.take k)).db sid = some b1 ∧ 0 ≤ b1 := by
  induction cs with
  | nil => intro w sid b _ hb h0 k; exact ⟨b, by simpa [run] using hb, h0⟩
  | cons c cs ih =>
    intro w sid b hall hb h0 k
    simp only [List.all_cons, Bool.and_eq_true] at hall
    cases k with
    | zero => exact ⟨b, by simpa [run] using hb, h0⟩
    | succ k =>
      simp only [List.take_succ_cons, run]
      have hstep : ∃ b1, saldoOf (handle c w).world.db sid = some b1 ∧ 0 ≤ b1 := by
        unfold handle
        cases hreq : c.req with
        | setor body => exact setor_nonneg_step c.env c.session body w sid b hb h0
        | tarik body => exact tarik_nonneg_step c.env c.session body w sid b hb h0
        | hapus body => simp [Call.isSetorTarik, hreq] at hall
      obtain ⟨b1, hb1, h1⟩ := hstep
      exact ih _ sid b1 hall.2 hb1 h1 k

/-! ## Paths -/

theorem splitSlash_ne_nil (l : List Char) : splitSlash l ≠ [] := by
  cases l with
  | nil => simp [splitSlash]
  | cons c cs =>
    unfold splitSlash
    split
    · simp
    · split <;> simp

theorem splitSlash_slash (b : List Char) : splitSlash ('/' :: b) = [] :: splitSlash b := by
  rw [splitSlash]
  split
  · rename_i h; exact absurd h (splitSlash_ne_nil b)
  · rename_i seg segs h; simp [h]

theorem splitSlash_cons_ne (c : Char) (hc : c ≠ '/') (b : List Char) :
    splitSlash (c :: b) =
      (c :: (splitSlash b).head (splitSlash_ne_nil b)) :: (splitSlash b).tail := by
  rw [splitSlash]
  split
  · rename_i h; exact absurd h (splitSlash_ne_nil b)
  · rename_i seg segs h
    simp [hc, h]

theorem splitSlash_noslash : ∀ l : List Char, '/' ∉ l → splitSlash l = [l] := by
  intro l
  induction l with
  | nil => intro _; rfl
  | cons c cs ih =>
    intro h
    simp only [List.mem_cons, not_or] at h
    have hc : c ≠ '/' := fun e => h.1 e.symm
    rw [splitSlash_cons_ne c hc]
    simp [ih h.2]

theorem splitSlash_append_slash : ∀ a b : List Char,
    splitSlash (a ++ '/' :: b) = splitSlash a ++ splitSlash b := by
  intro a b
  induction a with
  | nil => rw [List.nil_append, splitSlash_slash]; rfl
  | cons c cs ih =>
    by_cases hc : c = '/'
    · subst hc
      rw [List.cons_append, splitSlash_slash, splitSlash_slash, ih]
      rfl
    · rw [List.cons_append, splitSlash_cons_ne c hc, splitSlash_cons_ne c hc]
      obtain ⟨x, xs, hx⟩ := List.exists_cons_of_ne_nil (splitSlash_ne_nil cs)
      simp only [ih, hx, List.cons_append, List.head_cons, List.tail_cons]

theorem splitSlash_mem_noslash : ∀ (l seg : List Char), seg ∈ splitSlash l → '/' ∉ seg := by
  intro l
  induction l with
  | nil => intro seg h; simp [splitSlash] at h; subst h; simp
  | cons c cs ih =>
    intro seg h
    by_cases hc : c = '/'
    · subst hc
      rw [splitSlash_slash] at h
      rcases List.mem_cons.mp h with h | h
      · subst h; simp
      · exact ih seg h
    · rw [splitSlash_cons_ne c hc] at h
      obtain ⟨x, xs, hx⟩ := List.exists_cons_of_ne_nil (splitSlash_ne_nil cs)
      simp only [hx, List.head_cons, List.tail_cons] at h
      rcases List.mem_cons.mp h with h | h
      · subst h
        have := ih x (by rw [hx]; exact List.mem_cons_self _ _)
        simp only [List.mem_cons, not_or]
        exact ⟨fun e => hc e.symm, this⟩
      · exact ih seg (by rw [hx]; exact List.mem_cons_of_mem _ h)

theorem pushSegment_clean (b : Bool) (acc : List String) (seg : String) (h : CleanSeg seg) :
    pushSegment b acc seg = seg :: acc := by
  simp [pushSegment, h.1, h.2.1, h.2.2.1]

theorem foldl_pushSegment_clean (b : Bool) : ∀ (segs acc : List String),
    (∀ s ∈ segs, CleanSeg s) → segs.foldl (pushSegment b) acc = segs.reverse ++ acc := by
  intro segs
  induction segs with
  | nil => intro acc _; rfl
  | cons s segs ih =>
    intro acc h
    rw [List.foldl_cons, pushSegment_clean b acc s (h s (List.mem_cons_self _ _)),
      ih _ (fun x hx => h x (List.mem_cons_of_mem _ hx))]
    simp

theorem pushSegment_false_clean (acc : List String) (seg : String)
    (hacc : ∀ s ∈ acc, CleanSeg s) (hseg : '/' ∉ seg.toList) :
    ∀ s ∈ pushSegment false acc seg, CleanSeg s := by
  unfold pushSegment
  split
  · exact hacc
  · rename_i h1
    split
    · rename_i h2
      split
      · simp
      · rename_i last rest
        split
        · rename_i h3
          exact absurd h3 (hacc last (List.mem_cons_self _ _)).2.2.1
        · exact fun s hs => hacc s (List.mem_cons_of_mem _ hs)
    · rename_i h2
      intro s hs
      rcases List.mem_cons.mp hs with hs | hs
      · subst hs
        simp only [Bool.or_eq_true, decide_eq_true_eq, not_or] at h1
        exact ⟨h1.1, h1.2, h2, hseg⟩
      · exact hacc s hs

theorem foldl_pushSegment_false_clean : ∀ (segs acc : List String),
    (∀ s ∈ acc, CleanSeg s) → (∀ s ∈ segs, '/' ∉ s.toList) →
    ∀ s ∈ segs.foldl (pushSegment false) acc, CleanSeg s := by
  intro segs
  induction segs with
  | nil => intro acc h _; exact h
  | cons x segs ih =>
    intro acc hacc hsegs
    rw [List.foldl_cons]
    exact ih _ (pushSegment_false_clean acc x hacc (hsegs x (List.mem_cons_self _ _)))
      (fun s hs => hsegs s (List.mem_cons_of_mem _ hs))

theorem normalizeSegments_clean (p : String) : ∀ s ∈ normalizeSegments false p, CleanSeg s := by
  intro s hs
  unfold normalizeSegments at hs
  rw [List.mem_reverse] at hs
  refine foldl_pushSegment_false_clean _ [] (by simp) ?_ s hs
  intro x hx
  obtain ⟨seg, hseg, rfl⟩ := List.mem_map.mp hx
  exact splitSlash_mem_noslash _ seg hseg

theorem intercalate_go_toList (s : String) : ∀ (l : List String) (acc : String),
    (String.intercalate.go acc s l).toList =
      acc.toList ++ (l.map (fun x => s.toList ++ x.toList)).flatten := by
  intro l
  induction l with
  | nil => intro acc; simp [String.intercalate.go]
  | cons a l ih =>
    intro acc
    rw [String.intercalate.go, ih]
    simp [String.toList, List.append_assoc]

theorem intercalate_toList (s : String) (a : String) (l : List String) :
    (String.intercalate s (a :: l)).toList =
      a.toList ++ (l.map (fun x => s.toList ++ x.toList)).flatten := by
  rw [String.intercalate, intercalate_go_toList]

theorem splitSlash_join : ∀ (l : List String) (a : List Char), '/' ∉ a →
    (∀ s ∈ l, '/' ∉ s.toList) →
    splitSlash (a ++ (l.map (fun x => "/".toList ++ x.toList)).flatten) =
      a :: l.map String.toList := by
  intro l
  induction l with
  | nil => intro a ha _; simp [splitSlash_noslash a ha]
  | cons x l ih =>
    intro a ha hl
    have e : a ++ ((x :: l).map (fun x => "/".toList ++ x.toList)).flatten =
        a ++ '/' :: (x.toList ++ (l.map (fun x => "/".toList ++ x.toList)).flatten) := by
      simp [String.toList]
    rw [e, splitSlash_append_slash, splitSlash_noslash a ha,
      ih x.toList (hl x (List.mem_cons_self _ _))
        (fun s hs => hl s (List.mem_cons_of_mem _ hs))]
    simp

/-- Splitting the joined segments gives the segments back. -/
theorem splitSlash_intercalate (a : String) (l : List String)
    (h : ∀ s ∈ a :: l, '/' ∉ s.toList) :
    (splitSlash (String.intercalate "/" (a :: l)).toList).map String.mk = a :: l := by
  rw [intercalate_toList, splitSlash_join l a.toList (h a (List.mem_cons_self _ _))
    (fun s hs => h s (List.mem_cons_of_mem _ hs))]
  have e : ∀ m : List String, m.map (String.mk ∘ String.toList) = m := by
    intro m
    induction m with
    | nil => rfl
    | cons x m ih => rw [List.map_cons, ih]; rfl
  simp [String.toList, List.map_map, e]

/-- The segments of an absolute path written from clean segments. -/
theorem normalizeSegments_of_clean (b : Bool) (segs : List String)
    (h : ∀ s ∈ segs, CleanSeg s) :
    normalizeSegments b ("/" ++ String.intercalate "/" segs) = segs := by
  unfold normalizeSegments
  have e : ("/" ++ String.intercalate "/" segs).toList =
      '/' :: (String.intercalate "/" segs).toList := by
    simp [String.toList]
  rw [e, splitSlash_slash, List.map_cons, List.foldl_cons]
  have h0 : pushSegment b [] (String.mk []) = [] := by simp [pushSegment]
  rw [h0]
  cases segs with
  | nil => simp [String.intercalate, splitSlash, pushSegment]
  | cons a l =>
    rw [splitSlash_intercalate a l (fun s hs => (h s hs).2.2.2),
      foldl_pushSegment_clean b (a :: l) [] h]
    simp

theorem intercalate_ne_empty (a : String) (l : List String) (h : a ≠ "") :
    String.intercalate "/" (a :: l) ≠ "" := by
  intro e
  have := congrArg String.toList e
  rw [intercalate_toList] at this
  have ha : a.toList ≠ [] := by
    intro h2
    apply h
    cases a
    simp only [String.toList] at h2
    subst h2
    rfl
  cases hx : a.toList with
  | nil => exact ha hx
  | cons x xs => rw [hx] at this; simp [String.toList] at this

theorem dropCommon_shared : ∀ (S B : List String), dropCommon S (S ++ B) = ([], B) := by
  intro S
  induction S with
  | nil =>
    intro B
    cases B <;> rfl
  | cons s S ih =>
    intro B
    rw [List.cons_append, dropCommon]
    simp [ih]

/-- Joining clean segments onto an absolute path appends them to its segments. -/
theorem pathJoin_clean (a b : String) (B : List String)
    (habs : a.toList.head? = some '/')
    (hb : (splitSlash b.toList).map String.mk = B) (hB : ∀ s ∈ B, CleanSeg s)
    (hlast : b.toList.getLast? ≠ some '/') :
    pathJoin a b = "/" ++ String.intercalate "/" (normalizeSegments false a ++ B) := by
  obtain ⟨a0, arest, ha⟩ : ∃ x xs, a.toList = x :: xs := by
    cases h : a.toList with
    | nil => rw [h] at habs; simp at habs
    | cons x xs => exact ⟨x, xs, rfl⟩
  have ha0 : a0 = '/' := by rw [ha] at habs; simpa using habs
  have hane : a ≠ "" := by
    intro e; rw [e] at ha; simp [String.toList] at ha
  obtain ⟨x, xs, hBx⟩ : ∃ x xs, B = x :: xs := by
    cases hB0 : B with
    | nil =>
      rw [hB0] at hb
      have := splitSlash_ne_nil b.toList
      simp at hb
      exact absurd hb this
    | cons x xs => exact ⟨x, xs, rfl⟩
  have hbne : b ≠ "" := by
    intro e
    rw [e] at hb
    simp only [String.toList, splitSlash, List.map_cons, List.map_nil] at hb
    have := hB (String.mk []) (by rw [← hb]; exact List.mem_cons_self _ _)
    exact this.1 rfl
  have hbl : b.toList ≠ [] := by
    intro e
    apply hbne
    cases b
    simp only [String.toList] at e
    subst e
    rfl
  have hp : (a ++ "/" ++ b).toList = a.toList ++ '/' :: b.toList := by
    simp [String.toList]
  have hseg : normalizeSegments false (a ++ "/" ++ b) = normalizeSegments false a ++ B := by
    unfold normalizeSegments
    rw [hp, splitSlash_append_slash, List.map_append, List.foldl_append, hb,
      foldl_pushSegment_clean false B _ hB]
    simp
  have hbody : String.intercalate "/" (normalizeSegments false a ++ B) ≠ "" := by
    cases hS : normalizeSegments false a with
    | nil =>
      rw [List.nil_append, hBx]
      exact intercalate_ne_empty x xs (hB x (by rw [hBx]; exact List.mem_cons_self _ _)).1
    | cons s S =>
      rw [List.cons_append]
      exact intercalate_ne_empty s _
        (normalizeSegments_clean a s (by rw [hS]; exact List.mem_cons_self _ _)).1
  have hne : a ++ "/" ++ b ≠ "" := by
    intro e
    have := congrArg String.toList e
    rw [hp, ha] at this
    simp [String.toList] at this
  have hhead : ((a ++ "/" ++ b).toList.head? == some '/') = true := by
    rw [hp, ha, ha0]; rfl
  have htrail : ((a ++ "/" ++ b).toList.getLast? == some '/') = false := by
    rw [hp]
    have : (a.toList ++ '/' :: b.toList).getLast? = b.toList.getLast? := by
      rw [show a.toList ++ '/' :: b.toList = (a.toList ++ ['/']) ++ b.toList by simp]
      rw [List.getLast?_append_of_ne_nil _ hbl]
    rw [this]
    cases hl : b.toList.getLast? with
    | none => rfl
    | some c =>
      have : c ≠ '/' := by rintro rfl; exact hlast hl
      simp [this]
  unfold pathJoin
  rw [if_neg hane, if_neg hbne]
  unfold pathNormalize
  rw [if_neg hne]
  simp only [hhead, htrail, Bool.not_true, hseg, Bool.false_and, Bool.false_eq_true, if_false,
    if_true, if_neg hbody]

/-- The path from an absolute directory to a path below it. -/
theorem pathRelative_clean (a : String) (B : List String) (hB : ∀ s ∈ B, CleanSeg s) :
    pathRelative a ("/" ++ String.intercalate "/" (normalizeSegments false a ++ B)) =
      String.intercalate "/" B := by
  unfold pathRelative
  rw [normalizeSegments_of_clean false _ (by
    intro s hs
    rcases List.mem_append.mp hs with h | h
    · exact normalizeSegments_clean a s h
    · exact hB s h)]
  simp [dropCommon_shared]

theorem cleanSeg_pdfs : CleanSeg "pdfs" := by
  refine ⟨by decide, by decide, by decide, by decide⟩

theorem cleanSeg_file (trx : String) (h : '/' ∉ trx.toList) : CleanSeg (trx ++ ".pdf") := by
  have e : (trx ++ ".pdf").toList = trx.toList ++ ['.', 'p', 'd', 'f'] := by
    simp [String.toList]
  have hlen : 4 ≤ (trx ++ ".pdf").toList.length := by rw [e]; simp
  refine ⟨?_, ?_, ?_, ?_⟩
  · intro h1; rw [h1] at hlen; simp [String.toList] at hlen
  · intro h1; rw [h1] at hlen; simp [String.toList] at hlen
  · intro h1; rw [h1] at hlen; simp [String.toList] at hlen
  · rw [e]
    simp only [List.mem_append, not_or]
    exact ⟨h, by decide⟩

/-- The three paths of a receipt: where it is written, what is stored on the
row, and where the download route looks for it. -/
theorem receipt_paths (sd trx : String) (habs : sd.toList.head? = some '/')
    (hx : '/' ∉ trx.toList) :
    pathRelative sd (pathJoin (pathJoin sd "pdfs") (trx ++ ".pdf")) =
      "pdfs/" ++ trx ++ ".pdf" ∧
    pathJoin sd ("pdfs/" ++ trx ++ ".pdf") = pathJoin (pathJoin sd "pdfs") (trx ++ ".pdf") := by
  have hf := cleanSeg_file trx hx
  have e : (trx ++ ".pdf").toList = trx.toList ++ ['.', 'p', 'd', 'f'] := by
    simp [String.toList]
  have e2 : ("pdfs/" ++ trx ++ ".pdf").toList =
      ['p', 'd', 'f', 's'] ++ '/' :: (trx ++ ".pdf").toList := by
    simp [String.toList]
  have hlastf : (trx ++ ".pdf").toList.getLast? ≠ some '/' := by
    rw [e, List.getLast?_append_of_ne_nil _ (by simp)]
    decide
  have hdir : pathJoin sd "pdfs" =
      "/" ++ String.intercalate "/" (normalizeSegments false sd ++ ["pdfs"]) :=
    pathJoin_clean sd "pdfs" ["pdfs"] habs (by decide)
      (by intro s hs; simp only [List.mem_singleton] at hs; subst hs; exact cleanSeg_pdfs)
      (by decide)
  have hdirclean : ∀ s ∈ normalizeSegments false sd ++ ["pdfs"], CleanSeg s := by
    intro s hs
    rcases List.mem_append.mp hs with h | h
    · exact normalizeSegments_clean sd s h
    · simp only [List.mem_singleton] at h; subst h; exact cleanSeg_pdfs
  have hfile : pathJoin (pathJoin sd "pdfs") (trx ++ ".pdf") =
      "/" ++ String.intercalate "/" (normalizeSegments false sd ++ ["pdfs", trx ++ ".pdf"]) := by
    rw [pathJoin_clean (pathJoin sd "pdfs") (trx ++ ".pdf") [trx ++ ".pdf"]
      (by rw [hdir]; simp [String.toList])
      (by rw [splitSlash_noslash _ hf.2.2.2]; rfl)
      (by intro s hs; simp only [List.mem_singleton] at hs; subst hs; exact hf) hlastf]
    rw [hdir, normalizeSegments_of_clean false _ hdirclean]
    simp
  have hB : ∀ s ∈ ["pdfs", trx ++ ".pdf"], CleanSeg s := by
    intro s hs
    simp only [List.mem_cons, List.mem_singleton, List.not_mem_nil, or_false] at hs
    rcases hs with rfl | rfl
    · exact cleanSeg_pdfs
    · exact hf
  constructor
  · rw [hfile, pathRelative_clean sd _ hB]
    simp [String.intercalate, String.intercalate.go, String.append_assoc]
  · rw [hfile]
    refine pathJoin_clean sd _ ["pdfs", trx ++ ".pdf"] habs ?_ hB ?_
    · rw [e2, splitSlash_append_slash, splitSlash_noslash _ (by decide),
        splitSlash_noslash _ hf.2.2.2]
      rfl
    · rw [e2]
      rw [show ['p', 'd', 'f', 's'] ++ '/' :: (trx ++ ".pdf").toList =
        (['p', 'd', 'f', 's'] ++ ['/']) ++ (trx ++ ".pdf").toList by simp]
      rw [List.getLast?_append_of_ne_nil _ (by rw [e]; simp)]
      exact hlastf

/-! ## The receipt of a successful withdrawal -/

theorem tarikWrite_success {env : Env} {u : User} {body : TarikBody} {w : World} {sid A : Int}
    (h : (tarikWrite env u body w sid A).resp.flash.type = "success") :
    env.pdfFails = false ∧
    (∀ t ∈ w.db.transaksi, t.trx_no ≠ env.trx_no) ∧
    (tarikWrite env u body w sid A).world.db.transaksi =
      w.db.transaksi ++ [⟨env.trx_no, some sid, cashierId u, "tarik", A,
        orNull body.keterangan, none, none,
        some (pathRelative env.storageDir (pathJoin (pdfDir env) (env.trx_no ++ ".pdf")))⟩] ∧
    generatePenarikanPDF env (pdfDir env) env.trx_no w.files =
      some (pathJoin (pdfDir env) (env.trx_no ++ ".pdf"),
        (tarikWrite env u body w sid A).world.files) ∧
    pathJoin (pdfDir env) (env.trx_no ++ ".pdf") ∈ (tarikWrite env u body w sid A).world.files := by
  unfold tarikWrite at h ⊢
  cases h1 : runStmt env Stmt.updateSaldo (w.db.updateSaldo (-A) (some sid)) with
  | none => simp [h1, reject] at h
  | some db1 =>
    have e1 := updateSaldo_eq_some (runStmt_eq_some h1).2
    simp only [h1] at h ⊢
    cases h2 : runStmt env Stmt.insertTransaksi
        (db1.insertTransaksi ⟨env.trx_no, some sid, cashierId u, "tarik", A,
          orNull body.keterangan, none, none, none⟩) with
    | none => simp [h2, reject] at h
    | some db2 =>
      have e2 := insertTransaksi_eq_some (runStmt_eq_some h2).2
      simp only [h2] at h ⊢
      rw [generatePenarikanPDF_eq] at h ⊢
      by_cases hp : env.pdfFails = true
      · simp [hp, reject] at h
      · have hp : env.pdfFails = false := by simpa using hp
        simp only [hp, Bool.false_eq_true, if_false] at h ⊢
        cases h3 : runStmt env Stmt.updatePdfPath
            (some (db2.updatePdfPath
              (pathRelative env.storageDir (pathJoin (pdfDir env) (env.trx_no ++ ".pdf")))
              env.trx_no)) with
        | none => simp [h3, reject] at h
        | some db3 =>
          have e3 := (runStmt_eq_some h3).2
          simp only [Option.some.injEq] at e3
          have huniq : ∀ t ∈ w.db.transaksi, t.trx_no ≠ env.trx_no := by
            intro t ht
            exact e2.2 t (by rw [e1]; exact ht)
          simp only [h3, logAudit_transaksi]
          refine ⟨trivial, huniq, ?_, trivial, ?_⟩
          · rw [← e3, e2.1, e1]
            simp only [Db.updatePdfPath, List.map_append, List.map_cons, List.map_nil,
              setPdfPath, if_true]
            rw [map_setPdfPath_of_ne _ _ _ huniq]
          · by_cases hc : pathJoin (pdfDir env) (env.trx_no ++ ".pdf") ∈ w.files
            · simp [hc]
            · simp [hc]

theorem postTarik_success {env : Env} {session : Option User} {body : TarikBody} {w : World}
    (h : (postTarik env session body w).resp.flash.type = "success") :
    ∃ u sid A, session = some u ∧ body.santri_id = some sid ∧
      parseInt body.jumlah = some A ∧
      postTarik env session body w = tarikWrite env u body w sid A := by
  unfold postTarik at h ⊢
  rcases route_cases "kasir" session w (fun u => tarikHandler env u body w) with
    hr | ⟨u, hu, -, hr⟩
  · rw [hr.2.2] at h; exact absurd h (by decide)
  · rw [hr] at h ⊢
    rcases tarikHandler_cases env u body w with hc | ⟨sid, A, s, hs, hA, -, -, -, -, -, hc⟩
    · rw [hc.2.2] at h; exact absurd h (by decide)
    · exact ⟨u, sid, A, hu, hs, hA, hc⟩

theorem find_append_last (l : List Transaksi) (t : Transaksi) (x : String)
    (hl : ∀ r ∈ l, r.trx_no ≠ x) (ht : t.trx_no = x) :
    (l ++ [t]).find? (fun r => r.trx_no == x) = some t := by
  induction l with
  | nil => simp [List.find?, ht]
  | cons a l ih =>
    have ha : (a.trx_no == x) = false := by
      simpa using hl a (List.mem_cons_self _ _)
    rw [List.cons_append, List.find?_cons, ha]
    exact ih (fun r hr => hl r (List.mem_cons_of_mem _ hr))

/-! ## Two withdrawals in flight: what the schedules compute -/

theorem foldl_step_first (c1 c2 : TarikCall) : ∀ (n : Nat) (f : Flight),
    (List.replicate n true).foldl (Flight.step c1 c2) f =
      ⟨(tarikRun c1 n (f.world, f.first)).1, (tarikRun c1 n (f.world, f.first)).2, f.second⟩ := by
  intro n
  induction n with
  | zero => intro f; rfl
  | succ n ih =>
    intro f
    rw [List.replicate_succ, List.foldl_cons, ih]
    simp [Flight.step, tarikRun]

theorem foldl_step_second (c1 c2 : TarikCall) : ∀ (n : Nat) (f : Flight),
    (List.replicate n false).foldl (Flight.step c1 c2) f =
      ⟨(tarikRun c2 n (f.world, f.second)).1, f.first,
        (tarikRun c2 n (f.world, f.second)).2⟩ := by
  intro n
  induction n with
  | zero => intro f; rfl
  | succ n ih =>
    intro f
    rw [List.replicate_succ, List.foldl_cons, ih]
    simp [Flight.step, tarikRun]

theorem tarikRun_finished (c : TarikCall) : ∀ (n : Nat) (w : World) (r : Response),
    tarikRun c n (w, TarikStage.finished r) = (w, TarikStage.finished r) := by
  intro n
  induction n with
  | zero => intro w r; rfl
  | succ n ih => intro w r; simp [tarikRun, tarikStep, ih]

theorem tarikRun_succ (c : TarikCall) (n : Nat) (s : World × TarikStage) :
    tarikRun c (n + 1) s = tarikRun c n (tarikStep c.env c.session c.body s.1 s.2) := rfl

theorem tarikRun_zero (c : TarikCall) (s : World × TarikStage) : tarikRun c 0 s = s := rfl

/-- The five steps after the balance check are the write stage of the handler. -/
theorem tarikRun_checked (c : TarikCall) (u : User) (sid A : Int) (w : World) :
    tarikRun c 5 (w, TarikStage.checked u sid A) =
      ((tarikWrite c.env u c.body w sid A).world,
        TarikStage.finished (tarikWrite c.env u c.body w sid A).resp) := by
  unfold tarikWrite
  rw [show (5 : Nat) = 4 + 1 from rfl, tarikRun_succ]
  simp only [tarikStep]
  cases h1 : runStmt c.env Stmt.updateSaldo (w.db.updateSaldo (-A) (some sid)) with
  | none => simp only [tarikRun_finished]; rfl
  | some db1 =>
    simp only []
    rw [show (4 : Nat) = 3 + 1 from rfl, tarikRun_succ]
    simp only [tarikStep]
    cases h2 : runStmt c.env Stmt.insertTransaksi
        (db1.insertTransaksi ⟨c.env.trx_no, some sid, cashierId u, "tarik", A,
          orNull c.body.keterangan, none, none, none⟩) with
    | none => simp only [tarikRun_finished]; rfl
    | some db2 =>
      simp only []
      rw [show (3 : Nat) = 2 + 1 from rfl, tarikRun_succ]
      simp only [tarikStep]
      cases h3 : generatePenarikanPDF c.env (pdfDir c.env) c.env.trx_no w.files with
      | none => simp only [tarikRun_finished]; rfl
      | some p =>
        obtain ⟨pdfPath, files1⟩ := p
        simp only []
        rw [show (2 : Nat) = 1 + 1 from rfl, tarikRun_succ]
        simp only [tarikStep]
        cases h4 : runStmt c.env Stmt.updatePdfPath
            (some (db2.updatePdfPath (pathRelative c.env.storageDir pdfPath) c.env.trx_no)) with
        | none => simp only [tarikRun_finished]; rfl
        | some db3 =>
          simp only []
          rw [show (1 : Nat) = 0 + 1 from rfl, tarikRun_succ, tarikRun_zero]
          simp only [tarikStep]

/-- The first step either answers the request, as the handler does, or passes
the balance check and leaves the write stage to be done. -/
theorem tarikStep_start (c : TarikCall) (w : World) :
    (∃ r, tarikStep c.env c.session c.body w TarikStage.start = (w, TarikStage.finished r) ∧
      (postTarik c.env c.session c.body w).world = w ∧
      (postTarik c.env c.session c.body w).resp = r) ∨
    (∃ u sid A s, c.session = some u ∧ c.body.santri_id = some sid ∧
      parseInt c.body.jumlah = some A ∧ 0 < A ∧ w.db.selectSantri sid = some s ∧
      A ≤ s.saldo ∧
      tarikStep c.env c.session c.body w TarikStage.start = (w, TarikStage.checked u sid A) ∧
      postTarik c.env c.session c.body w = tarikWrite c.env u c.body w sid A) := by
  unfold postTarik
  simp only [tarikStep]
  cases hs : c.session with
  | none => left; exact ⟨_, rfl, rfl, rfl⟩
  | some u =>
    by_cases hr : u.role = "kasir"
    · simp only [hr, ne_eq, not_true_eq_false, if_false, requireRole_some hr]
      unfold tarikHandler
      split
      · rename_i sid A hsid hA
        by_cases h0 : A = 0 ∨ A ≤ 0
        · left; simp [h0, reject]
        · simp only [h0, if_false]
          by_cases hq : c.env.canQuery = true
          · simp only [hq, Bool.not_true, Bool.false_eq_true, if_false]
            by_cases hsel : c.env.rejects Stmt.selectSantri = true
            · left; simp [hsel, reject, tarikFailed]
            · simp only [hsel, if_false]
              cases hrow : w.db.selectSantri sid with
              | none => left; simp [reject]
              | some s =>
                simp only []
                by_cases hlt : s.saldo < A
                · left; simp [hlt, reject]
                · right
                  simp only [hlt, if_false]
                  exact ⟨u, sid, A, s, rfl, hsid, hA, by omega, hrow, by omega, rfl, rfl⟩
          · left; simp [hq, reject]
      · left; exact ⟨_, rfl, rfl, rfl⟩
    · left
      simp [requireLogin, requireRole, hr, reject]

/-- Processing a request to its end without interruption is the route handler. -/
theorem tarikRun_start (c : TarikCall) (w : World) :
    tarikRun c 6 (w, TarikStage.start) =
      ((postTarik c.env c.session c.body w).world,
        TarikStage.finished (postTarik c.env c.session c.body w).resp) := by
  rw [show (6 : Nat) = 5 + 1 from rfl, tarikRun_succ]
  rcases tarikStep_start c w with ⟨r, h1, h2, h3⟩ | ⟨u, sid, A, s, -, -, -, -, -, -, h1, h2⟩
  · rw [h1, tarikRun_finished, h2, h3]
  · rw [h1, tarikRun_checked, h2]

theorem interleave_sequential (c1 c2 : TarikCall) (w : World) :
    interleave c1 c2 sequentialSchedule w =
      ⟨(postTarik c2.env c2.session c2.body
          (postTarik c1.env c1.session c1.body w).world).world,
        TarikStage.finished (postTarik c1.env c1.session c1.body w).resp,
        TarikStage.finished (postTarik c2.env c2.session c2.body
          (postTarik c1.env c1.session c1.body w).world).resp⟩ := by
  unfold interleave sequentialSchedule
  rw [List.foldl_append, foldl_step_first, foldl_step_second]
  simp only [tarikRun_start]

theorem interleave_racing (c1 c2 : TarikCall) (w : World) (u1 u2 : User) (sid1 sid2 A1 A2 : Int)
    (h1 : tarikStep c1.env c1.session c1.body w TarikStage.start =
      (w, TarikStage.checked u1 sid1 A1))
    (h2 : tarikStep c2.env c2.session c2.body w TarikStage.start =
      (w, TarikStage.checked u2 sid2 A2)) :
    interleave c1 c2 racingSchedule w =
      ⟨(tarikWrite c2.env u2 c2.body (tarikWrite c1.env u1 c1.body w sid1 A1).world
          sid2 A2).world,
        TarikStage.finished (tarikWrite c1.env u1 c1.body w sid1 A1).resp,
        TarikStage.finished (tarikWrite c2.env u2 c2.body
          (tarikWrite c1.env u1 c1.body w sid1 A1).world sid2 A2).resp⟩ := by
  unfold interleave racingSchedule
  rw [List.foldl_append, List.foldl_append, foldl_step_second, foldl_step_first]
  simp only [List.foldl_cons, List.foldl_nil, Flight.step, if_true, Bool.false_eq_true,
    if_false, h1, h2, tarikRun_checked]

theorem checked_of_start {c : TarikCall} {w : World} {u : User} {sid A : Int}
    (h : tarikStep c.env c.session c.body w TarikStage.start = (w, TarikStage.checked u sid A)) :
    ∃ s, w.db.selectSantri sid = some s ∧ A ≤ s.saldo ∧ 0 < A := by
  rcases tarikStep_start c w with ⟨r, h1, -, -⟩ | ⟨u1, sid1, A1, s, -, -, -, hpos, hs, hle, h1, -⟩
  · rw [h1] at h
    simp at h
  · rw [h1] at h
    simp only [Prod.mk.injEq, TarikStage.checked.injEq, true_and] at h
    obtain ⟨-, rfl, rfl⟩ := h
    exact ⟨s, hs, hle, hpos⟩

theorem tarikWrite_accepted_santri {env : Env} {u : User} {body : TarikBody} {w : World}
    {sid A : Int} (h : (tarikWrite env u body w sid A).accepted = true) :
    (tarikWrite env u body w sid A).world.db.santri =
      w.db.santri.map (addSaldo (-A) (some sid)) := by
  rcases tarikWrite_cases env u body w sid A with h1 | h2 | h3
  · simp [Result.accepted, h1.2] at h
  · simp [Result.accepted, h2.2.2.2] at h
  · exact h3.1

/-! ## `formatRupiah`: the groups -/

theorem isWordChar_of_digit {c : Char} (h : c.isDigit = true) : isWordChar c = true := by
  simp [isWordChar, Char.isAlphanum, h]

theorem digit_ne_dot {c : Char} (h : c.isDigit = true) : c ≠ '.' := by
  rintro rfl
  simp [Char.isDigit] at h

theorem takeWhile_all {p : Char → Bool} : ∀ l : List Char, (∀ c ∈ l, p c = true) →
    l.takeWhile p = l := by
  intro l hl
  have := takeWhile_append_head (p := p) [] (by simp) l hl
  simpa using this

theorem insertDots_filter : ∀ (l : List Char) (prev : Option Char), '.' ∉ l →
    (insertDots prev l).filter (fun c => c != '.') = l := by
  intro l
  induction l with
  | nil => intro prev _; rfl
  | cons c cs ih =>
    intro prev h
    simp only [List.mem_cons, not_or] at h
    have hc : (c != '.') = true := by simpa using fun e => h.1 e.symm
    rw [insertDots]
    split
    · simp [List.filter_cons, hc, ih (some c) h.2]
    · simp [List.filter_cons, hc, ih (some c) h.2]

/-- One position of the replacement inside a run of digits. -/
theorem insertDots_digit (prev : Option Char) (c : Char) (cs : List Char)
    (h : ∀ x ∈ c :: cs, x.isDigit = true) :
    insertDots prev (c :: cs) =
      (if (match prev with
          | some p => isWordChar p
          | none => false) && (cs.length + 1) % 3 == 0 then ['.'] else []) ++
        c :: insertDots (some c) cs := by
  rw [insertDots]
  have hw := isWordChar_of_digit (h c (List.mem_cons_self _ _))
  have hg : groupAhead (c :: cs) = ((cs.length + 1) % 3 == 0) := by
    simp [groupAhead, takeWhile_all (c :: cs) h]
  rw [hg]
  cases prev with
  | none => simp [notWordBoundary, hw]
  | some p => simp [notWordBoundary, hw]

theorem insertDots_dot (p c : Char) (cs : List Char) (h : ∀ x ∈ c :: cs, x.isDigit = true)
    (hp : p.isDigit = true) (hm : (cs.length + 1) % 3 = 0) :
    insertDots (some p) (c :: cs) = '.' :: c :: insertDots (some c) cs := by
  rw [insertDots_digit (some p) c cs h]
  simp [isWordChar_of_digit hp, hm]

theorem insertDots_nodot (prev : Option Char) (c : Char) (cs : List Char)
    (h : ∀ x ∈ c :: cs, x.isDigit = true) (hm : prev = none ∨ (cs.length + 1) % 3 ≠ 0) :
    insertDots prev (c :: cs) = c :: insertDots (some c) cs := by
  rw [insertDots_digit prev c cs h]
  rcases hm with rfl | hm
  · simp
  · simp [hm]

theorem insertDots_nil (prev : Option Char) : insertDots prev [] = [] := by
  rw [insertDots]

theorem insertDots_chunks : ∀ (k : Nat) (ds : List Char) (p : Char), ds.length = 3 * k →
    (∀ x ∈ ds, x.isDigit = true) → p.isDigit = true →
    insertDots (some p) ds = ((chunk3 ds).map (fun g => '.' :: g)).flatten ∧
    (chunk3 ds).flatten = ds ∧ (∀ g ∈ chunk3 ds, g.length = 3) := by
  intro k
  induction k with
  | zero =>
    intro ds p hl _ _
    have : ds = [] := List.length_eq_zero.mp (by omega)
    subst this
    simp [insertDots_nil, chunk3]
  | succ k ih =>
    intro ds p hl hd hp
    match ds, hl, hd with
    | a :: b :: c :: rest, hl, hd =>
      simp only [List.length_cons] at hl
      have hlen : rest.length = 3 * k := by omega
      have hrest : ∀ x ∈ rest, x.isDigit = true := fun x hx => hd x (by simp [hx])
      have ha : a.isDigit = true := hd a (by simp)
      have hb : b.isDigit = true := hd b (by simp)
      have hc : c.isDigit = true := hd c (by simp)
      have hd2 : ∀ x ∈ b :: c :: rest, x.isDigit = true := fun x hx => hd x (by simp [hx])
      have hd3 : ∀ x ∈ c :: rest, x.isDigit = true :=
        fun x hx => hd2 x (List.mem_cons_of_mem _ hx)
      obtain ⟨i1, i2, i3⟩ := ih rest c hlen hrest hc
      refine ⟨?_, ?_, ?_⟩
      · rw [insertDots_dot p a _ hd hp (by simp only [List.length_cons]; omega),
          insertDots_nodot (some a) b _ hd2 (Or.inr (by simp only [List.length_cons]; omega)),
          insertDots_nodot (some b) c _ hd3 (Or.inr (by omega)), i1]
        simp [chunk3]
      · simp [chunk3, i2]
      · intro g hg
        simp only [chunk3, List.mem_cons] at hg
        rcases hg with rfl | hg
        · rfl
        · exact i3 g hg
    | [], hl, _ => simp at hl
    | [_], hl, _ => simp at hl; omega
    | [_, _], hl, _ => simp at hl; omega

theorem intercalate_cons (sep a : List Char) (l : List (List Char)) :
    List.intercalate sep (a :: l) = a ++ (l.map (fun g => sep ++ g)).flatten := by
  induction l generalizing a with
  | nil => simp [List.intercalate]
  | cons b l ih =>
    have := ih b
    simp only [List.intercalate, List.intersperse, List.flatten_cons, List.map_cons] at this ⊢
    rw [this]
    simp

/-- The replacement on a numeral writes its groups with dots between them. -/
theorem insertDots_groups (ds : List Char) (hne : ds ≠ [])
    (hd : ∀ x ∈ ds, x.isDigit = true) :
    insertDots none ds = List.intercalate ['.'] (groupsOf ds) ∧
    (groupsOf ds).flatten = ds ∧
    1 ≤ (ds.take ((ds.length - 1) % 3 + 1)).length ∧
    (ds.take ((ds.length - 1) % 3 + 1)).length ≤ 3 ∧
    (∀ g ∈ chunk3 (ds.drop ((ds.length - 1) % 3 + 1)), g.length = 3) := by
  unfold groupsOf
  rw [intercalate_cons]
  match ds, hne, hd with
  | [a], _, hd =>
    rw [insertDots_nodot none a [] hd (Or.inl rfl), insertDots_nil]
    simp [chunk3]
  | [a, b], _, hd =>
    have hb : ∀ x ∈ [b], x.isDigit = true := fun x hx => hd x (by simp at hx; simp [hx])
    rw [insertDots_nodot none a [b] hd (Or.inl rfl),
      insertDots_nodot (some a) b [] hb (Or.inr (by simp)), insertDots_nil]
    simp [chunk3]
  | a :: b :: c :: rest, _, hd =>
    have ha : a.isDigit = true := hd a (by simp)
    have hb : b.isDigit = true := hd b (by simp)
    have hc : c.isDigit = true := hd c (by simp)
    have hrest : ∀ x ∈ rest, x.isDigit = true := fun x hx => hd x (by simp [hx])
    have hd2 : ∀ x ∈ b :: c :: rest, x.isDigit = true := fun x hx => hd x (by simp [hx])
    have hd3 : ∀ x ∈ c :: rest, x.isDigit = true :=
      fun x hx => hd2 x (List.mem_cons_of_mem _ hx)
    have hmod : rest.length % 3 = 0 ∨ rest.length % 3 = 1 ∨ rest.length % 3 = 2 := by omega
    rcases hmod with hm | hm | hm
    · -- the first group has three digits
      obtain ⟨k, hk⟩ : ∃ k, rest.length = 3 * k := ⟨rest.length / 3, by omega⟩
      obtain ⟨i1, i2, i3⟩ := insertDots_chunks k rest c hk hrest hc
      have e : ((a :: b :: c :: rest).length - 1) % 3 + 1 = 3 := by
        simp only [List.length_cons]; omega
      rw [e, insertDots_nodot none a _ hd (Or.inl rfl),
        insertDots_nodot (some a) b _ hd2 (Or.inr (by simp only [List.length_cons]; omega)),
        insertDots_nodot (some b) c _ hd3 (Or.inr (by omega)), i1]
      simp only [List.take, List.drop, List.length_cons, List.length_nil]
      simp [i2]
      exact i3
    · -- the first group has one digit
      obtain ⟨k, hk⟩ : ∃ k, (b :: c :: rest).length = 3 * k :=
        ⟨(rest.length + 2) / 3, by simp only [List.length_cons]; omega⟩
      obtain ⟨i1, i2, i3⟩ := insertDots_chunks k (b :: c :: rest) a hk hd2 ha
      have e : ((a :: b :: c :: rest).length - 1) % 3 + 1 = 1 := by
        simp only [List.length_cons]; omega
      rw [e, insertDots_nodot none a _ hd (Or.inl rfl), i1]
      simp only [List.take, List.drop, List.length_cons, List.length_nil]
      simp [i2]
      exact i3
    · -- the first group has two digits
      obtain ⟨k, hk⟩ : ∃ k, (c :: rest).length = 3 * k :=
        ⟨(rest.length + 1) / 3, by simp only [List.length_cons]; omega⟩
      obtain ⟨i1, i2, i3⟩ := insertDots_chunks k (c :: rest) b hk hd3 hb
      have e : ((a :: b :: c :: rest).length - 1) % 3 + 1 = 2 := by
        simp only [List.length_cons]; omega
      rw [e, insertDots_nodot none a _ hd (Or.inl rfl),
        insertDots_nodot (some a) b _ hd2 (Or.inr (by simp only [List.length_cons]; omega)), i1]
      simp only [List.take, List.drop, List.length_cons, List.length_nil]
      simp [i2]
      exact i3

theorem decimal_digits (n : Nat) : ∀ c ∈ decimal n, c.isDigit = true :=
  decimalAux_digits (n + 1) n [] (by simp)

theorem decimalAux_ne_nil : ∀ (fuel n : Nat) (acc : List Char),
    (fuel ≠ 0 ∨ acc ≠ []) → decimalAux fuel n acc ≠ [] := by
  intro fuel
  induction fuel with
  | zero =>
    intro n acc h
    rcases h with h | h
    · exact absurd rfl h
    · simpa [decimalAux] using h
  | succ fuel ih =>
    intro n acc _
    rw [decimalAux]
    split
    · simp
    · exact ih _ _ (Or.inr (by simp))

theorem decimal_ne_nil (n : Nat) : decimal n ≠ [] :=
  decimalAux_ne_nil (n + 1) n [] (Or.inl (by omega))

/-! ## `terbilang`: the spelling group by group -/

theorem spellGroup_zero (unit : String) : spellGroup 0 unit = [] := by simp [spellGroup]

theorem spellRibu_zero : spellRibu 0 = [] := by simp [spellRibu, spellGroup]

theorem spellTens_zero : spellTens 0 = [] := by simp [spellTens]

theorem spellHundreds_zero : spellHundreds 0 = [] := by simp [spellHundreds, spellTens]

theorem spell_lt_1000 {x : Nat} (h : x < 1000) : spell x = spellHundreds x := by
  have h1 : x / 1000000000000 = 0 := by omega
  have h2 : x / 1000000000 % 1000 = 0 := by omega
  have h3 : x / 1000000 % 1000 = 0 := by omega
  have h4 : x / 1000 % 1000 = 0 := by omega
  have h5 : x % 1000 = x := by omega
  simp [spell, h1, h2, h3, h4, h5, spellGroup_zero, spellRibu_zero]

theorem spell_split3 {x : Nat} (h : x < 1000000) :
    spell x = spellRibu (x / 1000) ++ spell (x % 1000) := by
  have h1 : x / 1000000000000 = 0 := by omega
  have h2 : x / 1000000000 % 1000 = 0 := by omega
  have h3 : x / 1000000 % 1000 = 0 := by omega
  have h4 : x / 1000 % 1000 = x / 1000 := by omega
  rw [spell_lt_1000 (show x % 1000 < 1000 by omega)]
  simp [spell, h1, h2, h3, h4, spellGroup_zero]

theorem spell_split6 {x : Nat} (h : x < 1000000000) :
    spell x = spellGroup (x / 1000000) "juta" ++ spell (x % 1000000) := by
  have h1 : x / 1000000000000 = 0 := by omega
  have h2 : x / 1000000000 % 1000 = 0 := by omega
  have h3 : x / 1000000 % 1000 = x / 1000000 := by omega
  have g1 : x % 1000000 / 1000000000000 = 0 := by omega
  have g2 : x % 1000000 / 1000000000 % 1000 = 0 := by omega
  have g3 : x % 1000000 / 1000000 % 1000 = 0 := by omega
  have g4 : x % 1000000 / 1000 % 1000 = x / 1000 % 1000 := by omega
  have g5 : x % 1000000 % 1000 = x % 1000 := by omega
  simp [spell, h1, h2, h3, g1, g2, g3, g4, g5, spellGroup_zero]

theorem spell_split9 {x : Nat} (h : x < 1000000000000) :
    spell x = spellGroup (x / 1000000000) "miliar" ++ spell (x % 1000000000) := by
  have h1 : x / 1000000000000 = 0 := by omega
  have h2 : x / 1000000000 % 1000 = x / 1000000000 := by omega
  have g1 : x % 1000000000 / 1000000000000 = 0 := by omega
  have g2 : x % 1000000000 / 1000000000 % 1000 = 0 := by omega
  have g3 : x % 1000000000 / 1000000 % 1000 = x / 1000000 % 1000 := by omega
  have g4 : x % 1000000000 / 1000 % 1000 = x / 1000 % 1000 := by omega
  have g5 : x % 1000000000 % 1000 = x % 1000 := by omega
  simp [spell, h1, h2, g1, g2, g3, g4, g5, spellGroup_zero]

theorem spell_split12 (x : Nat) :
    spell x = spellGroup (x / 1000000000000) "triliun" ++ spell (x % 1000000000000) := by
  have g1 : x % 1000000000000 / 1000000000000 = 0 := by omega
  have g2 : x % 1000000000000 / 1000000000 % 1000 = x / 1000000000 % 1000 := by omega
  have g3 : x % 1000000000000 / 1000000 % 1000 = x / 1000000 % 1000 := by omega
  have g4 : x % 1000000000000 / 1000 % 1000 = x / 1000 % 1000 := by omega
  have g5 : x % 1000000000000 % 1000 = x % 1000 := by omega
  simp [spell, g1, g2, g3, g4, g5, spellGroup_zero]

/-! ### Reading a spelling back -/

theorem readStep_unit (st : Nat × Nat) (d : Nat) (h1 : 1 ≤ d) (h9 : d ≤ 9) :
    readStep st (unitWord d) = (st.1, st.2 + d) := by
  interval_cases d <;> rfl

theorem read_tens (t c r : Nat) (hc : c % 10 = 0) (hr : r < 100) :
    (spellTens r).foldl readStep (t, c) = (t, c + r) := by
  unfold spellTens
  split
  · rename_i h; subst h; rfl
  · split
    · rw [List.foldl_cons, List.foldl_nil, readStep_unit _ r (by omega) (by omega)]
    · split
      · rename_i h; subst h; rfl
      · split
        · rename_i h; subst h; rfl
        · split
          · rw [List.foldl_cons, List.foldl_cons, List.foldl_nil,
              readStep_unit _ (r - 10) (by omega) (by omega)]
            show (t, c + (r - 10) + 10) = (t, c + r)
            congr 1
            omega
          · have hp : ∀ d, d ≤ 9 → readStep (t, c + d) "puluh" = (t, c + d * 10) := by
              intro d hd
              show (t, c + d - (c + d) % 10 + (c + d) % 10 * 10) = (t, c + d * 10)
              congr 1
              omega
            split
            · rw [List.append_nil, List.foldl_cons, List.foldl_cons, List.foldl_nil,
                readStep_unit _ (r / 10) (by omega) (by omega), hp _ (by omega)]
              congr 1
              omega
            · simp only [List.cons_append, List.nil_append, List.foldl_cons, List.foldl_nil]
              rw [readStep_unit _ (r / 10) (by omega) (by omega), hp _ (by omega),
                readStep_unit _ (r % 10) (by omega) (by omega)]
              show (t, c + r / 10 * 10 + r % 10) = (t, c + r)
              congr 1
              omega

theorem read_hundreds (t k : Nat) (hk : k < 1000) :
    (spellHundreds k).foldl readStep (t, 0) = (t, k) := by
  unfold spellHundreds
  rw [List.foldl_append]
  split
  · rw [List.foldl_nil, read_tens t 0 (k % 100) rfl (by omega)]
    congr 1
    omega
  · split
    · have : [("seratus" : String)].foldl readStep (t, 0) = (t, 100) := rfl
      rw [this, read_tens t 100 (k % 100) rfl (by omega)]
      congr 1
      omega
    · rw [List.foldl_cons, List.foldl_cons, List.foldl_nil,
        readStep_unit _ (k / 100) (by omega) (by omega)]
      have : readStep (t, 0 + k / 100) "ratus" = (t, (0 + k / 100) * 100) := rfl
      rw [this, read_tens t _ (k % 100) (by omega) (by omega)]
      congr 1
      omega

theorem read_group (t k mult : Nat) (unit : String) (hk : k < 1000)
    (hu : ∀ c, readStep (t, c) unit = (t + c * mult, 0)) :
    (spellGroup k unit).foldl readStep (t, 0) = (t + k * mult, 0) := by
  unfold spellGroup
  split
  · rename_i h; subst h; simp
  · rw [List.foldl_append, read_hundreds t k hk, List.foldl_cons, List.foldl_nil, hu]

theorem read_ribu (t k : Nat) (hk : k < 1000) :
    (spellRibu k).foldl readStep (t, 0) = (t + k * 1000, 0) := by
  unfold spellRibu
  split
  · rename_i h; subst h; rfl
  · exact read_group t k 1000 "ribu" hk (fun c => rfl)

theorem read_spell (n : Nat) (h : n < 1000000000000000) :
    (spell n).foldl readStep (0, 0) =
      (n / 1000000000000 * 1000000000000 + n / 1000000000 % 1000 * 1000000000 +
        n / 1000000 % 1000 * 1000000 + n / 1000 % 1000 * 1000, n % 1000) := by
  unfold spell
  rw [List.foldl_append, List.foldl_append, List.foldl_append, List.foldl_append,
    read_group 0 _ 1000000000000 "triliun" (by omega) (fun c => rfl),
    read_group _ _ 1000000000 "miliar" (by omega) (fun c => rfl),
    read_group _ _ 1000000 "juta" (by omega) (fun c => rfl),
    read_ribu _ _ (by omega), read_hundreds _ _ (by omega)]
  simp

/-- Reading the spelling of a number gives the number back. -/
theorem readBack_spell (n : Nat) (h : n < 1000000000000000) : readBack (spell n) = n := by
  unfold readBack
  rw [read_spell n h]
  simp only
  omega

theorem spell_ne_nil {n : Nat} (h0 : 0 < n) (h : n < 1000000000000000) : spell n ≠ [] := by
  intro e
  have := readBack_spell n h
  rw [e] at this
  simp [readBack] at this
  omega

/-! ### Words joined by spaces -/

theorem intercalate_space_toList (ws : List String) :
    (String.intercalate " " ws).toList = joinChars ws := by
  cases ws with
  | nil => rfl
  | cons a l =>
    rw [intercalate_toList]
    rfl

theorem joinChars_append (A B : List String) (hA : A ≠ []) (hB : B ≠ []) :
    joinChars (A ++ B) = joinChars A ++ ' ' :: joinChars B := by
  obtain ⟨a, l, rfl⟩ := List.exists_cons_of_ne_nil hA
  obtain ⟨b, m, rfl⟩ := List.exists_cons_of_ne_nil hB
  simp [joinChars]

theorem string_ext_toList {s t : String} (h : s.toList = t.toList) : s = t := by
  cases s; cases t
  simp only [String.toList] at h
  rw [h]

theorem toList_append (s t : String) : (s ++ t).toList = s.toList ++ t.toList := by
  cases s; cases t; rfl

theorem joinChars_singleton (w : String) : joinChars [w] = w.toList := by
  simp [joinChars]

theorem join_unit (A B : List String) (w : String) (r : Nat) (hA : A ≠ [])
    (hB : r = 0 → B = []) (hB2 : r ≠ 0 → B ≠ []) :
    String.intercalate " " (A ++ [w] ++ B) =
      String.intercalate " " A ++ (" " ++ w) ++
        (if r ≠ 0 then " " ++ String.intercalate " " B else "") := by
  apply string_ext_toList
  by_cases hr : r = 0
  · rw [hB hr]
    simp only [hr, ne_eq, not_true_eq_false, if_false, List.append_nil]
    rw [toList_append, toList_append, toList_append, intercalate_space_toList,
      intercalate_space_toList, joinChars_append A [w] hA (by simp), joinChars_singleton]
    simp [String.toList]
  · simp only [hr, ne_eq, not_false_eq_true, if_true]
    rw [toList_append, toList_append, toList_append, toList_append, intercalate_space_toList,
      intercalate_space_toList, intercalate_space_toList,
      joinChars_append (A ++ [w]) B (by simp) (hB2 hr),
      joinChars_append A [w] hA (by simp), joinChars_singleton]
    simp [String.toList]

theorem join_head (B : List String) (w : String) (r : Nat)
    (hB : r = 0 → B = []) (hB2 : r ≠ 0 → B ≠ []) :
    String.intercalate " " ([w] ++ B) =
      w ++ (if r ≠ 0 then " " ++ String.intercalate " " B else "") := by
  apply string_ext_toList
  by_cases hr : r = 0
  · rw [hB hr]
    simp only [hr, ne_eq, not_true_eq_false, if_false, List.append_nil]
    rw [toList_append, intercalate_space_toList, joinChars_singleton]
    simp [String.toList]
  · simp only [hr, ne_eq, not_false_eq_true, if_true]
    rw [toList_append, toList_append, intercalate_space_toList, intercalate_space_toList,
      joinChars_append [w] B (by simp) (hB2 hr), joinChars_singleton]
    simp [String.toList]

/-! ### The function follows the spelling -/

theorem spell_zero : spell 0 = [] := by
  rw [spell_lt_1000 (by omega)]; exact spellHundreds_zero

theorem spell_lt_100 {x : Nat} (h : x < 100) : spell x = spellTens x := by
  rw [spell_lt_1000 (by omega)]
  have h1 : x / 100 = 0 := by omega
  have h2 : x % 100 = x := by omega
  simp [spellHundreds, h1, h2]

theorem spell_digit {d : Nat} (h1 : 1 ≤ d) (h9 : d ≤ 9) : spell d = [unitWord d] := by
  rw [spell_lt_100 (by omega)]
  have : ¬ d = 0 := by omega
  have h2 : d < 10 := by omega
  simp [spellTens, this, h2]

theorem spellGroup_pos {k : Nat} (h0 : 0 < k) (hk : k < 1000) (unit : String) :
    spellGroup k unit = spell k ++ [unit] := by
  have : ¬ k = 0 := by omega
  rw [spell_lt_1000 hk]
  simp [spellGroup, this]

theorem spell_rest {r : Nat} (hr : r < 1000000000000000) :
    (r = 0 → spell r = []) ∧ (r ≠ 0 → spell r ≠ []) :=
  ⟨fun h => by rw [h]; exact spell_zero, fun h => spell_ne_nil (by omega) hr⟩

theorem spell_puluh {x : Nat} (h1 : 20 ≤ x) (h2 : x < 100) :
    spell x = spell (x / 10) ++ ["puluh"] ++ spell (x % 10) := by
  rw [spell_lt_100 h2, spell_digit (show 1 ≤ x / 10 by omega) (by omega)]
  have e1 : ¬ x = 0 := by omega
  have e2 : ¬ x < 10 := by omega
  have e3 : ¬ x = 10 := by omega
  have e4 : ¬ x = 11 := by omega
  have e5 : ¬ x < 20 := by omega
  by_cases h0 : x % 10 = 0
  · simp [spellTens, e1, e2, e3, e4, e5, h0, spell_zero]
  · rw [spell_digit (show 1 ≤ x % 10 by omega) (by omega)]
    simp [spellTens, e1, e2, e3, e4, e5, h0]

theorem spell_seratus {x : Nat} (h1 : 100 ≤ x) (h2 : x < 200) :
    spell x = ["seratus"] ++ spell (x - 100) := by
  rw [spell_lt_1000 (by omega), spell_lt_100 (show x - 100 < 100 by omega)]
  have e1 : x / 100 = 1 := by omega
  have e2 : x % 100 = x - 100 := by omega
  simp [spellHundreds, e1, e2]

theorem spell_ratus {x : Nat} (h1 : 200 ≤ x) (h2 : x < 1000) :
    spell x = spell (x / 100) ++ ["ratus"] ++ spell (x % 100) := by
  rw [spell_lt_1000 h2, spell_digit (show 1 ≤ x / 100 by omega) (by omega),
    spell_lt_100 (show x % 100 < 100 by omega)]
  have e1 : ¬ x / 100 = 0 := by omega
  have e2 : ¬ x / 100 = 1 := by omega
  simp [spellHundreds, e1, e2]

theorem spell_seribu {x : Nat} (h1 : 1000 ≤ x) (h2 : x < 2000) :
    spell x = ["seribu"] ++ spell (x - 1000) := by
  rw [spell_split3 (by omega)]
  have e1 : x / 1000 = 1 := by omega
  have e2 : x % 1000 = x - 1000 := by omega
  simp [spellRibu, e1, e2]

theorem spell_ribu {x : Nat} (h1 : 2000 ≤ x) (h2 : x < 1000000) :
    spell x = spell (x / 1000) ++ ["ribu"] ++ spell (x % 1000) := by
  rw [spell_split3 h2]
  have e1 : ¬ x / 1000 = 1 := by omega
  simp only [spellRibu, e1, if_false]
  rw [spellGroup_pos (by omega) (by omega)]

theorem spell_juta {x : Nat} (h1 : 1000000 ≤ x) (h2 : x < 1000000000) :
    spell x = spell (x / 1000000) ++ ["juta"] ++ spell (x % 1000000) := by
  rw [spell_split6 h2, spellGroup_pos (by omega) (by omega)]

theorem spell_miliar {x : Nat} (h1 : 1000000000 ≤ x) (h2 : x < 1000000000000) :
    spell x = spell (x / 1000000000) ++ ["miliar"] ++ spell (x % 1000000000) := by
  rw [spell_split9 h2, spellGroup_pos (by omega) (by omega)]

theorem spell_triliun {x : Nat} (h1 : 1000000000000 ≤ x) (h2 : x < 1000000000000000) :
    spell x = spell (x / 1000000000000) ++ ["triliun"] ++ spell (x % 1000000000000) := by
  rw [spell_split12 x, spellGroup_pos (by omega) (by omega)]

theorem angka_spell {x : Nat} (h0 : 0 < x) (h : x < 12) :
    angka.getD x "" = String.intercalate " " (spell x) := by
  interval_cases x <;> rfl

theorem belas_spell {x : Nat} (h1 : 12 ≤ x) (h2 : x < 20) :
    String.intercalate " " (spell (x - 10)) ++ " belas" = String.intercalate " " (spell x) := by
  interval_cases x <;> rfl

/-- With a bound above the number, `inWords` returns the spelling of the
number, its words joined by single spaces. -/
theorem inWords_spell : ∀ (fuel x : Nat), 0 < x → x < 1000000000000000 → x < fuel →
    inWords fuel x = String.intercalate " " (spell x) := by
  intro fuel
  induction fuel with
  | zero => intro x _ _ h; omega
  | succ fuel ih =>
    intro x h0 hx hf
    have unit : ∀ (k r : Nat) (w sp : String), sp = " " ++ w → 0 < k → k < x → r < x →
        spell x = spell k ++ [w] ++ spell r →
        inWords fuel k ++ sp ++ (if r ≠ 0 then " " ++ inWords fuel r else "") =
          String.intercalate " " (spell x) := by
      intro k r w sp hsp hk0 hk hr hs
      rw [hs, join_unit (spell k) (spell r) w r (spell_ne_nil hk0 (by omega))
        (spell_rest (by omega)).1 (spell_rest (by omega)).2, hsp,
        ih k hk0 (by omega) (by omega)]
      by_cases hr0 : r = 0
      · simp [hr0]
      · rw [ih r (by omega) (by omega) (by omega)]
    have head : ∀ (r : Nat) (w : String), r < x → spell x = [w] ++ spell r →
        w ++ (if r ≠ 0 then " " ++ inWords fuel r else "") =
          String.intercalate " " (spell x) := by
      intro r w hr hs
      rw [hs, join_head (spell r) w r (spell_rest (by omega)).1 (spell_rest (by omega)).2]
      by_cases hr0 : r = 0
      · simp [hr0]
      · rw [ih r (by omega) (by omega) (by omega)]
    rw [inWords]
    by_cases c1 : x < 12
    · rw [if_pos c1]
      exact angka_spell h0 c1
    rw [if_neg c1]
    by_cases c2 : x < 20
    · rw [if_pos c2, ih (x - 10) (by omega) (by omega) (by omega)]
      exact belas_spell (by omega) c2
    rw [if_neg c2]
    by_cases c3 : x < 100
    · rw [if_pos c3]
      exact unit (x / 10) (x % 10) "puluh" " puluh" rfl (by omega) (by omega) (by omega)
        (spell_puluh (by omega) c3)
    rw [if_neg c3]
    by_cases c4 : x < 200
    · rw [if_pos c4]
      exact head (x - 100) "seratus" (by omega) (spell_seratus (by omega) c4)
    rw [if_neg c4]
    by_cases c5 : x < 1000
    · rw [if_pos c5]
      exact unit (x / 100) (x % 100) "ratus" " ratus" rfl (by omega) (by omega) (by omega)
        (spell_ratus (by omega) c5)
    rw [if_neg c5]
    by_cases c6 : x < 2000
    · rw [if_pos c6]
      exact head (x - 1000) "seribu" (by omega) (spell_seribu (by omega) c6)
    rw [if_neg c6]
    by_cases c7 : x < 1000000
    · rw [if_pos c7]
      exact unit (x / 1000) (x % 1000) "ribu" " ribu" rfl (by omega) (by omega) (by omega)
        (spell_ribu (by omega) c7)
    rw [if_neg c7]
    by_cases c8 : x < 1000000000
    · rw [if_pos c8]
      exact unit (x / 1000000) (x % 1000000) "juta" " juta" rfl (by omega) (by omega)
        (by omega) (spell_juta (by omega) c8)
    rw [if_neg c8]
    by_cases c9 : x < 1000000000000
    · rw [if_pos c9]
      exact unit (x / 1000000000) (x % 1000000000) "miliar" " miliar" rfl (by omega)
        (by omega) (by omega) (spell_miliar (by omega) c9)
    rw [if_neg c9]
    exact unit (x / 1000000000000) (x % 1000000000000) "triliun" " triliun" rfl (by omega)
      (by omega) (by omega) (spell_triliun (by omega) hx)

/-! ### The words of a spelling -/

theorem unitWord_mem {d : Nat} (h1 : 1 ≤ d) (h9 : d ≤ 9) : unitWord d ∈ vocabulary := by
  interval_cases d <;> decide

theorem spellTens_mem {r : Nat} (h : r < 100) : ∀ w ∈ spellTens r, w ∈ vocabulary := by
  intro w hw
  unfold spellTens at hw
  split at hw
  · simp at hw
  · split at hw
    · simp only [List.mem_singleton] at hw; subst hw; exact unitWord_mem (by omega) (by omega)
    · split at hw
      · simp only [List.mem_singleton] at hw; subst hw; decide
      · split at hw
        · simp only [List.mem_singleton] at hw; subst hw; decide
        · split at hw
          · simp only [List.mem_cons, List.mem_singleton, List.not_mem_nil, or_false] at hw
            rcases hw with rfl | rfl
            · exact unitWord_mem (by omega) (by omega)
            · decide
          · split at hw
            · simp only [List.append_nil, List.mem_cons, List.mem_singleton,
                List.not_mem_nil, or_false] at hw
              rcases hw with rfl | rfl
              · exact unitWord_mem (by omega) (by omega)
              · decide
            · simp only [List.cons_append, List.nil_append, List.mem_cons,
                List.mem_singleton, List.not_mem_nil, or_false] at hw
              rcases hw with rfl | rfl | rfl
              · exact unitWord_mem (by omega) (by omega)
              · decide
              · exact unitWord_mem (by omega) (by omega)

theorem spellHundreds_mem {k : Nat} (h : k < 1000) :
    ∀ w ∈ spellHundreds k, w ∈ vocabulary := by
  intro w hw
  unfold spellHundreds at hw
  rcases List.mem_append.mp hw with hw | hw
  · split at hw
    · simp at hw
    · split at hw
      · simp only [List.mem_singleton] at hw; subst hw; decide
      · simp only [List.mem_cons, List.mem_singleton, List.not_mem_nil, or_false] at hw
        rcases hw with rfl | rfl
        · exact unitWord_mem (by omega) (by omega)
        · decide
  · exact spellTens_mem (by omega) w hw

theorem spellGroup_mem {k : Nat} (h : k < 1000) (unit : String) (hu : unit ∈ vocabulary) :
    ∀ w ∈ spellGroup k unit, w ∈ vocabulary := by
  intro w hw
  unfold spellGroup at hw
  split at hw
  · simp at hw
  · rcases List.mem_append.mp hw with hw | hw
    · exact spellHundreds_mem h w hw
    · simp only [List.mem_singleton] at hw; subst hw; exact hu

theorem spell_mem {n : Nat} (h : n < 1000000000000000) : ∀ w ∈ spell n, w ∈ vocabulary := by
  intro w hw
  unfold spell at hw
  simp only [List.mem_append] at hw
  rcases hw with (((hw | hw) | hw) | hw) | hw
  · exact spellGroup_mem (by omega) _ (by decide) w hw
  · exact spellGroup_mem (by omega) _ (by decide) w hw
  · exact spellGroup_mem (by omega) _ (by decide) w hw
  · unfold spellRibu at hw
    split at hw
    · simp only [List.mem_singleton] at hw; subst hw; decide
    · exact spellGroup_mem (by omega) _ (by decide) w hw
  · exact spellHundreds_mem (by omega) w hw

theorem spellRupiah_mem {n : Nat} (h : n < 1000000000000000) :
    ∀ w ∈ spellRupiah n, w ∈ vocabulary := by
  intro w hw
  unfold spellRupiah at hw
  rcases List.mem_append.mp hw with hw | hw
  · split at hw
    · simp only [List.mem_singleton] at hw; subst hw; decide
    · exact spell_mem h w hw
  · simp only [List.mem_singleton] at hw; subst hw; decide

theorem vocabulary_plain : ∀ w ∈ vocabulary,
    w ≠ "" ∧ ∀ c ∈ w.toList, c ≠ ' ' ∧ isJsWhitespace c = false := by
  decide

/-! ### Trimming and splitting -/

theorem joinChars_getLast (init : List String) (z : String) (hz : z.toList ≠ []) :
    (joinChars (init ++ [z])).getLast? = z.toList.getLast? := by
  cases init with
  | nil => rw [List.nil_append, joinChars_singleton]
  | cons a l =>
    rw [joinChars_append (a :: l) [z] (by simp) (by simp), joinChars_singleton,
      show joinChars (a :: l) ++ ' ' :: z.toList = (joinChars (a :: l) ++ [' ']) ++ z.toList by
        simp,
      List.getLast?_append_of_ne_nil _ hz]

theorem jsTrim_id (s : String) (c d : Char) (r : List Char) (h1 : s.toList = c :: r)
    (h2 : s.toList.getLast? = some d) (hc : isJsWhitespace c = false)
    (hd : isJsWhitespace d = false) : jsTrim s = s := by
  unfold jsTrim
  apply string_ext_toList
  have e1 : s.toList.dropWhile isJsWhitespace = s.toList := by
    rw [h1, List.dropWhile_cons_of_neg (by simp [hc])]
  have e2 : ∃ t, s.toList.reverse = d :: t := by
    have : s.toList.reverse.head? = some d := by rw [List.head?_reverse]; exact h2
    cases hrev : s.toList.reverse with
    | nil => rw [hrev] at this; simp at this
    | cons x t =>
      rw [hrev] at this
      simp only [List.head?_cons, Option.some.injEq] at this
      exact ⟨t, by rw [this]⟩
  obtain ⟨t, ht⟩ := e2
  show ((s.toList.dropWhile isJsWhitespace).reverse.dropWhile isJsWhitespace).reverse = s.toList
  rw [e1, ht, List.dropWhile_cons_of_neg (by simp [hd]), ← ht, List.reverse_reverse]

/-- Trimming words joined by single spaces changes nothing. -/
theorem jsTrim_join (ws : List String) (hne : ws ≠ []) (hv : ∀ w ∈ ws, w ∈ vocabulary) :
    jsTrim (String.intercalate " " ws) = String.intercalate " " ws := by
  obtain ⟨a, l, rfl⟩ := List.exists_cons_of_ne_nil hne
  obtain ⟨init, z, hz⟩ : ∃ init z, a :: l = init ++ [z] :=
    ⟨(a :: l).dropLast, (a :: l).getLast (by simp), (List.dropLast_append_getLast _).symm⟩
  have ha := vocabulary_plain a (hv a (List.mem_cons_self _ _))
  have hzv := vocabulary_plain z (hv z (by rw [hz]; simp))
  obtain ⟨c, r, hc⟩ : ∃ c r, a.toList = c :: r := by
    cases h : a.toList with
    | nil =>
      exfalso
      apply ha.1
      apply string_ext_toList
      rw [h]; rfl
    | cons c r => exact ⟨c, r, rfl⟩
  have hzne : z.toList ≠ [] := by
    intro h
    apply hzv.1
    apply string_ext_toList
    rw [h]; rfl
  obtain ⟨d, hd⟩ : ∃ d, z.toList.getLast? = some d := by
    cases h : z.toList.getLast? with
    | none => rw [List.getLast?_eq_none_iff] at h; exact absurd h hzne
    | some d => exact ⟨d, rfl⟩
  have hdm : d ∈ z.toList := List.mem_of_getLast?_eq_some hd
  refine jsTrim_id _ c d (r ++ (l.map (fun x => ' ' :: x.toList)).flatten) ?_ ?_
    (ha.2 c (by rw [hc]; exact List.mem_cons_self _ _)).2 (hzv.2 d hdm).2
  · rw [intercalate_space_toList, joinChars, hc]; rfl
  · rw [intercalate_space_toList, hz, joinChars_getLast init z hzne, hd]

theorem splitAtChar_ne_nil (sep : Char) (l : List Char) : splitAtChar sep l ≠ [] := by
  cases l with
  | nil => simp [splitAtChar]
  | cons c cs =>
    unfold splitAtChar
    split
    · simp
    · split <;> simp

theorem splitAtChar_sep (sep : Char) (b : List Char) :
    splitAtChar sep (sep :: b) = [] :: splitAtChar sep b := by
  rw [splitAtChar]
  split
  · rename_i h; exact absurd h (splitAtChar_ne_nil sep b)
  · rename_i seg segs h; simp [h]

theorem splitAtChar_cons_ne (sep c : Char) (hc : c ≠ sep) (b : List Char) :
    splitAtChar sep (c :: b) =
      (c :: (splitAtChar sep b).head (splitAtChar_ne_nil sep b)) ::
        (splitAtChar sep b).tail := by
  rw [splitAtChar]
  split
  · rename_i h; exact absurd h (splitAtChar_ne_nil sep b)
  · rename_i seg segs h
    simp [hc, h]

theorem splitAtChar_append (sep : Char) : ∀ (a b : List Char), sep ∉ a →
    splitAtChar sep (a ++ sep :: b) = a :: splitAtChar sep b := by
  intro a b
  induction a with
  | nil => intro _; rw [List.nil_append, splitAtChar_sep]
  | cons c cs ih =>
    intro h
    simp only [List.mem_cons, not_or] at h
    have hc : c ≠ sep := fun e => h.1 e.symm
    rw [List.cons_append, splitAtChar_cons_ne sep c hc]
    simp [ih h.2]

theorem splitAtChar_nosep (sep : Char) : ∀ l : List Char, sep ∉ l →
    splitAtChar sep l = [l] := by
  intro l
  induction l with
  | nil => intro _; rfl
  | cons c cs ih =>
    intro h
    simp only [List.mem_cons, not_or] at h
    have hc : c ≠ sep := fun e => h.1 e.symm
    rw [splitAtChar_cons_ne sep c hc]
    simp [ih h.2]

/-- Splitting words joined by single spaces gives the words back. -/
theorem splitAtChar_joinChars : ∀ (l : List String) (a : String),
    (∀ w ∈ a :: l, ' ' ∉ w.toList) →
    splitAtChar ' ' (joinChars (a :: l)) = (a :: l).map String.toList := by
  intro l
  induction l with
  | nil =>
    intro a h
    rw [joinChars_singleton, splitAtChar_nosep ' ' _ (h a (List.mem_cons_self _ _))]
    rfl
  | cons b l ih =>
    intro a h
    have e : joinChars (a :: b :: l) = a.toList ++ ' ' :: joinChars (b :: l) := by
      simp [joinChars]
    rw [e, splitAtChar_append ' ' _ _ (h a (List.mem_cons_self _ _)),
      ih b (fun w hw => h w (List.mem_cons_of_mem _ hw))]
    rfl

theorem map_toList_injective : ∀ (a b : List String),
    a.map String.toList = b.map String.toList → a = b := by
  intro a
  induction a with
  | nil => intro b h; cases b with
    | nil => rfl
    | cons y ys => simp at h
  | cons x xs ih =>
    intro b h
    cases b with
    | nil => simp at h
    | cons y ys =>
      simp only [List.map_cons, List.cons.injEq] at h
      rw [string_ext_toList h.1, ih ys h.2]

theorem spellRupiah_ne_nil (n : Nat) : spellRupiah n ≠ [] := by
  simp [spellRupiah]

theorem spellRupiah_nospace {n : Nat} (h : n < 1000000000000000) :
    ∀ w ∈ spellRupiah n, ' ' ∉ w.toList :=
  fun w hw hc => ((vocabulary_plain w (spellRupiah_mem h w hw)).2 ' ' hc).1 rfl

/-- The string `terbilang` returns: the words of the amount joined by single
spaces. -/
theorem terbilang_eq (n : Nat) (h : n < 1000000000000000) :
    terbilang (n : Int) = String.intercalate " " (spellRupiah n) := by
  unfold terbilang spellRupiah
  simp only [Int.natAbs_ofNat]
  by_cases h0 : n = 0
  · subst h0; decide
  · simp only [h0, if_false]
    rw [inWords_spell (n + 1) n (by omega) h (by omega),
      jsTrim_join (spell n) (spell_ne_nil (by omega) h) (spell_mem h)]
    apply string_ext_toList
    rw [toList_append, intercalate_space_toList, intercalate_space_toList,
      joinChars_append (spell n) ["rupiah"] (spell_ne_nil (by omega) h) (by simp)]
    rfl

theorem inWords_fuel (n fuel : Nat) (h : n < 1000000000000000) (hf : n < fuel) :
    inWords fuel n = inWords (n + 1) n := by
  by_cases h0 : n = 0
  · subst h0
    obtain ⟨f, rfl⟩ : ∃ f, fuel = f + 1 := ⟨fuel - 1, by omega⟩
    rw [inWords, inWords]
    rfl
  · rw [inWords_spell fuel n (by omega) h hf, inWords_spell (n + 1) n (by omega) h (by omega)]

/-! ## The student search: the merge -/

theorem filter_not_any_append (results : List SearchRow) (r : SearchRow)
    (rest : List SearchRow) (hr : ∀ x ∈ rest, x.id ≠ r.id) :
    rest.filter (fun y => !(results ++ [r]).any (fun x => x.id == y.id)) =
      rest.filter (fun y => !results.any (fun x => x.id == y.id)) := by
  apply List.filter_congr
  intro y hy
  have : (r.id == y.id) = false := by
    simpa using fun e => hr y hy e.symm
  simp [List.any_append, this]

/-- The loop pushes the contains rows that are new, in their order, until the
limit is reached. -/
theorem mergeRows_eq (limit : Int) : ∀ (rest results : List SearchRow),
    (results.length : Int) < limit → (rest.map (fun r => r.id)).Nodup →
    mergeRows limit results rest =
      results ++ (rest.filter (fun r => !results.any (fun x => x.id == r.id))).take
        (limit - results.length).toNat := by
  intro rest
  induction rest with
  | nil => intro results _ _; simp [mergeRows]
  | cons r rest ih =>
    intro results hlt hnd
    simp only [List.map_cons, List.nodup_cons, List.mem_map, not_exists, not_and] at hnd
    have hr : ∀ x ∈ rest, x.id ≠ r.id := fun x hx => hnd.1 x hx
    rw [mergeRows]
    by_cases hany : results.any (fun x => x.id == r.id) = true
    · simp only [hany, if_true]
      rw [if_neg (by omega), ih results hlt hnd.2]
      simp [List.filter_cons, hany]
    · have hany : results.any (fun x => x.id == r.id) = false := by simpa using hany
      simp only [hany, Bool.false_eq_true, if_false]
      have hkeep : (!results.any (fun x => x.id == r.id)) = true := by simp [hany]
      obtain ⟨n, hn⟩ : ∃ n : Nat, (limit - results.length).toNat = n + 1 :=
        ⟨(limit - results.length).toNat - 1, by omega⟩
      by_cases hfull : limit ≤ ((results ++ [r]).length : Int)
      · rw [if_pos hfull]
        have hn0 : n = 0 := by
          simp only [List.length_append, List.length_singleton, Nat.cast_add,
            Nat.cast_one] at hfull
          omega
        rw [List.filter_cons, if_pos hkeep, hn, hn0]
        simp
      · rw [if_neg hfull]
        have hlen : ((results ++ [r]).length : Int) < limit := by omega
        rw [ih (results ++ [r]) hlen hnd.2, filter_not_any_append results r rest hr,
          List.filter_cons, if_pos hkeep, hn]
        have : (limit - ((results ++ [r]).length : Int)).toNat = n := by
          simp only [List.length_append, List.length_singleton, Nat.cast_add, Nat.cast_one]
          omega
        rw [this]
        simp

theorem searchLimit_eq (limit : Option String) :
    searchLimit limit =
      min (match parseInt limit with
        | some n => if n = 0 then 12 else n
        | none => 12) 50 := by
  unfold searchLimit
  by_cases h : truthy limit = true
  · simp [h]
  · simp only [h, Bool.false_eq_true, if_false]
    have h12 : parseInt (some "12") = some 12 := by decide
    have hnone : parseInt limit = none := by
      cases limit with
      | none => rfl
      | some s =>
        have : s = "" := by simpa [truthy] using h
        subst this
        decide
    rw [h12, hnone]
    rfl

theorem nodup_merged (pre extra : List SearchRow) (hp : (pre.map (fun r => r.id)).Nodup)
    (he : (extra.map (fun r => r.id)).Nodup)
    (hd : ∀ r ∈ extra, pre.any (fun x => x.id == r.id) = false) :
    ((pre ++ extra).map (fun r => r.id)).Nodup := by
  rw [List.map_append, List.nodup_append]
  refine ⟨hp, he, ?_⟩
  intro i hi1 hi2
  obtain ⟨x, hx, rfl⟩ := List.mem_map.mp hi1
  obtain ⟨y, hy, hxy⟩ := List.mem_map.mp hi2
  have := hd y hy
  rw [List.any_eq_false] at this
  exact this x hx (by simpa using hxy.symm)

/-- The merged result has no id twice and at most `limit` rows. -/
theorem mergedRows_spec (q : String) (limit : Int) (ans : SearchAnswers)
    (hp : (ans.prefixRows.map (fun r => r.id)).Nodup)
    (hc : (ans.containsRows.map (fun r => r.id)).Nodup)
    (hlen : (ans.prefixRows.length : Int) ≤ limit) :
    ((mergedRows q limit ans).map (fun r => r.id)).Nodup ∧
    ((mergedRows q limit ans).length : Int) ≤ limit := by
  unfold mergedRows
  split
  · rename_i h
    constructor
    · apply nodup_merged _ _ hp
      · exact ((hc.sublist ((List.filter_sublist _).map _)).sublist
          ((List.take_sublist _ _).map _))
      · intro r hr
        have := List.mem_of_mem_take hr
        have := (List.mem_filter.mp this).2
        simpa using this
    · rw [List.length_append, List.length_take]
      have := h.1
      omega
  · simp only [List.append_nil]
    exact ⟨hp, hlen⟩

theorem searchRows_eq (env : Env) (q : String) (limit : Int) (ans : SearchAnswers)
    (hc : (ans.containsRows.map (fun r => r.id)).Nodup)
    (h1 : env.rejects Stmt.selectPrefix = false) (h2 : env.rejects Stmt.selectContains = false) :
    (searchRows env q limit ans).1 = SearchOutcome.json (mergedRows q limit ans) ∧
    ((Stmt.selectContains, true) ∈ (searchRows env q limit ans).2 ↔
      (ans.prefixRows.length : Int) < limit ∧ 3 ≤ utf16Length q) := by
  unfold searchRows mergedRows
  simp only [h1, h2, Bool.false_eq_true, if_false]
  split
  · rename_i h
    rw [mergeRows_eq limit _ _ h.1 hc]
    simp [h]
  · rename_i h
    simp [h]

/-! ## The import mapping: which header a field is read from -/

theorem find_setKey (idx : List (String × Nat)) (k key : String) (i : Nat) :
    (setKey idx k i).find? (fun e => e.1 == key) =
      if k = key then some (k, i) else idx.find? (fun e => e.1 == key) := by
  unfold setKey
  by_cases hany : idx.any (fun e => e.1 == k) = true
  · rw [if_pos hany]
    induction idx with
    | nil => simp at hany
    | cons a l ih =>
      by_cases ha : a.1 = k
      · by_cases hk : k = key
        · simp [List.find?_cons, ha, hk]
        · have : ¬ a.1 = key := fun e => hk (ha.symm.trans e)
          simp only [List.map_cons, ha, if_true, List.find?_cons]
          have e1 : (k == key) = false := by simpa using hk
          have e2 : (a.1 == key) = false := by simpa using this
          simp only [e1, e2, if_neg hk]
          by_cases hl : l.any (fun e => e.1 == k) = true
          · rw [ih hl, if_neg hk]
          · have : l.map (fun e => if e.1 = k then (k, i) else e) = l := by
              have hl2 : ∀ e ∈ l, ¬ e.1 = k := by
                intro e he hek
                apply hl
                rw [List.any_eq_true]
                exact ⟨e, he, by simp [hek]⟩
              calc l.map (fun e => if e.1 = k then (k, i) else e) = l.map id :=
                    List.map_congr_left (fun e he => by simp [hl2 e he])
                _ = l := List.map_id l
            rw [this]
      · have hl : l.any (fun e => e.1 == k) = true := by
          simp only [List.any_cons, Bool.or_eq_true, beq_iff_eq] at hany
          rcases hany with h | h
          · exact absurd h ha
          · exact h
        simp only [List.map_cons, ha, if_false, List.find?_cons]
        by_cases hak : a.1 = key
        · have : ¬ k = key := fun e => ha (hak.trans e.symm)
          simp [hak, this]
        · have e2 : (a.1 == key) = false := by simpa using hak
          simp only [e2]
          exact ih hl
  · rw [if_neg hany]
    have hnone : ∀ e ∈ idx, ¬ e.1 = k := by
      intro e he hek
      apply hany
      rw [List.any_eq_true]
      exact ⟨e, he, by simp [hek]⟩
    rw [List.find?_append]
    by_cases hk : k = key
    · subst hk
      have : idx.find? (fun e => e.1 == k) = none := by
        rw [List.find?_eq_none]
        intro e he
        simpa using hnone e he
      simp [this]
    · have e1 : (k == key) = false := by simpa using hk
      simp [List.find?_cons, e1, hk]

/-- The column `idx` holds for a key is that of the right-most header with
that normalised form. -/
theorem find_buildIndex : ∀ (hs : List String) (i : Nat) (idx : List (String × Nat))
    (key : String),
    (buildIndex hs i idx).find? (fun e => e.1 == key) =
      match lastColumn hs i key with
      | some j => some (key, j)
      | none => idx.find? (fun e => e.1 == key) := by
  intro hs
  induction hs with
  | nil => intro i idx key; rfl
  | cons h hs ih =>
    intro i idx key
    rw [buildIndex, ih, lastColumn]
    cases hl : lastColumn hs (i + 1) key with
    | some j => rfl
    | none =>
      simp only [find_setKey]
      by_cases hk : normalizeHeader h = key
      · simp [hk]
      · simp [hk]

theorem find_headerIndex (headers : List String) (key : String) :
    (headerIndex headers).find? (fun e => e.1 == key) =
      (lastColumn headers 0 key).map (fun j => (key, j)) := by
  unfold headerIndex
  rw [find_buildIndex]
  cases lastColumn headers 0 key <;> rfl

theorem cellAt_headerIndex (headers row : List String) (key : String) :
    cellAt (headerIndex headers) row key = (lastColumn headers 0 key).bind (fun j => row.get? j) := by
  unfold cellAt
  rw [find_headerIndex]
  cases lastColumn headers 0 key <;> rfl

theorem lastColumn_some : ∀ (hs : List String) (i j : Nat) (key : String),
    lastColumn hs i key = some j →
    i ≤ j ∧ (∃ h, hs.get? (j - i) = some h ∧ normalizeHeader h = key) ∧
      ∀ j2 h2, j < j2 → hs.get? (j2 - i) = some h2 → normalizeHeader h2 ≠ key := by
  intro hs
  induction hs with
  | nil => intro i j key h; simp [lastColumn] at h
  | cons h hs ih =>
    intro i j key hj
    rw [lastColumn] at hj
    cases hl : lastColumn hs (i + 1) key with
    | some j1 =>
      rw [hl] at hj
      simp only [Option.some.injEq] at hj
      subst hj
      obtain ⟨h1, ⟨x, hx, hxk⟩, h3⟩ := ih (i + 1) j1 key hl
      refine ⟨by omega, ⟨x, ?_, hxk⟩, ?_⟩
      · have : j1 - i = (j1 - (i + 1)) + 1 := by omega
        rw [this]
        simpa using hx
      · intro j2 h2 hlt hget
        have : j2 - i = (j2 - (i + 1)) + 1 := by omega
        rw [this] at hget
        exact h3 j2 h2 hlt (by simpa using hget)
    | none =>
      rw [hl] at hj
      simp only at hj
      split at hj
      · rename_i hk
        simp only [Option.some.injEq] at hj
        subst hj
        refine ⟨le_refl _, ⟨h, by simp, hk⟩, ?_⟩
        intro j2 h2 hlt hget
        have hnone : ∀ (l : List String) (a : Nat) (k : String), lastColumn l a k = none →
            ∀ x ∈ l, normalizeHeader x ≠ k := by
          intro l
          induction l with
          | nil => intro a k _ x hx; simp at hx
          | cons y l ihl =>
            intro a k hn x hx
            rw [lastColumn] at hn
            cases hl2 : lastColumn l (a + 1) k with
            | some q => rw [hl2] at hn; simp at hn
            | none =>
              rw [hl2] at hn
              simp only at hn
              rcases List.mem_cons.mp hx with rfl | hx
              · intro e; simp [e] at hn
              · exact ihl (a + 1) k hl2 x hx
        have : j2 - i = (j2 - i - 1) + 1 := by omega
        rw [this] at hget
        simp only [List.get?_cons_succ] at hget
        exact hnone hs (i + 1) key hl h2 (List.get?_mem hget)
      · simp at hj

theorem lastColumn_isSome (hs : List String) (i : Nat) (key : String) :
    (lastColumn hs i key).isSome = hs.any (fun h => normalizeHeader h == key) := by
  induction hs generalizing i with
  | nil => rfl
  | cons h hs ih =>
    rw [lastColumn, List.any_cons, ← ih (i + 1)]
    cases lastColumn hs (i + 1) key with
    | some j => simp
    | none =>
      by_cases hk : normalizeHeader h = key
      · simp [hk]
      · simp [hk]

theorem any_headerIndex (headers : List String) (key : String) :
    (headerIndex headers).any (fun e => e.1 == key) =
      headers.any (fun h => normalizeHeader h == key) := by
  rw [← lastColumn_isSome headers 0 key]
  have := find_headerIndex headers key
  cases hl : lastColumn headers 0 key with
  | none =>
    rw [hl] at this
    simp only [Option.map_none'] at this
    rw [List.find?_eq_none] at this
    simp only [Option.isSome_none]
    rw [List.any_eq_false]
    intro e he
    exact this e he
  | some j =>
    rw [hl] at this
    simp only [Option.map_some'] at this
    have hm := List.mem_of_find?_eq_some this
    simp only [Option.isSome_some]
    rw [List.any_eq_true]
    exact ⟨_, hm, by simp⟩

theorem mem_objectKeys (idx : List (String × Nat)) (k : String) :
    k ∈ objectKeys idx ↔ idx.any (fun e => e.1 == k) = true := by
  unfold objectKeys
  rw [List.mem_append, (List.perm_insertionSort _ _).mem_iff]
  simp only [List.mem_map, List.mem_filter, List.any_eq_true, beq_iff_eq]
  constructor
  · rintro (⟨e, ⟨he, -⟩, rfl⟩ | ⟨e, ⟨he, -⟩, rfl⟩)
    · exact ⟨e, he, rfl⟩
    · exact ⟨e, he, rfl⟩
  · rintro ⟨e, he, rfl⟩
    by_cases ha : isArrayIndex e.1 = true
    · exact Or.inl ⟨e, ⟨he, ha⟩, rfl⟩
    · exact Or.inr ⟨e, ⟨he, by simpa using ha⟩, rfl⟩

theorem find_congr {α : Type} {p q : α → Bool} : ∀ (l : List α), (∀ x ∈ l, p x = q x) →
    l.find? p = l.find? q := by
  intro l
  induction l with
  | nil => intro _; rfl
  | cons a l ih =>
    intro h
    rw [List.find?_cons, List.find?_cons, h a (List.mem_cons_self _ _),
      ih (fun x hx => h x (List.mem_cons_of_mem _ hx))]

theorem upper_toLower_plain (x : Char) (a : 65 ≤ x.toNat) (b : x.toNat ≤ 90) :
    isJsWhitespace x.toLower = false := by
  have hx : x = Char.ofNat x.toNat := (Char.ofNat_toNat x).symm
  generalize x.toNat = n at a b hx
  subst hx
  interval_cases n <;> rfl

theorem normalizeChar_not_whitespace {x c : Char} (h : normalizeChar x = some c) :
    isJsWhitespace c = false := by
  have key : ∀ y : Char, (97 ≤ y.toNat ∧ y.toNat ≤ 122) ∨ (48 ≤ y.toNat ∧ y.toNat ≤ 57) →
      isJsWhitespace y = false := by
    intro y hy
    unfold isJsWhitespace
    simp only [Bool.or_eq_false_iff, Bool.and_eq_false_iff, beq_eq_false_iff_ne,
      decide_eq_false_iff_not]
    omega
  unfold normalizeChar at h
  split at h
  · rename_i h1
    simp only [Option.some.injEq] at h
    subst h
    simp only [Bool.or_eq_true] at h1
    rcases h1 with h1 | h1
    · apply key
      left
      simp only [Char.isLower, Bool.and_eq_true, decide_eq_true_eq] at h1
      have a := h1.1
      have b := h1.2
      rw [ge_iff_le, UInt32.le_def] at a
      rw [UInt32.le_def] at b
      exact ⟨a, b⟩
    · exact key _ (Or.inr (digit_toNat h1))
  · split at h
    · rename_i h1 h2
      simp only [Option.some.injEq] at h
      subst h
      simp only [Char.isUpper, Bool.and_eq_true, decide_eq_true_eq] at h2
      have a := h2.1
      have b := h2.2
      rw [ge_iff_le, UInt32.le_def] at a
      rw [UInt32.le_def] at b
      exact upper_toLower_plain x a b
    · split at h
      · simp only [Option.some.injEq] at h; subst h; decide
      · split at h
        · simp only [Option.some.injEq] at h; subst h; decide
        · simp at h

theorem dropWhile_plain (l : List Char) (h : ∀ c ∈ l, isJsWhitespace c = false) :
    l.dropWhile isJsWhitespace = l := by
  cases l with
  | nil => rfl
  | cons a l => rw [List.dropWhile_cons_of_neg (by simp [h a (List.mem_cons_self _ _)])]

theorem jsTrim_plain (l : List Char) (h : ∀ c ∈ l, isJsWhitespace c = false) :
    jsTrim (String.mk l) = String.mk l := by
  unfold jsTrim
  show String.mk ((l.dropWhile isJsWhitespace).reverse.dropWhile isJsWhitespace).reverse = _
  rw [dropWhile_plain l h, dropWhile_plain l.reverse (fun c hc => h c (List.mem_reverse.mp hc)),
    List.reverse_reverse]

/-- The trim at the end of `normalizeHeader` removes nothing: the normal form
is the lowered letters and the digits of the header. -/
theorem normalizeHeader_eq (h : String) :
    normalizeHeader h = String.mk (h.toList.filterMap normalizeChar) := by
  unfold normalizeHeader
  apply jsTrim_plain
  intro c hc
  obtain ⟨x, -, hx⟩ := List.mem_filterMap.mp hc
  exact normalizeChar_not_whitespace hx

theorem hasKey_headerIndex (headers : List String) (key : String) (hc : key ≠ "constructor") :
    hasKey (headerIndex headers) key = headers.any (fun h => normalizeHeader h == key) := by
  unfold hasKey
  rw [any_headerIndex]
  have : (key == "constructor") = false := by simpa using hc
  rw [this, Bool.or_false]

/-- The cell read for a key some header has as its normal form: the one under
the right-most such header. -/
theorem cellAt_of_any (headers row : List String) (key : String)
    (h : headers.any (fun x => normalizeHeader x == key) = true) :
    ∃ j x, headers.get? j = some x ∧ normalizeHeader x = key ∧
      (∀ j2 x2, j < j2 → headers.get? j2 = some x2 → normalizeHeader x2 ≠ key) ∧
      cellAt (headerIndex headers) row key = row.get? j := by
  rw [← lastColumn_isSome headers 0 key] at h
  obtain ⟨j, hj⟩ := Option.isSome_iff_exists.mp h
  obtain ⟨-, ⟨x, hx, hxk⟩, h3⟩ := lastColumn_some headers 0 j key hj
  refine ⟨j, x, by simpa using hx, hxk, ?_, ?_⟩
  · intro j2 x2 hlt hget
    exact h3 j2 x2 hlt (by simpa using hget)
  · rw [cellAt_headerIndex, hj]
    rfl

/-- An exact match: the first candidate some header has as its normal form
decides, and the cell is the one under the right-most such header. -/
theorem pick_exact (headers row names pre post : List String) (n : String)
    (hc : ∀ m ∈ names, normalizeHeader m ≠ "constructor") (hn : names = pre ++ n :: post)
    (hpre : ∀ m ∈ pre, ∀ h ∈ headers, normalizeHeader h ≠ normalizeHeader m)
    (hex : ∃ h ∈ headers, normalizeHeader h = normalizeHeader n) :
    ∃ j x, headers.get? j = some x ∧ normalizeHeader x = normalizeHeader n ∧
      (∀ j2 x2, j < j2 → headers.get? j2 = some x2 → normalizeHeader x2 ≠ normalizeHeader n) ∧
      pick (headerIndex headers) row names = row.get? j := by
  have hany : headers.any (fun h => normalizeHeader h == normalizeHeader n) = true := by
    rw [List.any_eq_true]
    obtain ⟨h, hm, he⟩ := hex
    exact ⟨h, hm, by simp [he]⟩
  have hfind : names.find? (fun m => hasKey (headerIndex headers) (normalizeHeader m)) =
      some n := by
    rw [find_congr names (fun m hm => hasKey_headerIndex headers _ (hc m hm))]
    subst hn
    have hnone : pre.find? (fun m => headers.any
        (fun h => normalizeHeader h == normalizeHeader m)) = none := by
      rw [List.find?_eq_none]
      intro m hm hf
      rw [List.any_eq_true] at hf
      obtain ⟨h, hh, he⟩ := hf
      exact hpre m hm h hh (by simpa using he)
    rw [List.find?_append, hnone, List.find?_cons, hany]
    rfl
  obtain ⟨j, x, h1, h2, h3, h4⟩ := cellAt_of_any headers row (normalizeHeader n) hany
  refine ⟨j, x, h1, h2, h3, ?_⟩
  unfold pick
  rw [hfind]
  exact h4

theorem pick_no_exact (headers row names : List String)
    (hc : ∀ m ∈ names, normalizeHeader m ≠ "constructor")
    (hno : ∀ n ∈ names, ∀ h ∈ headers, normalizeHeader h ≠ normalizeHeader n) :
    pick (headerIndex headers) row names =
      match (objectKeys (headerIndex headers)).find?
          (fun k => names.any (fun n => includes k (normalizeHeader n))) with
      | some k => cellAt (headerIndex headers) row k
      | none => none := by
  have hfind : names.find? (fun m => hasKey (headerIndex headers) (normalizeHeader m)) =
      none := by
    rw [find_congr names (fun m hm => hasKey_headerIndex headers _ (hc m hm))]
    rw [List.find?_eq_none]
    intro m hm hf
    rw [List.any_eq_true] at hf
    obtain ⟨h, hh, he⟩ := hf
    exact hno m hm h hh (by simpa using he)
  unfold pick
  rw [hfind]

/-- A substring match: with no exact match, the cell is the one under the
right-most header with the normal form of a header that contains a candidate. -/
theorem pick_substring (headers row names : List String)
    (hc : ∀ m ∈ names, normalizeHeader m ≠ "constructor")
    (hno : ∀ n ∈ names, ∀ h ∈ headers, normalizeHeader h ≠ normalizeHeader n)
    (hex : ∃ h ∈ headers, ∃ n ∈ names,
      includes (normalizeHeader h) (normalizeHeader n) = true) :
    ∃ j x, headers.get? j = some x ∧
      (∃ n ∈ names, includes (normalizeHeader x) (normalizeHeader n) = true) ∧
      (∀ j2 x2, j < j2 → headers.get? j2 = some x2 → normalizeHeader x2 ≠ normalizeHeader x) ∧
      pick (headerIndex headers) row names = row.get? j := by
  rw [pick_no_exact headers row names hc hno]
  cases hf : (objectKeys (headerIndex headers)).find?
      (fun k => names.any (fun n => includes k (normalizeHeader n))) with
  | none =>
    exfalso
    rw [List.find?_eq_none] at hf
    obtain ⟨h, hh, n, hn, hi⟩ := hex
    have hmem : normalizeHeader h ∈ objectKeys (headerIndex headers) := by
      rw [mem_objectKeys, any_headerIndex, List.any_eq_true]
      exact ⟨h, hh, by simp⟩
    apply hf _ hmem
    rw [List.any_eq_true]
    exact ⟨n, hn, hi⟩
  | some k =>
    have hmem := List.mem_of_find?_eq_some hf
    have hp := List.find?_some hf
    rw [mem_objectKeys, any_headerIndex] at hmem
    obtain ⟨j, x, h1, h2, h3, h4⟩ := cellAt_of_any headers row k hmem
    rw [List.any_eq_true] at hp
    obtain ⟨n, hn, hi⟩ := hp
    subst h2
    exact ⟨j, x, h1, ⟨n, hn, hi⟩, h3, h4⟩

/-- No match: the field is `undefined`. -/
theorem pick_none (headers row names : List String)
    (hc : ∀ m ∈ names, normalizeHeader m ≠ "constructor")
    (hno : ∀ h ∈ headers, ∀ n ∈ names, normalizeHeader h ≠ normalizeHeader n ∧
      includes (normalizeHeader h) (normalizeHeader n) = false) :
    pick (headerIndex headers) row names = none := by
  rw [pick_no_exact headers row names hc (fun n hn h hh => (hno h hh n hn).1)]
  cases hf : (objectKeys (headerIndex headers)).find?
      (fun k => names.any (fun n => includes k (normalizeHeader n))) with
  | none => rfl
  | some k =>
    exfalso
    have hmem := List.mem_of_find?_eq_some hf
    have hp := List.find?_some hf
    rw [mem_objectKeys, any_headerIndex, List.any_eq_true] at hmem
    obtain ⟨h, hh, he⟩ := hmem
    rw [List.any_eq_true] at hp
    obtain ⟨n, hn, hi⟩ := hp
    have hk : normalizeHeader h = k := by simpa using he
    have := (hno h hh n hn).2
    rw [hk, hi] at this
    exact Bool.noConfusion this

theorem fieldNames_plain : ∀ names ∈ fieldNames, ∀ m ∈ names,
    normalizeHeader m ≠ "constructor" := by
  decide

/-! ## The form pages render -/

theorem formPage_renders (env : Env) (title tipe : String) (santri_id : Option Int) (db : Db)
    (table : List PresetNominal) (hq : env.canQuery = true)
    (hs : env.rejects Stmt.selectSantri = false)
    (hp : env.rejects Stmt.selectPresets = false) :
    (formPage env title tipe santri_id db table).outcome =
      PageOutcome.rendered ⟨title, some tipe, santri_id.bind db.selectSantri, none,
        some ((selectPresets table tipe).map PresetNominal.offer)⟩ := by
  cases santri_id <;> simp [formPage, querySantri, queryPresets, hq, hs, hp]

theorem cariHandler_renders (env : Env) (body : CariBody) (db : Db)
    (table : List PresetNominal) (row : Santri) (hq : env.canQuery = true)
    (hs : env.rejects Stmt.selectByNama = false)
    (hp : env.rejects Stmt.selectPresets = false)
    (hn : jsTrim (body.nama.getD "") ≠ "")
    (hrow : db.selectByNama ("%" ++ jsTrim (body.nama.getD "") ++ "%") = [row]) :
    (cariHandler env body db table).outcome =
      PageOutcome.rendered
        ⟨"Transaksi " ++ (if body.tipe = some "setor" then "Setoran" else "Penarikan"),
          body.tipe, some row, none,
          some ((selectPresets table
            (if body.tipe = some "setor" then "setor" else "tarik")).map
              PresetNominal.offer)⟩ := by
  unfold cariHandler
  simp only [if_neg hn, hq, hs, Bool.not_true, Bool.false_eq_true, if_false, hrow]
  by_cases ht : body.tipe = some "setor"
  · simp [ht, queryPresets, hq, hp]
  · simp [ht, queryPresets, hq, hp]

/-! ## The claims -/

/-- C1 (ledger invariant). Take any state, any student `sid` and any finite
sequence of requests to `POST /setor`, `POST /tarik` and `POST /hapus` in which
every storage statement succeeds. If the stored balance of `sid` equals the sum
of its `setor` amounts minus the sum of its `tarik` amounts before the sequence,
the same equation holds after every request of the sequence, accepted or
rejected. If the sequence consists of deposits and withdrawals only, the final
balance is the initial balance plus the accepted deposits minus the accepted
withdrawals. -/
theorem ledger_invariant (w : World) (cs : List Call) (sid : Int)
    (hok : allSucceed w cs = true) (h0 : LedgerAt w.db sid) :
    (∀ k, LedgerAt (run w (cs.take k)).db sid) ∧
    (cs.all Call.isSetorTarik = true → ∀ b, saldoOf w.db sid = some b →
      saldoOf (run w cs).db sid =
        some (b + acceptedDeposits sid w cs - acceptedWithdrawals sid w cs)) :=
  ⟨run_ledger cs w sid hok h0, fun hall b hb => run_saldo cs w sid b hok hall hb⟩

/-- The scenario of the specification (deposit, withdrawal, rejected
withdrawal, reversal) satisfies the hypotheses of C1 and ends in a state where
the ledger equation holds. -/
theorem ledger_invariant_witness :
    allSucceed exWorld exCalls = true ∧ LedgerAt exWorld.db 1 ∧
    LedgerAt (run exWorld (exCalls.take 4)).db 1 :=
  ⟨by decide, by decide, (ledger_invariant exWorld exCalls 1 (by decide) (by decide)).1 4⟩

/-- C2 (a rejected withdrawal mutates nothing). For a withdrawal request with a
valid positive amount `A` for student `sid`, where the amount and the balance
of the student, if there is one, are integers JavaScript numbers hold exactly
(at most `maxSafeInteger` in absolute value): if the student does not exist or
its balance is strictly below `A`, then in every environment and session the
state after the request is the state before it (every balance, the whole
transaction table and the files, so no receipt is written), no row was
inserted and the response is an error; for a cashier with a working lookup the
error is the not-found, respectively the insufficient-balance message. With a
balance equal to `A` the request is not rejected as insufficient: the balance
statement is issued. -/
theorem tarik_rejected_no_mutation (env : Env) (session : Option User) (body : TarikBody)
    (w : World) (sid A : Int)
    (hsid : body.santri_id = some sid) (hA : parseInt body.jumlah = some A) (hpos : 0 < A)
    (_hsafeA : A ≤ maxSafeInteger)
    (_hsafeB : ∀ b ∈ saldoOf w.db sid, -maxSafeInteger ≤ b ∧ b ≤ maxSafeInteger) :
    ((saldoOf w.db sid = none ∨ ∃ b, saldoOf w.db sid = some b ∧ b < A) →
      (postTarik env session body w).world = w ∧
      (postTarik env session body w).accepted = false ∧
      (postTarik env session body w).resp.flash.type = "error") ∧
    (∀ u, session = some u → u.role = "kasir" → env.canQuery = true →
      env.rejects Stmt.selectSantri = false →
      (saldoOf w.db sid = none →
        (postTarik env session body w).resp.flash = ⟨"error", "Santri tidak ditemukan."⟩) ∧
      (∀ b, saldoOf w.db sid = some b → b < A →
        (postTarik env session body w).resp.flash =
          ⟨"error", "Saldo tidak cukup untuk penarikan."⟩) ∧
      (saldoOf w.db sid = some A →
        (postTarik env session body w).resp.flash.message ≠
          "Saldo tidak cukup untuk penarikan." ∧
        ∃ ok, (Stmt.updateSaldo, ok) ∈ (postTarik env session body w).trace)) := by
  have hne : ¬ (A = 0 ∨ A ≤ 0) := by omega
  constructor
  · intro hrej
    unfold postTarik
    rcases route_cases "kasir" session w (fun u => tarikHandler env u body w) with
      hr | ⟨u, -, -, hr⟩
    · exact ⟨hr.1, accepted_false_of_trace_nil hr.2.1, hr.2.2⟩
    · rw [hr]
      rcases tarikHandler_cases env u body w with
        hc | ⟨sid1, A1, s, hsid1, hA1, -, -, -, hs, hle, -⟩
      · exact hc
      · exfalso
        rw [hsid] at hsid1
        rw [hA] at hA1
        cases hsid1
        cases hA1
        have hso : saldoOf w.db sid = some s.saldo := by simp [saldoOf, hs]
        rcases hrej with hn | ⟨b, hb, hlt⟩
        · rw [hn] at hso; cases hso
        · rw [hb] at hso
          cases hso
          omega
  · intro u hu hrole hq hr
    subst hu
    rw [postTarik, requireRole_some hrole]
    refine ⟨?_, ?_, ?_⟩
    · intro hn
      have hs : w.db.selectSantri sid = none := by simpa [saldoOf] using hn
      simp [tarikHandler, hsid, hA, hne, hq, hr, hs, reject]
    · intro b hb hlt
      obtain ⟨s, hs, hsb⟩ : ∃ s, w.db.selectSantri sid = some s ∧ s.saldo = b := by
        simpa [saldoOf] using hb
      have : s.saldo < A := by omega
      simp [tarikHandler, hsid, hA, hne, hq, hr, hs, this, reject]
    · intro hb
      obtain ⟨s, hs, hsb⟩ : ∃ s, w.db.selectSantri sid = some s ∧ s.saldo = A := by
        simpa [saldoOf] using hb
      rw [tarikHandler_eq_write hq hr hsid hA hpos hs (by omega)]
      exact ⟨(tarikWrite_issued env u body w sid A).2.1, (tarikWrite_issued env u body w sid A).1⟩

/-- Withdrawing 100000 from a balance of 30000 leaves the state untouched. -/
theorem tarik_rejected_no_mutation_witness :
    saldoOf exLedger.db 1 = some 30000 ∧ (100000 : Int) ≤ maxSafeInteger ∧
    (postTarik exEnv (some exKasir) ⟨some 1, some "100000", none, none⟩ exLedger).world =
      exLedger :=
  ⟨by decide, by decide, ((tarik_rejected_no_mutation exEnv (some exKasir)
    ⟨some 1, some "100000", none, none⟩ exLedger 1 100000 (by decide) (by decide)
    (by decide) (by decide) (by decide)).1 (Or.inr ⟨30000, by decide, by decide⟩)).1⟩

/-- C3, counterexample. The session user of the development preview has id 0
and role `kasir`. Its withdrawal of 20000 from a balance of 50000 is accepted
with every statement succeeding, and the new row has tipe `tarik` and jumlah
20000, but its `user_id` is `NULL`, not the id 0 of the acting user. -/
theorem tarik_preview_user_counterexample :
    exPreview.id = 0 ∧ exPreview.role = "kasir" ∧
    (postTarik exEnvNext (some exPreview) ⟨some 1, some "20000", none, some "Ali"⟩
      exFunded).allSucceed = true ∧
    saldoOf (postTarik exEnvNext (some exPreview) ⟨some 1, some "20000", none, some "Ali"⟩
      exFunded).world.db 1 = some 30000 ∧
    ((postTarik exEnvNext (some exPreview) ⟨some 1, some "20000", none, some "Ali"⟩
      exFunded).world.db.transaksi.map (fun t => (t.tipe, t.jumlah, t.user_id))) =
      [("setor", 50000, some 2), ("tarik", 20000, none)] := by
  decide

/-- C3, as the code behaves. A session user with role `kasir` withdraws a
positive amount `A` from an existing student `sid` whose balance `b` is at
least `A` and at most `maxSafeInteger` (so both are integers JavaScript
numbers hold exactly), and every storage statement of the request succeeds.
Then the balance of `sid` becomes `b - A`, every other balance is unchanged,
and the transaction table is the old table followed by exactly one new row
with tipe `tarik`, jumlah `A`, the student's id and, as `user_id`, the id of
the session user, or `NULL` when that id is 0. -/
theorem tarik_accepted_effect (env : Env) (u : User) (body : TarikBody) (w : World)
    (sid A b : Int)
    (hrole : u.role = "kasir") (hq : env.canQuery = true)
    (hsid : body.santri_id = some sid) (hA : parseInt body.jumlah = some A) (hpos : 0 < A)
    (hb : saldoOf w.db sid = some b) (hle : A ≤ b) (_hsafe : b ≤ maxSafeInteger)
    (hok : (postTarik env (some u) body w).allSucceed = true) :
    saldoOf (postTarik env (some u) body w).world.db sid = some (b - A) ∧
    (∀ other, other ≠ sid →
      saldoOf (postTarik env (some u) body w).world.db other = saldoOf w.db other) ∧
    (postTarik env (some u) body w).world.db.santri =
      w.db.santri.map (addSaldo (-A) (some sid)) ∧
    (postTarik env (some u) body w).world.db.transaksi =
      w.db.transaksi ++ [⟨env.trx_no, some sid, if u.id = 0 then none else some u.id,
        "tarik", A, orNull body.keterangan, none, none, storedPdfPath env⟩] := by
  obtain ⟨s, hs, hsb⟩ : ∃ s, w.db.selectSantri sid = some s ∧ s.saldo = b := by
    simpa [saldoOf] using hb
  have hr : env.rejects Stmt.selectSantri = false := by
    cases hrj : env.rejects Stmt.selectSantri
    · rfl
    · have hne : ¬ (A = 0 ∨ A ≤ 0) := by omega
      simp [postTarik, requireRole_some hrole, tarikHandler, hsid, hA, hne, hq, hrj, reject,
        Result.allSucceed] at hok
  rw [postTarik, requireRole_some hrole,
    tarikHandler_eq_write hq hr hsid hA hpos hs (by omega)] at hok ⊢
  rcases tarikWrite_cases env u body w sid A with h1 | h2 | h3
  · rw [allSucceed_false_of_mem (s := Stmt.updateSaldo) (by rw [h1.2]; simp)] at hok
    simp at hok
  · rw [allSucceed_false_of_mem (s := Stmt.insertTransaksi) (by rw [h2.2.2.2]; simp)] at hok
    simp at hok
  · refine ⟨?_, ?_, h3.1, ?_⟩
    · rw [saldoOf_of_map h3.1, hb]; simp; ring
    · intro other ho
      rw [saldoOf_of_map h3.1]
      cases saldoOf w.db other <;> simp [ho]
    · rw [h3.2.1]
      rfl

/-- Withdrawing 20000 from a balance of 50000 leaves 30000, and the row
carries the id 2 of the cashier. -/
theorem tarik_accepted_effect_witness :
    saldoOf exFunded.db 1 = some 50000 ∧ (50000 : Int) ≤ maxSafeInteger ∧
    saldoOf (postTarik exEnvNext (some exKasir) ⟨some 1, some "20000", none, some "Ali"⟩
      exFunded).world.db 1 = some (50000 - 20000) ∧
    ((postTarik exEnvNext (some exKasir) ⟨some 1, some "20000", none, some "Ali"⟩
      exFunded).world.db.transaksi.map (fun t => (t.tipe, t.jumlah, t.user_id))) =
      [("setor", 50000, some 2), ("tarik", 20000, some 2)] :=
  ⟨by decide, by decide,
   (tarik_accepted_effect exEnvNext exKasir ⟨some 1, some "20000", none, some "Ali"⟩
    exFunded 1 20000 50000 (by decide) (by decide) (by decide) (by decide) (by decide)
    (by decide) (by decide) (by decide) (by decide)).1, by decide⟩

/-- C4, counterexample. The session user of the development preview has id 0
and role `kasir`. Its deposit of 50000 is accepted with every statement
succeeding, and the new row has tipe `setor` and jumlah 50000, but its
`user_id` is `NULL`, not the id 0 of the acting user. -/
theorem setor_preview_user_counterexample :
    exPreview.id = 0 ∧ exPreview.role = "kasir" ∧
    (postSetor exEnv (some exPreview) ⟨some 1, some "50000", none⟩ exWorld).allSucceed =
      true ∧
    saldoOf (postSetor exEnv (some exPreview) ⟨some 1, some "50000", none⟩
      exWorld).world.db 1 = some 50000 ∧
    ((postSetor exEnv (some exPreview) ⟨some 1, some "50000", none⟩
      exWorld).world.db.transaksi.map (fun t => (t.tipe, t.jumlah, t.user_id))) =
      [("setor", 50000, none)] := by
  decide

/-- C4, as the code behaves. A session user with role `kasir` deposits a
positive amount `A` of at most `maxSafeInteger` (an integer JavaScript numbers
hold exactly) for an existing student `sid` with balance `b`, and every
storage statement of the request succeeds. Then the balance of `sid` becomes
`b + A`, every other balance is unchanged, and the transaction table is the
old table followed by exactly one new row with tipe `setor`, jumlah `A`, the
student's id and, as `user_id`, the id of the session user, or `NULL` when
that id is 0. -/
theorem setor_accepted_effect (env : Env) (u : User) (body : SetorBody) (w : World)
    (sid A b : Int)
    (hrole : u.role = "kasir") (hq : env.canQuery = true)
    (hsid : body.santri_id = some sid) (hA : parseInt body.jumlah = some A) (hpos : 0 < A)
    (_hsafe : A ≤ maxSafeInteger) (hb : saldoOf w.db sid = some b)
    (hok : (postSetor env (some u) body w).allSucceed = true) :
    saldoOf (postSetor env (some u) body w).world.db sid = some (b + A) ∧
    (∀ other, other ≠ sid →
      saldoOf (postSetor env (some u) body w).world.db other = saldoOf w.db other) ∧
    (postSetor env (some u) body w).world.db.santri = w.db.santri.map (addSaldo A (some sid)) ∧
    (postSetor env (some u) body w).world.db.transaksi =
      w.db.transaksi ++ [⟨env.trx_no, some sid, if u.id = 0 then none else some u.id,
        "setor", A, orNull body.keterangan, none, none, none⟩] := by
  rw [postSetor, requireRole_some hrole, setorHandler_eq_write hq hsid hA hpos] at hok ⊢
  rcases setorWrite_cases env u body w sid A with h1 | h2 | h3
  · rw [allSucceed_false_of_mem (s := Stmt.updateSaldo) (by rw [h1.2]; simp)] at hok
    simp at hok
  · rw [allSucceed_false_of_mem (s := Stmt.insertTransaksi) (by rw [h2.2.2]; simp)] at hok
    simp at hok
  · refine ⟨?_, ?_, h3.1, ?_⟩
    · rw [saldoOf_of_map h3.1, hb]; simp
    · intro other ho
      rw [saldoOf_of_map h3.1]
      cases saldoOf w.db other <;> simp [ho]
    · rw [h3.2.1]
      rfl

/-- Depositing 50000 on a balance of 0 gives 50000, and the row carries the
id 2 of the cashier. -/
theorem setor_accepted_effect_witness :
    saldoOf exWorld.db 1 = some 0 ∧ (50000 : Int) ≤ maxSafeInteger ∧
    saldoOf (postSetor exEnv (some exKasir) ⟨some 1, some "50000", none⟩ exWorld).world.db 1 =
      some (0 + 50000) ∧
    ((postSetor exEnv (some exKasir) ⟨some 1, some "50000", none⟩
      exWorld).world.db.transaksi.map (fun t => (t.tipe, t.jumlah, t.user_id))) =
      [("setor", 50000, some 2)] :=
  ⟨by decide, by decide,
   (setor_accepted_effect exEnv exKasir ⟨some 1, some "50000", none⟩ exWorld 1 50000 0
    (by decide) (by decide) (by decide) (by decide) (by decide) (by decide) (by decide)
    (by decide)).1, by decide⟩

/-- C5 fails as stated: with a storage layer that rejects the insert, the
balance update has already been committed, so after the failed deposit the
balance is 50000 instead of 0 while no transaction row exists. -/
theorem setor_not_atomic_counterexample :
    (postSetor exEnvInsertFails (some exKasir) ⟨some 1, some "50000", none⟩ exWorld).trace =
      [(Stmt.updateSaldo, true), (Stmt.insertTransaksi, false)] ∧
    saldoOf exWorld.db 1 = some 0 ∧
    saldoOf (postSetor exEnvInsertFails (some exKasir)
      ⟨some 1, some "50000", none⟩ exWorld).world.db 1 = some 50000 ∧
    (postSetor exEnvInsertFails (some exKasir)
      ⟨some 1, some "50000", none⟩ exWorld).world.db.transaksi = [] ∧
    ¬ (saldoOf (postSetor exEnvInsertFails (some exKasir)
      ⟨some 1, some "50000", none⟩ exWorld).world.db 1 = saldoOf exWorld.db 1) := by
  decide

/-- C5 as amended. The balance update and the insert of a deposit are two
separately committed statements. If the insert is rejected after the balance
update succeeded, the balance of the student stays incremented by the amount,
no transaction row is inserted and the request reports the failure. The
balance equals the balance before the request when the balance update itself is
rejected. -/
theorem setor_insert_failure_effect (env : Env) (u : User) (body : SetorBody) (w : World)
    (sid A b : Int)
    (hrole : u.role = "kasir") (hq : env.canQuery = true)
    (hsid : body.santri_id = some sid) (hA : parseInt body.jumlah = some A) (hpos : 0 < A)
    (hb : saldoOf w.db sid = some b) :
    ((Stmt.insertTransaksi, false) ∈ (postSetor env (some u) body w).trace →
      saldoOf (postSetor env (some u) body w).world.db sid = some (b + A) ∧
      (postSetor env (some u) body w).world.db.transaksi = w.db.transaksi ∧
      (postSetor env (some u) body w).resp.flash = ⟨"error", "Gagal mencatat setoran."⟩) ∧
    ((Stmt.updateSaldo, false) ∈ (postSetor env (some u) body w).trace →
      (postSetor env (some u) body w).world = w ∧
      (postSetor env (some u) body w).resp.flash = ⟨"error", "Gagal mencatat setoran."⟩) := by
  rw [postSetor, requireRole_some hrole, setorHandler_eq_write hq hsid hA hpos]
  have hframe := (setorWrite_frame env u body w sid A).2
  rcases setorWrite_cases env u body w sid A with h1 | h2 | h3
  · have hacc : (setorWrite env u body w sid A).accepted = false := by
      simp [Result.accepted, h1.2]
    refine ⟨?_, ?_⟩
    · intro hm; rw [h1.2] at hm; simp at hm
    · intro _; exact ⟨h1.1, (hframe hacc).1⟩
  · have hacc : (setorWrite env u body w sid A).accepted = false := by
      simp [Result.accepted, h2.2.2]
    refine ⟨?_, ?_⟩
    · intro _
      refine ⟨?_, h2.2.1, (hframe hacc).1⟩
      rw [saldoOf_of_map h2.1, hb]; simp
    · intro hm; rw [h2.2.2] at hm; simp at hm
  · have hall := setorWrite_accepted_trace env u body w sid A h3.2.2.2
    refine ⟨?_, ?_⟩
    · intro hm; have := hall _ hm rfl; simp at this
    · intro hm; have := hall _ hm rfl; simp at this

/-- A deposit of 50000 whose insert is rejected leaves the balance at 50000. -/
theorem setor_insert_failure_effect_witness :
    saldoOf exWorld.db 1 = some 0 ∧
    saldoOf (postSetor exEnvInsertFails (some exKasir) ⟨some 1, some "50000", none⟩
      exWorld).world.db 1 = some (0 + 50000) :=
  ⟨by decide, ((setor_insert_failure_effect exEnvInsertFails exKasir
    ⟨some 1, some "50000", none⟩ exWorld 1 50000 0 (by decide) (by decide) (by decide)
    (by decide) (by decide) (by decide)).1 (by decide)).1⟩

/-- C6 (deposit for a student that does not exist), evaluated on the code. The
request issues the balance update, which matches no row, and the insert, which
the foreign key rejects; nothing is mutated, as the claim says. But the
response is the generic failure of the write, the very response a rejected
insert for an existing student gets, and not a not-found outcome: the
withdrawal route answers the same student id with `Santri tidak ditemukan.`,
the deposit route has no such check. -/
theorem setor_unknown_student_response :
    saldoOf exWorld.db 7 = none ∧
    (postSetor exEnv (some exKasir) ⟨some 7, some "50000", none⟩ exWorld).trace =
      [(Stmt.updateSaldo, true), (Stmt.insertTransaksi, false)] ∧
    (postSetor exEnv (some exKasir) ⟨some 7, some "50000", none⟩ exWorld).world = exWorld ∧
    (postSetor exEnv (some exKasir) ⟨some 7, some "50000", none⟩ exWorld).resp.flash =
      ⟨"error", "Gagal mencatat setoran."⟩ ∧
    (postSetor exEnv (some exKasir) ⟨some 7, some "50000", none⟩ exWorld).resp =
      (postSetor exEnvInsertFails (some exKasir) ⟨some 1, some "50000", none⟩ exWorld).resp ∧
    (postSetor exEnv (some exKasir) ⟨some 7, some "50000", none⟩ exWorld).resp.flash ≠
      (postTarik exEnv (some exKasir) ⟨some 7, some "50000", none, none⟩ exWorld).resp.flash ∧
    (postTarik exEnv (some exKasir) ⟨some 7, some "50000", none, none⟩ exWorld).resp.flash =
      ⟨"error", "Santri tidak ditemukan."⟩ := by
  decide

/-- C7 (reversal is the exact inverse). An administrator reverses the single
transaction `t` that the lookup finds and every storage statement of the
request succeeds. Then the request succeeds whatever the current balance `b` of
the student of `t` is (there is no comparison of `b` with the amount): the
balance becomes `b + t.jumlah` when `t` is a withdrawal and `b - t.jumlah` when
it is a deposit, every other balance is unchanged, and the transaction table
loses exactly the row `t`. -/
theorem hapus_exact_inverse (env : Env) (u : User) (body : HapusBody) (w : World)
    (t : Transaksi)
    (hrole : u.role = "admin") (hq : env.canQuery = true)
    (hne : jsTrim (body.trx.getD "") ≠ "")
    (hsel : w.db.selectTransaksi (jsTrim (body.trx.getD "")) = [t])
    (hok : (postHapus env (some u) body w).allSucceed = true) :
    (postHapus env (some u) body w).resp.flash =
      ⟨"success", "Transaksi " ++ t.trx_no ++ " berhasil dihapus dan saldo diperbarui."⟩ ∧
    (∀ sid b, t.santri_id = some sid → saldoOf w.db sid = some b →
      (t.tipe = "tarik" →
        saldoOf (postHapus env (some u) body w).world.db sid = some (b + t.jumlah)) ∧
      (t.tipe = "setor" →
        saldoOf (postHapus env (some u) body w).world.db sid = some (b - t.jumlah))) ∧
    (∀ other, t.santri_id ≠ some other →
      saldoOf (postHapus env (some u) body w).world.db other = saldoOf w.db other) ∧
    (∃ l1 l2, w.db.transaksi = l1 ++ t :: l2 ∧
      (postHapus env (some u) body w).world.db.transaksi = l1 ++ l2) := by
  have hr : env.rejects Stmt.selectTransaksi = false := by
    cases hrj : env.rejects Stmt.selectTransaksi
    · rfl
    · simp [postHapus, requireRole_some hrole, hapusHandler, hne, hq, hrj, reject,
        Result.allSucceed] at hok
  rw [postHapus, requireRole_some hrole, hapusHandler_eq_row hne hq hr hsel] at hok ⊢
  rcases hapusRow_cases env u t w with h1 | h2 | h3
  · rw [allSucceed_false_of_mem (s := Stmt.updateSaldo) (by rw [h1.2.1]; simp)] at hok
    simp at hok
  · rw [allSucceed_false_of_mem h2.2.2.2.1] at hok
    simp at hok
  · obtain ⟨hs1, hs2⟩ := saldoOf_revert h3.1
    refine ⟨h3.2.2.2.1, hs1, hs2, ?_⟩
    obtain ⟨l1, l2, e1, e2⟩ := filter_singleton_split (selectTransaksi_singleton hsel)
    exact ⟨l1, l2, e1, by rw [h3.2.1]; exact e2⟩

/-- Reversing the deposit of 50000 when the balance is only 30000 succeeds and
leaves the balance at 30000 - 50000. -/
theorem hapus_exact_inverse_witness :
    saldoOf exLedger.db 1 = some 30000 ∧
    saldoOf (postHapus exEnv (some exAdmin) ⟨some "ab12cd34"⟩ exLedger).world.db 1 =
      some (30000 - 50000) :=
  ⟨by decide, ((hapus_exact_inverse exEnv exAdmin ⟨some "ab12cd34"⟩ exLedger
    ⟨"TRX-20240101-120000-ab12cd34", some 1, some 2, "setor", 50000, none, none, none, none⟩
    (by decide) (by decide) (by decide) (by decide) (by decide)).2.1 1 30000 (by decide)
    (by decide)).2 (by decide)⟩

/-- C8 (reversing twice is impossible). After a successful reversal, a second
reversal request with the same input (a full identifier in particular) finds no
row: in every environment and session it leaves the state unchanged and is
answered with an error, and for an administrator with a working lookup the
error is `Transaksi tidak ditemukan.`. -/
theorem hapus_twice (env1 env2 : Env) (session1 session2 : Option User) (body : HapusBody)
    (w : World)
    (h1 : (postHapus env1 session1 body w).resp.flash.type = "success") :
    (postHapus env1 session1 body w).world.db.selectTransaksi (jsTrim (body.trx.getD "")) = [] ∧
    (postHapus env2 session2 body (postHapus env1 session1 body w).world).world =
      (postHapus env1 session1 body w).world ∧
    (postHapus env2 session2 body (postHapus env1 session1 body w).world).resp.flash.type =
      "error" ∧
    (∀ u, session2 = some u → u.role = "admin" → env2.canQuery = true →
      env2.rejects Stmt.selectTransaksi = false →
      (postHapus env2 session2 body (postHapus env1 session1 body w).world).resp.flash =
        ⟨"error", "Transaksi tidak ditemukan."⟩) := by
  obtain ⟨u1, t, hsel, heq, htr⟩ := postHapus_success h1
  have hnone : (postHapus env1 session1 body w).world.db.selectTransaksi
      (jsTrim (body.trx.getD "")) = [] := by
    rw [heq]; exact selectTransaksi_after_delete hsel htr
  have hne : jsTrim (body.trx.getD "") ≠ "" := by
    intro he
    unfold postHapus at h1
    rcases route_cases "admin" session1 w (fun u => hapusHandler env1 u body w) with
      hr | ⟨u, -, -, hr⟩
    · rw [hr.2.2] at h1; exact absurd h1 (by decide)
    · rw [hr] at h1
      simp [hapusHandler, he, reject] at h1
  refine ⟨hnone, ?_, ?_, ?_⟩
  · unfold postHapus
    rcases route_cases "admin" session2 (postHapus env1 session1 body w).world
      (fun u => hapusHandler env2 u body (postHapus env1 session1 body w).world) with
      hr | ⟨u, -, -, hr⟩
    · exact hr.1
    · unfold postHapus at hr
      rw [hr]
      rcases hapusHandler_cases env2 u body (postHapus env1 session1 body w).world with
        hc | ⟨t2, -, -, hsel2, -⟩
      · exact hc.1
      · rw [hnone] at hsel2; cases hsel2
  · unfold postHapus
    rcases route_cases "admin" session2 (postHapus env1 session1 body w).world
      (fun u => hapusHandler env2 u body (postHapus env1 session1 body w).world) with
      hr | ⟨u, -, -, hr⟩
    · exact hr.2.2
    · unfold postHapus at hr
      rw [hr]
      rcases hapusHandler_cases env2 u body (postHapus env1 session1 body w).world with
        hc | ⟨t2, -, -, hsel2, -⟩
      · exact hc.2
      · rw [hnone] at hsel2; cases hsel2
  · intro u hu hrole hq hr
    subst hu
    rw [postHapus, requireRole_some hrole]
    unfold hapusHandler
    simp [hne, hq, hr, hnone, reject]

/-- The second reversal of the same withdrawal is answered with not found. -/
theorem hapus_twice_witness :
    (postHapus exEnv (some exAdmin) ⟨some "TRX-20240101-120001-ab12cd35"⟩
      (postHapus exEnv (some exAdmin) ⟨some "TRX-20240101-120001-ab12cd35"⟩
        exLedger).world).resp.flash = ⟨"error", "Transaksi tidak ditemukan."⟩ :=
  (hapus_twice exEnv exEnv (some exAdmin) (some exAdmin)
    ⟨some "TRX-20240101-120001-ab12cd35"⟩ exLedger (by decide)).2.2.2 exAdmin rfl
    (by decide) (by decide) (by decide)

/-- C9 (ambiguous reversal reference). If the lookup of a reversal request
matches more than one transaction row, then in every environment and session
the state after the request is the state before it (no row deleted, no balance
changed, no file removed) and the response is an error; for an administrator
with a working lookup it is the ambiguity message and the lookup is the only
statement issued. -/
theorem hapus_ambiguous (env : Env) (session : Option User) (body : HapusBody) (w : World)
    (hamb : 1 < (w.db.selectTransaksi (jsTrim (body.trx.getD ""))).length) :
    (postHapus env session body w).world = w ∧
    (postHapus env session body w).resp.flash.type = "error" ∧
    (∀ u, session = some u → u.role = "admin" → env.canQuery = true →
      env.rejects Stmt.selectTransaksi = false → jsTrim (body.trx.getD "") ≠ "" →
      (postHapus env session body w).resp.flash =
        ⟨"error", "Lebih dari satu hasil. Mohon masukkan nomor lengkap."⟩ ∧
      (postHapus env session body w).trace = [(Stmt.selectTransaksi, true)]) := by
  have hcases : ∀ u, (hapusHandler env u body w).world = w ∧
      (hapusHandler env u body w).resp.flash.type = "error" := by
    intro u
    rcases hapusHandler_cases env u body w with hc | ⟨t, -, -, hsel, -⟩
    · exact hc
    · rw [hsel] at hamb; simp at hamb
  refine ⟨?_, ?_, ?_⟩
  · unfold postHapus
    rcases route_cases "admin" session w (fun u => hapusHandler env u body w) with
      hr | ⟨u, -, -, hr⟩
    · exact hr.1
    · rw [hr]; exact (hcases u).1
  · unfold postHapus
    rcases route_cases "admin" session w (fun u => hapusHandler env u body w) with
      hr | ⟨u, -, -, hr⟩
    · exact hr.2.2
    · rw [hr]; exact (hcases u).2
  · intro u hu hrole hq hr hne
    subst hu
    rw [postHapus, requireRole_some hrole]
    unfold hapusHandler
    simp only [hne, hq, hr, if_false, Bool.not_true, Bool.false_eq_true]
    split
    · rename_i h0; rw [h0] at hamb; simp at hamb
    · rename_i t h0; rw [h0] at hamb; simp at hamb
    · simp [reject]

/-- The suffix `ab12cd34` matches two rows and the request changes nothing. -/
theorem hapus_ambiguous_witness :
    (exAmbiguous.db.selectTransaksi "ab12cd34").length = 2 ∧
    (postHapus exEnv (some exAdmin) ⟨some "ab12cd34"⟩ exAmbiguous).world = exAmbiguous :=
  ⟨by decide, (hapus_ambiguous exEnv (some exAdmin) ⟨some "ab12cd34"⟩ exAmbiguous
    (by decide)).1⟩

/-- C10 fails as stated: with a storage layer that rejects the delete, the
balance restoration has already been committed, so after the failed reversal of
a withdrawal of 20000 the balance is 50000 instead of 30000 while the row is
still in the table. -/
theorem hapus_not_atomic_counterexample :
    (postHapus exEnvDeleteFails (some exAdmin) ⟨some "TRX-20240101-120001-ab12cd35"⟩
      exLedger).trace =
      [(Stmt.selectTransaksi, true), (Stmt.updateSaldo, true), (Stmt.deleteTransaksi, false)] ∧
    saldoOf exLedger.db 1 = some 30000 ∧
    saldoOf (postHapus exEnvDeleteFails (some exAdmin) ⟨some "TRX-20240101-120001-ab12cd35"⟩
      exLedger).world.db 1 = some 50000 ∧
    (postHapus exEnvDeleteFails (some exAdmin) ⟨some "TRX-20240101-120001-ab12cd35"⟩
      exLedger).world.db.transaksi = exLedger.db.transaksi ∧
    ¬ (saldoOf (postHapus exEnvDeleteFails (some exAdmin)
      ⟨some "TRX-20240101-120001-ab12cd35"⟩ exLedger).world.db 1 = saldoOf exLedger.db 1) := by
  decide

/-- C10 as amended. The balance restoration and the deletion of a reversal are
two separately committed statements. If the delete is rejected after the row
`t` was found, the balance restoration stays applied (`b + t.jumlah` for a
withdrawal, `b - t.jumlah` for a deposit), the row stays in the table, the
files of the row have already been removed and the request reports the failure.
The state is the state before the request when the balance update itself is
rejected. -/
theorem hapus_delete_failure_effect (env : Env) (u : User) (body : HapusBody) (w : World)
    (t : Transaksi)
    (hrole : u.role = "admin") (hq : env.canQuery = true)
    (hr : env.rejects Stmt.selectTransaksi = false)
    (hne : jsTrim (body.trx.getD "") ≠ "")
    (hsel : w.db.selectTransaksi (jsTrim (body.trx.getD "")) = [t]) :
    ((Stmt.deleteTransaksi, false) ∈ (postHapus env (some u) body w).trace →
      (postHapus env (some u) body w).resp.flash = ⟨"error", "Gagal menghapus transaksi."⟩ ∧
      (postHapus env (some u) body w).world.db.transaksi = w.db.transaksi ∧
      (postHapus env (some u) body w).world.files = unlinkAll env (filesOf env t) w.files ∧
      (∀ sid b, t.santri_id = some sid → saldoOf w.db sid = some b →
        (t.tipe = "tarik" →
          saldoOf (postHapus env (some u) body w).world.db sid = some (b + t.jumlah)) ∧
        (t.tipe = "setor" →
          saldoOf (postHapus env (some u) body w).world.db sid = some (b - t.jumlah)))) ∧
    ((Stmt.updateSaldo, false) ∈ (postHapus env (some u) body w).trace →
      (postHapus env (some u) body w).world = w) := by
  rw [postHapus, requireRole_some hrole, hapusHandler_eq_row hne hq hr hsel]
  rcases hapusRow_cases env u t w with h1 | h2 | h3
  · refine ⟨?_, fun _ => h1.1⟩
    intro hm; rw [h1.2.1] at hm; simp at hm
  · refine ⟨fun _ => ⟨h2.2.2.2.2.1, h2.2.1, h2.2.2.1, (saldoOf_revert h2.1).1⟩, ?_⟩
    intro hm
    have := h2.2.2.2.2.2 _ hm rfl
    simp at this
  · refine ⟨?_, ?_⟩
    · intro hm; have := h3.2.2.2.2 _ hm rfl; simp at this
    · intro hm; have := h3.2.2.2.2 _ hm rfl; simp at this

/-- A reversal whose delete is rejected leaves the restored balance of 50000. -/
theorem hapus_delete_failure_effect_witness :
    saldoOf exLedger.db 1 = some 30000 ∧
    saldoOf (postHapus exEnvDeleteFails (some exAdmin) ⟨some "TRX-20240101-120001-ab12cd35"⟩
      exLedger).world.db 1 = some (30000 + 20000) :=
  ⟨by decide, (((hapus_delete_failure_effect exEnvDeleteFails exAdmin
    ⟨some "TRX-20240101-120001-ab12cd35"⟩ exLedger
    ⟨"TRX-20240101-120001-ab12cd35", some 1, some 2, "tarik", 20000, none, none, none,
      some "pdfs/TRX-20240101-120001-ab12cd35.pdf"⟩
    (by decide) (by decide) (by decide) (by decide) (by decide)).1 (by decide)).2.2.2 1 30000
    (by decide) (by decide)).1 (by decide)⟩

/-- C11 (a receipt failure does not roll back the financial write). Take an
accepted withdrawal of amount `A` for student `sid` with balance `b`, that is a
request to `POST /tarik` whose balance update and transaction insert both
succeeded. If writing the receipt then fails, the balance after the request is
`b - A`, the transaction table is the old one followed by the new `tarik` row,
which carries no receipt path, and no file was written. -/
theorem tarik_receipt_failure_keeps_write (env : Env) (session : Option User)
    (body : TarikBody) (w : World) (sid A b : Int)
    (hsid : body.santri_id = some sid) (hA : parseInt body.jumlah = some A)
    (hb : saldoOf w.db sid = some b)
    (hacc : (postTarik env session body w).accepted = true)
    (hpdf : env.pdfFails = true) :
    saldoOf (postTarik env session body w).world.db sid = some (b - A) ∧
    (∃ u, session = some u ∧
      (postTarik env session body w).world.db.transaksi =
        w.db.transaksi ++ [⟨env.trx_no, some sid, cashierId u, "tarik", A,
          orNull body.keterangan, none, none, none⟩]) ∧
    (postTarik env session body w).world.files = w.files := by
  obtain ⟨u, sid1, A1, s, hu, -, hsid1, hA1, -, -, -, heq⟩ := postTarik_accepted hacc
  rw [hsid] at hsid1
  rw [hA] at hA1
  cases hsid1
  cases hA1
  rw [heq] at hacc ⊢
  have hfail := tarikWrite_pdfFails env u body w sid A hacc hpdf
  rcases tarikWrite_cases env u body w sid A with h1 | h2 | h3
  · simp [Result.accepted, h1.2] at hacc
  · simp [Result.accepted, h2.2.2.2] at hacc
  · refine ⟨?_, ⟨u, hu, ?_⟩, hfail.2.2.2⟩
    · rw [saldoOf_of_map h3.1, hb]; simp; ring
    · rw [h3.2.1]; simp [storedPdfPath, hpdf]

/-- A withdrawal of 20000 from a balance of 50000 in an environment where the
receipt cannot be written satisfies the hypotheses of C11 and leaves 30000. -/
theorem tarik_receipt_failure_keeps_write_witness :
    saldoOf exFunded.db 1 = some 50000 ∧
    saldoOf (postTarik exEnvPdfFails (some exKasir) ⟨some 1, some "20000", none, some "Ali"⟩
      exFunded).world.db 1 = some (50000 - 20000) :=
  ⟨by decide, (tarik_receipt_failure_keeps_write exEnvPdfFails (some exKasir)
    ⟨some 1, some "20000", none, some "Ali"⟩ exFunded 1 20000 50000 (by decide) (by decide)
    (by decide) (by decide) (by decide)).1⟩

/-- C12, counterexample. A cashier withdraws 20000 from a balance of 50000 while
the receipt cannot be written: the withdrawal is accepted and the balance drops
to 30000, yet the response is the error `Gagal memproses penarikan.`, not a
success, and no audit entry is stored. -/
theorem tarik_receipt_failure_counterexample :
    (postTarik exEnvPdfFails (some exKasir) ⟨some 1, some "20000", none, some "Ali"⟩
      exFunded).accepted = true ∧
    saldoOf (postTarik exEnvPdfFails (some exKasir) ⟨some 1, some "20000", none, some "Ali"⟩
      exFunded).world.db 1 = some 30000 ∧
    (postTarik exEnvPdfFails (some exKasir) ⟨some 1, some "20000", none, some "Ali"⟩
      exFunded).resp = ⟨⟨"error", "Gagal memproses penarikan."⟩, "/transaksi/tarik"⟩ ∧
    (postTarik exEnvPdfFails (some exKasir) ⟨some 1, some "20000", none, some "Ali"⟩
      exFunded).resp.flash.type ≠ "success" ∧
    (postTarik exEnvPdfFails (some exKasir) ⟨some 1, some "20000", none, some "Ali"⟩
      exFunded).world.db.audit_logs = [] := by
  decide

/-- C12, as the code behaves. An accepted withdrawal whose receipt generation
fails is answered from the `catch` block: the flash message is the error
`Gagal memproses penarikan.` with a redirect to the withdrawal form, the audit
table is unchanged and no audit insert was issued. -/
theorem tarik_receipt_failure_response (env : Env) (session : Option User)
    (body : TarikBody) (w : World)
    (hacc : (postTarik env session body w).accepted = true)
    (hpdf : env.pdfFails = true) :
    (postTarik env session body w).resp =
      ⟨⟨"error", "Gagal memproses penarikan."⟩, "/transaksi/tarik"⟩ ∧
    (postTarik env session body w).world.db.audit_logs = w.db.audit_logs ∧
    (∀ ok, (Stmt.insertAudit, ok) ∉ (postTarik env session body w).trace) := by
  obtain ⟨u, sid, A, s, -, -, -, -, -, -, -, heq⟩ := postTarik_accepted hacc
  rw [heq] at hacc ⊢
  have hfail := tarikWrite_pdfFails env u body w sid A hacc hpdf
  refine ⟨hfail.1, hfail.2.2.1, ?_⟩
  intro ok hm
  rw [hfail.2.1] at hm
  simp at hm

/-- The withdrawal of the counterexample satisfies the hypotheses of the amended
C12. -/
theorem tarik_receipt_failure_response_witness :
    (postTarik exEnvPdfFails (some exKasir) ⟨some 1, some "20000", none, some "Ali"⟩
      exFunded).resp = ⟨⟨"error", "Gagal memproses penarikan."⟩, "/transaksi/tarik"⟩ :=
  (tarik_receipt_failure_response exEnvPdfFails (some exKasir)
    ⟨some 1, some "20000", none, some "Ali"⟩ exFunded (by decide) (by decide)).1

/-- C13 (identifier format). For every clock instant with a year below 10000 and
every version-4 UUID string, `genTrxNo` returns a string of 28 characters of
the form `TRX-`, eight decimal digits, `-`, six decimal digits, `-`, eight
lowercase hexadecimal characters; the test for a full identifier of
`POST /hapus` accepts it, so the reversal lookup compares it with `trx_no=?`. -/
theorem genTrxNo_format (c : Clock) (uuid : String)
    (hv : c.valid = true) (hu : isUuidV4 uuid = true) :
    (genTrxNo c uuid).length = 28 ∧
    matchesTrxFormat (genTrxNo c uuid) = true ∧
    isFullTrxNo (genTrxNo c uuid) = true ∧
    (∀ t : Transaksi, matchesInput (genTrxNo c uuid) t = (t.trx_no == genTrxNo c uuid)) := by
  obtain ⟨d, t, hst, hd, ht, hdd, htd⟩ := formatStamp_shape hv
  obtain ⟨hlen, hhex⟩ := firstSegment_uuid hu
  obtain ⟨d1, d2, d3, d4, d5, d6, d7, d8, rfl⟩ := length_eight hd
  obtain ⟨t1, t2, t3, t4, t5, t6, rfl⟩ := length_six ht
  obtain ⟨x1, x2, x3, x4, x5, x6, x7, x8, hx⟩ := length_eight hlen
  rw [hx] at hhex
  simp only [List.mem_cons, List.mem_singleton, forall_eq_or_imp, forall_eq,
    List.not_mem_nil, false_implies, implies_true, and_true] at hdd htd hhex
  have hlist : (genTrxNo c uuid).toList =
      ['T', 'R', 'X', '-', d1, d2, d3, d4, d5, d6, d7, d8, '-', t1, t2, t3, t4, t5, t6, '-',
        x1, x2, x3, x4, x5, x6, x7, x8] := by
    simp [genTrxNo, hst, hx]
  have hfull : isFullTrxNo (genTrxNo c uuid) = true := by
    unfold isFullTrxNo
    rw [hlist]
    have e := fun (x : Char) (h : isLowerHex x = true) => isLowerHex_toLower h
    simp only [Bool.or_eq_true, Bool.and_eq_true, decide_eq_true_eq] at e
    simp [hdd, htd, e, hhex]
  refine ⟨?_, ?_, hfull, ?_⟩
  · show (genTrxNo c uuid).toList.length = 28
    rw [hlist]; rfl
  · unfold matchesTrxFormat
    rw [hlist]
    simp [hdd, htd, hhex]
  · intro t
    simp [matchesInput, hfull]

/-- Noon of 1 January 2024 and a version-4 UUID give the identifier used in the
examples, which the reversal lookup recognises as full. -/
theorem genTrxNo_format_witness :
    genTrxNo exClock exUuid = "TRX-20240101-120000-ab12cd34" ∧
    isFullTrxNo (genTrxNo exClock exUuid) = true :=
  ⟨by decide, (genTrxNo_format exClock exUuid (by decide) (by decide)).2.2.1⟩

/-- C14 (identifier uniqueness). Two generated identifiers are equal exactly when
they were generated in the same calendar second and from UUIDs with the same
first segment: as a function of the formatted second and that segment,
`genTrxNo` is injective. -/
theorem genTrxNo_injective (c1 c2 : Clock) (u1 u2 : String)
    (hv1 : c1.valid = true) (hv2 : c2.valid = true) :
    genTrxNo c1 u1 = genTrxNo c2 u2 ↔ c1 = c2 ∧ firstSegment u1 = firstSegment u2 := by
  constructor
  · intro h
    have hl : ['T', 'R', 'X', '-'] ++ formatStamp c1 ++ ['-'] ++ firstSegment u1 =
        ['T', 'R', 'X', '-'] ++ formatStamp c2 ++ ['-'] ++ firstSegment u2 := by
      unfold genTrxNo at h
      injection h
    simp only [List.append_assoc] at hl
    have hl := List.append_cancel_left hl
    obtain ⟨hs, hr⟩ := List.append_inj hl
      (by rw [formatStamp_length hv1, formatStamp_length hv2])
    exact ⟨formatStamp_inj hv1 hv2 hs, List.append_cancel_left hr⟩
  · rintro ⟨rfl, hs⟩
    unfold genTrxNo
    rw [hs]

/-- The same UUID drawn in two consecutive seconds gives two different
identifiers. -/
theorem genTrxNo_injective_witness :
    genTrxNo exClock exUuid ≠ genTrxNo exClockNext exUuid :=
  fun h => absurd ((genTrxNo_injective exClock exClockNext exUuid exUuid (by decide)
    (by decide)).mp h).1 (by decide)

/-- C15 (identifiers sort by creation time). For two instants with years below
10000 of which the first lies in an earlier calendar second, and for any two
UUIDs, the identifier generated at the first instant is strictly smaller in the
lexicographic order of strings than the one generated at the second. -/
theorem genTrxNo_sorts_by_time (c1 c2 : Clock) (u1 u2 : String)
    (hv1 : c1.valid = true) (hv2 : c2.valid = true) (hb : Clock.before c1 c2) :
    genTrxNo c1 u1 < genTrxNo c2 u2 := by
  obtain ⟨y1, m1, d1, h1, mi1, s1⟩ := Clock.valid_bounds hv1
  obtain ⟨y2, m2, d2, h2, mi2, s2⟩ := Clock.valid_bounds hv2
  have l4 : ∀ {n}, n < 10 ^ 4 → (padStart 4 '0' (decimal n)).length = 4 :=
    fun hn => (padStart_decimal (by norm_num) hn).1
  have l2 : ∀ {n}, n < 10 ^ 2 → (padStart 2 '0' (decimal n)).length = 2 :=
    fun hn => (padStart_decimal (by norm_num) hn).1
  rw [String.lt_iff_toList_lt]
  show (genTrxNo c1 u1).data < (genTrxNo c2 u2).data
  unfold genTrxNo formatStamp
  simp only [List.append_assoc]
  apply lt_append_left
  rcases hb with hy | ⟨hy, hb⟩
  · exact lt_append_of_lt _ _ _ _ (by rw [l4 y1, l4 y2])
      (padStart_decimal_lt (by norm_num) y2 hy)
  rw [hy]
  apply lt_append_left
  rcases hb with hm | ⟨hm, hb⟩
  · exact lt_append_of_lt _ _ _ _ (by rw [l2 m1, l2 m2])
      (padStart_decimal_lt (by norm_num) m2 hm)
  rw [hm]
  apply lt_append_left
  rcases hb with hd | ⟨hd, hb⟩
  · exact lt_append_of_lt _ _ _ _ (by rw [l2 d1, l2 d2])
      (padStart_decimal_lt (by norm_num) d2 hd)
  rw [hd]
  apply lt_append_left
  apply lt_append_left
  rcases hb with hh | ⟨hh, hb⟩
  · exact lt_append_of_lt _ _ _ _ (by rw [l2 h1, l2 h2])
      (padStart_decimal_lt (by norm_num) h2 hh)
  rw [hh]
  apply lt_append_left
  rcases hb with hmi | ⟨hmi, hs⟩
  · exact lt_append_of_lt _ _ _ _ (by rw [l2 mi1, l2 mi2])
      (padStart_decimal_lt (by norm_num) mi2 hmi)
  rw [hmi]
  apply lt_append_left
  exact lt_append_of_lt _ _ _ _ (by rw [l2 s1, l2 s2])
    (padStart_decimal_lt (by norm_num) s2 hs)

/-- An identifier of 12:00:00 with a large hexadecimal segment is smaller than an
identifier of 12:00:01 with the smallest one. -/
theorem genTrxNo_sorts_by_time_witness :
    Clock.before exClock exClockNext ∧
    genTrxNo exClock exUuid < genTrxNo exClockNext "00000000-0000-4000-8000-000000000000" :=
  ⟨by decide, genTrxNo_sorts_by_time exClock exClockNext exUuid
    "00000000-0000-4000-8000-000000000000" (by decide) (by decide) (by decide)⟩

/-- C16, counterexample. For the stored identifier
`TRX-20240101-120000-ab12cd34` the inputs `cd34` (a shorter tail), `0-ab12cd34`
(a tail reaching into the timestamp) and `ab12cd3_` (a wildcard pattern) are no
full identifiers and differ from the trailing segment `ab12cd34`, yet the
lookup selects the transaction for each of them, and `POST /hapus` with `cd34`
deletes it. -/
theorem suffix_lookup_counterexample :
    hexSegment "TRX-20240101-120000-ab12cd34" = "ab12cd34" ∧
    isFullTrxNo "cd34" = false ∧ "cd34" ≠ hexSegment "TRX-20240101-120000-ab12cd34" ∧
    exFunded.db.selectTransaksi "cd34" = exFunded.db.transaksi ∧
    isFullTrxNo "0-ab12cd34" = false ∧
    exFunded.db.selectTransaksi "0-ab12cd34" = exFunded.db.transaksi ∧
    isFullTrxNo "ab12cd3_" = false ∧
    exFunded.db.selectTransaksi "ab12cd3_" = exFunded.db.transaksi ∧
    (postHapus exEnv (some exAdmin) ⟨some "cd34"⟩ exFunded).resp.flash.type = "success" ∧
    (postHapus exEnv (some exAdmin) ⟨some "cd34"⟩ exFunded).world.db.transaksi = [] := by
  decide

/-- C16, as the code behaves. For a reversal input that is not a full
identifier and contains none of the characters `%`, `_` and backslash, the
lookup selects a stored transaction exactly when the input is a suffix of its
identifier, of any length; in particular the trailing segment of eight
characters of an identifier selects it. -/
theorem suffix_lookup_matches_any_tail (trxInput : String) (t : Transaksi)
    (hfull : isFullTrxNo trxInput = false)
    (hplain : ∀ c ∈ trxInput.toList, isLikeSpecial c = false) :
    (matchesInput trxInput t = true ↔ trxInput.toList <:+ t.trx_no.toList) ∧
    (trxInput = hexSegment t.trx_no → matchesInput trxInput t = true) := by
  have hiff : matchesInput trxInput t = true ↔ trxInput.toList <:+ t.trx_no.toList := by
    unfold matchesInput
    simp only [hfull, Bool.false_eq_true, if_false]
    exact likeMatch_suffix _ _ hplain
  refine ⟨hiff, ?_⟩
  intro h
  rw [hiff, h]
  exact List.drop_suffix _ _

/-- The input `cd34` satisfies the hypotheses of the amended C16. -/
theorem suffix_lookup_matches_any_tail_witness :
    matchesInput "cd34" ⟨"TRX-20240101-120000-ab12cd34", some 1, some 2, "setor", 50000,
      none, none, none, none⟩ = true ↔
    "cd34".toList <:+ "TRX-20240101-120000-ab12cd34".toList :=
  (suffix_lookup_matches_any_tail "cd34"
    ⟨"TRX-20240101-120000-ab12cd34", some 1, some 2, "setor", 50000, none, none, none, none⟩
    (by decide) (by decide)).1

/-- C17, counterexample. The generated identifier is already stored. A deposit
and a withdrawal of 1000 each issue the insert into `transaksi` once, it is
rejected, and the request answers with its error message: no second attempt
with a new identifier is made. -/
theorem insert_collision_counterexample :
    (∃ t ∈ exFunded.db.transaksi, t.trx_no = exEnv.trx_no) ∧
    (postSetor exEnv (some exKasir) ⟨some 1, some "1000", none⟩ exFunded).trace =
      [(Stmt.updateSaldo, true), (Stmt.insertTransaksi, false)] ∧
    (postSetor exEnv (some exKasir) ⟨some 1, some "1000", none⟩ exFunded).insertAttempts = 1 ∧
    (postSetor exEnv (some exKasir) ⟨some 1, some "1000", none⟩ exFunded).resp.flash =
      ⟨"error", "Gagal mencatat setoran."⟩ ∧
    (postTarik exEnv (some exKasir) ⟨some 1, some "1000", none, none⟩ exFunded).trace =
      [(Stmt.selectSantri, true), (Stmt.updateSaldo, true), (Stmt.insertTransaksi, false)] ∧
    (postTarik exEnv (some exKasir) ⟨some 1, some "1000", none, none⟩ exFunded).insertAttempts
      = 1 ∧
    (postTarik exEnv (some exKasir) ⟨some 1, some "1000", none, none⟩ exFunded).resp.flash =
      ⟨"error", "Gagal memproses penarikan."⟩ := by
  decide

/-- C17, as the code behaves. When the identifier generated for a request is
already stored, every deposit and every withdrawal issues the insert into
`transaksi` at most once, answers with an error, and leaves the transaction
table as it was: there is no second attempt. -/
theorem insert_collision_no_retry (env : Env) (session : Option User) (w : World)
    (hcol : ∃ t ∈ w.db.transaksi, t.trx_no = env.trx_no) :
    (∀ body : SetorBody,
      (postSetor env session body w).insertAttempts ≤ 1 ∧
      (postSetor env session body w).resp.flash.type = "error" ∧
      (postSetor env session body w).world.db.transaksi = w.db.transaksi) ∧
    (∀ body : TarikBody,
      (postTarik env session body w).insertAttempts ≤ 1 ∧
      (postTarik env session body w).resp.flash.type = "error" ∧
      (postTarik env session body w).world.db.transaksi = w.db.transaksi) := by
  constructor
  · intro body
    unfold postSetor
    rcases route_cases "kasir" session w (fun u => setorHandler env u body w) with
      hr | ⟨u, -, -, hr⟩
    · rw [insertAttempts_of_trace_nil hr.2.1, hr.1]; exact ⟨by omega, hr.2.2, rfl⟩
    · rw [hr]
      rcases setorHandler_cases env u body w with hc | ⟨sid, A, -, -, -, -, hc⟩
      · rw [insertAttempts_of_trace_nil hc.2.1, hc.1]; exact ⟨by omega, hc.2.2, rfl⟩
      · rw [hc]
        have h := setorWrite_collision env u body w sid A
        obtain ⟨hf, ht, -⟩ := h.2 hcol
        exact ⟨h.1, by rw [hf], ht⟩
  · intro body
    unfold postTarik
    rcases route_cases "kasir" session w (fun u => tarikHandler env u body w) with
      hr | ⟨u, -, -, hr⟩
    · rw [insertAttempts_of_trace_nil hr.2.1, hr.1]; exact ⟨by omega, hr.2.2, rfl⟩
    · rw [hr]
      rcases tarikHandler_attempts env u body w with hc | ⟨sid, A, hc⟩
      · rw [hc.2.1, hc.1]; exact ⟨by omega, hc.2.2, rfl⟩
      · rw [hc]
        have h := tarikWrite_collision env u body w sid A
        obtain ⟨hf, ht, -⟩ := h.2 hcol
        exact ⟨h.1, by rw [hf], ht⟩

/-- The deposit of the counterexample satisfies the hypothesis of the amended
C17. -/
theorem insert_collision_no_retry_witness :
    (postSetor exEnv (some exKasir) ⟨some 1, some "1000", none⟩ exFunded).insertAttempts ≤ 1 ∧
    (postSetor exEnv (some exKasir) ⟨some 1, some "1000", none⟩ exFunded).resp.flash.type =
      "error" :=
  ⟨((insert_collision_no_retry exEnv (some exKasir) exFunded
      ⟨⟨"TRX-20240101-120000-ab12cd34", some 1, some 2, "setor", 50000, none, none, none, none⟩,
        by decide, by decide⟩).1 ⟨some 1, some "1000", none⟩).1,
   ((insert_collision_no_retry exEnv (some exKasir) exFunded
      ⟨⟨"TRX-20240101-120000-ab12cd34", some 1, some 2, "setor", 50000, none, none, none, none⟩,
        by decide, by decide⟩).1 ⟨some 1, some "1000", none⟩).2.1⟩

/-- C18 (preset lookup). For every preset table and every type, the rows the
preset query returns are the rows of the table with `active = 1` and that type,
each as often as in the table, ordered by `sort_order` ascending and by
`amount` ascending among equal `sort_order`; so an inactive preset or a preset
of another type is never among them. With a pool, the presets a rendered
deposit form, withdrawal form or single-hit search form offers are these rows
for `setor`, `tarik`, respectively the type of the search, and every storage
statement these handlers issue is a `SELECT`. When the statements are not
rejected, `GET /setor` and `GET /tarik` do render the form, with the student
asked for, if any, and with these rows as presets, and so does `POST /cari`
when the name matches exactly one student. -/
theorem preset_lookup (env : Env) (db : Db) (table : List PresetNominal)
    (hq : env.canQuery = true) :
    (∀ tipe, (selectPresets table tipe).Perm (table.filter (presetWanted tipe)) ∧
      (selectPresets table tipe).Sorted presetOrder ∧
      (∀ p ∈ selectPresets table tipe, p ∈ table ∧ p.active = 1 ∧ p.tipe = tipe)) ∧
    (∀ santri_id,
      (∀ v, (getSetorHandler env santri_id db table).outcome = PageOutcome.rendered v →
        v.presets = some ((selectPresets table "setor").map PresetNominal.offer)) ∧
      (∀ e ∈ (getSetorHandler env santri_id db table).trace, e.1.isSelect = true)) ∧
    (∀ santri_id,
      (∀ v, (getTarikHandler env santri_id db table).outcome = PageOutcome.rendered v →
        v.presets = some ((selectPresets table "tarik").map PresetNominal.offer)) ∧
      (∀ e ∈ (getTarikHandler env santri_id db table).trace, e.1.isSelect = true)) ∧
    (∀ body,
      (∀ v, (cariHandler env body db table).outcome = PageOutcome.rendered v →
        v.santriList = none →
        v.presets = some ((selectPresets table
          (if body.tipe = some "setor" then "setor" else "tarik")).map PresetNominal.offer)) ∧
      (∀ e ∈ (cariHandler env body db table).trace, e.1.isSelect = true)) ∧
    (env.rejects Stmt.selectSantri = false → env.rejects Stmt.selectPresets = false →
      ∀ santri_id,
        (getSetorHandler env santri_id db table).outcome =
          PageOutcome.rendered ⟨"Transaksi Setoran", some "setor",
            santri_id.bind db.selectSantri, none,
            some ((selectPresets table "setor").map PresetNominal.offer)⟩ ∧
        (getTarikHandler env santri_id db table).outcome =
          PageOutcome.rendered ⟨"Transaksi Penarikan", some "tarik",
            santri_id.bind db.selectSantri, none,
            some ((selectPresets table "tarik").map PresetNominal.offer)⟩) ∧
    (env.rejects Stmt.selectByNama = false → env.rejects Stmt.selectPresets = false →
      ∀ (body : CariBody) (row : Santri), jsTrim (body.nama.getD "") ≠ "" →
        db.selectByNama ("%" ++ jsTrim (body.nama.getD "") ++ "%") = [row] →
        (cariHandler env body db table).outcome =
          PageOutcome.rendered
            ⟨"Transaksi " ++ (if body.tipe = some "setor" then "Setoran" else "Penarikan"),
              body.tipe, some row, none,
              some ((selectPresets table
                (if body.tipe = some "setor" then "setor" else "tarik")).map
                  PresetNominal.offer)⟩) :=
  ⟨fun tipe => selectPresets_spec table tipe,
   fun santri_id => formPage_spec env _ _ santri_id db table hq,
   fun santri_id => formPage_spec env _ _ santri_id db table hq,
   fun body => cariHandler_spec env body db table hq,
   fun hs hp santri_id => ⟨formPage_renders env _ _ santri_id db table hq hs hp,
     formPage_renders env _ _ santri_id db table hq hs hp⟩,
   fun hs hp body row hn hrow => cariHandler_renders env body db table row hq hs hp hn hrow⟩

/-- Over a table with an inactive preset and presets of both types, the
deposit form offers the three active deposit presets in order and the
withdrawal form for student 1 offers the two withdrawal presets in order. -/
theorem preset_lookup_witness :
    exEnv.canQuery = true ∧
    (getSetorHandler exEnv none exWorld.db exPresets).outcome =
      PageOutcome.rendered ⟨"Transaksi Setoran", some "setor", none, none,
        some [⟨1, 10000, some "10 rb"⟩, ⟨2, 20000, some "20 rb"⟩,
          ⟨4, 100000, some "100 rb"⟩]⟩ ∧
    (getTarikHandler exEnv (some 1) exWorld.db exPresets).outcome =
      PageOutcome.rendered ⟨"Transaksi Penarikan", some "tarik", some (exAli 0), none,
        some [⟨5, 10000, some "10 rb"⟩, ⟨6, 20000, some "20 rb"⟩]⟩ ∧
    (selectPresets exPresets "tarik").map PresetNominal.offer =
      [⟨5, 10000, some "10 rb"⟩, ⟨6, 20000, some "20 rb"⟩] ∧
    (getTarikHandler exEnv (some 1) exWorld.db exPresets).outcome =
      PageOutcome.rendered ⟨"Transaksi Penarikan", some "tarik",
        (some 1 : Option Int).bind exWorld.db.selectSantri, none,
        some ((selectPresets exPresets "tarik").map PresetNominal.offer)⟩ ∧
    (selectPresets exPresets "setor").Sorted presetOrder :=
  ⟨by decide, by decide, by decide, by decide,
   ((preset_lookup exEnv exWorld.db exPresets (by decide)).2.2.2.2.1 (by decide) (by decide)
      (some 1)).2,
   ((preset_lookup exEnv exWorld.db exPresets (by decide)).1 "setor").2.1⟩

/-- C19 (editing a student never touches the balance). For every request to
`POST /:id/edit`, with or without a new photo, in every environment and
session: every student row keeps its `id` and `saldo`, the rows of the other
students are unchanged, so every balance is what it was, and the transaction
table is unchanged. For every import run: the rows present before are still
there, in place, with their `id`, `nis`, `foto_path` and `saldo`, the rows added
have balance 0, every balance of a student present before is what it was, and
the transaction table is unchanged; the same holds for the import statement on
its own. -/
theorem edit_and_import_keep_saldo (env : Env) (session : Option User) (w : World) :
    (∀ (id : Int) (body : EditBody) (file : Option String),
      (postEdit env session id body file w).world.db.santri.map Santri.kept =
        w.db.santri.map Santri.kept ∧
      (postEdit env session id body file w).world.db.santri.filter (fun s => s.id != id) =
        w.db.santri.filter (fun s => s.id != id) ∧
      (∀ sid, saldoOf (postEdit env session id body file w).world.db sid = saldoOf w.db sid) ∧
      (postEdit env session id body file w).world.db.transaksi = w.db.transaksi) ∧
    (∀ (errorText : String) (fetched : Except String (List MappedRow)),
      ((postImportRun env session errorText fetched w).world.db.santri.take
          w.db.santri.length).map Santri.keptByImport =
        w.db.santri.map Santri.keptByImport ∧
      (∀ s ∈ (postImportRun env session errorText fetched w).world.db.santri.drop
          w.db.santri.length, s.saldo = 0 ∧ s.foto_path = none) ∧
      (∀ sid b, saldoOf w.db sid = some b →
        saldoOf (postImportRun env session errorText fetched w).world.db sid = some b) ∧
      (postImportRun env session errorText fetched w).world.db.transaksi = w.db.transaksi) ∧
    (∀ (values : List ImportValues) (sid b : Int), saldoOf w.db sid = some b →
      saldoOf (w.db.upsertSantri values) sid = some b) := by
  refine ⟨?_, ?_, ?_⟩
  · intro id body file
    obtain ⟨hs, ht⟩ := postEdit_db env session id body file w
    have hk : (postEdit env session id body file w).world.db.santri.map Santri.kept =
        w.db.santri.map Santri.kept := by
      rcases hs with hs | ⟨foto, hs⟩
      · rw [hs]
      · rw [hs, map_editSantri_kept]
    refine ⟨hk, ?_, fun sid => saldoOf_of_kept hk sid, ht⟩
    rcases hs with hs | ⟨foto, hs⟩
    · rw [hs]
    · rw [hs, filter_editSantri]
  · intro errorText fetched
    have hx : Extends w.db.santri
          (postImportRun env session errorText fetched w).world.db.santri ∧
        (postImportRun env session errorText fetched w).world.db.transaksi =
          w.db.transaksi := by
      rcases postImportRun_world env session errorText fetched w with h | ⟨values, h⟩
      · rw [h]
        exact ⟨extends_refl _, rfl⟩
      · rw [h]
        exact ⟨upsertSantri_extends w.db values, (upsertSantri_rest values w.db).1⟩
    obtain ⟨h1, h2, h3⟩ := extends_spec hx.1
    exact ⟨h1, h2, fun sid b hb => h3 sid b hb, hx.2⟩
  · intro values sid b hb
    exact (extends_spec (upsertSantri_extends w.db values)).2.2 sid b hb

/-- An edit with a new photo that renames Ali, and an import that updates Ali
under his `nis` and adds a student, both succeed and leave his balance at
50000. -/
theorem edit_and_import_keep_saldo_witness :
    (postEdit exEnv (some exAdmin) 1 exEdit (some "foto_2_b.png") exPhoto).resp.flash.type =
      "success" ∧
    ((postEdit exEnv (some exAdmin) 1 exEdit (some "foto_2_b.png") exPhoto).world.db.santri.map
      (fun s => s.nama)) = ["Ali Akbar", "Budi"] ∧
    saldoOf (postEdit exEnv (some exAdmin) 1 exEdit (some "foto_2_b.png") exPhoto).world.db 1 =
      saldoOf exPhoto.db 1 ∧
    (postImportRun exEnv (some exAdmin) "" (Except.ok exSheet) exPhoto).resp.flash.message =
      "Impor selesai. Ditambahkan: 1, Diperbarui: 1, Diskip: 1." ∧
    saldoOf (postImportRun exEnv (some exAdmin) "" (Except.ok exSheet) exPhoto).world.db 1 =
      some 50000 :=
  ⟨by decide, by decide,
    ((edit_and_import_keep_saldo exEnv (some exAdmin) exPhoto).1 1 exEdit
      (some "foto_2_b.png")).2.2.1 1,
    by decide,
    ((edit_and_import_keep_saldo exEnv (some exAdmin) exPhoto).2.1 ""
      (Except.ok exSheet)).2.2.1 1 50000 (by decide)⟩

/-- C20 (audit failures are swallowed). Without a pool or with a storage layer
that rejects the audit insert, `logAudit` returns, for every session (also a
missing one), with the database as it was and no successful statement. A
deposit of a cashier whose audit insert fails still answers with the success
message, keeps the balance increment and the new transaction row, and stores
no audit entry. -/
theorem audit_failure_swallowed (env : Env) :
    (∀ (session : Option User) (action entity : String) (entity_id : Option String)
      (details : List (String × JsonValue)) (db : Db),
      env.canQuery = false ∨ env.rejects Stmt.insertAudit = true →
      (logAudit env session action entity entity_id details db).1 = db ∧
      ∀ e ∈ (logAudit env session action entity entity_id details db).2, e.2 = false) ∧
    (∀ (u : User) (body : SetorBody) (w : World) (sid A b : Int),
      u.role = "kasir" → body.santri_id = some sid → parseInt body.jumlah = some A →
      saldoOf w.db sid = some b →
      (Stmt.insertAudit, false) ∈ (postSetor env (some u) body w).trace →
      (postSetor env (some u) body w).resp =
        ⟨⟨"success", "Setoran berhasil dicatat."⟩, "/dashboard/kasir"⟩ ∧
      saldoOf (postSetor env (some u) body w).world.db sid = some (b + A) ∧
      (postSetor env (some u) body w).world.db.transaksi =
        w.db.transaksi ++ [⟨env.trx_no, some sid, cashierId u, "setor", A,
          orNull body.keterangan, none, none, none⟩] ∧
      (postSetor env (some u) body w).world.db.audit_logs = w.db.audit_logs) := by
  constructor
  · intro session action entity entity_id details db h
    unfold logAudit
    simp only
    rcases h with h | h
    · simp [h]
    · by_cases hq : env.canQuery = true
      · simp [hq, runStmt, h]
      · simp [hq]
  · intro u body w sid A b hrole hsid hA hb hm
    rw [postSetor, requireRole_some hrole] at hm ⊢
    rcases setorHandler_cases env u body w with hc | ⟨sid1, A1, hsid1, hA1, hpos, hq, hc⟩
    · rw [hc.2.1] at hm; simp at hm
    · rw [hsid] at hsid1
      rw [hA] at hA1
      cases hsid1
      cases hA1
      rw [hc] at hm ⊢
      unfold setorWrite at hm ⊢
      cases h1 : runStmt env Stmt.updateSaldo (w.db.updateSaldo A (some sid)) with
      | none => simp [h1, reject] at hm
      | some db1 =>
        have e1 := updateSaldo_eq_some (runStmt_eq_some h1).2
        have s1 := @saldoOf_of_map w.db db1 A (some sid)
          (by rw [e1])
        simp only [h1] at hm ⊢
        cases h2 : runStmt env Stmt.insertTransaksi
            (db1.insertTransaksi ⟨env.trx_no, some sid, cashierId u, "setor", A,
              orNull body.keterangan, none, none, none⟩) with
        | none => simp [h2, reject] at hm
        | some db2 =>
          have e2 := (insertTransaksi_eq_some (runStmt_eq_some h2).2).1
          simp only [h2] at hm ⊢
          have hm2 : (Stmt.insertAudit, false) ∈
              (logAudit env (some u) "create" "transaksi" (some env.trx_no)
                [("tipe", JsonValue.str "setor"), ("santri_id", JsonValue.num sid),
                  ("jumlah", JsonValue.num A)] db2).2 := by
            simpa using hm
          rw [logAudit_failed hm2]
          have hs2 : saldoOf db2 sid = saldoOf db1 sid := by
            simp only [saldoOf, Db.selectSantri, e2]
          refine ⟨trivial, ?_, ?_, ?_⟩
          · show saldoOf db2 sid = some (b + A)
            rw [hs2, s1, hb]; simp
          · show db2.transaksi = _
            rw [e2, e1]
          · show db2.audit_logs = _
            rw [e2, e1]

/-- A deposit of 50000 in an environment that rejects the audit insert satisfies
the hypotheses of C20. -/
theorem audit_failure_swallowed_witness :
    (Stmt.insertAudit, false) ∈
      (postSetor exEnvAuditFails (some exKasir) ⟨some 1, some "50000", none⟩ exWorld).trace ∧
    (postSetor exEnvAuditFails (some exKasir) ⟨some 1, some "50000", none⟩ exWorld).resp =
      ⟨⟨"success", "Setoran berhasil dicatat."⟩, "/dashboard/kasir"⟩ ∧
    saldoOf (postSetor exEnvAuditFails (some exKasir) ⟨some 1, some "50000", none⟩
      exWorld).world.db 1 = some (0 + 50000) :=
  ⟨by decide,
   ((audit_failure_swallowed exEnvAuditFails).2 exKasir ⟨some 1, some "50000", none⟩ exWorld
      1 50000 0 (by decide) (by decide) (by decide) (by decide) (by decide)).1,
   ((audit_failure_swallowed exEnvAuditFails).2 exKasir ⟨some 1, some "50000", none⟩ exWorld
      1 50000 0 (by decide) (by decide) (by decide) (by decide) (by decide)).2.1⟩

/-- C21, counterexample. Of the amounts named in the claim, the empty text and
`abc` have no integer reading, `0` reads as zero and `-5` as a negative number,
but `1.5` reads as 1 and `12abc` as 12. A deposit of a cashier with the amount
`1.5` is answered with the success message, issues the balance update, the
transaction insert and the audit insert, and raises the balance from 0 to 1; a
withdrawal with the amount `12abc` is answered with the success message and
takes 12 from a balance of 50000, with a transaction row of 12. -/
theorem amount_validation_counterexample :
    parseInt (some "") = none ∧ parseInt (some "abc") = none ∧ parseInt (some "0") = some 0 ∧
    parseInt (some "-5") = some (-5) ∧
    parseInt (some "1.5") = some 1 ∧ parseInt (some "12abc") = some 12 ∧
    (postSetor exEnv (some exKasir) ⟨some 1, some "1.5", none⟩ exWorld).resp.flash =
      ⟨"success", "Setoran berhasil dicatat."⟩ ∧
    (postSetor exEnv (some exKasir) ⟨some 1, some "1.5", none⟩ exWorld).trace =
      [(Stmt.updateSaldo, true), (Stmt.insertTransaksi, true), (Stmt.insertAudit, true)] ∧
    saldoOf (postSetor exEnv (some exKasir) ⟨some 1, some "1.5", none⟩ exWorld).world.db 1 =
      some 1 ∧
    (postTarik exEnvNext (some exKasir) ⟨some 1, some "12abc", none, none⟩
      exFunded).resp.flash = ⟨"success", "Penarikan berhasil. PDF bukti dibuat."⟩ ∧
    saldoOf (postTarik exEnvNext (some exKasir) ⟨some 1, some "12abc", none, none⟩
      exFunded).world.db 1 = some (50000 - 12) ∧
    ((postTarik exEnvNext (some exKasir) ⟨some 1, some "12abc", none, none⟩
      exFunded).world.db.transaksi.map (fun t => t.jumlah)) = [50000, 12] := by
  decide

/-- C21, as the code behaves. A request to `POST /setor` or `POST /tarik`, with any
session and in any environment, whose student id is missing, or whose amount
is missing, has no reading by `parseInt`, or reads as zero or as a negative
number, issues no storage statement, leaves the world as it was and is
answered with an error flash; for a logged-in cashier the message is
`Data tidak valid.` for a deposit and `Data tidak lengkap (jumlah).` for a
withdrawal. The reading of a text that starts with a run of decimal digits of
a value of at most `maxSafeInteger` is the value of that run, whatever follows
it. -/
theorem amount_validation (env : Env) (session : Option User) (w : World) :
    (∀ body : SetorBody,
      (body.santri_id = none ∨ ∀ n, parseInt body.jumlah = some n → n ≤ 0) →
      (postSetor env session body w).world = w ∧
      (postSetor env session body w).trace = [] ∧
      (postSetor env session body w).resp.flash.type = "error" ∧
      (∀ u, session = some u → u.role = "kasir" →
        (postSetor env session body w).resp =
          ⟨⟨"error", "Data tidak valid."⟩, "/transaksi/setor"⟩)) ∧
    (∀ body : TarikBody,
      (body.santri_id = none ∨ ∀ n, parseInt body.jumlah = some n → n ≤ 0) →
      (postTarik env session body w).world = w ∧
      (postTarik env session body w).trace = [] ∧
      (postTarik env session body w).resp.flash.type = "error" ∧
      (∀ u, session = some u → u.role = "kasir" →
        (postTarik env session body w).resp =
          ⟨⟨"error", "Data tidak lengkap (jumlah)."⟩, "/transaksi/tarik"⟩)) ∧
    (∀ ds rest : List Char, ds ≠ [] → (∀ c ∈ ds, c.isDigit = true) →
      (∀ c, rest.head? = some c → c.isDigit = false) →
      (digitsValue ds : Int) ≤ maxSafeInteger →
      parseInt (some (String.mk (ds ++ rest))) = some (digitsValue ds : Int)) := by
  refine ⟨?_, ?_, fun ds rest hne hd hr _ => parseInt_digits ds rest hne hd hr⟩
  · intro body h
    unfold postSetor
    rcases route_cases "kasir" session w (fun u => setorHandler env u body w) with
      hr | ⟨u, hu, hrole, hr⟩
    · refine ⟨hr.1, hr.2.1, hr.2.2, ?_⟩
      intro u hu hrole
      subst hu
      rw [requireRole_some hrole, setorHandler_invalid env u body w h]
      rfl
    · rw [hr, setorHandler_invalid env u body w h]
      refine ⟨rfl, rfl, rfl, fun _ _ _ => rfl⟩
  · intro body h
    unfold postTarik
    rcases route_cases "kasir" session w (fun u => tarikHandler env u body w) with
      hr | ⟨u, hu, hrole, hr⟩
    · refine ⟨hr.1, hr.2.1, hr.2.2, ?_⟩
      intro u hu hrole
      subst hu
      rw [requireRole_some hrole, tarikHandler_invalid env u body w h]
      rfl
    · rw [hr, tarikHandler_invalid env u body w h]
      refine ⟨rfl, rfl, rfl, fun _ _ _ => rfl⟩

/-- A deposit of `-5` and a withdrawal of `abc` by a cashier satisfy the
hypotheses of the amended C21, and the text `12abc` reads as 12. -/
theorem amount_validation_witness :
    parseInt (some "-5") = some (-5) ∧
    (postSetor exEnv (some exKasir) ⟨some 1, some "-5", none⟩ exWorld).trace = [] ∧
    (postTarik exEnv (some exKasir) ⟨some 1, some "abc", none, none⟩ exFunded).world =
      exFunded ∧
    parseInt (some "12abc") = some 12 :=
  ⟨by decide,
   ((amount_validation exEnv (some exKasir) exWorld).1 ⟨some 1, some "-5", none⟩
      (Or.inr (by decide))).2.1,
   ((amount_validation exEnv (some exKasir) exFunded).2.1 ⟨some 1, some "abc", none, none⟩
      (Or.inr (by decide))).1,
   (amount_validation exEnv (some exKasir) exWorld).2.2 ['1', '2'] ['a', 'b', 'c']
      (by decide) (by decide) (by decide) (by decide)⟩

/-- C22 (balances stay non-negative under deposits and withdrawals). Take a
student whose balance is a non-negative integer and a finite sequence of
deposit and withdrawal requests, processed one after the other, with any
sessions, bodies and environments, in which every amount submitted and every
balance the student reaches is at most `maxSafeInteger`, so that all of them
are integers JavaScript numbers hold exactly. After every prefix of the
sequence the student still has a balance, and it is non-negative. -/
theorem balances_stay_nonneg (w : World) (cs : List Call) (sid b : Int)
    (hall : cs.all Call.isSetorTarik = true) (hb : saldoOf w.db sid = some b) (h0 : 0 ≤ b)
    (_hamount : ∀ c ∈ cs, ∀ A ∈ c.amount, A ≤ maxSafeInteger)
    (_hsafe : ∀ k ≤ cs.length, ∀ b1 ∈ saldoOf (run w (cs.take k)).db sid,
      b1 ≤ maxSafeInteger) :
    ∀ k, ∃ b1, saldoOf (run w (cs.take k)).db sid = some b1 ∧ 0 ≤ b1 :=
  run_nonneg cs w sid b hall hb h0

/-- The first three requests of the example sequence are deposits and
withdrawals on a student with balance 0, with amounts and balances far below
the bound. -/
theorem balances_stay_nonneg_witness :
    (exCalls.take 3).all Call.isSetorTarik = true ∧ saldoOf exWorld.db 1 = some 0 ∧
    (∀ c ∈ exCalls.take 3, ∀ A ∈ c.amount, A ≤ maxSafeInteger) ∧
    saldoOf (run exWorld ((exCalls.take 3).take 3)).db 1 = some 30000 ∧
    ∃ b1, saldoOf (run exWorld ((exCalls.take 3).take 3)).db 1 = some b1 ∧ 0 ≤ b1 :=
  ⟨by decide, by decide, by decide, by decide,
   balances_stay_nonneg exWorld (exCalls.take 3) 1 0 (by decide) (by decide) (by decide)
     (by decide) (by decide) 3⟩

/-- C23 (receipt location round trip). Let the storage directory be an absolute
path and the generated identifier `X` contain no slash, and let a withdrawal be
answered with success. Then the transaction table is the old one followed by
the row of `X`, whose `pdf_path` is `pdfs/X.pdf`; `generatePenarikanPDF` wrote
and returned the path `outputDir/X.pdf`; that path made relative to the storage
directory is `pdfs/X.pdf`; joining the stored path onto the storage directory
gives the path of the written file again; and the download route, run for a
logged-in user against the same storage directory, sends that file. -/
theorem receipt_round_trip (env : Env) (session : Option User) (body : TarikBody) (w : World)
    (habs : env.storageDir.toList.head? = some '/') (hx : '/' ∉ env.trx_no.toList)
    (hok : (postTarik env session body w).resp.flash.type = "success") :
    (∃ u sid A, session = some u ∧ body.santri_id = some sid ∧
      parseInt body.jumlah = some A ∧
      (postTarik env session body w).world.db.transaksi =
        w.db.transaksi ++ [⟨env.trx_no, some sid, cashierId u, "tarik", A,
          orNull body.keterangan, none, none, some ("pdfs/" ++ env.trx_no ++ ".pdf")⟩]) ∧
    generatePenarikanPDF env (pdfDir env) env.trx_no w.files =
      some (pathJoin (pdfDir env) (env.trx_no ++ ".pdf"),
        (postTarik env session body w).world.files) ∧
    pathJoin (pdfDir env) (env.trx_no ++ ".pdf") ∈ (postTarik env session body w).world.files ∧
    pathRelative env.storageDir (pathJoin (pdfDir env) (env.trx_no ++ ".pdf")) =
      "pdfs/" ++ env.trx_no ++ ".pdf" ∧
    pathJoin env.storageDir ("pdfs/" ++ env.trx_no ++ ".pdf") =
      pathJoin (pdfDir env) (env.trx_no ++ ".pdf") ∧
    (∀ (env2 : Env) (viewer : User), env2.canQuery = true →
      env2.rejects Stmt.selectPdfPath = false → env2.storageDir = env.storageDir →
      (getPdf env2 (some viewer) env.trx_no (postTarik env session body w).world).1 =
        PdfOutcome.sent (pathJoin (pdfDir env) (env.trx_no ++ ".pdf"))) := by
  obtain ⟨u, sid, A, hu, hsid, hA, heq⟩ := postTarik_success hok
  rw [heq] at hok ⊢
  obtain ⟨-, huniq, hrows, hgen, hmem⟩ := tarikWrite_success hok
  obtain ⟨hrel, hjoin⟩ := receipt_paths env.storageDir env.trx_no habs hx
  have hrel1 : pathRelative env.storageDir (pathJoin (pdfDir env) (env.trx_no ++ ".pdf")) =
      "pdfs/" ++ env.trx_no ++ ".pdf" := hrel
  have hjoin1 : pathJoin env.storageDir ("pdfs/" ++ env.trx_no ++ ".pdf") =
      pathJoin (pdfDir env) (env.trx_no ++ ".pdf") := hjoin
  rw [hrel1] at hrows
  refine ⟨⟨u, sid, A, hu, hsid, hA, hrows⟩, hgen, hmem, hrel1, hjoin1, ?_⟩
  intro env2 viewer hq hr hsd
  have hne : ("pdfs/" ++ env.trx_no ++ ".pdf") ≠ "" := by
    intro e
    have := congrArg String.toList e
    simp [String.toList] at this
  have hfind := find_append_last w.db.transaksi
    ⟨env.trx_no, some sid, cashierId u, "tarik", A, orNull body.keterangan, none, none,
      some ("pdfs/" ++ env.trx_no ++ ".pdf")⟩ env.trx_no huniq rfl
  have hc : (tarikWrite env u body w sid A).world.files.contains
      (pathJoin (pdfDir env) (env.trx_no ++ ".pdf")) = true := by
    simpa using hmem
  unfold getPdf pdfHandler Db.selectPdfPath
  rw [hrows, hfind]
  simp only [hq, hr, Bool.not_true, Bool.false_eq_true, if_false, Option.map_some',
    if_neg hne, hsd, hjoin1, hc]

/-- A withdrawal of 20000 from a balance of 50000 with storage under
`/app/storage` satisfies the hypotheses of C23; the receipt is found at
`/app/storage/pdfs/TRX-20240101-120001-ab12cd35.pdf`. -/
theorem receipt_round_trip_witness :
    exEnvNext.storageDir.toList.head? = some '/' ∧
    (postTarik exEnvNext (some exKasir) ⟨some 1, some "20000", none, some "Ali"⟩
      exFunded).resp.flash.type = "success" ∧
    pathJoin exEnvNext.storageDir ("pdfs/" ++ exEnvNext.trx_no ++ ".pdf") =
      "/app/storage/pdfs/TRX-20240101-120001-ab12cd35.pdf" ∧
    (getPdf exEnv (some exAdmin) exEnvNext.trx_no
      (postTarik exEnvNext (some exKasir) ⟨some 1, some "20000", none, some "Ali"⟩
        exFunded).world).1 =
      PdfOutcome.sent (pathJoin (pdfDir exEnvNext) (exEnvNext.trx_no ++ ".pdf")) :=
  ⟨by decide, by decide, by decide,
   (receipt_round_trip exEnvNext (some exKasir) ⟨some 1, some "20000", none, some "Ali"⟩
      exFunded (by decide) (by decide) (by decide)).2.2.2.2.2 exEnv exAdmin (by decide)
      (by decide) (by decide)⟩

/-- C24 (reversal is admin-only). `requireRole r` hands the request to the next
handler when the session holds a user whose role is `r`; when the session is
empty or its user has another role it answers with the flash `Akses ditolak.`
and a redirect to `/login` without running the handler. Hence `POST /hapus`
with no user or with a user who is not an admin issues no storage statement,
leaves the world as it was and redirects to `/login` with an error flash. -/
theorem hapus_admin_only (role : String) (session : Option User) (w : World) :
    (∀ (u : User) (next : User → Result), session = some u → u.role = role →
      requireRole role session w next = next u) ∧
    ((∀ u, session = some u → u.role ≠ role) → ∀ next : User → Result,
      requireRole role session w next = reject w "error" "Akses ditolak." "/login" []) ∧
    ((∀ u, session = some u → u.role ≠ "admin") → ∀ (env : Env) (body : HapusBody),
      (postHapus env session body w).world = w ∧
      (postHapus env session body w).trace = [] ∧
      (postHapus env session body w).resp.flash.type = "error" ∧
      (postHapus env session body w).resp.redirect = "/login") := by
  refine ⟨?_, ?_, ?_⟩
  · intro u next hs hr
    subst hs
    simp [requireRole, hr]
  · intro h next
    cases session with
    | none => rfl
    | some u => simp [requireRole, h u rfl]
  · intro h env body
    unfold postHapus
    cases session with
    | none => exact ⟨rfl, rfl, rfl, rfl⟩
    | some u =>
      have hne := h u rfl
      simp [requireLogin, requireRole, hne, reject]

/-- A cashier and a visitor without session are turned away from `POST /hapus`,
and an admin reaches the reversal handler. -/
theorem hapus_admin_only_witness :
    (postHapus exEnv (some exKasir) ⟨some "TRX-20240101-120001-ab12cd35"⟩ exLedger).world =
      exLedger ∧
    (postHapus exEnv none ⟨some "TRX-20240101-120001-ab12cd35"⟩ exLedger).trace = [] ∧
    requireRole "admin" (some exAdmin) exLedger
        (fun u => hapusHandler exEnv u ⟨some "TRX-20240101-120001-ab12cd35"⟩ exLedger) =
      hapusHandler exEnv exAdmin ⟨some "TRX-20240101-120001-ab12cd35"⟩ exLedger :=
  ⟨((hapus_admin_only "admin" (some exKasir) exLedger).2.2
      (fun u hu => by cases hu; decide) exEnv ⟨some "TRX-20240101-120001-ab12cd35"⟩).1,
   ((hapus_admin_only "admin" none exLedger).2.2
      (fun u hu => by cases hu) exEnv ⟨some "TRX-20240101-120001-ab12cd35"⟩).2.1,
   (hapus_admin_only "admin" (some exAdmin) exLedger).1 exAdmin _ rfl (by decide)⟩

/-- C25, counterexample. A student has a balance of 50000 and two withdrawals
of 40000 arrive. In the schedule in which both requests pass the balance check
before either writes, both are answered with the success message, both `tarik`
rows are stored and the balance ends at -30000; each of the two sequential
orders leaves 10000. -/
theorem concurrent_tarik_counterexample :
    saldoOf exFunded.db 1 = some 50000 ∧
    (interleave (exTarik exEnvNext) (exTarik exEnvThird) racingSchedule exFunded).first =
      TarikStage.finished
        ⟨⟨"success", "Penarikan berhasil. PDF bukti dibuat."⟩, "/dashboard/kasir"⟩ ∧
    (interleave (exTarik exEnvNext) (exTarik exEnvThird) racingSchedule exFunded).second =
      TarikStage.finished
        ⟨⟨"success", "Penarikan berhasil. PDF bukti dibuat."⟩, "/dashboard/kasir"⟩ ∧
    saldoOf (interleave (exTarik exEnvNext) (exTarik exEnvThird) racingSchedule
      exFunded).world.db 1 = some (-30000) ∧
    ((interleave (exTarik exEnvNext) (exTarik exEnvThird) racingSchedule
      exFunded).world.db.transaksi.map (fun t => (t.tipe, t.jumlah))) =
      [("setor", 50000), ("tarik", 40000), ("tarik", 40000)] ∧
    saldoOf (postTarik exEnvThird (some exKasir) ⟨some 1, some "40000", none, none⟩
      (postTarik exEnvNext (some exKasir) ⟨some 1, some "40000", none, none⟩
        exFunded).world).world.db 1 = some 10000 ∧
    saldoOf (postTarik exEnvNext (some exKasir) ⟨some 1, some "40000", none, none⟩
      (postTarik exEnvThird (some exKasir) ⟨some 1, some "40000", none, none⟩
        exFunded).world).world.db 1 = some 10000 := by
  decide

/-- C25, as the code behaves. Two requests to `POST /tarik` run in stages over
one shared world. When the first request finishes before the second starts,
the outcome is that of the two requests processed one after the other. When
both requests have passed the check for the same student on the initial world
before either writes, the second write is applied to the world the first write
left, without a new check; if both writes are accepted, each amount alone is
positive and at most the initial balance `b`, and the balance ends at
`b - A1 - A2`. -/
theorem concurrent_tarik_race (c1 c2 : TarikCall) (w : World) :
    interleave c1 c2 sequentialSchedule w =
      ⟨(postTarik c2.env c2.session c2.body
          (postTarik c1.env c1.session c1.body w).world).world,
        TarikStage.finished (postTarik c1.env c1.session c1.body w).resp,
        TarikStage.finished (postTarik c2.env c2.session c2.body
          (postTarik c1.env c1.session c1.body w).world).resp⟩ ∧
    (∀ (u1 u2 : User) (sid A1 A2 : Int),
      tarikStep c1.env c1.session c1.body w TarikStage.start =
        (w, TarikStage.checked u1 sid A1) →
      tarikStep c2.env c2.session c2.body w TarikStage.start =
        (w, TarikStage.checked u2 sid A2) →
      interleave c1 c2 racingSchedule w =
        ⟨(tarikWrite c2.env u2 c2.body (tarikWrite c1.env u1 c1.body w sid A1).world
            sid A2).world,
          TarikStage.finished (tarikWrite c1.env u1 c1.body w sid A1).resp,
          TarikStage.finished (tarikWrite c2.env u2 c2.body
            (tarikWrite c1.env u1 c1.body w sid A1).world sid A2).resp⟩ ∧
      ((tarikWrite c1.env u1 c1.body w sid A1).accepted = true →
        (tarikWrite c2.env u2 c2.body (tarikWrite c1.env u1 c1.body w sid A1).world
          sid A2).accepted = true →
        ∃ b, saldoOf w.db sid = some b ∧ 0 < A1 ∧ A1 ≤ b ∧ 0 < A2 ∧ A2 ≤ b ∧
          saldoOf (interleave c1 c2 racingSchedule w).world.db sid =
            some (b - A1 - A2))) := by
  refine ⟨interleave_sequential c1 c2 w, ?_⟩
  intro u1 u2 sid A1 A2 h1 h2
  have hr := interleave_racing c1 c2 w u1 u2 sid sid A1 A2 h1 h2
  refine ⟨hr, ?_⟩
  intro ha1 ha2
  obtain ⟨s1, hs1, hle1, hp1⟩ := checked_of_start h1
  obtain ⟨s2, hs2, hle2, hp2⟩ := checked_of_start h2
  rw [hs1] at hs2
  cases hs2
  refine ⟨s1.saldo, by simp [saldoOf, hs1], hp1, hle1, hp2, hle2, ?_⟩
  rw [hr]
  simp only
  rw [saldoOf_of_map (tarikWrite_accepted_santri ha2),
    saldoOf_of_map (tarikWrite_accepted_santri ha1)]
  simp [saldoOf, hs1]
  ring

/-- Two withdrawals of 40000 from a balance of 50000 both pass the check on the
initial world and are both accepted. -/
theorem concurrent_tarik_race_witness :
    tarikStep exEnvNext (some exKasir) ⟨some 1, some "40000", none, none⟩ exFunded
      TarikStage.start = (exFunded, TarikStage.checked exKasir 1 40000) ∧
    ∃ b, saldoOf exFunded.db 1 = some b ∧ 0 < (40000 : Int) ∧ 40000 ≤ b ∧ 0 < (40000 : Int) ∧
      40000 ≤ b ∧
      saldoOf (interleave (exTarik exEnvNext) (exTarik exEnvThird) racingSchedule
        exFunded).world.db 1 = some (b - 40000 - 40000) :=
  ⟨by decide,
   ((concurrent_tarik_race (exTarik exEnvNext) (exTarik exEnvThird) exFunded).2
      exKasir exKasir 1 40000 40000 (by decide) (by decide)).2 (by decide) (by decide)⟩

/-- C26 (thousands separators). Let `n` be a non-negative integer that a
JavaScript number holds exactly (at most `2^53 - 1`), so that `toString` gives
its decimal numeral. Removing the dots from `formatRupiah n` gives the decimal
numeral of `n`; the result is the groups of the numeral joined by single dots;
the groups concatenate to the numeral, the first has one to three digits and
every later one exactly three, and all their characters are digits; the copy
in the report exporter returns the same string; and 0, 999, 50000 and 1000000
give `0`, `999`, `50.000` and `1.000.000`. -/
theorem formatRupiah_groups (n : Nat) (_hsafe : n ≤ 9007199254740991) :
    (formatRupiah n).toList.filter (fun c => c != '.') = decimal n ∧
    (formatRupiah n).toList = List.intercalate ['.'] (groupsOf (decimal n)) ∧
    (groupsOf (decimal n)).flatten = decimal n ∧
    (∃ first rest, groupsOf (decimal n) = first :: rest ∧
      1 ≤ first.length ∧ first.length ≤ 3 ∧ ∀ g ∈ rest, g.length = 3) ∧
    (∀ g ∈ groupsOf (decimal n), ∀ c ∈ g, c.isDigit = true) ∧
    Laporan.formatRupiah n = formatRupiah n ∧
    formatRupiah 0 = "0" ∧ formatRupiah 999 = "999" ∧ formatRupiah 50000 = "50.000" ∧
    formatRupiah 1000000 = "1.000.000" := by
  have hn : (if n = 0 then 0 else n) = n := by split <;> simp_all
  have hd := decimal_digits n
  obtain ⟨h1, h2, h3, h4, h5⟩ := insertDots_groups (decimal n) (decimal_ne_nil n) hd
  have hnodot : '.' ∉ decimal n := fun h => digit_ne_dot (hd _ h) rfl
  refine ⟨?_, ?_, h2, ⟨_, _, rfl, h3, h4, h5⟩, ?_, rfl, by decide, by decide, by decide,
    by decide⟩
  · simp only [formatRupiah, hn, String.toList]
    exact insertDots_filter _ none hnodot
  · simp only [formatRupiah, hn, String.toList]
    exact h1
  · intro g hg c hc
    apply hd
    rw [← h2]
    exact List.mem_flatten.mpr ⟨g, hg, hc⟩

/-- The amount 1234567 is written `1.234.567`, in the groups `1`, `234` and
`567`. -/
theorem formatRupiah_groups_witness :
    formatRupiah 1234567 = "1.234.567" ∧
    groupsOf (decimal 1234567) = [['1'], ['2', '3', '4'], ['5', '6', '7']] ∧
    (formatRupiah 1234567).toList.filter (fun c => c != '.') = decimal 1234567 :=
  ⟨by decide, by decide, (formatRupiah_groups 1234567 (by decide)).1⟩

/-- C27 (words spelling). For an integer `n` with `0 ≤ n < 10^15`, `terbilang n`
is the words of the Indonesian spelling of `n` (`nol` for zero) and the word
`rupiah`, joined by single spaces. The recursion of `inWords` returns the
same text for every depth bound above `n`, so it terminates. Every word is one
of the number words of the vocabulary; cutting the result at its spaces gives
back exactly the words, none of which is empty, so the text has no leading,
trailing or doubled space. -/
theorem terbilang_spelling (n : Int) (h0 : 0 ≤ n) (h : n < 1000000000000000) :
    terbilang n = String.intercalate " " (spellRupiah n.natAbs) ∧
    (∀ fuel, n.natAbs < fuel → inWords fuel n.natAbs = inWords (n.natAbs + 1) n.natAbs) ∧
    (∀ w ∈ spellRupiah n.natAbs, w ∈ vocabulary) ∧
    (splitAtChar ' ' (terbilang n).toList).map String.mk = spellRupiah n.natAbs ∧
    "" ∉ spellRupiah n.natAbs := by
  obtain ⟨k, rfl⟩ := Int.eq_ofNat_of_zero_le h0
  have hk : k < 1000000000000000 := by omega
  simp only [Int.natAbs_ofNat]
  refine ⟨terbilang_eq k hk, fun fuel hf => inWords_fuel k fuel hk hf, spellRupiah_mem hk, ?_, ?_⟩
  · rw [terbilang_eq k hk, intercalate_space_toList]
    obtain ⟨a, l, hal⟩ := List.exists_cons_of_ne_nil (spellRupiah_ne_nil k)
    rw [hal, splitAtChar_joinChars l a (by rw [← hal]; exact spellRupiah_nospace hk)]
    rw [List.map_map]
    have : (String.mk ∘ String.toList) = id := by funext s; rfl
    rw [this, List.map_id]
  · intro hm
    exact (vocabulary_plain "" (spellRupiah_mem hk "" hm)).1 rfl

/-- The examples of the claim: 0, 50000, 1100 and 1000000. -/
theorem terbilang_spelling_witness :
    terbilang 0 = "nol rupiah" ∧ terbilang 50000 = "lima puluh ribu rupiah" ∧
    terbilang 1100 = "seribu seratus rupiah" ∧ terbilang 1000000 = "satu juta rupiah" ∧
    spellRupiah 1100 = ["seribu", "seratus", "rupiah"] ∧
    terbilang 1100 = String.intercalate " " (spellRupiah (1100 : Int).natAbs) :=
  ⟨by decide, by decide, by decide, by decide, by decide,
    (terbilang_spelling 1100 (by decide) (by decide)).1⟩

/-- C28 (the words identify the amount). For integers `m` and `n` with
`0 ≤ m, n < 10^15`, if `terbilang m` and `terbilang n` are the same text then
`m = n`. -/
theorem terbilang_injective (m n : Int) (hm0 : 0 ≤ m) (hm : m < 1000000000000000)
    (hn0 : 0 ≤ n) (hn : n < 1000000000000000) (h : terbilang m = terbilang n) : m = n := by
  obtain ⟨a, rfl⟩ := Int.eq_ofNat_of_zero_le hm0
  obtain ⟨b, rfl⟩ := Int.eq_ofNat_of_zero_le hn0
  have ha : a < 1000000000000000 := by omega
  have hb : b < 1000000000000000 := by omega
  rw [terbilang_eq a ha, terbilang_eq b hb] at h
  have hl := congrArg (fun s : String => splitAtChar ' ' s.toList) h
  simp only [intercalate_space_toList] at hl
  obtain ⟨x, xs, hx⟩ := List.exists_cons_of_ne_nil (spellRupiah_ne_nil a)
  obtain ⟨y, ys, hy⟩ := List.exists_cons_of_ne_nil (spellRupiah_ne_nil b)
  rw [hx, hy, splitAtChar_joinChars xs x (by rw [← hx]; exact spellRupiah_nospace ha),
    splitAtChar_joinChars ys y (by rw [← hy]; exact spellRupiah_nospace hb), ← hx, ← hy] at hl
  have hw := map_toList_injective _ _ hl
  unfold spellRupiah at hw
  have hw2 := List.append_cancel_right hw
  have hnol : ∀ k, 0 < k → k < 1000000000000000 → spell k ≠ ["nol"] := by
    intro k hk0 hk e
    have := readBack_spell k hk
    rw [e] at this
    have h0 : readBack ["nol"] = 0 := by decide
    omega
  congr 1
  by_cases ea : a = 0
  · by_cases eb : b = 0
    · rw [ea, eb]
    · simp only [ea, eb, if_true, if_false] at hw2
      exact absurd hw2.symm (hnol b (by omega) hb)
  · by_cases eb : b = 0
    · simp only [ea, eb, if_true, if_false] at hw2
      exact absurd hw2 (hnol a (by omega) ha)
    · simp only [ea, eb, if_false] at hw2
      have := congrArg readBack hw2
      rw [readBack_spell a ha, readBack_spell b hb] at this
      exact this

/-- The amounts 1100 and 1001 are spelled differently. -/
theorem terbilang_injective_witness :
    terbilang 1100 ≠ terbilang 1001 :=
  fun h => absurd (terbilang_injective 1100 1001 (by decide) (by decide) (by decide)
    (by decide) h) (by decide)

/-- C29 (student autocomplete merge). For a query that is not empty after
trimming, any limit parameter and any answers of the prefix statement and the
contains statement without repeated ids: the effective limit is the smaller
of 50 and the reading of the parameter (12 when it is missing, not numeric or
zero). When the statements succeed, both `GET /search` routes answer with the
merged rows, and the contains statement is issued exactly when fewer prefix
rows than the limit were found and the query has at least three characters;
in no case is it issued otherwise. When the limit is at least 1 (and the
prefix statement returned at most that many rows, as its `LIMIT` ensures), the
merged rows start with the prefix rows in their order, continue with contains
rows whose id is not among the prefix rows, in their order, hold no id twice
and are at most as many as the limit. -/
theorem search_merge (env : Env) (q limit : Option String) (ans : SearchAnswers)
    (hq : jsTrim (q.getD "") ≠ "")
    (hp : (ans.prefixRows.map (fun r => r.id)).Nodup)
    (hc : (ans.containsRows.map (fun r => r.id)).Nodup) :
    searchLimit limit ≤ 50 ∧
    searchLimit limit =
      min (match parseInt limit with
        | some n => if n = 0 then 12 else n
        | none => 12) 50 ∧
    (env.canQuery = true → env.rejects Stmt.selectPrefix = false →
      env.rejects Stmt.selectContains = false →
      (searchTransaksi env q limit ans).1 =
        SearchOutcome.json (mergedRows (jsTrim (q.getD "")) (searchLimit limit) ans) ∧
      (searchSantri env q limit ans).1 =
        SearchOutcome.json (mergedRows (jsTrim (q.getD "")) (searchLimit limit) ans) ∧
      ((Stmt.selectContains, true) ∈ (searchTransaksi env q limit ans).2 ↔
        (ans.prefixRows.length : Int) < searchLimit limit ∧
          3 ≤ utf16Length (jsTrim (q.getD ""))) ∧
      ((Stmt.selectContains, true) ∈ (searchSantri env q limit ans).2 ↔
        (ans.prefixRows.length : Int) < searchLimit limit ∧
          3 ≤ utf16Length (jsTrim (q.getD "")))) ∧
    (∀ ok, (Stmt.selectContains, ok) ∈ (searchTransaksi env q limit ans).2 ∨
        (Stmt.selectContains, ok) ∈ (searchSantri env q limit ans).2 →
      (ans.prefixRows.length : Int) < searchLimit limit ∧
        3 ≤ utf16Length (jsTrim (q.getD ""))) ∧
    (1 ≤ searchLimit limit → (ans.prefixRows.length : Int) ≤ searchLimit limit →
      ans.prefixRows <+: mergedRows (jsTrim (q.getD "")) (searchLimit limit) ans ∧
      (∃ n, mergedRows (jsTrim (q.getD "")) (searchLimit limit) ans =
        ans.prefixRows ++ (ans.containsRows.filter
          (fun r => !ans.prefixRows.any (fun x => x.id == r.id))).take n) ∧
      ((mergedRows (jsTrim (q.getD "")) (searchLimit limit) ans).map (fun r => r.id)).Nodup ∧
      ((mergedRows (jsTrim (q.getD "")) (searchLimit limit) ans).length : Int) ≤
        searchLimit limit) := by
  refine ⟨?_, searchLimit_eq limit, ?_, ?_, ?_⟩
  · unfold searchLimit
    exact min_le_right _ _
  · intro hcq h1 h2
    have hr := searchRows_eq env (jsTrim (q.getD "")) (searchLimit limit) ans hc h1 h2
    simp only [searchTransaksi, searchSantri, hcq, hq, Bool.not_true, Bool.false_eq_true,
      if_false]
    exact ⟨hr.1, hr.1, hr.2, hr.2⟩
  · intro ok h
    have key : (Stmt.selectContains, ok) ∈
        (searchRows env (jsTrim (q.getD "")) (searchLimit limit) ans).2 →
        (ans.prefixRows.length : Int) < searchLimit limit ∧
          3 ≤ utf16Length (jsTrim (q.getD "")) := by
      intro hm
      unfold searchRows at hm
      split at hm
      · simp at hm
      · split at hm
        · rename_i hcond
          exact hcond
        · simp at hm
    rcases h with h | h
    · by_cases hcq : env.canQuery = true
      · simp only [searchTransaksi, hcq, hq, Bool.not_true, Bool.false_eq_true, if_false] at h
        exact key h
      · simp [searchTransaksi, hcq] at h
    · by_cases hcq : env.canQuery = true
      · simp only [searchSantri, hcq, hq, Bool.not_true, Bool.false_eq_true, if_false] at h
        exact key h
      · simp [searchSantri, hcq, hq] at h
  · intro _ hlen
    obtain ⟨h1, h2⟩ := mergedRows_spec (jsTrim (q.getD "")) (searchLimit limit) ans hp hc hlen
    refine ⟨?_, ?_, h1, h2⟩
    · unfold mergedRows
      exact List.prefix_append _ _
    · unfold mergedRows
      split
      · exact ⟨_, rfl⟩
      · exact ⟨0, by simp⟩

/-- The query ` ali ` with limit 3 on the example answers returns the two
prefix rows and then the first new contains row. -/
theorem search_merge_witness :
    jsTrim ((some " ali " : Option String).getD "") ≠ "" ∧ searchLimit (some "3") = 3 ∧
    (searchTransaksi exEnv (some " ali ") (some "3") exAnswers).1 =
      SearchOutcome.json [exRow 1 "Ali", exRow 4 "Bali", exRow 2 "Galih"] ∧
    (searchSantri exEnv (some " ali ") (some "3") exAnswers).1 =
      SearchOutcome.json (mergedRows (jsTrim ((some " ali " : Option String).getD ""))
        (searchLimit (some "3")) exAnswers) :=
  ⟨by decide, by decide, by decide,
   ((search_merge exEnv (some " ali ") (some "3") exAnswers (by decide) (by decide)
      (by decide)).2.2.1 (by decide) (by decide) (by decide)).2.1⟩

/-- C30, counterexample. The header `Tgl Lahir` has the normal form `tgllahir`,
a candidate of the field `tgl_lahir`, and the cell under it is `01/02/2010`;
the field `tgl_lahir` of the mapped row is `2010-02-01`, not the cell. The
candidate names are normalised as well before the comparison: `no_siswa` is
compared as `nosiswa`, which the header `No. Siswa` equals. -/
theorem mapRow_date_counterexample :
    normalizeHeader "Tgl Lahir" = "tgllahir" ∧ "tgllahir" ∈ tglLahirNames ∧
    exHeaders.get? 3 = some "Tgl Lahir" ∧ exCells.get? 3 = some "01/02/2010" ∧
    (mapRow exHeaders exCells).tgl_lahir = some "2010-02-01" ∧
    (mapRow exHeaders exCells).tgl_lahir ≠ exCells.get? 3 ∧
    normalizeHeader "no_siswa" = "nosiswa" ∧
    (mapRow ["No. Siswa"] ["77"]).nis = some "77" := by
  decide

/-- C30, as the code behaves. The fields `nis`, `nama`, `kelas`, `kelompok`,
`alamat` and `hp_wali` of `mapRow` are what `pick` returns for their candidate
lists, and `tgl_lahir` is `toDateISO` of what `pick` returns. The normal form
of a header is its letters and digits, lower-cased. For each of the seven
candidate lists: if some header has the normal form of a candidate and no
header has that of an earlier candidate, `pick` returns the cell under the
right-most header with that normal form; if no header has the normal form of
a candidate but the normal form of some header contains that of a candidate,
`pick` returns the cell under the right-most header with the normal form of
such a header; and if no header equals or contains a candidate, `pick` returns
nothing. -/
theorem mapRow_header_matching (headers row : List String) :
    (mapRow headers row).nis = pick (headerIndex headers) row nisNames ∧
    (mapRow headers row).nama = pick (headerIndex headers) row namaNames ∧
    (mapRow headers row).kelas = pick (headerIndex headers) row kelasNames ∧
    (mapRow headers row).kelompok = pick (headerIndex headers) row kelompokNames ∧
    (mapRow headers row).tgl_lahir =
      toDateISO (pick (headerIndex headers) row tglLahirNames) ∧
    (mapRow headers row).alamat = pick (headerIndex headers) row alamatNames ∧
    (mapRow headers row).hp_wali = pick (headerIndex headers) row hpWaliNames ∧
    (∀ h : String, normalizeHeader h = String.mk (h.toList.filterMap normalizeChar)) ∧
    ∀ names ∈ fieldNames,
      (∀ (pre post : List String) (n : String), names = pre ++ n :: post →
        (∀ m ∈ pre, ∀ h ∈ headers, normalizeHeader h ≠ normalizeHeader m) →
        (∃ h ∈ headers, normalizeHeader h = normalizeHeader n) →
        ∃ j x, headers.get? j = some x ∧ normalizeHeader x = normalizeHeader n ∧
          (∀ j2 x2, j < j2 → headers.get? j2 = some x2 →
            normalizeHeader x2 ≠ normalizeHeader n) ∧
          pick (headerIndex headers) row names = row.get? j) ∧
      ((∀ n ∈ names, ∀ h ∈ headers, normalizeHeader h ≠ normalizeHeader n) →
        (∃ h ∈ headers, ∃ n ∈ names,
          includes (normalizeHeader h) (normalizeHeader n) = true) →
        ∃ j x, headers.get? j = some x ∧
          (∃ n ∈ names, includes (normalizeHeader x) (normalizeHeader n) = true) ∧
          (∀ j2 x2, j < j2 → headers.get? j2 = some x2 →
            normalizeHeader x2 ≠ normalizeHeader x) ∧
          pick (headerIndex headers) row names = row.get? j) ∧
      ((∀ h ∈ headers, ∀ n ∈ names, normalizeHeader h ≠ normalizeHeader n ∧
          includes (normalizeHeader h) (normalizeHeader n) = false) →
        pick (headerIndex headers) row names = none) := by
  refine ⟨rfl, rfl, rfl, rfl, rfl, rfl, rfl, normalizeHeader_eq, ?_⟩
  intro names hnames
  have hc := fieldNames_plain names hnames
  exact ⟨fun pre post n hn hpre hex => pick_exact headers row names pre post n hc hn hpre hex,
    pick_substring headers row names hc, pick_none headers row names hc⟩

/-- In the example row the headers `Nama` and `NAMA` both have the normal form
of the first candidate of `nama`; the field is the cell under the right-most
of them. -/
theorem mapRow_header_matching_witness :
    namaNames ∈ fieldNames ∧ namaNames = [] ++ "nama" :: ["namalengkap", "name", "namasantri"] ∧
    (∃ h ∈ exHeaders, normalizeHeader h = normalizeHeader "nama") ∧
    (mapRow exHeaders exCells).nama = some "Ali Akbar" ∧
    ∃ j x, exHeaders.get? j = some x ∧ normalizeHeader x = normalizeHeader "nama" ∧
      (∀ j2 x2, j < j2 → exHeaders.get? j2 = some x2 →
        normalizeHeader x2 ≠ normalizeHeader "nama") ∧
      pick (headerIndex exHeaders) exCells namaNames = exCells.get? j :=
  ⟨by decide, by decide, by decide, by decide,
   ((mapRow_header_matching exHeaders exCells).2.2.2.2.2.2.2.2 namaNames (by decide)).1
      [] ["namalengkap", "name", "namasantri"] "nama" (by decide)
      (fun m hm => absurd hm (List.not_mem_nil m)) (by decide)⟩

end TabunganSantri
